import Mathlib

/-!
# FlexiS: a shallow embedding of `tcp_flexis.c`

The kernel module `src/tcp_flexis.c` is translated function by function.

* A kernel `list_head` list is a Lean `List`, in list order (first entry first).
* `u32`/`u64` values are `Nat`, `s32`/`long` values are `Int`; every C conversion
  and every wrapping operation is written out with an explicit modulus.
  The kernel is built with wrapping signed arithmetic, and so is the model.
* A pointer to a node is the node's address (`addr`), a `Nat` handed out by
  `kzalloc`; a nullable pointer is an `Option`.  The address of an embedded
  `list_head` (`&pnode->fanout_head`) is never `NULL` and is passed as the list.
* `kzalloc` may fail: the socket carries the outcomes of the coming allocation
  requests (`kmem.oom`), so every `NO_MEM` path of the source is present.
* The module parameters `sigma`, `alpha`, `beta`, `gamma`, `tau`, `theta` are the
  record `params`.
* A helper that dereferences `flexis->vars` without a check is only ever called with
  `vars` set; on `vars = none` the model leaves the socket as it is.
-/

set_option linter.unusedVariables false

namespace FlexiS

/-! ## Machine integers -/

/-- Conversion of an integer value to `u32` (reduction modulo `2^32`). -/
def to_u32 (x : Int) : Nat := (x % 4294967296).toNat

/-- Conversion of an integer value to `u64` (reduction modulo `2^64`). -/
def to_u64 (x : Int) : Nat := (x % 18446744073709551616).toNat

/-- Conversion of an integer value to `s32` (two's complement, 32 bits). -/
def to_s32 (x : Int) : Int :=
  if x % 4294967296 < 2147483648 then x % 4294967296 else x % 4294967296 - 4294967296

/-- Conversion of an integer value to `s64`/`long` (two's complement, 64 bits). -/
def to_s64 (x : Int) : Int :=
  if x % 18446744073709551616 < 9223372036854775808 then x % 18446744073709551616
  else x % 18446744073709551616 - 18446744073709551616

/-- `#define MAX_U32 0xffffffff` -/
abbrev MAX_U32 : Nat := 4294967295

/-- `#define MAX_RTT MAX_U32` -/
abbrev MAX_RTT : Nat := MAX_U32

/-- `#define MIN_CWND 2U` -/
abbrev MIN_CWND : Nat := 2

/-- The kernel constant `USEC_PER_MSEC` (`1000L`). -/
abbrev USEC_PER_MSEC : Nat := 1000

/-- The kernel constant `USEC_PER_SEC` (`1000000L`). -/
abbrev USEC_PER_SEC : Nat := 1000000

/-- The kernel helper `div_u64(dividend, divisor)`: unsigned division.  A zero divisor
is a divide error in the kernel and the call has no result; the value `0` the model
yields there stands for nothing in the source.  The divisors are non-zero constants at
every call but the two of `init_inc_epoch`; `init_inc_epoch_traps` is the condition
under which the second of them is `0`. -/
def div_u64 (dividend divisor : Nat) : Nat := dividend / divisor

/-- The kernel helper `int_pow(base, exp)` on `u64`: repeated multiplication, wrapping
modulo `2^64`. -/
def int_pow (base : Nat) (exp : Nat) : Nat := (base ^ exp) % 18446744073709551616

/-- The module parameters (all of C type `int`), with the defaults of the source. -/
structure params where
  sigma : Int := 3
  alpha : Int := 100
  beta : Int := 10
  gamma : Int := 85
  tau : Int := 60
  theta : Int := 30
deriving DecidableEq

/-- Return codes: `enum ret`. -/
inductive ret where
  | SUCCESS
  | NULL_PTR
  | ZERO_DIV
  | OUT_RNG
  | EMPTY_QUE
  | FULL_QUE
  | NO_MEM
deriving DecidableEq

/-! ## Data model -/

/-- The rtt sample: `struct rnode`. -/
structure rnode where
  rtt_us : Nat
deriving DecidableEq

/-- The bin of rtt samples with one sending millisecond: `struct rtt_bin`. -/
structure rtt_bin where
  head : List rnode
  snd_time_ms : Nat
  cnt : Nat
deriving DecidableEq

/-- The slope node: `struct snode`, with the address it was allocated at. -/
structure snode where
  addr : Nat
  slope : Int
deriving DecidableEq

/-- The sorted list of slopes: `struct slopes`. -/
structure slopes where
  head : List snode
  cnt : Nat
deriving DecidableEq

/-- A reference to an `snode`: `struct fnode`; `ptr` is the address of the `snode`. -/
structure fnode where
  ptr : Nat
deriving DecidableEq

/-- A data point of the window: `struct pnode`, with the address it was allocated at. -/
structure pnode where
  addr : Nat
  snd_time_ms : Nat
  rtt_us : Nat
  fanout_head : List fnode
deriving DecidableEq

/-- The window of data points: `struct rtt_sack`. -/
structure rtt_sack where
  head : List pnode
  cnt : Nat
deriving DecidableEq

/-- The scalar variables: `struct vars`. -/
structure vars where
  t0 : Nat
  t_ulmt : Nat
  r0 : Nat
  snd_nxt : Nat
  undo_cwnd : Nat
  rtt_us : Int
  epoch_min_rtt : Nat
deriving DecidableEq

/-- The private state of the module: `struct flexis`; `vars = none` is the `NULL`
pointer. -/
structure flexis where
  rtt_bin : rtt_bin
  rtt_sack : rtt_sack
  slopes : slopes
  vars : Option vars
deriving DecidableEq

/-- The fields of the kernel's `struct tcp_sock` that the module reads or writes. -/
structure tcp_sock where
  snd_cwnd : Nat
  snd_cwnd_clamp : Nat
  prior_cwnd : Nat
  max_packets_out : Nat
  srtt_us : Nat
  tcp_mstamp : Nat
  snd_nxt : Nat
deriving DecidableEq

/-- The allocator as the module sees it: `brk` is the next fresh address, `oom` lists
the outcomes of the coming requests (`true`: the request fails); once the list is used
up every request succeeds.  Freed addresses are not handed out again. -/
structure kmem where
  brk : Nat
  oom : List Bool
deriving DecidableEq

/-- The socket: the connection (`tcp_sk(sk)`), the private area (`inet_csk_ca(sk)`),
the two pacing sysctls of `sock_net(sk)->ipv4` (C type `int`), `sk_pacing_status`, and
the allocator. -/
structure sock where
  tp : tcp_sock
  ca : flexis
  sysctl_tcp_pacing_ss_ratio : Int
  sysctl_tcp_pacing_ca_ratio : Int
  sk_pacing_status : Nat
  mem : kmem
deriving DecidableEq

/-- One call of `kzalloc(size, GFP_KERNEL)`: the address of the new object, or `none`. -/
def kzalloc (m : kmem) : Option Nat × kmem :=
  match m.oom with
  | [] => (some m.brk, { brk := m.brk + 1, oom := [] })
  | true :: rest => (none, { brk := m.brk, oom := rest })
  | false :: rest => (some m.brk, { brk := m.brk + 1, oom := rest })

/-! ## The list macros -/

/-- The macro `median(head, start, end, type, member)`.
`pos_mid = (start + end) >> 1` in `u32`; the loop stops at the first entry whose
running 32-bit position `pos` equals `pos_mid` (position `2^32` when `pos_mid` is `0`),
`ptr1` is that entry and `ptr2` the next one.  The result is `avg ptr1 ptr2` when the
`u32` sum `start + end` is odd and `ptr1` otherwise; `avg` is `(a + b) / 2` in the
arithmetic of the member's type.  `none`: the macro reads a pointer it never set. -/
def median {α β : Type} (member : α → β) (avg : β → β → β) (head : List α)
    (start end_ : Nat) : Option β :=
  let sum := (start + end_) % 4294967296
  let pos_mid := sum / 2
  let pos := if pos_mid = 0 then 4294967296 else pos_mid
  if sum % 2 = 1 then
    match head[pos - 1]?, head[pos]? with
    | some ptr1, some ptr2 => some (avg (member ptr1) (member ptr2))
    | _, _ => none
  else
    (head[pos - 1]?).map member

/-- `(a + b) / 2` on `u32` members. -/
def avg_u32 (a b : Nat) : Nat := ((a + b) % 4294967296) / 2

/-- `(a + b) / 2` on `s32` members: wrapping sum, division truncating toward zero. -/
def avg_s32 (a b : Int) : Int := Int.tdiv (to_s32 (a + b)) 2

/-- The macro `add_asd(head, node, member)`: the node goes right before the first entry
whose key is strictly greater, or to the tail when there is none. -/
def add_asd {α β : Type} [LT β] [DecidableRel (fun (a b : β) => a < b)]
    (member : α → β) (node : α) : List α → List α
  | [] => [node]
  | p :: rest =>
    if member node < member p then node :: p :: rest
    else p :: add_asd member node rest

/-! ## rtt_bin operations -/

/-- `rtt_bin_add_asd(sk, snd_time_ms, rtt_us)` -/
def rtt_bin_add_asd (sk : sock) (snd_time_ms : Nat) (rtt_us : Nat) : ret × sock :=
  if sk.ca.rtt_bin.cnt ≥ MAX_U32 then (ret.FULL_QUE, sk)
  else
    match kzalloc sk.mem with
    | (none, m) => (ret.NO_MEM, { sk with mem := m })
    | (some _, m) =>
      let node : rnode := { rtt_us := rtt_us }
      let t := if sk.ca.rtt_bin.head.isEmpty then snd_time_ms else sk.ca.rtt_bin.snd_time_ms
      (ret.SUCCESS,
        { sk with
          mem := m
          ca.rtt_bin :=
            { head := add_asd rnode.rtt_us node sk.ca.rtt_bin.head
              snd_time_ms := t
              cnt := (sk.ca.rtt_bin.cnt + 1) % 4294967296 } })

/-- `rtt_bin_median(sk, mrtt_us)`: the return code and the cell `*mrtt_us` afterwards
(`none`: the pointer is `NULL`).  Where the macro reads an unset pointer the cell is
left as it was. -/
def rtt_bin_median (sk : sock) (mrtt_us : Option Nat) : ret × Option Nat :=
  match mrtt_us with
  | none => (ret.NULL_PTR, none)
  | some old =>
    if sk.ca.rtt_bin.head.isEmpty then (ret.EMPTY_QUE, some old)
    else
      match median rnode.rtt_us avg_u32 sk.ca.rtt_bin.head 1 sk.ca.rtt_bin.cnt with
      | some v => (ret.SUCCESS, some v)
      | none => (ret.SUCCESS, some old)

/-- `rtt_bin_reset(sk)` -/
def rtt_bin_reset (sk : sock) : sock :=
  { sk with ca.rtt_bin := { head := [], snd_time_ms := 0, cnt := 0 } }

/-! ## slope operations -/

/-- `slopes_add_asd(sk, slopes, slope)`: the address of the new `snode` (or `NULL`),
the list `*slopes` afterwards, and the socket. -/
def slopes_add_asd (sk : sock) (sl : slopes) (slope : Int) : Option Nat × slopes × sock :=
  if sl.cnt ≥ MAX_U32 then (none, sl, sk)
  else
    match kzalloc sk.mem with
    | (none, m) => (none, sl, { sk with mem := m })
    | (some a, m) =>
      let node : snode := { addr := a, slope := slope }
      (some a,
        { head := add_asd snode.slope node sl.head, cnt := (sl.cnt + 1) % 4294967296 },
        { sk with mem := m })

/-- The inner loop of `slopes_add_asd_mul` (`list_for_each_entry_from`, lines 306-314)
for a new entry with the given slope: the cursor `snode_old` moves on while the new
slope is not smaller than the slope under the cursor.  The result is the entries the
cursor has passed and the entries from the cursor on (`[]`: the cursor has reached the
list head). -/
def slopes_add_asd_mul_cursor (slope : Int) : List snode → List snode × List snode
  | [] => ([], [])
  | o :: os =>
    if slope < o.slope then ([], o :: os)
    else
      let r := slopes_add_asd_mul_cursor slope os
      (o :: r.1, r.2)

/-- The outer loop of `slopes_add_asd_mul` (`list_for_each_entry_safe`, lines 305-315).
`news` are the entries of `new_slopes` still to visit, `olds` the entries of
`flexis->slopes` from the cursor `snode_old` on, `cnt` is `flexis->slopes.cnt` and
`new_cnt` is `new_slopes->cnt`.  When the inner loop stops at an entry, the new entry
is unlinked and linked in before it, and the cursor stays there; once the cursor has
reached the list head the inner loop has no round left and no further entry is moved.
The result is the list `flexis->slopes` from the first cursor position on (moved
entries included), the entries left in `new_slopes`, and the two counters. -/
def slopes_add_asd_mul_loop : List snode → List snode → Nat → Nat →
    List snode × List snode × Nat × Nat
  | [], olds, cnt, new_cnt => (olds, [], cnt, new_cnt)
  | n :: ns, olds, cnt, new_cnt =>
    match slopes_add_asd_mul_cursor n.slope olds with
    | (passed, []) => (passed, n :: ns, cnt, new_cnt)
    | (passed, o :: os) =>
      let r := slopes_add_asd_mul_loop ns (o :: os)
        ((cnt + 1) % 4294967296) ((new_cnt + 4294967295) % 4294967296)
      (passed ++ n :: r.1, r.2)

/-- `slopes_add_asd_mul(sk, new_slopes)` -/
def slopes_add_asd_mul (sk : sock) (new_slopes : slopes) : ret × sock :=
  if new_slopes.head.isEmpty then (ret.EMPTY_QUE, sk)
  else if sk.ca.slopes.head.isEmpty then
    (ret.SUCCESS, { sk with ca.slopes := { head := new_slopes.head, cnt := new_slopes.cnt } })
  else
    let r := slopes_add_asd_mul_loop new_slopes.head sk.ca.slopes.head
      sk.ca.slopes.cnt new_slopes.cnt
    if r.2.1.isEmpty then
      (ret.SUCCESS, { sk with ca.slopes := { head := r.1, cnt := r.2.2.1 } })
    else
      (ret.SUCCESS,
        { sk with
          ca.slopes := { head := r.1 ++ r.2.1, cnt := (r.2.2.1 + r.2.2.2) % 4294967296 } })

/-- `fanout_enq(sk, fanout_head, snode)`: the return code, the fanout list afterwards,
and the socket. -/
def fanout_enq (sk : sock) (fanout_head : List fnode) (node : Option Nat) :
    ret × List fnode × sock :=
  match node with
  | none => (ret.NULL_PTR, fanout_head, sk)
  | some a =>
    match kzalloc sk.mem with
    | (none, m) => (ret.NO_MEM, fanout_head, { sk with mem := m })
    | (some _, m) => (ret.SUCCESS, fanout_head ++ [{ ptr := a }], { sk with mem := m })

/-- The loop of `slopes_gen` (lines 366-379) over the entries of the window still to
visit, with the local list `new_slopes`.  The result is the return code (`NO_MEM` for
the early return), the visited entries with their fanout lists afterwards, the list
`new_slopes`, and the socket. -/
def slopes_gen_loop (stop_pnode : pnode) :
    List pnode → slopes → sock → ret × List pnode × slopes × sock
  | [], new_slopes, sk => (ret.SUCCESS, [], new_slopes, sk)
  | p :: rest, new_slopes, sk =>
    if p.addr = stop_pnode.addr then (ret.SUCCESS, p :: rest, new_slopes, sk)
    else
      let diff := to_s32 ((stop_pnode.snd_time_ms : Int) - (p.snd_time_ms : Int))
      if 0 < diff then
        let slope := Int.tdiv (to_s32 ((stop_pnode.rtt_us : Int) - (p.rtt_us : Int))) diff
        match slopes_add_asd sk new_slopes slope with
        | (none, new_slopes1, sk1) => (ret.NO_MEM, p :: rest, new_slopes1, sk1)
        | (some a, new_slopes1, sk1) =>
          let f := fanout_enq sk1 p.fanout_head (some a)
          let r := slopes_gen_loop stop_pnode rest new_slopes1 f.2.2
          (r.1, { p with fanout_head := f.2.1 } :: r.2.1, r.2.2)
      else
        let r := slopes_gen_loop stop_pnode rest new_slopes sk
        (r.1, p :: r.2.1, r.2.2)

/-- `slopes_gen(sk, stop_pnode)` -/
def slopes_gen (sk : sock) (stop_pnode : Option pnode) : ret × sock :=
  match stop_pnode with
  | none => (ret.NULL_PTR, sk)
  | some stop =>
    if sk.ca.rtt_sack.head.isEmpty then (ret.EMPTY_QUE, sk)
    else
      let r := slopes_gen_loop stop sk.ca.rtt_sack.head { head := [], cnt := 0 } sk
      let sk1 : sock := { r.2.2.2 with ca.rtt_sack.head := r.2.1 }
      if r.1 = ret.NO_MEM then (ret.NO_MEM, sk1)
      else slopes_add_asd_mul sk1 r.2.2.1

/-- `slopes_median(sk, start, end, mslope)`: the return code and the cell `*mslope`
afterwards (`none`: the pointer is `NULL`).  Where the macro reads an unset pointer the
cell is left as it was. -/
def slopes_median (sk : sock) (start end_ : Nat) (mslope : Option Int) : ret × Option Int :=
  match mslope with
  | none => (ret.NULL_PTR, none)
  | some old =>
    if start < 1 ∨ end_ > sk.ca.slopes.cnt then (ret.OUT_RNG, some old)
    else if sk.ca.slopes.head.isEmpty then (ret.EMPTY_QUE, some old)
    else
      match median snode.slope avg_s32 sk.ca.slopes.head start end_ with
      | some v => (ret.SUCCESS, some v)
      | none => (ret.SUCCESS, some old)

/-- `slopes_del(sk, snode)`: the node at the given address is unlinked. -/
def slopes_del (sk : sock) (node : Option Nat) : ret × sock :=
  match node with
  | none => (ret.NULL_PTR, sk)
  | some a =>
    if sk.ca.slopes.head.isEmpty then (ret.EMPTY_QUE, sk)
    else
      (ret.SUCCESS,
        { sk with
          ca.slopes :=
            { head := sk.ca.slopes.head.filter (fun n => n.addr ≠ a)
              cnt := (sk.ca.slopes.cnt + 4294967295) % 4294967296 } })

/-- The loop of `fout_reset` (lines 439-443): one `slopes_del` per `fnode`. -/
def fout_reset_loop : List fnode → sock → sock
  | [], sk => sk
  | f :: rest, sk => fout_reset_loop rest (slopes_del sk (some f.ptr)).2

/-- `fout_reset(sk, fanout_head)`: the return code, the fanout list afterwards, and the
socket. -/
def fout_reset (sk : sock) (fanout_head : List fnode) : ret × List fnode × sock :=
  if fanout_head.isEmpty then (ret.EMPTY_QUE, fanout_head, sk)
  else (ret.SUCCESS, [], fout_reset_loop fanout_head sk)

/-- `slopes_reset(sk)` -/
def slopes_reset (sk : sock) : sock :=
  { sk with ca.slopes := { head := [], cnt := 0 } }

/-! ## rtt_sack operations -/

/-- `rtt_sack_enq(sk, snd_time_ms, rtt_us)`: the new `pnode` (or `NULL`) and the
socket. -/
def rtt_sack_enq (sk : sock) (snd_time_ms : Nat) (rtt_us : Nat) : Option pnode × sock :=
  if sk.ca.rtt_sack.cnt ≥ MAX_U32 then (none, sk)
  else
    match kzalloc sk.mem with
    | (none, m) => (none, { sk with mem := m })
    | (some a, m) =>
      let new_node : pnode :=
        { addr := a, snd_time_ms := snd_time_ms, rtt_us := rtt_us, fanout_head := [] }
      (some new_node,
        { sk with
          mem := m
          ca.rtt_sack :=
            { head := sk.ca.rtt_sack.head ++ [new_node]
              cnt := (sk.ca.rtt_sack.cnt + 1) % 4294967296 } })

/-- `rtt_sack_deq(sk)` -/
def rtt_sack_deq (sk : sock) : sock :=
  match sk.ca.rtt_sack.head with
  | [] => sk
  | fst_tnode :: rest =>
    let sk1 :=
      if fst_tnode.fanout_head.isEmpty then sk
      else (fout_reset sk fst_tnode.fanout_head).2.2
    { sk1 with
      ca.rtt_sack :=
        { head := rest
          cnt := (sk1.ca.rtt_sack.cnt + 4294967295) % 4294967296 } }

/-- The loop of `rtt_sack_reset`: `rtt_sack_deq` while the window is not empty; the
first argument bounds the number of rounds. -/
def rtt_sack_reset_loop : Nat → sock → sock
  | 0, sk => sk
  | n + 1, sk =>
    if sk.ca.rtt_sack.head.isEmpty then sk
    else rtt_sack_reset_loop n (rtt_sack_deq sk)

/-- `rtt_sack_reset(sk)`: every round of the loop removes one entry, so as many rounds
as the window has entries empty it. -/
def rtt_sack_reset (sk : sock) : sock :=
  let sk1 := rtt_sack_reset_loop sk.ca.rtt_sack.head.length sk
  { sk1 with ca.rtt_sack := { head := [], cnt := 0 } }

/-! ## other helper operations -/

/-- `is_cwnd_limited(sk)`; the product `2 * max_packets_out` is a `u32`. -/
def is_cwnd_limited (sk : sock) : Bool :=
  decide (sk.tp.snd_cwnd < (2 * sk.tp.max_packets_out) % 4294967296)

/-- `init_inc_epoch(sk)`.  The product `snd_cwnd * USEC_PER_SEC` is a `long` and does
not overflow; the quotient is stored into the `u32` field `r0`.  Line 544 tests
`tp->srtt_us` and line 545 divides by `tp->srtt_us >> 3`: where
`init_inc_epoch_traps` holds the kernel takes a divide error and the function does not
return, and the socket given here for that case stands for nothing in the source. -/
def init_inc_epoch (sk : sock) : sock :=
  match sk.ca.vars with
  | none => sk
  | some v =>
    let r0 :=
      if v.epoch_min_rtt ≠ 0 then
        (div_u64 (sk.tp.snd_cwnd * USEC_PER_SEC) v.epoch_min_rtt) % 4294967296
      else if sk.tp.srtt_us ≠ 0 then
        (div_u64 (sk.tp.snd_cwnd * USEC_PER_SEC) (sk.tp.srtt_us / 8)) % 4294967296
      else v.r0 / 2
    { sk with ca.vars := some { v with r0 := r0, t0 := sk.tp.tcp_mstamp } }

/-- The divide error of `init_inc_epoch(sk)`: the branch of line 542 is not taken
(`epoch_min_rtt` is 0), the test of line 544 passes (`tp->srtt_us` is not 0) and the
divisor `tp->srtt_us >> 3` of line 545 is 0, which is the case for `srtt_us` from 1 to
7. -/
def init_inc_epoch_traps (sk : sock) : Bool :=
  match sk.ca.vars with
  | none => false
  | some v =>
    decide (v.epoch_min_rtt = 0) && decide (sk.tp.srtt_us ≠ 0)
      && decide (sk.tp.srtt_us / 8 = 0)

/-- `update_pacing_ratio(sk, pr)`; the sysctls are of type `int`. -/
def update_pacing_ratio (sk : sock) (pr : Nat) : sock :=
  if pr ≠ 0 then
    { sk with
      sysctl_tcp_pacing_ss_ratio := to_s32 pr
      sysctl_tcp_pacing_ca_ratio := to_s32 pr }
  else sk

/-- The rate expression of `increase_cwnd` (lines 603 and 622):
`int_pow(t / USEC_PER_MSEC / alpha, 3) + t / USEC_PER_MSEC / beta + r0`, with `t` a
`long` and the sum a `u64`. -/
def rate (P : params) (t : Int) (r0 : Nat) : Nat :=
  (int_pow (to_u64 (Int.tdiv (Int.tdiv t USEC_PER_MSEC) P.alpha)) 3
    + to_u64 (Int.tdiv (Int.tdiv t USEC_PER_MSEC) P.beta) + r0) % 18446744073709551616

/-- `increase_cwnd(sk)` -/
def increase_cwnd (P : params) (sk : sock) : sock :=
  match sk.ca.vars with
  | none => sk
  | some v =>
    if v.t0 = 0 then sk
    else if ¬ is_cwnd_limited sk then
      let sk1 := update_pacing_ratio sk 100
      if v.t_ulmt = 0 then
        { sk1 with ca.vars := some { v with t_ulmt := sk.tp.tcp_mstamp } }
      else sk1
    else if P.alpha = 0 ∨ P.beta = 0 then sk
    else
      let srtt := sk.tp.srtt_us / 8
      if srtt = 0 then sk
      else
        -- right shift of t0 after the cwnd unlimited period
        let dur := to_u32 ((sk.tp.tcp_mstamp : Int) - (v.t_ulmt : Int))
        let v1 : vars :=
          if v.t_ulmt ≠ 0 then
            { v with
              t0 := if dur > 0 then (v.t0 + dur) % 18446744073709551616 else v.t0
              t_ulmt := 0 }
          else v
        let sk1 : sock := { sk with ca.vars := some v1 }
        let t1 := to_s64 ((sk.tp.tcp_mstamp : Int) - (v1.t0 : Int))
        if t1 < 0 then sk1
        else
          let r1 := rate P t1 v1.r0
          if r1 = 0 then sk1
          else
            let rtt := if v1.epoch_min_rtt ≠ 0 then v1.epoch_min_rtt else srtt
            let cwnd := max sk.tp.snd_cwnd
              (min ((div_u64 ((r1 * rtt) % 18446744073709551616) USEC_PER_SEC) % 4294967296)
                sk.tp.snd_cwnd_clamp)
            let t2 := to_s64 (t1 + (rtt : Int))
            let r2 := rate P t2 v1.r0
            let quot := ((r2 * 100) % 18446744073709551616) / r1
            let rem := ((r2 * 100) % 18446744073709551616) % r1
            let pr := if rem ≠ 0 then (quot % 4294967296 + 1) % 4294967296
              else quot % 4294967296
            update_pacing_ratio
              { sk with
                tp.snd_cwnd := cwnd
                ca.vars := some { v1 with undo_cwnd := cwnd } }
              pr

/-- `decrease_cwnd(sk)`; `gamma` is converted to `u64` for the product. -/
def decrease_cwnd (P : params) (sk : sock) : sock :=
  let cwnd := min sk.tp.snd_cwnd
    (max ((div_u64 ((sk.tp.snd_cwnd * to_u64 P.gamma) % 18446744073709551616) 100)
      % 4294967296) MIN_CWND)
  match sk.ca.vars with
  | none => sk
  | some v => { sk with tp.snd_cwnd := cwnd, ca.vars := some { v with undo_cwnd := cwnd } }

/-- `reinit_after_dec(sk)` -/
def reinit_after_dec (sk : sock) : sock :=
  let sk1 := slopes_reset (rtt_sack_reset (rtt_bin_reset sk))
  let sk2 : sock :=
    match sk1.ca.vars with
    | none => sk1
    | some v =>
      { sk1 with
        ca.vars := some { v with t0 := 0, epoch_min_rtt := MAX_RTT, snd_nxt := 0, t_ulmt := 0 } }
  update_pacing_ratio sk2 100

/-! ## system operations -/

/-- `tcp_flexis_init(sk)`; `cmpxchg` moves `sk_pacing_status` from `SK_PACING_NONE` (0)
to `SK_PACING_NEEDED` (1). -/
def tcp_flexis_init (sk : sock) : sock :=
  match kzalloc sk.mem with
  | (none, m) => { sk with mem := m, ca.vars := none }
  | (some _, m) =>
    update_pacing_ratio
      { sk with
        mem := m
        sk_pacing_status := if sk.sk_pacing_status = 0 then 1 else sk.sk_pacing_status
        ca :=
          { rtt_bin := { head := [], snd_time_ms := 0, cnt := 0 }
            rtt_sack := { head := [], cnt := 0 }
            slopes := { head := [], cnt := 0 }
            vars := some
              { t0 := 0, r0 := 0, t_ulmt := 0, undo_cwnd := sk.tp.snd_cwnd, snd_nxt := 0,
                rtt_us := -1, epoch_min_rtt := MAX_RTT } } }
      100

/-- `tcp_flexis_ssthresh(sk)` -/
def tcp_flexis_ssthresh (sk : sock) : Nat :=
  max (sk.tp.snd_cwnd / 2) MIN_CWND

/-- `tcp_flexis_undo_cwnd(sk)` -/
def tcp_flexis_undo_cwnd (sk : sock) : Nat :=
  match sk.ca.vars with
  | none => max sk.tp.snd_cwnd sk.tp.prior_cwnd
  | some v => v.undo_cwnd

/-- The kernel's `enum tcp_ca_event`. -/
inductive tcp_ca_event where
  | CA_EVENT_TX_START
  | CA_EVENT_CWND_RESTART
  | CA_EVENT_COMPLETE_CWR
  | CA_EVENT_LOSS
  | CA_EVENT_ECN_NO_CE
  | CA_EVENT_ECN_IS_CE
deriving DecidableEq

/-- `tcp_flexis_cwnd_event(sk, ev)` -/
def tcp_flexis_cwnd_event (sk : sock) (ev : tcp_ca_event) : sock :=
  match sk.ca.vars with
  | none => sk
  | some v =>
    match ev with
    | tcp_ca_event.CA_EVENT_CWND_RESTART => reinit_after_dec sk
    | tcp_ca_event.CA_EVENT_COMPLETE_CWR =>
      if v.snd_nxt ≠ 0 then reinit_after_dec { sk with tp.snd_cwnd := v.undo_cwnd }
      else reinit_after_dec sk
    | tcp_ca_event.CA_EVENT_LOSS => reinit_after_dec sk
    | _ => sk

/-- Lines 757-762 of `tcp_flexis_cong_avoid`: the sending time in ms of the packet the
latest sample belongs to; `none` when `snd_time_us` is `0`. -/
def cong_avoid_snd_time_ms (sk : sock) (v : vars) : Option Nat :=
  let snd_time_us := max (to_s64 ((sk.tp.tcp_mstamp : Int) - (to_u64 v.rtt_us : Int))) 0
  if snd_time_us = 0 then none
  else some (div_u64 snd_time_us.toNat USEC_PER_MSEC)

/-- Lines 777-778 of `tcp_flexis_cong_avoid`: the minimum rtt of the epoch; the
comparison of the `s32` sample with the `u32` minimum is unsigned. -/
def cong_avoid_min_rtt (sk : sock) : sock :=
  match sk.ca.vars with
  | none => sk
  | some v =>
    if to_u32 v.rtt_us < v.epoch_min_rtt then
      { sk with ca.vars := some { v with epoch_min_rtt := to_u32 v.rtt_us } }
    else sk

/-- Lines 780-797 of `tcp_flexis_cong_avoid`: the sample goes into the open bin, or the
bin is closed into a new point of the window first.  The result is the socket and the
flag `reasoning`.  `med_rtt` is the value the uninitialised local holds on entry. -/
def cong_avoid_bin (sk : sock) (rtt_us : Int) (snd_time_ms : Nat) (med_rtt : Nat) :
    sock × Bool :=
  if snd_time_ms = sk.ca.rtt_bin.snd_time_ms then
    ((rtt_bin_add_asd sk snd_time_ms (to_u32 rtt_us)).2, false)
  else if ¬ sk.ca.rtt_bin.head.isEmpty then
    let med := ((rtt_bin_median sk (some med_rtt)).2).getD med_rtt
    let e := rtt_sack_enq sk sk.ca.rtt_bin.snd_time_ms med
    let g : sock × Bool :=
      match e.1 with
      | none => (e.2, false)
      | some new_pnode =>
        let r := slopes_gen e.2 (some new_pnode)
        (r.2, decide (r.1 = ret.SUCCESS))
    ((rtt_bin_add_asd (rtt_bin_reset g.1) snd_time_ms (to_u32 rtt_us)).2, g.2)
  else
    ((rtt_bin_add_asd sk snd_time_ms (to_u32 rtt_us)).2, false)

/-- Lines 799-803 of `tcp_flexis_cong_avoid`: the `u32` local `dur`. -/
def cong_avoid_dur (sk : sock) : Nat :=
  match sk.ca.rtt_sack.head.head?, sk.ca.rtt_sack.head.getLast? with
  | some first, some last =>
    to_u32 (max (to_s64 ((last.snd_time_ms : Int) - (first.snd_time_ms : Int) + 1)) 0)
  | _, _ => 0

/-- The label `inc` of `tcp_flexis_cong_avoid` and what follows it (lines 818-827). -/
def cong_avoid_inc (P : params) (sk : sock) : sock :=
  let sk1 :=
    match sk.ca.vars with
    | none => sk
    | some v => if v.t0 = 0 then init_inc_epoch sk else sk
  increase_cwnd P (rtt_sack_deq sk1)

/-- Lines 811-816 of `tcp_flexis_cong_avoid`: congestion detected. -/
def cong_avoid_dec (P : params) (sk : sock) : sock :=
  let sk1 : sock :=
    match sk.ca.vars with
    | none => sk
    | some v => { sk with ca.vars := some { v with snd_nxt := sk.tp.snd_nxt } }
  update_pacing_ratio (decrease_cwnd P sk1) 100

/-- Lines 805-827 of `tcp_flexis_cong_avoid`: the congestion decision.  The comparisons
of the `u32` values `dur` and `rtt_sack.cnt` with the `int` parameters are unsigned, the
comparison of the slope with `theta` is signed.  `theil_slope` is the value the
uninitialised local holds on entry. -/
def cong_avoid_decide (P : params) (sk : sock) (reasoning : Bool) (dur : Nat)
    (theil_slope : Int) : sock :=
  if reasoning = true ∧ dur ≥ to_u32 P.tau then
    if sk.ca.rtt_sack.cnt < to_u32 P.sigma then cong_avoid_inc P sk
    else
      let slope := ((slopes_median sk 1 sk.ca.slopes.cnt (some theil_slope)).2).getD theil_slope
      if slope ≥ P.theta then cong_avoid_dec P sk
      else cong_avoid_inc P sk
  else increase_cwnd P sk

/-- `tcp_flexis_cong_avoid(sk, ack, acked)`; `med_rtt` and `theil_slope` are the values
the two uninitialised locals hold on entry. -/
def tcp_flexis_cong_avoid (P : params) (sk : sock) (ack acked : Nat)
    (med_rtt : Nat) (theil_slope : Int) : sock :=
  match sk.ca.vars with
  | none => sk
  | some v =>
    if v.rtt_us = -1 then sk
    else
      match cong_avoid_snd_time_ms sk v with
      | none => sk
      | some snd_time_ms =>
        if snd_time_ms < sk.ca.rtt_bin.snd_time_ms then sk
        else if v.snd_nxt ≠ 0 ∧ ack ≤ v.snd_nxt then sk
        else
          let sk1 := if v.snd_nxt ≠ 0 then reinit_after_dec sk else sk
          let sk2 := cong_avoid_min_rtt sk1
          let b := cong_avoid_bin sk2 v.rtt_us snd_time_ms med_rtt
          cong_avoid_decide P b.1 b.2 (cong_avoid_dur b.1) theil_slope

/-- `tcp_flexis_pkts_acked(sk, sample)`; the argument is `sample->rtt_us`. -/
def tcp_flexis_pkts_acked (sk : sock) (sample_rtt_us : Int) : sock :=
  match sk.ca.vars with
  | none => sk
  | some v => { sk with ca.vars := some { v with rtt_us := sample_rtt_us } }

/-- `tcp_flexis_release(sk)` -/
def tcp_flexis_release (sk : sock) : sock :=
  match sk.ca.vars with
  | none => sk
  | some _ =>
    let sk1 := slopes_reset (rtt_sack_reset (rtt_bin_reset sk))
    { sk1 with ca.vars := none }

/-! ## Events -/

/-- What the TCP stack does to a socket after `tcp_flexis_init`: a sample event, an
acknowledgment event, or a window event.  The stack owns the connection, so an event
brings the `tcp_sock` as it stands at the call; the acknowledgment event also brings
the contents of the two uninitialised locals. -/
inductive event where
  | pkts_acked (sample_rtt_us : Int)
  | cong_avoid (tp : tcp_sock) (ack acked : Nat) (med_rtt : Nat) (theil_slope : Int)
  | cwnd_event (tp : tcp_sock) (ev : tcp_ca_event)
deriving DecidableEq

/-- One event applied to the socket. -/
def step (P : params) (sk : sock) : event → sock
  | event.pkts_acked r => tcp_flexis_pkts_acked sk r
  | event.cong_avoid tp ack acked med_rtt theil_slope =>
    tcp_flexis_cong_avoid P { sk with tp := tp } ack acked med_rtt theil_slope
  | event.cwnd_event tp ev => tcp_flexis_cwnd_event { sk with tp := tp } ev

/-- A sequence of events applied to the socket, first event first. -/
def run (P : params) (sk : sock) (evs : List event) : sock :=
  evs.foldl (step P) sk

/-! ## Reference notions of the specification -/

/-- The standard median of a list of `u32` values in ascending order, as the
specification words it: the middle entry for an odd length, the integer mean of the
two middle entries for an even length. -/
def standard_median (l : List Nat) : Nat :=
  if l.length % 2 = 1 then l.getD (l.length / 2) 0
  else (l.getD (l.length / 2 - 1) 0 + l.getD (l.length / 2) 0) / 2

/-- The values of the samples in the bin, in list order. -/
def rtt_bin.values (b : rtt_bin) : List Nat := b.head.map rnode.rtt_us

/-- The slopes in the store, in list order. -/
def slopes.values (s : slopes) : List Int := s.head.map snode.slope

/-- The median of the entries at the 1-indexed ranks `start..end_` of a list of slopes in
ascending order, as the specification words it: the entry at rank `(start + end_) / 2`
for a range of odd length, the integer average (the C quotient `(a + b) / 2`) of the
entries at ranks `(start + end_) / 2` and `(start + end_) / 2 + 1` for a range of even
length. -/
def rank_median (l : List Int) (start end_ : Nat) : Int :=
  if (end_ - start + 1) % 2 = 1 then l.getD ((start + end_) / 2 - 1) 0
  else Int.tdiv (l.getD ((start + end_) / 2 - 1) 0 + l.getD ((start + end_) / 2) 0) 2

/-! ## Concrete sockets -/

/-- A connection with a window of 10 packets. -/
def tp_ex : tcp_sock :=
  { snd_cwnd := 10, snd_cwnd_clamp := 1000, prior_cwnd := 10, max_packets_out := 10,
    srtt_us := 80000, tcp_mstamp := 0, snd_nxt := 5000 }

/-- A socket right after a successful `tcp_flexis_init`. -/
def sk_ex : sock :=
  { tp := tp_ex
    ca :=
      { rtt_bin := { head := [], snd_time_ms := 0, cnt := 0 }
        rtt_sack := { head := [], cnt := 0 }
        slopes := { head := [], cnt := 0 }
        vars := some
          { t0 := 0, r0 := 0, t_ulmt := 0, undo_cwnd := 10, snd_nxt := 0, rtt_us := -1,
            epoch_min_rtt := MAX_RTT } }
    sysctl_tcp_pacing_ss_ratio := 100
    sysctl_tcp_pacing_ca_ratio := 100
    sk_pacing_status := 1
    mem := { brk := 1, oom := [] } }

/-- The socket `sk_ex` with the given bin. -/
def sk_with_bin (b : rtt_bin) : sock := { sk_ex with ca.rtt_bin := b }

/-- A bin with the two samples `2^31` and `2^31`. -/
def bin_two_large : rtt_bin :=
  { head := [{ rtt_us := 2147483648 }, { rtt_us := 2147483648 }], snd_time_ms := 1, cnt := 2 }

/-- A bin with the four samples 10, 20, 30, 40. -/
def bin_four : rtt_bin :=
  { head := [{ rtt_us := 10 }, { rtt_us := 20 }, { rtt_us := 30 }, { rtt_us := 40 }]
    snd_time_ms := 1, cnt := 4 }

/-- The socket `sk_ex` with the given slope store. -/
def sk_with_slopes (s : slopes) : sock := { sk_ex with ca.slopes := s }

/-- A store with the two slopes `2^30` and `2^30`. -/
def slopes_two_large : slopes :=
  { head := [{ addr := 1, slope := 1073741824 }, { addr := 2, slope := 1073741824 }], cnt := 2 }

/-- A store with the four slopes -7, -2, 3, 5. -/
def slopes_four : slopes :=
  { head := [{ addr := 1, slope := -7 }, { addr := 2, slope := -2 }, { addr := 3, slope := 3 },
      { addr := 4, slope := 5 }]
    cnt := 4 }

/-- A store with the three slopes 1, 3, 5. -/
def slopes_three : slopes :=
  { head := [{ addr := 1, slope := 1 }, { addr := 2, slope := 3 }, { addr := 3, slope := 5 }]
    cnt := 3 }

/-- A batch with the three slopes 2, 3, 6. -/
def batch_three : slopes :=
  { head := [{ addr := 4, slope := 2 }, { addr := 5, slope := 3 }, { addr := 6, slope := 6 }]
    cnt := 3 }

/-- A socket with a window of three points and the three slopes of their pairs: the
oldest point refers to the slopes at the addresses 1 and 3, the second to the slope at
the address 2. -/
def sk_window_three : sock :=
  { sk_ex with
    ca.rtt_sack :=
      { head :=
          [{ addr := 10, snd_time_ms := 1, rtt_us := 100, fanout_head := [{ ptr := 1 }, { ptr := 3 }] },
            { addr := 11, snd_time_ms := 2, rtt_us := 95, fanout_head := [{ ptr := 2 }] },
            { addr := 12, snd_time_ms := 3, rtt_us := 114, fanout_head := [] }]
        cnt := 3 }
    ca.slopes :=
      { head := [{ addr := 1, slope := -5 }, { addr := 3, slope := 7 }, { addr := 2, slope := 19 }]
        cnt := 3 } }

/-- No allocation request fails from now on. -/
def kmem.no_fail (m : kmem) : Prop := ∀ b ∈ m.oom, b = false

instance (m : kmem) : Decidable m.no_fail := by
  unfold kmem.no_fail
  infer_instance

/-- What `slopes_gen` does for the pair of an older point `p` (before the call) and the
new point `stop`, read off the point `q` that `p` has become and the slope store
`store` after the call: `q` is `p` with one more fanout reference, to an entry of the
store whose slope is the quotient of the rtt difference by the time difference, the
division truncating toward zero. -/
def pair_slope_inserted (stop : pnode) (store : List snode) (p q : pnode) : Prop :=
  ∃ a : Nat,
    q = { p with fanout_head := p.fanout_head ++ [{ ptr := a }] }
    ∧ ({ addr := a
         slope := Int.tdiv ((stop.rtt_us : Int) - (p.rtt_us : Int))
           ((stop.snd_time_ms : Int) - (p.snd_time_ms : Int)) } : snode) ∈ store

/-- The relation between an older point before and after `slopes_gen_loop`, in the
32-bit arithmetic of the source. -/
def gen_rel (stop : pnode) (batch : List snode) (p q : pnode) : Prop :=
  (0 < to_s32 ((stop.snd_time_ms : Int) - (p.snd_time_ms : Int)) →
    ∃ a : Nat,
      q = { p with fanout_head := p.fanout_head ++ [{ ptr := a }] }
      ∧ ({ addr := a
           slope := Int.tdiv (to_s32 ((stop.rtt_us : Int) - (p.rtt_us : Int)))
             (to_s32 ((stop.snd_time_ms : Int) - (p.snd_time_ms : Int))) } : snode) ∈ batch)
  ∧ (¬ 0 < to_s32 ((stop.snd_time_ms : Int) - (p.snd_time_ms : Int)) → q = p)

/-- A socket with a window of two points and the slope of their pair, right after a
third point has been appended by `rtt_sack_enq`. -/
def sk_before_gen : sock :=
  { sk_ex with
    mem := { brk := 20, oom := [] }
    ca.rtt_sack :=
      { head :=
          [{ addr := 10, snd_time_ms := 1, rtt_us := 10000, fanout_head := [{ ptr := 1 }] },
            { addr := 11, snd_time_ms := 2, rtt_us := 9800, fanout_head := [] },
            { addr := 12, snd_time_ms := 4, rtt_us := 10300, fanout_head := [] }]
        cnt := 3 }
    ca.slopes := { head := [{ addr := 1, slope := -200 }], cnt := 1 } }

/-- The third point of `sk_before_gen`. -/
def pnode_new : pnode :=
  { addr := 12, snd_time_ms := 4, rtt_us := 10300, fanout_head := [] }

/-- The insertions and removals on the rtt bin and on the slope store of a socket, each
with its arguments. -/
inductive list_op where
  | rtt_bin_add_asd (snd_time_ms rtt_us : Nat)
  | rtt_bin_reset
  | slopes_add_asd (slope : Int)
  | slopes_add_asd_mul (new_slopes : slopes)
  | slopes_del (node : Option Nat)
  | fout_reset (fanout_head : List fnode)
  | slopes_reset
deriving DecidableEq

/-- One insertion or removal applied to the socket; `slopes_add_asd` is applied to the
slope store of the socket. -/
def list_op.apply (sk : sock) : list_op → sock
  | list_op.rtt_bin_add_asd snd_time_ms rtt_us => (FlexiS.rtt_bin_add_asd sk snd_time_ms rtt_us).2
  | list_op.rtt_bin_reset => FlexiS.rtt_bin_reset sk
  | list_op.slopes_add_asd slope =>
    let r := FlexiS.slopes_add_asd sk sk.ca.slopes slope
    { r.2.2 with ca.slopes := r.2.1 }
  | list_op.slopes_add_asd_mul new_slopes => (FlexiS.slopes_add_asd_mul sk new_slopes).2
  | list_op.slopes_del node => (FlexiS.slopes_del sk node).2
  | list_op.fout_reset fanout_head => (FlexiS.fout_reset sk fanout_head).2.2
  | list_op.slopes_reset => FlexiS.slopes_reset sk

/-- The contract of an operation on its arguments: the list given to
`slopes_add_asd_mul` is a list of sorted slopes. -/
def list_op.valid : list_op → Prop
  | list_op.slopes_add_asd_mul new_slopes =>
    List.Sorted (fun a b : Int => a ≤ b) new_slopes.values
  | _ => True

/-- A socket as `kzalloc` fails on the next request. -/
def sk_oom : sock := { sk_ex with mem := { brk := 1, oom := [true] } }

/-- The sending times of the points of the window, oldest first. -/
def rtt_sack.times (w : rtt_sack) : List Nat := w.head.map pnode.snd_time_ms

/-- Two sockets agree on the bin, the window, the slope store and the allocator, and
`vars` is set in both or in neither. -/
def same_lists (a b : sock) : Prop :=
  a.ca.rtt_bin = b.ca.rtt_bin ∧ a.ca.rtt_sack = b.ca.rtt_sack ∧ a.ca.slopes = b.ca.slopes
    ∧ a.mem = b.mem ∧ a.ca.vars.isSome = b.ca.vars.isSome

/-- The invariant of the bin and the window while no allocation fails: `vars` is set, no
coming allocation fails, the counter of the bin equals its length, the sending times of
the window are strictly increasing and all smaller than the millisecond of the bin, and
the window is empty whenever the bin is. -/
def window_inv (sk : sock) : Prop :=
  sk.ca.vars.isSome = true
  ∧ sk.mem.no_fail
  ∧ sk.ca.rtt_bin.cnt = sk.ca.rtt_bin.head.length
  ∧ List.Pairwise (fun a b : Nat => a < b) sk.ca.rtt_sack.times
  ∧ (∀ t ∈ sk.ca.rtt_sack.times, t < sk.ca.rtt_bin.snd_time_ms)
  ∧ (sk.ca.rtt_bin.head = [] → sk.ca.rtt_sack.head = [])

/-- The connection `tp_ex` at the time an acknowledgment arrives for a packet sent at the
given millisecond with an rtt of 10000 us. -/
def tp_at (ms : Nat) : tcp_sock := { tp_ex with tcp_mstamp := ms * 1000 + 10000 }

/-- A socket before `tcp_flexis_init` on which the eighth allocation request fails. -/
def sk_fresh_oom8 : sock :=
  { sk_ex with
    ca.vars := none
    mem := { brk := 1, oom := [false, false, false, false, false, false, false, true] } }

/-- Samples of 10000 us for packets sent at the milliseconds 5, 6 and 7, then (late
acknowledgments) 3 and 4. -/
def evs_late : List event :=
  [event.pkts_acked 10000,
    event.cong_avoid (tp_at 5) 1 1 0 0,
    event.cong_avoid (tp_at 6) 1 1 0 0,
    event.cong_avoid (tp_at 7) 1 1 0 0,
    event.cong_avoid (tp_at 3) 1 1 0 0,
    event.cong_avoid (tp_at 4) 1 1 0 0]

/-- The socket `a` has the bin, the allocator and the presence of `vars` of `b`, and
the window of `b` with or without its first point. -/
def window_shrinks (a b : sock) : Prop :=
  a.ca.rtt_bin = b.ca.rtt_bin ∧ a.mem = b.mem ∧ a.ca.vars.isSome = b.ca.vars.isSome
    ∧ (a.ca.rtt_sack.head = b.ca.rtt_sack.head ∨ a.ca.rtt_sack.head = b.ca.rtt_sack.head.tail)

/-- A socket before `tcp_flexis_init` with no allocation failure ahead. -/
def sk_fresh : sock := { sk_ex with ca.vars := none }

/-- The connection `tp_ex` at the time an acknowledgment arrives for a packet sent at the
given millisecond with the given rtt in us. -/
def tp_sent (ms rtt : Nat) : tcp_sock := { tp_ex with tcp_mstamp := ms * 1000 + rtt }

/-- Samples of 10000, 12000 and 14000 us for packets sent at the milliseconds 1, 30 and
61, and the sample of 15000 us that follows. -/
def evs_rising : List event :=
  [event.pkts_acked 10000, event.cong_avoid (tp_sent 1 10000) 1 1 0 0,
    event.pkts_acked 12000, event.cong_avoid (tp_sent 30 12000) 1 1 0 0,
    event.pkts_acked 14000, event.cong_avoid (tp_sent 61 14000) 1 1 0 0,
    event.pkts_acked 15000]

/-- The socket as the acknowledgment for the packet sent at the millisecond 62 arrives,
after the events `evs_rising`. -/
def sk_rising : sock :=
  { run {} (tcp_flexis_init sk_fresh) evs_rising with tp := tp_sent 62 15000 }

/-- Samples of 10000 and 20000 us for packets sent at the milliseconds 1 and 61, and the
sample of 20000 us for the millisecond 62 that closes the bin of 61. -/
def evs_two_points : List event :=
  [event.pkts_acked 10000, event.cong_avoid (tp_sent 1 10000) 1 1 0 0,
    event.pkts_acked 20000, event.cong_avoid (tp_sent 61 20000) 1 1 0 0,
    event.cong_avoid (tp_sent 62 20000) 1 1 0 0]

/-- The module parameters with `sigma = 2` and the defaults otherwise. -/
def params_sigma2 : params := { sigma := 2 }

/-- The socket `sk_ex` with the given window `snd_cwnd`. -/
def sk_cwnd (cwnd : Nat) : sock := { sk_ex with tp.snd_cwnd := cwnd }

/-- The module parameters with the given `gamma` and the defaults otherwise. -/
def params_gamma (g : Int) : params := { gamma := g }

/-- The socket `sk_rising` on a connection whose `snd_nxt` is 0. -/
def sk_rising_zero : sock := { sk_rising with tp.snd_nxt := 0 }

/-- The socket `sk_rising` after the acknowledgment that fires the decrease: the guard
is 5000. -/
def sk_guarded : sock := tcp_flexis_cong_avoid {} sk_rising 1 1 0 0

/-- The socket `sk_rising` with an increase epoch under way: `t0 = 500` and an
unlimited interval that began at `t_ulmt = 700`. -/
def sk_rising_epoch : sock :=
  { sk_rising with
    ca.vars := some
      { t0 := 500, t_ulmt := 700, r0 := 0, snd_nxt := 0, undo_cwnd := 10, rtt_us := 15000,
        epoch_min_rtt := 10000 } }

/-- Lines 587-594 of `increase_cwnd`: `vars` after the right shift of `t0` by the
unlimited interval; `dur` is the `u32` local. -/
def increase_cwnd_shift (sk : sock) (v : vars) : vars :=
  let dur := to_u32 ((sk.tp.tcp_mstamp : Int) - (v.t_ulmt : Int))
  if v.t_ulmt ≠ 0 then
    { v with
      t0 := if dur > 0 then (v.t0 + dur) % 18446744073709551616 else v.t0
      t_ulmt := 0 }
  else v

/-- Lines 596-627 of `increase_cwnd`, on the socket whose `vars` are `v1` after the
shift: the elapsed time, the rate law, the new window and the pacing ratio. -/
def increase_cwnd_grow (P : params) (sk : sock) (v1 : vars) : sock :=
  let srtt := sk.tp.srtt_us / 8
  let sk1 : sock := { sk with ca.vars := some v1 }
  let t1 := to_s64 ((sk.tp.tcp_mstamp : Int) - (v1.t0 : Int))
  if t1 < 0 then sk1
  else
    let r1 := rate P t1 v1.r0
    if r1 = 0 then sk1
    else
      let rtt := if v1.epoch_min_rtt ≠ 0 then v1.epoch_min_rtt else srtt
      let cwnd := max sk.tp.snd_cwnd
        (min ((div_u64 ((r1 * rtt) % 18446744073709551616) USEC_PER_SEC) % 4294967296)
          sk.tp.snd_cwnd_clamp)
      let t2 := to_s64 (t1 + (rtt : Int))
      let r2 := rate P t2 v1.r0
      let quot := ((r2 * 100) % 18446744073709551616) / r1
      let rem := ((r2 * 100) % 18446744073709551616) % r1
      let pr := if rem ≠ 0 then (quot % 4294967296 + 1) % 4294967296
        else quot % 4294967296
      update_pacing_ratio
        { sk with
          tp.snd_cwnd := cwnd
          ca.vars := some { v1 with undo_cwnd := cwnd } }
        pr

/-- The socket `sk_ex` (window 10, `max_packets_out` 10, smoothed rtt 10000 us) at the
time `now` with an increase epoch under way. -/
def sk_epoch (now t0 t_ulmt r0 undo_cwnd epoch_min_rtt : Nat) : sock :=
  { sk_ex with
    tp.tcp_mstamp := now
    ca.vars := some
      { t0 := t0, t_ulmt := t_ulmt, r0 := r0, snd_nxt := 0, undo_cwnd := undo_cwnd,
        rtt_us := 10000, epoch_min_rtt := epoch_min_rtt } }

/-- A connection with the kernel's default clamp `~0`, 200 s into an epoch that started
at 10 packets per second, with a minimum rtt of 1 s. -/
def sk_long_epoch : sock :=
  { sk_epoch 201000000 1000000 0 10 10 1000000 with tp.snd_cwnd_clamp := 4294967295 }

/-- A window-limited connection at the start of an epoch (`t1 = 0`) at 1 packet per
second, with a minimum rtt of 60 s. -/
def sk_long_rtt : sock := sk_epoch 70000000 70000000 0 1 10 60000000

/-- The socket `sk_epoch` at the time 2000 us with the window 20, twice
`max_packets_out`: the connection is not window-limited. -/
def sk_unlimited (t_ulmt : Nat) : sock :=
  { sk_epoch 2000 1000 t_ulmt 50 15 10000 with tp.snd_cwnd := 20 }

/-- The module parameters with `alpha = 0` and the defaults otherwise. -/
def params_alpha_zero : params := { alpha := 0 }

/-- A window-limited connection at the time 1000 us, in an epoch that started at 500 us,
with an unlimited interval that began at 700 us. -/
def sk_resume : sock := sk_epoch 1000 500 700 50 10 10000

/-- The socket `sk_guarded` after TCP has reduced the window to 4 on its own;
`undo_cwnd` is 8. -/
def sk_guarded_cwr : sock := { sk_guarded with tp.snd_cwnd := 4 }

/-- The socket `sk_rising` (bin at the millisecond 61, last sample 15000 us) at the time
`now` in us. -/
def sk_stale (now : Nat) : sock := { sk_rising with tp.tcp_mstamp := now }

/-- The sending time and the rtt of a point of the window. -/
def pnode.key (p : pnode) : Nat × Nat := (p.snd_time_ms, p.rtt_us)

/-- The test of line 370 of `slopes_gen` for an older point `a` and a newer point `b`,
each given by its sending time and rtt: the `s32` time difference is positive. -/
def key_gen (a b : Nat × Nat) : Bool := decide (0 < to_s32 ((b.1 : Int) - (a.1 : Int)))

/-- The slope of line 372 of `slopes_gen` for an older point `a` and a newer point `b`:
the `s32` rtt difference over the `s32` time difference, truncating toward zero. -/
def key_slope (a b : Nat × Nat) : Int :=
  Int.tdiv (to_s32 ((b.2 : Int) - (a.2 : Int))) (to_s32 ((b.1 : Int) - (a.1 : Int)))

/-- The addresses the fanout list of a point refers to. -/
def pnode.refs (p : pnode) : List Nat := p.fanout_head.map fnode.ptr

/-- All the fanout references held by the points of the window, oldest point first. -/
def rtt_sack.refs (w : rtt_sack) : List Nat := w.head.flatMap pnode.refs

/-- The addresses of the entries of the slope store. -/
def slopes.addrs (s : slopes) : List Nat := s.head.map snode.addr

/-- The fanout list of the point `p` against the points `later` that follow it in the
window (given by sending time and rtt): it holds one reference for each later point that
passes the test of line 370, in window order, and the entry of the store at that address
holds the slope of the pair. -/
def fanout_ok (store : List snode) (p : pnode) (later : List (Nat × Nat)) : Prop :=
  List.Forall₂
    (fun (f : fnode) (k : Nat × Nat) =>
      ({ addr := f.ptr, slope := key_slope p.key k } : snode) ∈ store)
    p.fanout_head (later.filter (key_gen p.key))

/-- Every point of the window holds the references to the slopes of the pairs it forms
with the points after it. -/
def pairs_ok (store : List snode) : List pnode → Prop
  | [] => True
  | p :: rest => fanout_ok store p (rest.map pnode.key) ∧ pairs_ok store rest

/-- The representation invariant of the window and the slope store against the
allocator: the counter of the window is its length (at most `MAX_U32`), the counter of the store is its
length modulo `2^32`, the points have distinct addresses and so have the entries of the
store, all of them handed out already, the fanout references of the window are the
addresses of the store, each exactly once, and every point holds the slopes of the pairs
it forms with the points after it. -/
def lists_inv (w : rtt_sack) (s : slopes) (brk : Nat) : Prop :=
  w.cnt = w.head.length
  ∧ w.head.length ≤ 4294967295
  ∧ s.cnt = s.head.length % 4294967296
  ∧ (w.head.map pnode.addr).Nodup
  ∧ (∀ p ∈ w.head, p.addr < brk)
  ∧ s.addrs.Nodup
  ∧ (∀ a ∈ s.addrs, a < brk)
  ∧ List.Perm w.refs s.addrs
  ∧ pairs_ok s.head w.head

/-- The invariant of the engine while no allocation fails: `window_inv` and
`lists_inv`. -/
def engine_inv (sk : sock) : Prop :=
  window_inv sk ∧ lists_inv sk.ca.rtt_sack sk.ca.slopes sk.mem.brk

/-- What `slopes_gen_loop` does to an older point `p` (before) and `q` (after) for the
new point `stop`: the point keeps its address, time and rtt; when the pair passes the
test of line 370 its fanout list gains one reference, to a new entry of the batch at an
address handed out during the call, holding the slope of the pair; otherwise the fanout
list is unchanged. -/
def gen_step (stop : pnode) (brk0 brk1 : Nat) (batch : List snode) (p q : pnode) : Prop :=
  q.addr = p.addr ∧ q.key = p.key
    ∧ (key_gen p.key stop.key = true →
        ∃ a, brk0 ≤ a ∧ a < brk1 ∧ q.fanout_head = p.fanout_head ++ [{ ptr := a }]
          ∧ ({ addr := a, slope := key_slope p.key stop.key } : snode) ∈ batch)
    ∧ (key_gen p.key stop.key = false → q.fanout_head = p.fanout_head)

/-- Lines 749-797 of `tcp_flexis_cong_avoid`: the entry checks, the guard step, the
minimum rtt and the bin step.  The result is the socket after the bin step and the flag
`reasoning`; `none` when the driver returns at one of the checks. -/
def cong_avoid_front (sk : sock) (ack : Nat) (med_rtt : Nat) : Option (sock × Bool) :=
  match sk.ca.vars with
  | none => none
  | some v =>
    if v.rtt_us = -1 then none
    else
      match cong_avoid_snd_time_ms sk v with
      | none => none
      | some snd_time_ms =>
        if snd_time_ms < sk.ca.rtt_bin.snd_time_ms then none
        else if v.snd_nxt ≠ 0 ∧ ack ≤ v.snd_nxt then none
        else
          let sk1 := if v.snd_nxt ≠ 0 then reinit_after_dec sk else sk
          let sk2 := cong_avoid_min_rtt sk1
          some (cong_avoid_bin sk2 v.rtt_us snd_time_ms med_rtt)

/-- The branch an acknowledgment event takes: `abort` (return at an entry check), `keep`
(no decision this round: lines 806 fails, only `increase_cwnd` runs), `skip` (the gate on
`sigma` of line 807: `goto inc`), `decrease` (lines 811-816) and `increase` (the slope is
below `theta`: the label `inc`). -/
inductive verdict where
  | abort
  | keep
  | skip
  | decrease
  | increase
deriving DecidableEq

/-- The branch taken by lines 805-827 of `tcp_flexis_cong_avoid`, with the tests of
`cong_avoid_decide`. -/
def cong_avoid_decide_verdict (P : params) (sk : sock) (reasoning : Bool) (dur : Nat)
    (theil_slope : Int) : verdict :=
  if reasoning = true ∧ dur ≥ to_u32 P.tau then
    if sk.ca.rtt_sack.cnt < to_u32 P.sigma then verdict.skip
    else
      let slope := ((slopes_median sk 1 sk.ca.slopes.cnt (some theil_slope)).2).getD theil_slope
      if slope ≥ P.theta then verdict.decrease
      else verdict.increase
  else verdict.keep

/-- The branch taken by `tcp_flexis_cong_avoid(sk, ack, acked)`. -/
def tcp_flexis_cong_avoid_verdict (P : params) (sk : sock) (ack : Nat) (med_rtt : Nat)
    (theil_slope : Int) : verdict :=
  match cong_avoid_front sk ack med_rtt with
  | none => verdict.abort
  | some b => cong_avoid_decide_verdict P b.1 b.2 (cong_avoid_dur b.1) theil_slope

/-- A condition on every event of a run, taken at the state the event meets. -/
def run_all (Q : sock → event → Prop) (P : params) : sock → List event → Prop
  | _, [] => True
  | sk, e :: es => Q sk e ∧ run_all Q P (step P sk e) es

/-- The sending times of the points of the window are less than `2^31` ms apart. -/
def window_span_ok (sk : sock) : Prop :=
  ∀ a ∈ sk.ca.rtt_sack.times, ∀ b ∈ sk.ca.rtt_sack.times, (b : Int) - (a : Int) < 2147483648

/-- The socket `sk_guarded` (guard 5000) as the next allocation request fails. -/
def sk_guarded_oom : sock := { sk_guarded with mem.oom := [true] }

/-- The socket `sk_rising` (window 1, 30; bin at the millisecond 61; sample of the
millisecond 62 pending) as the next allocation request fails. -/
def sk_rising_oom : sock := { sk_rising with mem.oom := [true] }

/-- Samples of 10000 us for packets sent at the millisecond 1 and, `2^31 + 1` ms later,
at the millisecond 2147483650. -/
def evs_far : List event :=
  [event.pkts_acked 10000, event.cong_avoid (tp_sent 1 10000) 1 1 0 0,
    event.cong_avoid (tp_sent 2147483650 10000) 1 1 0 0]

/-- The socket after the events `evs_far`: the window holds the point of the millisecond
1, the bin is at the millisecond 2147483650. -/
def sk_far : sock := run {} (tcp_flexis_init sk_fresh) evs_far

instance (sk : sock) : Decidable (window_span_ok sk) :=
  inferInstanceAs (Decidable (∀ a ∈ sk.ca.rtt_sack.times, ∀ b ∈ sk.ca.rtt_sack.times,
    (b : Int) - (a : Int) < 2147483648))

/-- What the bound of the window asks of an event met in the state `sk`: when an
acknowledgment gets past the entry checks, the sending times of the window the decision
is taken on are less than `2^31` ms apart, and the connection's `snd_nxt` is not 0 when
the verdict is `decrease`. -/
def span_and_nxt_ok (P : params) (sk : sock) : event → Prop
  | event.cong_avoid tp ack _ med_rtt theil_slope =>
    ∀ b ∈ cong_avoid_front { sk with tp := tp } ack med_rtt,
      window_span_ok b.1
      ∧ (cong_avoid_decide_verdict P b.1 b.2 (cong_avoid_dur b.1) theil_slope
            = verdict.decrease → tp.snd_nxt ≠ 0)
  | _ => True

instance (P : params) (sk : sock) : (e : event) → Decidable (span_and_nxt_ok P sk e)
  | event.cong_avoid tp ack _ med_rtt theil_slope =>
    inferInstanceAs (Decidable (∀ b ∈ cong_avoid_front { sk with tp := tp } ack med_rtt,
      window_span_ok b.1
      ∧ (cong_avoid_decide_verdict P b.1 b.2 (cong_avoid_dur b.1) theil_slope
            = verdict.decrease → tp.snd_nxt ≠ 0)))
  | event.pkts_acked _ => isTrue trivial
  | event.cwnd_event _ _ => isTrue trivial

/-- The condition `run_all Q` is decidable when `Q` is. -/
def run_all_decidable (Q : sock → event → Prop) [∀ sk e, Decidable (Q sk e)] (P : params) :
    (sk : sock) → (evs : List event) → Decidable (run_all Q P sk evs)
  | _, [] => isTrue trivial
  | sk, e :: es =>
    @instDecidableAnd _ _ inferInstance (run_all_decidable Q P (step P sk e) es)

instance (Q : sock → event → Prop) [∀ sk e, Decidable (Q sk e)] (P : params) (sk : sock)
    (evs : List event) : Decidable (run_all Q P sk evs) :=
  run_all_decidable Q P sk evs

/-- The invariant behind the bound of the window: the invariant `engine_inv`, and the
window is below `tau` points, or holds `tau` points at most while a guard is set. -/
def window_bounded_inv (P : params) (sk : sock) : Prop :=
  engine_inv sk
  ∧ (sk.ca.rtt_sack.head.length + 1 ≤ to_u32 P.tau
    ∨ (sk.ca.rtt_sack.head.length ≤ to_u32 P.tau
        ∧ sk.ca.vars.map vars.snd_nxt ≠ some 0))

/-- The events `evs_rising` followed by the acknowledgment for the packet sent at the
millisecond 62, which fires the decrease. -/
def evs_decrease : List event :=
  evs_rising ++ [event.cong_avoid (tp_sent 62 15000) 1 1 0 0]

/-- What a flat run at the rtt `c` asks of an event met in the state `sk`: when an
acknowledgment gets past the entry checks, every point of the window the decision is
taken on (every closed bin's median) has the rtt `c`, the slope store is below
`2^32 - 1` entries, and `init_inc_epoch` would not divide by zero on the socket the
decision is taken on. -/
def flat_ok (c : Nat) (sk : sock) : event → Prop
  | event.cong_avoid tp ack _ med_rtt _ =>
    ∀ b ∈ cong_avoid_front { sk with tp := tp } ack med_rtt,
      (∀ p ∈ b.1.ca.rtt_sack.head, p.rtt_us = c) ∧ b.1.ca.slopes.head.length < 4294967295
      ∧ init_inc_epoch_traps b.1 = false
  | _ => True

instance (c : Nat) (sk : sock) : (e : event) → Decidable (flat_ok c sk e)
  | event.cong_avoid tp ack _ med_rtt _ =>
    inferInstanceAs (Decidable (∀ b ∈ cong_avoid_front { sk with tp := tp } ack med_rtt,
      (∀ p ∈ b.1.ca.rtt_sack.head, p.rtt_us = c) ∧ b.1.ca.slopes.head.length < 4294967295
      ∧ init_inc_epoch_traps b.1 = false))
  | event.pkts_acked _ => isTrue trivial
  | event.cwnd_event _ _ => isTrue trivial

/-- What holds at an event of a flat run met in the state `sk`.  The guard is 0.  At an
acknowledgment the driver does not lower `snd_cwnd`, and when it gets past the entry
checks every slope of the store is 0, the verdict is not `decrease`, the trend median is
0 when a slope was generated, and the oldest point of the window is evicted when a slope
was generated and the duration is at least `tau`.  A window event does not touch the
connection. -/
def flat_holds (P : params) (sk : sock) : event → Prop
  | event.cong_avoid tp ack acked med_rtt theil_slope =>
    sk.ca.vars.map vars.snd_nxt = some 0
    ∧ tp.snd_cwnd
        ≤ (tcp_flexis_cong_avoid P { sk with tp := tp } ack acked med_rtt theil_slope).tp.snd_cwnd
    ∧ ∀ b ∈ cong_avoid_front { sk with tp := tp } ack med_rtt,
        (∀ n ∈ b.1.ca.slopes.head, n.slope = 0)
        ∧ cong_avoid_decide_verdict P b.1 b.2 (cong_avoid_dur b.1) theil_slope
            ≠ verdict.decrease
        ∧ (b.2 = true →
            slopes_median b.1 1 b.1.ca.slopes.cnt (some theil_slope) = (ret.SUCCESS, some 0))
        ∧ (b.2 = true → cong_avoid_dur b.1 ≥ to_u32 P.tau →
            (tcp_flexis_cong_avoid P { sk with tp := tp } ack acked med_rtt
                theil_slope).ca.rtt_sack.head
              = b.1.ca.rtt_sack.head.tail)
  | event.cwnd_event tp ev =>
    sk.ca.vars.map vars.snd_nxt = some 0
    ∧ (tcp_flexis_cwnd_event { sk with tp := tp } ev).tp = tp
  | event.pkts_acked _ => sk.ca.vars.map vars.snd_nxt = some 0

/-- The invariant of a flat run: the invariant `engine_inv`, the guard is 0 and every
slope of the store is 0. -/
def flat_inv (sk : sock) : Prop :=
  engine_inv sk ∧ sk.ca.vars.map vars.snd_nxt = some 0 ∧ ∀ n ∈ sk.ca.slopes.head, n.slope = 0

/-- Samples of 10000 us for packets sent at the milliseconds 1, 2, 100 and 101. -/
def evs_flat_gap : List event :=
  [event.pkts_acked 10000, event.cong_avoid (tp_at 1) 1 1 0 0,
    event.cong_avoid (tp_at 2) 1 1 0 0, event.cong_avoid (tp_at 100) 1 1 0 0,
    event.cong_avoid (tp_at 101) 1 1 0 0]

/-- A socket before `tcp_flexis_init` on which the tenth allocation request fails. -/
def sk_fresh_oom10 : sock :=
  { sk_ex with
    ca.vars := none
    mem :=
      { brk := 1
        oom := [false, false, false, false, false, false, false, false, false, true] } }

/-- Samples rising linearly from 10000 us towards 20000 us over 70 ms (10000 us plus
142.857 us per ms), for packets sent at the milliseconds 1, 21, 41 and 61, and the sample
of the millisecond 62 that follows. -/
def evs_linear : List event :=
  [event.pkts_acked 10000, event.cong_avoid (tp_sent 1 10000) 1 1 0 0,
    event.pkts_acked 12857, event.cong_avoid (tp_sent 21 12857) 1 1 0 0,
    event.pkts_acked 15714, event.cong_avoid (tp_sent 41 15714) 1 1 0 0,
    event.pkts_acked 18571, event.cong_avoid (tp_sent 61 18571) 1 1 0 0,
    event.pkts_acked 18714]

/-- A socket before `tcp_flexis_init` on which the sixteenth allocation request
fails. -/
def sk_fresh_oom16 : sock :=
  { sk_ex with
    ca.vars := none
    mem := { brk := 1, oom := List.replicate 15 false ++ [true] } }

/-! ## The earlier revision `src/src/tcp_flexis.c`

The earlier revision names the window `ownd` and its points `onode`; its `struct vars`
has no field `t_ulmt`.  It is embedded on the same state, whose `t_ulmt` it neither
reads nor writes.  The functions below are the ones whose text differs from
`src/tcp_flexis.c`, together with those that call them; the list operations,
`is_cwnd_limited`, `init_inc_epoch`, `update_pacing_ratio` and `decrease_cwnd` are the
same text in both revisions. -/

/-- The rate expression of `increase_cwnd` in `src/src/tcp_flexis.c` (lines 591 and
610): `int_pow(t / alpha, 3) + t / beta + r0`, with `t` a `long` in us and the sum a
`u64`. -/
def rate_earlier (P : params) (t : Int) (r0 : Nat) : Nat :=
  (int_pow (to_u64 (Int.tdiv t P.alpha)) 3 + to_u64 (Int.tdiv t P.beta) + r0)
    % 18446744073709551616

/-- `increase_cwnd(sk)` of `src/src/tcp_flexis.c` (lines 558-617). -/
def increase_cwnd_earlier (P : params) (sk : sock) : sock :=
  match sk.ca.vars with
  | none => sk
  | some v =>
    if v.t0 = 0 then sk
    else if ¬ is_cwnd_limited sk then update_pacing_ratio (init_inc_epoch sk) 100
    else if P.alpha = 0 ∨ P.beta = 0 then sk
    else
      let srtt := sk.tp.srtt_us / 8
      if srtt = 0 then sk
      else
        let t1 := to_s64 ((sk.tp.tcp_mstamp : Int) - (v.t0 : Int))
        if t1 < 0 then sk
        else
          let r1 := rate_earlier P t1 v.r0
          if r1 = 0 then sk
          else
            let rtt := if v.epoch_min_rtt ≠ 0 then v.epoch_min_rtt else srtt
            let cwnd := max sk.tp.snd_cwnd
              (min ((div_u64 ((r1 * rtt) % 18446744073709551616) USEC_PER_SEC) % 4294967296)
                sk.tp.snd_cwnd_clamp)
            let t2 := to_s64 (t1 + (rtt : Int))
            let r2 := rate_earlier P t2 v.r0
            let quot := ((r2 * 100) % 18446744073709551616) / r1
            let rem := ((r2 * 100) % 18446744073709551616) % r1
            let pr := if rem ≠ 0 then (quot % 4294967296 + 1) % 4294967296
              else quot % 4294967296
            update_pacing_ratio
              { sk with
                tp.snd_cwnd := cwnd
                ca.vars := some { v with undo_cwnd := cwnd } }
              pr

/-- `reinit_after_dec(sk)` of `src/src/tcp_flexis.c` (lines 631-642). -/
def reinit_after_dec_earlier (sk : sock) : sock :=
  let sk1 := slopes_reset (rtt_sack_reset (rtt_bin_reset sk))
  let sk2 : sock :=
    match sk1.ca.vars with
    | none => sk1
    | some v =>
      { sk1 with ca.vars := some { v with t0 := 0, epoch_min_rtt := MAX_RTT, snd_nxt := 0 } }
  update_pacing_ratio sk2 100

/-- The label `inc` of `tcp_flexis_cong_avoid` in `src/src/tcp_flexis.c` and what
follows it (lines 806-815). -/
def cong_avoid_inc_earlier (P : params) (sk : sock) : sock :=
  let sk1 :=
    match sk.ca.vars with
    | none => sk
    | some v => if v.t0 = 0 then init_inc_epoch sk else sk
  increase_cwnd_earlier P (rtt_sack_deq sk1)

/-- Lines 793-815 of `tcp_flexis_cong_avoid` in `src/src/tcp_flexis.c`: the decision;
the gate tests `slopes.cnt`. -/
def cong_avoid_decide_earlier (P : params) (sk : sock) (reasoning : Bool) (dur : Nat)
    (theil_slope : Int) : sock :=
  if reasoning = true ∧ dur ≥ to_u32 P.tau then
    if sk.ca.slopes.cnt < to_u32 P.sigma then cong_avoid_inc_earlier P sk
    else
      let slope := ((slopes_median sk 1 sk.ca.slopes.cnt (some theil_slope)).2).getD theil_slope
      if slope ≥ P.theta then cong_avoid_dec P sk
      else cong_avoid_inc_earlier P sk
  else increase_cwnd_earlier P sk

/-- Lines 737-791 of `tcp_flexis_cong_avoid` in `src/src/tcp_flexis.c`: the entry
checks, the guard, the minimum rtt and the bin step; `none` when the driver returns at
an entry check. -/
def cong_avoid_front_earlier (sk : sock) (ack : Nat) (med_rtt : Nat) : Option (sock × Bool) :=
  match sk.ca.vars with
  | none => none
  | some v =>
    if v.rtt_us = -1 then none
    else
      match cong_avoid_snd_time_ms sk v with
      | none => none
      | some snd_time_ms =>
        if snd_time_ms < sk.ca.rtt_bin.snd_time_ms then none
        else if v.snd_nxt ≠ 0 ∧ ack ≤ v.snd_nxt then none
        else
          let sk1 := if v.snd_nxt ≠ 0 then reinit_after_dec_earlier sk else sk
          let sk2 := cong_avoid_min_rtt sk1
          some (cong_avoid_bin sk2 v.rtt_us snd_time_ms med_rtt)

/-- `tcp_flexis_cong_avoid(sk, ack, acked)` of `src/src/tcp_flexis.c` (lines 726-816). -/
def tcp_flexis_cong_avoid_earlier (P : params) (sk : sock) (ack acked : Nat)
    (med_rtt : Nat) (theil_slope : Int) : sock :=
  match sk.ca.vars with
  | none => sk
  | some v =>
    if v.rtt_us = -1 then sk
    else
      match cong_avoid_snd_time_ms sk v with
      | none => sk
      | some snd_time_ms =>
        if snd_time_ms < sk.ca.rtt_bin.snd_time_ms then sk
        else if v.snd_nxt ≠ 0 ∧ ack ≤ v.snd_nxt then sk
        else
          let sk1 := if v.snd_nxt ≠ 0 then reinit_after_dec_earlier sk else sk
          let sk2 := cong_avoid_min_rtt sk1
          let b := cong_avoid_bin sk2 v.rtt_us snd_time_ms med_rtt
          cong_avoid_decide_earlier P b.1 b.2 (cong_avoid_dur b.1) theil_slope

/-- The branch the decision of `src/src/tcp_flexis.c` takes. -/
def cong_avoid_decide_verdict_earlier (P : params) (sk : sock) (reasoning : Bool) (dur : Nat)
    (theil_slope : Int) : verdict :=
  if reasoning = true ∧ dur ≥ to_u32 P.tau then
    if sk.ca.slopes.cnt < to_u32 P.sigma then verdict.skip
    else
      let slope := ((slopes_median sk 1 sk.ca.slopes.cnt (some theil_slope)).2).getD theil_slope
      if slope ≥ P.theta then verdict.decrease else verdict.increase
  else verdict.keep

/-- The branch the driver of `src/src/tcp_flexis.c` takes. -/
def tcp_flexis_cong_avoid_verdict_earlier (P : params) (sk : sock) (ack : Nat) (med_rtt : Nat)
    (theil_slope : Int) : verdict :=
  match cong_avoid_front_earlier sk ack med_rtt with
  | none => verdict.abort
  | some b => cong_avoid_decide_verdict_earlier P b.1 b.2 (cong_avoid_dur b.1) theil_slope

/-- The parameters of the earlier revision that correspond to `P`: `alpha` and `beta` in
us, 1000 times those of `P`. -/
def params_earlier (P : params) : params :=
  { P with alpha := 1000 * P.alpha, beta := 1000 * P.beta }

/-- The events `evs_flat_gap` followed by an acknowledgment that finds the connection
not window-limited (`snd_cwnd = 20`, twice `max_packets_out`) at the time 111000 us. -/
def evs_unlimited : List event :=
  evs_flat_gap ++ [event.cong_avoid { tp_at 101 with snd_cwnd := 20 } 1 1 0 0]

/-- The socket of `src/tcp_flexis.c` after the events `evs_unlimited` (`t0 = 111000`,
`t_ulmt = 111000`), as the acknowledgment for a packet sent at the millisecond 1101
arrives on the connection `tp_ex`, window-limited again. -/
def sk_after_unlimited : sock :=
  { run {} (tcp_flexis_init sk_fresh) evs_unlimited with tp := tp_at 1101 }

/-- A window-limited connection at the start of an epoch (`t1 = 0`) at 1 packet per
second, with a minimum rtt of 30 s. -/
def sk_rtt_30s : sock := sk_epoch 70000000 70000000 0 1 10 30000000

/-- A socket before `tcp_flexis_init` on which the seventh allocation request fails. -/
def sk_fresh_oom7 : sock :=
  { sk_ex with
    ca.vars := none
    mem := { brk := 1, oom := [false, false, false, false, false, false, true] } }

/-- The socket as the acknowledgment for the packet sent at the millisecond 62 arrives,
after the samples of 10000 and 20000 us for the milliseconds 1 and 61, on a connection
whose seventh allocation request will fail: the request of `fanout_enq` for the
reference to the slope of the two points. -/
def sk_orphan : sock :=
  { run {} (tcp_flexis_init sk_fresh_oom7) (evs_two_points.take 4) with
    tp := tp_sent 62 20000 }

/-- The connection `tp_ex` with the given smoothed rtt field `srtt_us`, at the time an
acknowledgment arrives for a packet sent at the given millisecond with an rtt of 0 us. -/
def tp_zero (ms srtt : Nat) : tcp_sock :=
  { tp_ex with tcp_mstamp := ms * 1000, srtt_us := srtt }

/-- Samples of 0 us for packets sent at the milliseconds 1, 30 and 61, on a connection
whose `srtt_us` is 1. -/
def evs_zero_rtt : List event :=
  [event.pkts_acked 0, event.cong_avoid (tp_zero 1 1) 1 1 0 0,
    event.cong_avoid (tp_zero 30 1) 1 1 0 0, event.cong_avoid (tp_zero 61 1) 1 1 0 0]

/-- The socket as the acknowledgment for the packet sent at the millisecond 62 arrives,
after the events `evs_zero_rtt`. -/
def sk_zero_rtt : sock :=
  { run {} (tcp_flexis_init sk_fresh) evs_zero_rtt with tp := tp_zero 62 1 }

/-- Samples of 10000 us for packets sent at the milliseconds 1, 30 and 61. -/
def evs_flat_three : List event :=
  [event.pkts_acked 10000, event.cong_avoid (tp_at 1) 1 1 0 0,
    event.cong_avoid (tp_at 30) 1 1 0 0, event.cong_avoid (tp_at 61) 1 1 0 0]

/-- The socket as the acknowledgment for the packet sent at the millisecond 62 arrives,
after the events `evs_flat_three`. -/
def sk_flat_three : sock :=
  { run {} (tcp_flexis_init sk_fresh) evs_flat_three with tp := tp_at 62 }

/-! ## Theorems -/

/-! ### Machine integers and lists -/

theorem getD_map_rtt_us (l : List rnode) (i : Nat) :
    (l.map rnode.rtt_us).getD i 0 = ((l[i]?).map rnode.rtt_us).getD 0 := by
  simp [List.getD_eq_getElem?_getD]

/-! ### C1: the median of the bin -/

/-- C1 (as stated, refuted): the bin with the two samples `2^31`, `2^31` is in ascending
order and has `cnt = 2`, `rtt_bin_median` returns `SUCCESS` and writes `0` (the 32-bit
sum wraps), while the standard median is `2^31`. -/
theorem rtt_bin_median_two_large :
    List.Sorted (fun a b => a ≤ b) bin_two_large.values
    ∧ bin_two_large.cnt = bin_two_large.head.length
    ∧ rtt_bin_median (sk_with_bin bin_two_large) (some 7) = (ret.SUCCESS, some 0)
    ∧ standard_median bin_two_large.values = 2147483648 := by
  refine ⟨by decide, by decide, by decide, by decide⟩

/-- C1 (amended): for a non-empty bin with `cnt = n < 2^32 - 1` entries, where for even
`n` the two middle entries add up to less than `2^32`, `rtt_bin_median` returns
`SUCCESS` and writes the standard median of the entries (for entries in ascending
order: the middle entry for odd `n`, the integer mean of the two middle entries for
even `n`). -/
theorem rtt_bin_median_standard (sk : sock) (old : Nat)
    (hne : sk.ca.rtt_bin.head ≠ [])
    (hcnt : sk.ca.rtt_bin.cnt = sk.ca.rtt_bin.head.length)
    (hlt : sk.ca.rtt_bin.cnt < 4294967295)
    (hsum : sk.ca.rtt_bin.cnt % 2 = 0 →
      sk.ca.rtt_bin.values.getD (sk.ca.rtt_bin.cnt / 2 - 1) 0
        + sk.ca.rtt_bin.values.getD (sk.ca.rtt_bin.cnt / 2) 0 < 4294967296) :
    rtt_bin_median sk (some old)
      = (ret.SUCCESS, some (standard_median sk.ca.rtt_bin.values)) := by
  obtain ⟨tp, ⟨⟨l, t, c⟩, w, s, v⟩, r1, r2, st, m⟩ := sk
  simp only [rtt_bin.values] at *
  subst hcnt
  have hpos : 0 < l.length := List.length_pos.mpr hne
  have hemp : l.isEmpty = false := by
    cases l with
    | nil => exact absurd rfl hne
    | cons a t => rfl
  simp only [rtt_bin_median, hemp, median, standard_median, List.length_map]
  have h1 : (1 + l.length) % 4294967296 = 1 + l.length := by omega
  rw [h1]
  have hmid : ((1 + l.length) / 2 = 0) = False := by
    apply eq_false; omega
  simp only [hmid, if_false, Bool.false_eq_true]
  by_cases hpar : l.length % 2 = 0
  · have h2 : (1 + l.length) % 2 = 1 := by omega
    have h3 : ¬ (l.length % 2 = 1) := by omega
    have i1 : (1 + l.length) / 2 - 1 = l.length / 2 - 1 := by omega
    have i2 : (1 + l.length) / 2 = l.length / 2 := by omega
    have b1 : l.length / 2 - 1 < l.length := by omega
    have b2 : l.length / 2 < l.length := by omega
    have hs := hsum hpar
    rw [getD_map_rtt_us, getD_map_rtt_us] at hs
    simp only [h2, h3, if_true, if_false, i1, i2, getD_map_rtt_us]
    rw [List.getElem?_eq_getElem b1, List.getElem?_eq_getElem b2] at hs ⊢
    simp only [Option.map_some', Option.getD_some] at hs ⊢
    simp only [avg_u32]
    rw [Nat.mod_eq_of_lt hs]
  · have h2 : ¬ ((1 + l.length) % 2 = 1) := by omega
    have h3 : l.length % 2 = 1 := by omega
    have i1 : (1 + l.length) / 2 - 1 = l.length / 2 := by omega
    have b2 : l.length / 2 < l.length := by omega
    simp only [h2, h3, if_true, if_false, i1, getD_map_rtt_us]
    rw [List.getElem?_eq_getElem b2]
    simp

/-- The amended C1 at the bin with the samples 10, 20, 30, 40. -/
theorem rtt_bin_median_standard_witness :
    rtt_bin_median (sk_with_bin bin_four) (some 0)
      = (ret.SUCCESS, some (standard_median (sk_with_bin bin_four).ca.rtt_bin.values)) :=
  rtt_bin_median_standard (sk_with_bin bin_four) 0 (by decide) (by decide) (by decide)
    (by decide)

/-! ### C2: the median of a rank range of the slope store -/

theorem to_s32_of_range (x : Int) (h1 : -2147483648 ≤ x) (h2 : x < 2147483648) :
    to_s32 x = x := by
  unfold to_s32
  split <;> omega

theorem getD_map_slope (l : List snode) (i : Nat) :
    (l.map snode.slope).getD i 0 = ((l[i]?).map snode.slope).getD 0 := by
  simp [List.getD_eq_getElem?_getD]

/-- C2 (as stated, refuted): the store with the two slopes `2^30`, `2^30` is in ascending
order and has `cnt = 2`, `slopes_median(1, 2)` returns `SUCCESS` and writes `-2^30` (the
32-bit sum wraps), while the median of the ranks 1..2 is `2^30`. -/
theorem slopes_median_two_large :
    List.Sorted (fun a b => a ≤ b) slopes_two_large.values
    ∧ slopes_two_large.cnt = slopes_two_large.head.length
    ∧ slopes_median (sk_with_slopes slopes_two_large) 1 2 (some 7)
        = (ret.SUCCESS, some (-1073741824))
    ∧ rank_median slopes_two_large.values 1 2 = 1073741824 := by
  refine ⟨by decide, by decide, by decide, by decide⟩

/-- C2 (amended): for a slope store with `cnt = c` entries and a rank range with
`1 ≤ start ≤ end_ ≤ c` and `start + end_ < 2^32`, where for a range of even length the
two middle entries add up to a value in the `s32` range, `slopes_median(start, end_)`
returns `SUCCESS` and writes the median of the ranks `start..end_` (for entries in
ascending order): the entry at rank `(start + end_) / 2` for odd length, the integer
average of the entries at that rank and the next for even length. -/
theorem slopes_median_rank (sk : sock) (start end_ : Nat) (old : Int)
    (hcnt : sk.ca.slopes.cnt = sk.ca.slopes.head.length)
    (h1 : 1 ≤ start) (h2 : start ≤ end_) (h3 : end_ ≤ sk.ca.slopes.cnt)
    (hwrap : start + end_ < 4294967296)
    (hsum : (end_ - start + 1) % 2 = 0 →
      -2147483648 ≤ sk.ca.slopes.values.getD ((start + end_) / 2 - 1) 0
          + sk.ca.slopes.values.getD ((start + end_) / 2) 0
      ∧ sk.ca.slopes.values.getD ((start + end_) / 2 - 1) 0
          + sk.ca.slopes.values.getD ((start + end_) / 2) 0 < 2147483648) :
    slopes_median sk start end_ (some old)
      = (ret.SUCCESS, some (rank_median sk.ca.slopes.values start end_)) := by
  obtain ⟨tp, ⟨b, w, ⟨l, c⟩, v⟩, r1, r2, st, m⟩ := sk
  simp only [slopes.values] at *
  subst hcnt
  have hemp : l.isEmpty = false := by
    cases l with
    | nil => simp at h3; omega
    | cons a t => rfl
  have hrng : ¬ (start < 1 ∨ end_ > l.length) := by omega
  simp only [slopes_median, hrng, hemp, median, rank_median, if_false, Bool.false_eq_true]
  rw [Nat.mod_eq_of_lt hwrap]
  have hmid : ((start + end_) / 2 = 0) = False := by
    apply eq_false; omega
  simp only [hmid, if_false]
  by_cases hpar : (end_ - start + 1) % 2 = 0
  · have p2 : (start + end_) % 2 = 1 := by omega
    have p3 : ¬ ((end_ - start + 1) % 2 = 1) := by omega
    have b1 : (start + end_) / 2 - 1 < l.length := by omega
    have b2 : (start + end_) / 2 < l.length := by omega
    have hs := hsum hpar
    rw [getD_map_slope, getD_map_slope] at hs
    simp only [p2, p3, if_true, if_false, getD_map_slope]
    rw [List.getElem?_eq_getElem b1, List.getElem?_eq_getElem b2] at hs ⊢
    simp only [Option.map_some', Option.getD_some] at hs ⊢
    simp only [avg_s32]
    rw [to_s32_of_range _ hs.1 hs.2]
  · have p2 : ¬ ((start + end_) % 2 = 1) := by omega
    have p3 : (end_ - start + 1) % 2 = 1 := by omega
    have b1 : (start + end_) / 2 - 1 < l.length := by omega
    simp only [p2, p3, if_true, if_false, getD_map_slope]
    rw [List.getElem?_eq_getElem b1]
    simp

/-- The amended C2 at the store with the slopes -7, -2, 3, 5 and the whole range 1..4,
the range of the trend slope. -/
theorem slopes_median_rank_witness :
    slopes_median (sk_with_slopes slopes_four) 1 (sk_with_slopes slopes_four).ca.slopes.cnt
        (some 0)
      = (ret.SUCCESS, some (rank_median (sk_with_slopes slopes_four).ca.slopes.values 1 4)) :=
  slopes_median_rank (sk_with_slopes slopes_four) 1 4 0 (by decide) (by decide) (by decide)
    (by decide) (by decide) (by decide)

/-! ### C3: merging a sorted batch into the slope store -/

theorem cursor_append (x : Int) (olds : List snode) :
    (slopes_add_asd_mul_cursor x olds).1 ++ (slopes_add_asd_mul_cursor x olds).2 = olds := by
  induction olds with
  | nil => rfl
  | cons o os ih =>
    simp only [slopes_add_asd_mul_cursor]
    split
    · rfl
    · simp [ih]

theorem cursor_passed_le (x : Int) (olds : List snode) :
    ∀ o ∈ (slopes_add_asd_mul_cursor x olds).1, o.slope ≤ x := by
  induction olds with
  | nil => simp [slopes_add_asd_mul_cursor]
  | cons o os ih =>
    simp only [slopes_add_asd_mul_cursor]
    split
    · simp
    · intro a ha
      simp only [List.mem_cons] at ha
      rcases ha with rfl | ha
      · omega
      · exact ih a ha

theorem cursor_stop_lt (x : Int) (olds : List snode) (o : snode) (os : List snode)
    (h : (slopes_add_asd_mul_cursor x olds).2 = o :: os) : x < o.slope := by
  induction olds with
  | nil => simp [slopes_add_asd_mul_cursor] at h
  | cons a as ih =>
    simp only [slopes_add_asd_mul_cursor] at h
    split at h
    · simp only [List.cons.injEq] at h
      rw [← h.1]; assumption
    · exact ih h

theorem merge_loop_perm (news olds : List snode) (cnt new_cnt : Nat) :
    List.Perm ((slopes_add_asd_mul_loop news olds cnt new_cnt).1
        ++ (slopes_add_asd_mul_loop news olds cnt new_cnt).2.1) (olds ++ news) := by
  induction news generalizing olds cnt new_cnt with
  | nil => simp [slopes_add_asd_mul_loop]
  | cons n ns ih =>
    simp only [slopes_add_asd_mul_loop]
    have happ := cursor_append n.slope olds
    rcases hc : slopes_add_asd_mul_cursor n.slope olds with ⟨passed, rest⟩
    rw [hc] at happ
    simp only at happ
    cases rest with
    | nil =>
      simp only [List.append_nil] at happ
      subst happ
      exact List.Perm.refl _
    | cons o os =>
      simp only
      have h := ih (o :: os) ((cnt + 1) % 4294967296) ((new_cnt + 4294967295) % 4294967296)
      rw [← happ]
      simp only [List.append_assoc, List.cons_append]
      refine List.Perm.append_left passed ?_
      refine (List.Perm.cons n h).trans ?_
      exact List.perm_middle.symm


theorem merge_loop_sorted (news olds : List snode) (cnt new_cnt : Nat)
    (hn : List.Pairwise (fun a b : snode => a.slope ≤ b.slope) news)
    (ho : List.Pairwise (fun a b : snode => a.slope ≤ b.slope) olds) :
    List.Pairwise (fun a b : snode => a.slope ≤ b.slope)
      ((slopes_add_asd_mul_loop news olds cnt new_cnt).1
        ++ (slopes_add_asd_mul_loop news olds cnt new_cnt).2.1) := by
  induction news generalizing olds cnt new_cnt with
  | nil => simpa [slopes_add_asd_mul_loop] using ho
  | cons n ns ih =>
    simp only [slopes_add_asd_mul_loop]
    have happ := cursor_append n.slope olds
    have hle := cursor_passed_le n.slope olds
    have hstop := cursor_stop_lt n.slope olds
    rcases hc : slopes_add_asd_mul_cursor n.slope olds with ⟨passed, rest⟩
    rw [hc] at happ hle hstop
    simp only at happ hle hstop
    rw [List.pairwise_cons] at hn
    cases rest with
    | nil =>
      simp only [List.append_nil] at happ
      subst happ
      simp only
      rw [List.pairwise_append]
      refine ⟨ho, List.pairwise_cons.mpr hn, ?_⟩
      intro a ha b hb
      have h1 := hle a ha
      simp only [List.mem_cons] at hb
      rcases hb with rfl | hb
      · exact h1
      · exact le_trans h1 (hn.1 b hb)
    | cons o os =>
      simp only
      have hlt : n.slope < o.slope := hstop o os rfl
      rw [← happ, List.pairwise_append] at ho
      obtain ⟨hp, hrest, hcross⟩ := ho
      have h := ih (o :: os) ((cnt + 1) % 4294967296) ((new_cnt + 4294967295) % 4294967296)
        hn.2 hrest
      have hperm := merge_loop_perm ns (o :: os) ((cnt + 1) % 4294967296)
        ((new_cnt + 4294967295) % 4294967296)
      have hn_le : ∀ b ∈ (slopes_add_asd_mul_loop ns (o :: os) ((cnt + 1) % 4294967296)
            ((new_cnt + 4294967295) % 4294967296)).1
          ++ (slopes_add_asd_mul_loop ns (o :: os) ((cnt + 1) % 4294967296)
            ((new_cnt + 4294967295) % 4294967296)).2.1, n.slope ≤ b.slope := by
        intro b hb
        have hb2 := hperm.subset hb
        simp only [List.mem_append, List.mem_cons] at hb2
        rw [List.pairwise_cons] at hrest
        rcases hb2 with (rfl | hb2) | hb2
        · exact le_of_lt hlt
        · exact le_trans (le_of_lt hlt) (hrest.1 b hb2)
        · exact hn.1 b hb2
      simp only [List.append_assoc, List.cons_append]
      rw [List.pairwise_append]
      refine ⟨hp, List.pairwise_cons.mpr ⟨hn_le, h⟩, ?_⟩
      intro a ha b hb
      have h1 := hle a ha
      simp only [List.mem_cons] at hb
      rcases hb with rfl | hb
      · exact h1
      · exact le_trans h1 (hn_le b hb)

theorem merge_loop_counts (news olds : List snode) (cnt new_cnt : Nat)
    (hlen : news.length ≤ new_cnt) (hsum : cnt + new_cnt < 4294967296) :
    (slopes_add_asd_mul_loop news olds cnt new_cnt).2.2.1
        + (slopes_add_asd_mul_loop news olds cnt new_cnt).2.2.2 = cnt + new_cnt
    ∧ (slopes_add_asd_mul_loop news olds cnt new_cnt).2.2.2 + news.length
        = new_cnt + (slopes_add_asd_mul_loop news olds cnt new_cnt).2.1.length := by
  induction news generalizing olds cnt new_cnt with
  | nil => simp [slopes_add_asd_mul_loop]
  | cons n ns ih =>
    simp only [slopes_add_asd_mul_loop]
    rcases hc : slopes_add_asd_mul_cursor n.slope olds with ⟨passed, rest⟩
    simp only [List.length_cons] at hlen
    cases rest with
    | nil => simp
    | cons o os =>
      simp only
      have e1 : (cnt + 1) % 4294967296 = cnt + 1 := by omega
      have e2 : (new_cnt + 4294967295) % 4294967296 = new_cnt - 1 := by omega
      rw [e1, e2]
      have h := ih (o :: os) (cnt + 1) (new_cnt - 1) (by omega) (by omega)
      simp only [List.length_cons]
      omega


theorem values_sorted_iff (l : List snode) :
    List.Sorted (fun a b : Int => a ≤ b) (l.map snode.slope)
      ↔ List.Pairwise (fun a b : snode => a.slope ≤ b.slope) l := by
  unfold List.Sorted
  rw [List.pairwise_map]

/-- C3: merging a non-empty batch in ascending order into a slope store in ascending
order returns `SUCCESS` and leaves a store in ascending order that holds exactly the
entries of the old store and of the batch (a permutation of the two lists together, so
`n + m` entries), for every interleaving and also for an empty store; the counter
`cnt` of the store is `n + m` when the counters of the store and of the batch are `n`
and `m` and `n + m` fits the 32-bit counter. -/
theorem slopes_add_asd_mul_merge (sk : sock) (new_slopes : slopes)
    (hm : new_slopes.head ≠ [])
    (hs : List.Sorted (fun a b : Int => a ≤ b) sk.ca.slopes.values)
    (hb : List.Sorted (fun a b : Int => a ≤ b) new_slopes.values) :
    (slopes_add_asd_mul sk new_slopes).1 = ret.SUCCESS
    ∧ List.Sorted (fun a b : Int => a ≤ b) (slopes_add_asd_mul sk new_slopes).2.ca.slopes.values
    ∧ List.Perm (slopes_add_asd_mul sk new_slopes).2.ca.slopes.head
        (sk.ca.slopes.head ++ new_slopes.head)
    ∧ (slopes_add_asd_mul sk new_slopes).2.ca.slopes.head.length
        = sk.ca.slopes.head.length + new_slopes.head.length
    ∧ (sk.ca.slopes.cnt = sk.ca.slopes.head.length →
        new_slopes.cnt = new_slopes.head.length →
        sk.ca.slopes.head.length + new_slopes.head.length < 4294967296 →
        (slopes_add_asd_mul sk new_slopes).2.ca.slopes.cnt
          = sk.ca.slopes.head.length + new_slopes.head.length) := by
  obtain ⟨tp, ⟨b, w, ⟨l, c⟩, v⟩, r1, r2, st, m⟩ := sk
  obtain ⟨nl, nc⟩ := new_slopes
  simp only [slopes.values, values_sorted_iff] at *
  have hemp : nl.isEmpty = false := by
    cases nl with
    | nil => exact absurd rfl hm
    | cons a t => rfl
  have key : (slopes_add_asd_mul ⟨tp, ⟨b, w, ⟨l, c⟩, v⟩, r1, r2, st, m⟩ ⟨nl, nc⟩).1 = ret.SUCCESS
      ∧ List.Pairwise (fun a b : snode => a.slope ≤ b.slope)
          (slopes_add_asd_mul ⟨tp, ⟨b, w, ⟨l, c⟩, v⟩, r1, r2, st, m⟩ ⟨nl, nc⟩).2.ca.slopes.head
      ∧ List.Perm
          (slopes_add_asd_mul ⟨tp, ⟨b, w, ⟨l, c⟩, v⟩, r1, r2, st, m⟩ ⟨nl, nc⟩).2.ca.slopes.head
          (l ++ nl)
      ∧ (c = l.length → nc = nl.length → l.length + nl.length < 4294967296 →
          (slopes_add_asd_mul ⟨tp, ⟨b, w, ⟨l, c⟩, v⟩, r1, r2, st, m⟩ ⟨nl, nc⟩).2.ca.slopes.cnt
            = l.length + nl.length) := by
    simp only [slopes_add_asd_mul, hemp, Bool.false_eq_true, if_false]
    cases l with
    | nil =>
      simp only [List.isEmpty_nil, if_true, List.nil_append, List.length_nil, zero_add]
      exact ⟨trivial, hb, List.Perm.refl _, fun _ h _ => h⟩
    | cons o os =>
      simp only [List.isEmpty_cons, Bool.false_eq_true, if_false]
      have hsrt := merge_loop_sorted nl (o :: os) c nc hb hs
      have hperm := merge_loop_perm nl (o :: os) c nc
      have hcnt := merge_loop_counts nl (o :: os) c nc
      rcases hr : slopes_add_asd_mul_loop nl (o :: os) c nc with ⟨s, left, c1, n1⟩
      rw [hr] at hsrt hperm hcnt
      simp only at hsrt hperm hcnt
      cases left with
      | nil =>
        simp only [List.isEmpty_nil, if_true, List.append_nil] at hsrt hperm ⊢
        refine ⟨trivial, hsrt, hperm, ?_⟩
        intro e1 e2 e3
        have h := hcnt (by omega) (by omega)
        simp only [List.length_nil] at h
        omega
      | cons a t =>
        simp only [List.isEmpty_cons, Bool.false_eq_true, if_false]
        refine ⟨trivial, hsrt, hperm, ?_⟩
        intro e1 e2 e3
        have h := hcnt (by omega) (by omega)
        omega
  refine ⟨key.1, key.2.1, key.2.2.1, ?_, key.2.2.2⟩
  have := key.2.2.1.length_eq
  simpa using this


/-- C3 at the store 1, 3, 5 and the batch 2, 3, 6: the merged store is 1, 2, 3, 3, 5, 6
(the new 3 after the old one), with the counter at 6. -/
theorem slopes_add_asd_mul_merge_witness :
    (slopes_add_asd_mul (sk_with_slopes slopes_three) batch_three).2.ca.slopes.values
      = [1, 2, 3, 3, 5, 6]
    ∧ (slopes_add_asd_mul (sk_with_slopes slopes_three) batch_three).1 = ret.SUCCESS
    ∧ List.Sorted (fun a b : Int => a ≤ b)
        (slopes_add_asd_mul (sk_with_slopes slopes_three) batch_three).2.ca.slopes.values
    ∧ (slopes_add_asd_mul (sk_with_slopes slopes_three) batch_three).2.ca.slopes.cnt = 3 + 3 :=
  have h := slopes_add_asd_mul_merge (sk_with_slopes slopes_three) batch_three
    (by decide) (by decide) (by decide)
  ⟨by decide, h.1, h.2.1, h.2.2.2.2 (by decide) (by decide) (by decide)⟩

/-! ### C4: evicting the oldest point -/

theorem slopes_del_frame (sk : sock) (a : Nat) :
    (slopes_del sk (some a)).2 = { sk with ca.slopes := (slopes_del sk (some a)).2.ca.slopes } := by
  simp only [slopes_del]
  split <;> rfl

theorem fout_reset_loop_frame (fs : List fnode) (sk : sock) :
    fout_reset_loop fs sk = { sk with ca.slopes := (fout_reset_loop fs sk).ca.slopes } := by
  induction fs generalizing sk with
  | nil => rfl
  | cons f rest ih =>
    simp only [fout_reset_loop]
    rw [ih]
    rw [slopes_del_frame]

theorem slopes_del_head (sk : sock) (a : Nat) :
    (slopes_del sk (some a)).2.ca.slopes.head
      = sk.ca.slopes.head.filter (fun n => decide (n.addr ≠ a)) := by
  simp only [slopes_del]
  split
  · rename_i h
    have : sk.ca.slopes.head = [] := by simpa using h
    simp [this]
  · rfl

theorem fout_reset_loop_head (fs : List fnode) (sk : sock) :
    (fout_reset_loop fs sk).ca.slopes.head
      = sk.ca.slopes.head.filter (fun n => decide (n.addr ∉ fs.map fnode.ptr)) := by
  induction fs generalizing sk with
  | nil => simp [fout_reset_loop]
  | cons f rest ih =>
    simp only [fout_reset_loop]
    rw [ih, slopes_del_head, List.filter_filter]
    congr 1
    funext n
    simp only [List.map_cons, List.mem_cons, not_or, Bool.decide_and, ne_eq]
    rw [Bool.and_comm]

theorem filter_ne_length (l : List snode) (a : Nat)
    (hnd : (l.map snode.addr).Nodup) (hmem : a ∈ l.map snode.addr) :
    (l.filter (fun n => decide (n.addr ≠ a))).length + 1 = l.length := by
  induction l with
  | nil => simp at hmem
  | cons x xs ih =>
    simp only [List.map_cons, List.nodup_cons, List.mem_cons] at hnd hmem
    by_cases hx : x.addr = a
    · have hall : ∀ n ∈ xs, decide (n.addr ≠ a) = true := by
        intro n hn
        have : n.addr ≠ a := by
          intro h
          apply hnd.1
          rw [hx, ← h]
          exact List.mem_map_of_mem _ hn
        simpa using this
      simp only [List.filter_cons, hx, ne_eq, not_true_eq_false, decide_False,
        Bool.false_eq_true, if_false, List.length_cons]
      rw [List.filter_eq_self.mpr hall]
    · have hm : a ∈ xs.map snode.addr := by
        rcases hmem with h | h
        · exact absurd h.symm hx
        · exact h
      have := ih hnd.2 hm
      simp only [ne_eq] at this
      simp only [List.filter_cons, ne_eq, hx, not_false_eq_true, decide_True, if_true,
        List.length_cons]
      omega

theorem fout_reset_loop_cnt (fs : List fnode) (sk : sock)
    (hnd : (sk.ca.slopes.head.map snode.addr).Nodup)
    (hfs : (fs.map fnode.ptr).Nodup)
    (hlive : ∀ f ∈ fs, f.ptr ∈ sk.ca.slopes.head.map snode.addr)
    (hcnt : sk.ca.slopes.cnt = sk.ca.slopes.head.length)
    (hmax : sk.ca.slopes.cnt ≤ MAX_U32) :
    (fout_reset_loop fs sk).ca.slopes.cnt + fs.length = sk.ca.slopes.cnt
    ∧ (fout_reset_loop fs sk).ca.slopes.head.length + fs.length
        = sk.ca.slopes.head.length := by
  induction fs generalizing sk with
  | nil => simp [fout_reset_loop]
  | cons f rest ih =>
    simp only [fout_reset_loop, List.length_cons]
    simp only [List.map_cons, List.nodup_cons] at hfs
    have hf := hlive f (List.mem_cons_self _ _)
    have hlen := filter_ne_length sk.ca.slopes.head f.ptr hnd hf
    have hne : sk.ca.slopes.head.isEmpty = false := by
      cases h : sk.ca.slopes.head with
      | nil => rw [h] at hf; simp at hf
      | cons a t => rfl
    have hhead := slopes_del_head sk f.ptr
    have hc : (slopes_del sk (some f.ptr)).2.ca.slopes.cnt
        = (sk.ca.slopes.cnt + 4294967295) % 4294967296 := by
      simp [slopes_del, hne]
    have h := ih (slopes_del sk (some f.ptr)).2
      (by
        rw [hhead]
        exact hnd.sublist ((List.filter_sublist _).map _))
      hfs.2
      (by
        intro g hg
        rw [hhead]
        have hg1 := hlive g (List.mem_cons_of_mem _ hg)
        simp only [List.mem_map] at hg1 ⊢
        obtain ⟨n, hn, hna⟩ := hg1
        refine ⟨n, ?_, hna⟩
        simp only [List.mem_filter, hn, true_and, ne_eq, decide_eq_true_eq]
        intro hc2
        apply hfs.1
        rw [← hc2, hna]
        exact List.mem_map_of_mem _ hg)
      (by rw [hc, hhead]; simp only [MAX_U32] at hmax; omega)
      (by rw [hc]; simp only [MAX_U32] at hmax ⊢; omega)
    rw [hc, hhead] at h
    simp only [MAX_U32] at hmax
    omega


/-- Eviction on any socket: `rtt_sack_deq` on a window with the oldest point `p` leaves
in the slope store exactly the entries that no reference in the fanout list of `p` points
to, in their old order, all their fields unchanged; the window loses its first point and
nothing else;
and when the references in the fanout list of `p` are distinct and point to entries of
the store (whose nodes have distinct addresses and whose 32-bit counter equals its
length), the counter and the length of the store both decrease by exactly the size of
the fanout list. -/
theorem rtt_sack_deq_fanout (sk : sock) (p : pnode) (rest : List pnode)
    (hw : sk.ca.rtt_sack.head = p :: rest) :
    (rtt_sack_deq sk).ca.slopes.head
        = sk.ca.slopes.head.filter (fun n => decide (n.addr ∉ p.fanout_head.map fnode.ptr))
    ∧ List.Sublist (rtt_sack_deq sk).ca.slopes.head sk.ca.slopes.head
    ∧ (rtt_sack_deq sk).ca.rtt_sack.head = rest
    ∧ ((sk.ca.slopes.head.map snode.addr).Nodup →
        (p.fanout_head.map fnode.ptr).Nodup →
        (∀ f ∈ p.fanout_head, f.ptr ∈ sk.ca.slopes.head.map snode.addr) →
        sk.ca.slopes.cnt = sk.ca.slopes.head.length →
        sk.ca.slopes.cnt ≤ MAX_U32 →
        (rtt_sack_deq sk).ca.slopes.cnt + p.fanout_head.length = sk.ca.slopes.cnt
        ∧ (rtt_sack_deq sk).ca.slopes.head.length + p.fanout_head.length
            = sk.ca.slopes.head.length) := by
  have hhead : (rtt_sack_deq sk).ca.slopes.head
      = sk.ca.slopes.head.filter (fun n => decide (n.addr ∉ p.fanout_head.map fnode.ptr)) := by
    simp only [rtt_sack_deq, hw]
    cases hf : p.fanout_head with
    | nil => simp
    | cons f fs =>
      simp only [List.isEmpty_cons, Bool.false_eq_true, if_false, fout_reset]
      exact fout_reset_loop_head (f :: fs) sk
  refine ⟨hhead, ?_, ?_, ?_⟩
  · rw [hhead]
    exact List.filter_sublist _
  · simp only [rtt_sack_deq, hw]
  · intro h1 h2 h3 h4 h5
    have hc : (rtt_sack_deq sk).ca.slopes.cnt + p.fanout_head.length = sk.ca.slopes.cnt := by
      simp only [rtt_sack_deq, hw]
      cases hf : p.fanout_head with
      | nil => simp
      | cons f fs =>
        simp only [List.isEmpty_cons, Bool.false_eq_true, if_false, fout_reset]
        rw [hf] at h2 h3
        exact (fout_reset_loop_cnt (f :: fs) sk h1 h2 h3 h4 h5).1
    refine ⟨hc, ?_⟩
    rw [hhead]
    cases hf : p.fanout_head with
    | nil => simp
    | cons f fs =>
      rw [hf] at h2 h3
      have := (fout_reset_loop_cnt (f :: fs) sk h1 h2 h3 h4 h5).2
      rw [fout_reset_loop_head] at this
      exact this

/-- Eviction at a window of three points: evicting the oldest point, whose fanout list refers
to the slopes at the addresses 1 and 3, leaves the one slope at the address 2, the
counter at 1, and the two younger points. -/
theorem rtt_sack_deq_fanout_witness :
    (rtt_sack_deq sk_window_three).ca.slopes
        = { head := [{ addr := 2, slope := 19 }], cnt := 1 }
    ∧ (rtt_sack_deq sk_window_three).ca.rtt_sack.head = sk_window_three.ca.rtt_sack.head.tail
    ∧ (rtt_sack_deq sk_window_three).ca.slopes.cnt + 2 = sk_window_three.ca.slopes.cnt :=
  have h := rtt_sack_deq_fanout sk_window_three
    { addr := 10, snd_time_ms := 1, rtt_us := 100, fanout_head := [{ ptr := 1 }, { ptr := 3 }] }
    [{ addr := 11, snd_time_ms := 2, rtt_us := 95, fanout_head := [{ ptr := 2 }] },
      { addr := 12, snd_time_ms := 3, rtt_us := 114, fanout_head := [] }]
    (by decide)
  ⟨by decide, h.2.2.1,
    (h.2.2.2 (by decide) (by decide) (by decide) (by decide) (by decide)).1⟩

/-! ### The macro `add_asd` -/

theorem add_asd_perm {α β : Type} [LT β] [DecidableRel (fun (a b : β) => a < b)]
    (member : α → β) (node : α) (l : List α) :
    List.Perm (add_asd member node l) (node :: l) := by
  induction l with
  | nil => exact List.Perm.refl _
  | cons p rest ih =>
    simp only [add_asd]
    split
    · exact List.Perm.refl _
    · exact (List.Perm.cons p ih).trans (List.Perm.swap node p rest)

theorem add_asd_mem {α β : Type} [LT β] [DecidableRel (fun (a b : β) => a < b)]
    (member : α → β) (node : α) (l : List α) (x : α) :
    x ∈ add_asd member node l ↔ x = node ∨ x ∈ l := by
  rw [(add_asd_perm member node l).mem_iff, List.mem_cons]

theorem add_asd_length {α β : Type} [LT β] [DecidableRel (fun (a b : β) => a < b)]
    (member : α → β) (node : α) (l : List α) :
    (add_asd member node l).length = l.length + 1 := by
  rw [(add_asd_perm member node l).length_eq, List.length_cons]

theorem add_asd_ne_nil {α β : Type} [LT β] [DecidableRel (fun (a b : β) => a < b)]
    (member : α → β) (node : α) (l : List α) :
    add_asd member node l ≠ [] := by
  intro h
  have := add_asd_length member node l
  rw [h] at this
  simp at this

theorem add_asd_sorted {α β : Type} [LinearOrder β] (member : α → β) (node : α) (l : List α)
    (h : List.Pairwise (fun a b => member a ≤ member b) l) :
    List.Pairwise (fun a b => member a ≤ member b) (add_asd member node l) := by
  induction l with
  | nil => simp [add_asd]
  | cons p rest ih =>
    rw [List.pairwise_cons] at h
    simp only [add_asd]
    split
    · rename_i hlt
      refine List.pairwise_cons.mpr ⟨?_, List.pairwise_cons.mpr h⟩
      intro b hb
      simp only [List.mem_cons] at hb
      rcases hb with rfl | hb
      · exact le_of_lt hlt
      · exact le_trans (le_of_lt hlt) (h.1 b hb)
    · rename_i hnlt
      refine List.pairwise_cons.mpr ⟨?_, ih h.2⟩
      intro b hb
      rw [add_asd_mem] at hb
      rcases hb with rfl | hb
      · exact not_lt.mp hnlt
      · exact h.1 b hb


/-! ### C5: the slopes generated for a new point -/

theorem kzalloc_no_fail (m : kmem) (h : m.no_fail) :
    (kzalloc m).1 = some m.brk ∧ (kzalloc m).2.no_fail := by
  obtain ⟨brk, oom⟩ := m
  unfold kmem.no_fail at h
  cases oom with
  | nil => simp [kzalloc, kmem.no_fail]
  | cons b rest =>
    have hb : b = false := h b (List.mem_cons_self _ _)
    subst hb
    simp only [kzalloc, kmem.no_fail, true_and]
    intro c hc
    exact h c (List.mem_cons_of_mem _ hc)

theorem gen_rel_mono (stop : pnode) (b1 b2 : List snode) (h : ∀ n ∈ b1, n ∈ b2)
    (p q : pnode) (hr : gen_rel stop b1 p q) : gen_rel stop b2 p q := by
  refine ⟨?_, hr.2⟩
  intro hd
  obtain ⟨a, ha, hm⟩ := hr.1 hd
  exact ⟨a, ha, h _ hm⟩

theorem slopes_gen_loop_spec (stop : pnode) (olds tail : List pnode) (ns : slopes) (sk : sock)
    (hfresh : ∀ p ∈ olds, p.addr ≠ stop.addr)
    (hnf : sk.mem.no_fail)
    (hcnt : ns.cnt + olds.length ≤ MAX_U32) :
    (slopes_gen_loop stop (olds ++ stop :: tail) ns sk).1 = ret.SUCCESS
    ∧ (∃ olds2, (slopes_gen_loop stop (olds ++ stop :: tail) ns sk).2.1 = olds2 ++ stop :: tail
        ∧ List.Forall₂
            (gen_rel stop (slopes_gen_loop stop (olds ++ stop :: tail) ns sk).2.2.1.head)
            olds olds2)
    ∧ (∀ n ∈ ns.head, n ∈ (slopes_gen_loop stop (olds ++ stop :: tail) ns sk).2.2.1.head)
    ∧ (slopes_gen_loop stop (olds ++ stop :: tail) ns sk).2.2.2.mem.no_fail
    ∧ (slopes_gen_loop stop (olds ++ stop :: tail) ns sk).2.2.2
        = { sk with mem := (slopes_gen_loop stop (olds ++ stop :: tail) ns sk).2.2.2.mem } := by
  induction olds generalizing ns sk with
  | nil =>
    simp only [List.nil_append, slopes_gen_loop, if_true]
    refine ⟨trivial, ⟨[], rfl, List.Forall₂.nil⟩, fun n h => h, hnf, ?_⟩
    trivial
  | cons p rest ih =>
    have hp : p.addr ≠ stop.addr := hfresh p (List.mem_cons_self _ _)
    have hrest : ∀ q ∈ rest, q.addr ≠ stop.addr := fun q hq => hfresh q (List.mem_cons_of_mem _ hq)
    simp only [List.length_cons] at hcnt
    simp only [List.cons_append, slopes_gen_loop, hp, if_false, List.append_eq]
    by_cases hd : 0 < to_s32 ((stop.snd_time_ms : Int) - (p.snd_time_ms : Int))
    · simp only [hd, if_true]
      have hk := kzalloc_no_fail sk.mem hnf
      have hlt : ¬ (ns.cnt ≥ MAX_U32) := by omega
      rcases hkz : kzalloc sk.mem with ⟨oa, m1⟩
      rw [hkz] at hk
      simp only at hk
      obtain ⟨hoa, hm1⟩ := hk
      subst hoa
      simp only [slopes_add_asd, hlt, if_false, hkz]
      have hk2 := kzalloc_no_fail m1 hm1
      rcases hkz2 : kzalloc m1 with ⟨ob, m2⟩
      rw [hkz2] at hk2
      simp only at hk2
      obtain ⟨hob, hm2⟩ := hk2
      subst hob
      simp only [fanout_enq, hkz2]
      have e1 : (ns.cnt + 1) % 4294967296 = ns.cnt + 1 := by
        simp only [MAX_U32] at hcnt; omega
      rw [e1]
      have h := ih
        { head := add_asd snode.slope
            { addr := sk.mem.brk
              slope := Int.tdiv (to_s32 ((stop.rtt_us : Int) - (p.rtt_us : Int)))
                (to_s32 ((stop.snd_time_ms : Int) - (p.snd_time_ms : Int))) } ns.head
          cnt := ns.cnt + 1 }
        { sk with mem := m2 } hrest hm2 (by simp only; omega)
      obtain ⟨h1, ⟨olds2, h2, h3⟩, h4, h5, h6⟩ := h
      refine ⟨h1, ⟨{ p with fanout_head := p.fanout_head ++ [{ ptr := sk.mem.brk }] } :: olds2,
        ?_, ?_⟩, ?_, h5, ?_⟩
      · rw [h2]; rfl
      · refine List.Forall₂.cons ?_ h3
        refine ⟨fun _ => ⟨sk.mem.brk, rfl, ?_⟩, fun hn => absurd hd hn⟩
        apply h4
        simp only
        rw [add_asd_mem]
        exact Or.inl rfl
      · intro n hn
        apply h4
        simp only
        rw [add_asd_mem]
        exact Or.inr hn
      · rw [h6]
    · simp only [hd, if_false]
      have h := ih ns sk hrest hnf (by omega)
      obtain ⟨h1, ⟨olds2, h2, h3⟩, h4, h5, h6⟩ := h
      refine ⟨h1, ⟨p :: olds2, ?_, ?_⟩, h4, h5, h6⟩
      · rw [h2]; rfl
      · refine List.Forall₂.cons ?_ h3
        exact ⟨fun h => absurd h hd, fun _ => rfl⟩


theorem slopes_add_asd_mul_frame (sk : sock) (b : slopes) :
    (slopes_add_asd_mul sk b).2
      = { sk with ca.slopes := (slopes_add_asd_mul sk b).2.ca.slopes } := by
  simp only [slopes_add_asd_mul]
  split
  · rfl
  · split
    · rfl
    · split <;> rfl

theorem slopes_add_asd_mul_mem (sk : sock) (b : slopes) (n : snode) (h : n ∈ b.head) :
    n ∈ (slopes_add_asd_mul sk b).2.ca.slopes.head := by
  have hne : b.head.isEmpty = false := by
    cases hb : b.head with
    | nil => rw [hb] at h; simp at h
    | cons a t => rfl
  simp only [slopes_add_asd_mul, hne, Bool.false_eq_true, if_false]
  split
  · exact h
  · have hperm := merge_loop_perm b.head sk.ca.slopes.head sk.ca.slopes.cnt b.cnt
    have hm : n ∈ (slopes_add_asd_mul_loop b.head sk.ca.slopes.head sk.ca.slopes.cnt b.cnt).1
        ++ (slopes_add_asd_mul_loop b.head sk.ca.slopes.head sk.ca.slopes.cnt b.cnt).2.1 := by
      rw [hperm.mem_iff]
      exact List.mem_append_right _ h
    split
    · rename_i he
      have : (slopes_add_asd_mul_loop b.head sk.ca.slopes.head sk.ca.slopes.cnt b.cnt).2.1 = [] := by
        simpa using he
      rw [this, List.append_nil] at hm
      exact hm
    · exact hm

/-- C5 (as stated, refuted): for the new point (4 ms, 10300 us) and the older points
(1 ms, 10000 us) and (2 ms, 9800 us), `slopes_gen` inserts the slopes 100 and 250 next to
the old slope -200 and refers to them from the two older points, while the stated
formula gives 100000 and 250000. -/
theorem slopes_gen_no_factor :
    (slopes_gen sk_before_gen (some pnode_new)).1 = ret.SUCCESS
    ∧ (slopes_gen sk_before_gen (some pnode_new)).2.ca.slopes.head
        = [{ addr := 1, slope := -200 }, { addr := 20, slope := 100 }, { addr := 22, slope := 250 }]
    ∧ (slopes_gen sk_before_gen (some pnode_new)).2.ca.rtt_sack.head.map pnode.fanout_head
        = [[{ ptr := 1 }, { ptr := 20 }], [{ ptr := 22 }], []]
    ∧ ((10300 - 10000) * 1000 : Int) / (4 - 1) = 100000
    ∧ ((10300 - 9800) * 1000 : Int) / (4 - 2) = 250000 := by
  refine ⟨by decide, by decide, by decide, by decide, by decide⟩

/-- C5 (amended): when no allocation fails, `slopes_gen` for the new point `stop` at the
tail of the window leaves every older point `p` with `p.time < stop.time`, the two
times less than `2^31` ms apart and the rtt difference in the `s32` range, with exactly
one more fanout reference, to an entry of the slope store whose slope is
`(stop.rtt - p.rtt) / (stop.time - p.time)`, the division truncating toward zero and
with no factor 1000: the rtts are in us and the times in ms. -/
theorem slopes_gen_pair_slope (sk : sock) (stop : pnode) (olds : List pnode)
    (hw : sk.ca.rtt_sack.head = olds ++ [stop])
    (hfresh : ∀ p ∈ olds, p.addr ≠ stop.addr)
    (hnf : sk.mem.no_fail)
    (hlen : olds.length ≤ MAX_U32) :
    ∃ olds2, (slopes_gen sk (some stop)).2.ca.rtt_sack.head = olds2 ++ [stop]
      ∧ List.Forall₂
          (fun p q =>
            p.snd_time_ms < stop.snd_time_ms →
            stop.snd_time_ms - p.snd_time_ms < 2147483648 →
            -2147483648 ≤ (stop.rtt_us : Int) - (p.rtt_us : Int) →
            (stop.rtt_us : Int) - (p.rtt_us : Int) < 2147483648 →
            pair_slope_inserted stop (slopes_gen sk (some stop)).2.ca.slopes.head p q)
          olds olds2 := by
  have hne : (olds ++ [stop]).isEmpty = false := by
    cases olds <;> rfl
  have hspec := slopes_gen_loop_spec stop olds [] { head := [], cnt := 0 } sk hfresh hnf
    (by simp only; omega)
  obtain ⟨h1, ⟨olds2, h2, h3⟩, -, -, h6⟩ := hspec
  have hno : ¬ ((slopes_gen_loop stop (olds ++ [stop]) { head := [], cnt := 0 } sk).1
      = ret.NO_MEM) := by
    rw [h1]; decide
  simp only [slopes_gen, hne, Bool.false_eq_true, if_false, hw, hno]
  refine ⟨olds2, ?_, ?_⟩
  · rw [slopes_add_asd_mul_frame]
    exact h2
  · refine h3.imp ?_
    intro p q hr ht1 ht2 hr1 hr2
    have e1 : to_s32 ((stop.snd_time_ms : Int) - (p.snd_time_ms : Int))
        = (stop.snd_time_ms : Int) - (p.snd_time_ms : Int) :=
      to_s32_of_range _ (by omega) (by omega)
    have e2 : to_s32 ((stop.rtt_us : Int) - (p.rtt_us : Int))
        = (stop.rtt_us : Int) - (p.rtt_us : Int) :=
      to_s32_of_range _ hr1 hr2
    obtain ⟨a, ha, hm⟩ := hr.1 (by rw [e1]; omega)
    rw [e1, e2] at hm
    exact ⟨a, ha, slopes_add_asd_mul_mem _ _ _ hm⟩

/-- The amended C5 at a window of two older points and the new point (4 ms, 10300 us). -/
theorem slopes_gen_pair_slope_witness :
    ∃ olds2, (slopes_gen sk_before_gen (some pnode_new)).2.ca.rtt_sack.head = olds2 ++ [pnode_new]
      ∧ List.Forall₂
          (fun p q =>
            p.snd_time_ms < pnode_new.snd_time_ms →
            pnode_new.snd_time_ms - p.snd_time_ms < 2147483648 →
            -2147483648 ≤ (pnode_new.rtt_us : Int) - (p.rtt_us : Int) →
            (pnode_new.rtt_us : Int) - (p.rtt_us : Int) < 2147483648 →
            pair_slope_inserted pnode_new
              (slopes_gen sk_before_gen (some pnode_new)).2.ca.slopes.head p q)
          [{ addr := 10, snd_time_ms := 1, rtt_us := 10000, fanout_head := [{ ptr := 1 }] },
            { addr := 11, snd_time_ms := 2, rtt_us := 9800, fanout_head := [] }]
          olds2 :=
  slopes_gen_pair_slope sk_before_gen pnode_new
    [{ addr := 10, snd_time_ms := 1, rtt_us := 10000, fanout_head := [{ ptr := 1 }] },
      { addr := 11, snd_time_ms := 2, rtt_us := 9800, fanout_head := [] }]
    (by decide) (by decide) (by decide) (by decide)

/-! ### C6: the order of the bin and of the store -/

theorem rtt_bin_values_sorted_iff (l : List rnode) :
    List.Sorted (fun a b : Nat => a ≤ b) (l.map rnode.rtt_us)
      ↔ List.Pairwise (fun a b : rnode => a.rtt_us ≤ b.rtt_us) l := by
  unfold List.Sorted
  rw [List.pairwise_map]

theorem rtt_bin_add_asd_sorted (sk : sock) (ms v : Nat)
    (h : List.Sorted (fun a b : Nat => a ≤ b) sk.ca.rtt_bin.values) :
    List.Sorted (fun a b : Nat => a ≤ b) (rtt_bin_add_asd sk ms v).2.ca.rtt_bin.values := by
  simp only [rtt_bin.values, rtt_bin_values_sorted_iff] at *
  simp only [rtt_bin_add_asd]
  split
  · exact h
  · split
    · exact h
    · exact add_asd_sorted rnode.rtt_us _ _ h

theorem rtt_bin_add_asd_slopes (sk : sock) (ms v : Nat) :
    (rtt_bin_add_asd sk ms v).2.ca.slopes = sk.ca.slopes := by
  simp only [rtt_bin_add_asd]
  split
  · rfl
  · split <;> rfl

theorem slopes_add_asd_sorted (sk : sock) (sl : slopes) (x : Int)
    (h : List.Sorted (fun a b : Int => a ≤ b) sl.values) :
    List.Sorted (fun a b : Int => a ≤ b) (slopes_add_asd sk sl x).2.1.values := by
  simp only [slopes.values, values_sorted_iff] at *
  simp only [slopes_add_asd]
  split
  · exact h
  · split
    · exact h
    · exact add_asd_sorted snode.slope _ _ h

theorem slopes_add_asd_frame (sk : sock) (sl : slopes) (x : Int) :
    (slopes_add_asd sk sl x).2.2 = { sk with mem := (slopes_add_asd sk sl x).2.2.mem } := by
  simp only [slopes_add_asd]
  split
  · rfl
  · split <;> rfl

theorem slopes_add_asd_mul_sorted (sk : sock) (b : slopes)
    (hs : List.Sorted (fun a b : Int => a ≤ b) sk.ca.slopes.values)
    (hb : List.Sorted (fun a b : Int => a ≤ b) b.values) :
    List.Sorted (fun a b : Int => a ≤ b) (slopes_add_asd_mul sk b).2.ca.slopes.values := by
  simp only [slopes.values, values_sorted_iff] at *
  simp only [slopes_add_asd_mul]
  split
  · exact hs
  · split
    · exact hb
    · have h := merge_loop_sorted b.head sk.ca.slopes.head sk.ca.slopes.cnt b.cnt hb hs
      split
      · rename_i he
        have : (slopes_add_asd_mul_loop b.head sk.ca.slopes.head sk.ca.slopes.cnt b.cnt).2.1
            = [] := by simpa using he
        rw [this, List.append_nil] at h
        exact h
      · exact h

theorem slopes_add_asd_mul_bin (sk : sock) (b : slopes) :
    (slopes_add_asd_mul sk b).2.ca.rtt_bin = sk.ca.rtt_bin := by
  rw [slopes_add_asd_mul_frame]

theorem slopes_del_sorted (sk : sock) (node : Option Nat)
    (hs : List.Sorted (fun a b : Int => a ≤ b) sk.ca.slopes.values) :
    List.Sorted (fun a b : Int => a ≤ b) (slopes_del sk node).2.ca.slopes.values := by
  cases node with
  | none => exact hs
  | some a =>
    simp only [slopes.values, values_sorted_iff] at *
    rw [slopes_del_head]
    exact hs.sublist (List.filter_sublist _)

theorem slopes_del_bin (sk : sock) (node : Option Nat) :
    (slopes_del sk node).2.ca.rtt_bin = sk.ca.rtt_bin := by
  cases node with
  | none => rfl
  | some a => rw [slopes_del_frame]

theorem fout_reset_sorted (sk : sock) (fs : List fnode)
    (hs : List.Sorted (fun a b : Int => a ≤ b) sk.ca.slopes.values) :
    List.Sorted (fun a b : Int => a ≤ b) (fout_reset sk fs).2.2.ca.slopes.values := by
  simp only [fout_reset]
  split
  · exact hs
  · simp only [slopes.values, values_sorted_iff] at *
    rw [fout_reset_loop_head]
    exact hs.sublist (List.filter_sublist _)

theorem fout_reset_bin (sk : sock) (fs : List fnode) :
    (fout_reset sk fs).2.2.ca.rtt_bin = sk.ca.rtt_bin := by
  simp only [fout_reset]
  split
  · rfl
  · rw [fout_reset_loop_frame]

theorem list_op_apply_sorted (sk : sock) (op : list_op) (hv : op.valid)
    (hb : List.Sorted (fun a b : Nat => a ≤ b) sk.ca.rtt_bin.values)
    (hs : List.Sorted (fun a b : Int => a ≤ b) sk.ca.slopes.values) :
    List.Sorted (fun a b : Nat => a ≤ b) (op.apply sk).ca.rtt_bin.values
    ∧ List.Sorted (fun a b : Int => a ≤ b) (op.apply sk).ca.slopes.values := by
  cases op with
  | rtt_bin_add_asd ms v =>
    simp only [list_op.apply]
    refine ⟨rtt_bin_add_asd_sorted sk ms v hb, ?_⟩
    rw [rtt_bin_add_asd_slopes]
    exact hs
  | rtt_bin_reset =>
    simp only [list_op.apply, rtt_bin_reset]
    exact ⟨by simp [rtt_bin.values], hs⟩
  | slopes_add_asd x =>
    simp only [list_op.apply]
    refine ⟨?_, slopes_add_asd_sorted sk sk.ca.slopes x hs⟩
    rw [slopes_add_asd_frame]
    exact hb
  | slopes_add_asd_mul b =>
    simp only [list_op.apply]
    refine ⟨?_, slopes_add_asd_mul_sorted sk b hs hv⟩
    rw [slopes_add_asd_mul_bin]
    exact hb
  | slopes_del node =>
    simp only [list_op.apply]
    refine ⟨?_, slopes_del_sorted sk node hs⟩
    rw [slopes_del_bin]
    exact hb
  | fout_reset fs =>
    simp only [list_op.apply]
    refine ⟨?_, fout_reset_sorted sk fs hs⟩
    rw [fout_reset_bin]
    exact hb
  | slopes_reset =>
    simp only [list_op.apply, slopes_reset]
    exact ⟨hb, by simp [slopes.values]⟩

/-- C6 (as stated, refuted): from the empty structures, adding the sample 5 twice and the
slope 7 twice leaves the bin 5, 5 and the store 7, 7, neither of which is strictly
ascending. -/
theorem duplicates_not_strictly_ascending :
    (List.foldl list_op.apply sk_ex
        [list_op.rtt_bin_add_asd 1 5, list_op.rtt_bin_add_asd 1 5,
          list_op.slopes_add_asd 7, list_op.slopes_add_asd 7]).ca.rtt_bin.values = [5, 5]
    ∧ (List.foldl list_op.apply sk_ex
        [list_op.rtt_bin_add_asd 1 5, list_op.rtt_bin_add_asd 1 5,
          list_op.slopes_add_asd 7, list_op.slopes_add_asd 7]).ca.slopes.values = [7, 7]
    ∧ ¬ List.Sorted (fun a b : Nat => a < b) [5, 5]
    ∧ ¬ List.Sorted (fun a b : Int => a < b) [7, 7] := by
  refine ⟨by decide, by decide, by decide, by decide⟩

/-- C6 (amended): after any sequence of insertions (`rtt_bin_add_asd`, `slopes_add_asd`,
`slopes_add_asd_mul` with a list of sorted slopes) and removals (`slopes_del`,
`fout_reset`, the resets) starting from an empty bin and an empty store, whether or not
allocations fail, the rtt bin and the slope store are both in ascending order: every
entry is less than or equal to its successor (equal values are kept). -/
theorem list_ops_sorted (sk : sock) (ops : List list_op)
    (hbin : sk.ca.rtt_bin.head = []) (hstore : sk.ca.slopes.head = [])
    (hv : ∀ op ∈ ops, op.valid) :
    List.Sorted (fun a b : Nat => a ≤ b) (List.foldl list_op.apply sk ops).ca.rtt_bin.values
    ∧ List.Sorted (fun a b : Int => a ≤ b)
        (List.foldl list_op.apply sk ops).ca.slopes.values := by
  have h0 : List.Sorted (fun a b : Nat => a ≤ b) sk.ca.rtt_bin.values
      ∧ List.Sorted (fun a b : Int => a ≤ b) sk.ca.slopes.values := by
    simp [rtt_bin.values, slopes.values, hbin, hstore]
  clear hbin hstore
  induction ops generalizing sk with
  | nil => exact h0
  | cons op rest ih =>
    simp only [List.foldl_cons]
    apply ih
    · intro o ho
      exact hv o (List.mem_cons_of_mem _ ho)
    · exact list_op_apply_sorted sk op (hv op (List.mem_cons_self _ _)) h0.1 h0.2

/-- The amended C6 at a sequence with equal values, a merged list, a failed allocation
and removals. -/
theorem list_ops_sorted_witness :
    List.Sorted (fun a b : Nat => a ≤ b)
        (List.foldl list_op.apply sk_oom
          [list_op.rtt_bin_add_asd 1 9, list_op.rtt_bin_add_asd 1 5, list_op.rtt_bin_add_asd 1 5,
            list_op.slopes_add_asd 7, list_op.slopes_add_asd_mul batch_three,
            list_op.slopes_del (some 4), list_op.fout_reset [{ ptr := 6 }]]).ca.rtt_bin.values
    ∧ List.Sorted (fun a b : Int => a ≤ b)
        (List.foldl list_op.apply sk_oom
          [list_op.rtt_bin_add_asd 1 9, list_op.rtt_bin_add_asd 1 5, list_op.rtt_bin_add_asd 1 5,
            list_op.slopes_add_asd 7, list_op.slopes_add_asd_mul batch_three,
            list_op.slopes_del (some 4), list_op.fout_reset [{ ptr := 6 }]]).ca.slopes.values :=
  list_ops_sorted sk_oom _ (by decide) (by decide) (by
    intro op hop
    simp only [List.mem_cons, List.mem_singleton, List.not_mem_nil, or_false] at hop
    rcases hop with rfl | rfl | rfl | rfl | rfl | rfl | rfl
    · trivial
    · trivial
    · trivial
    · trivial
    · show List.Sorted (fun a b : Int => a ≤ b) batch_three.values
      decide
    · trivial
    · trivial)

/-! ### C7: adding a sample to the bin -/

/-- C7 (as stated, refuted): on the empty bin (in ascending order, `cnt = 0 < 2^32 - 1`),
when `kzalloc` fails, `rtt_bin_add_asd` returns `NO_MEM` and the bin stays empty. -/
theorem rtt_bin_add_asd_no_mem :
    sk_oom.ca.rtt_bin.cnt < 4294967295
    ∧ List.Sorted (fun a b : Nat => a ≤ b) sk_oom.ca.rtt_bin.values
    ∧ (rtt_bin_add_asd sk_oom 1 5).1 = ret.NO_MEM
    ∧ (rtt_bin_add_asd sk_oom 1 5).2.ca.rtt_bin = sk_oom.ca.rtt_bin := by
  refine ⟨by decide, by decide, by decide, by decide⟩

/-- C7 (amended): for a bin in ascending order with `cnt = n < 2^32 - 1` and a value `v`,
when the allocation of the node succeeds, `rtt_bin_add_asd` returns `SUCCESS` and the
bin afterwards is in ascending order, has `cnt = n + 1`, holds the old entries and one
more occurrence of `v` (equal values are kept), and its `snd_time_ms` is the given
millisecond if the bin was empty and the old one otherwise. -/
theorem rtt_bin_add_asd_spec (sk : sock) (snd_time_ms v : Nat)
    (hs : List.Sorted (fun a b : Nat => a ≤ b) sk.ca.rtt_bin.values)
    (hn : sk.ca.rtt_bin.cnt < 4294967295)
    (halloc : (kzalloc sk.mem).1 ≠ none) :
    (rtt_bin_add_asd sk snd_time_ms v).1 = ret.SUCCESS
    ∧ List.Sorted (fun a b : Nat => a ≤ b)
        (rtt_bin_add_asd sk snd_time_ms v).2.ca.rtt_bin.values
    ∧ (rtt_bin_add_asd sk snd_time_ms v).2.ca.rtt_bin.cnt = sk.ca.rtt_bin.cnt + 1
    ∧ List.Perm (rtt_bin_add_asd sk snd_time_ms v).2.ca.rtt_bin.values
        (v :: sk.ca.rtt_bin.values)
    ∧ (rtt_bin_add_asd sk snd_time_ms v).2.ca.rtt_bin.snd_time_ms
        = (if sk.ca.rtt_bin.head = [] then snd_time_ms else sk.ca.rtt_bin.snd_time_ms) := by
  have hsorted := rtt_bin_add_asd_sorted sk snd_time_ms v hs
  have hlt : ¬ (sk.ca.rtt_bin.cnt ≥ MAX_U32) := by simp only [MAX_U32]; omega
  rcases hk : kzalloc sk.mem with ⟨oa, m⟩
  rw [hk] at halloc
  cases oa with
  | none => exact absurd rfl halloc
  | some a =>
    refine ⟨?_, hsorted, ?_, ?_, ?_⟩
    · simp only [rtt_bin_add_asd, hlt, if_false, hk]
    · simp only [rtt_bin_add_asd, hlt, if_false, hk]
      omega
    · simp only [rtt_bin_add_asd, hlt, if_false, hk, rtt_bin.values]
      exact (add_asd_perm rnode.rtt_us { rtt_us := v } sk.ca.rtt_bin.head).map rnode.rtt_us
    · simp only [rtt_bin_add_asd, hlt, if_false, hk]
      cases sk.ca.rtt_bin.head <;> simp

/-- The amended C7 at the bin 10, 20, 30, 40 and the value 20: the bin becomes
10, 20, 20, 30, 40 and keeps its millisecond. -/
theorem rtt_bin_add_asd_spec_witness :
    (rtt_bin_add_asd (sk_with_bin bin_four) 9 20).2.ca.rtt_bin.values = [10, 20, 20, 30, 40]
    ∧ (rtt_bin_add_asd (sk_with_bin bin_four) 9 20).1 = ret.SUCCESS
    ∧ (rtt_bin_add_asd (sk_with_bin bin_four) 9 20).2.ca.rtt_bin.cnt = 4 + 1
    ∧ (rtt_bin_add_asd (sk_with_bin bin_four) 9 20).2.ca.rtt_bin.snd_time_ms = 1 :=
  have h := rtt_bin_add_asd_spec (sk_with_bin bin_four) 9 20 (by decide) (by decide) (by decide)
  ⟨by decide, h.1, h.2.2.1, h.2.2.2.2⟩

/-! ### C8: the sending times of the window -/

theorem same_lists_refl (a : sock) : same_lists a a := ⟨rfl, rfl, rfl, rfl, rfl⟩

theorem same_lists_trans {a b c : sock} (h1 : same_lists a b) (h2 : same_lists b c) :
    same_lists a c :=
  ⟨h1.1.trans h2.1, h1.2.1.trans h2.2.1, h1.2.2.1.trans h2.2.2.1, h1.2.2.2.1.trans h2.2.2.2.1,
    h1.2.2.2.2.trans h2.2.2.2.2⟩

theorem update_pacing_ratio_same (sk : sock) (pr : Nat) :
    same_lists (update_pacing_ratio sk pr) sk := by
  unfold update_pacing_ratio
  split
  · exact ⟨rfl, rfl, rfl, rfl, rfl⟩
  · exact same_lists_refl sk

theorem init_inc_epoch_same (sk : sock) : same_lists (init_inc_epoch sk) sk := by
  unfold init_inc_epoch
  split
  · exact same_lists_refl sk
  · rename_i v hv
    exact ⟨rfl, rfl, rfl, rfl, by simp [hv]⟩

theorem decrease_cwnd_same (P : params) (sk : sock) : same_lists (decrease_cwnd P sk) sk := by
  unfold decrease_cwnd
  split
  · exact same_lists_refl sk
  · rename_i v hv
    exact ⟨rfl, rfl, rfl, rfl, by simp [hv]⟩

theorem same_lists_ite {c : Prop} [Decidable c] {a b sk : sock}
    (ha : same_lists a sk) (hb : same_lists b sk) : same_lists (if c then a else b) sk := by
  split <;> assumption

theorem increase_cwnd_same (P : params) (sk : sock) : same_lists (increase_cwnd P sk) sk := by
  unfold increase_cwnd
  cases hv : sk.ca.vars with
  | none => exact same_lists_refl sk
  | some v =>
    have leaf : ∀ (tp : tcp_sock) (w : vars),
        same_lists { sk with tp := tp, ca.vars := some w } sk := by
      intro tp w
      exact ⟨rfl, rfl, rfl, rfl, by simp [hv]⟩
    dsimp only
    refine same_lists_ite (same_lists_refl _) ?_
    refine same_lists_ite ?_ ?_
    · refine same_lists_ite ?_ (update_pacing_ratio_same sk 100)
      refine same_lists_trans (b := update_pacing_ratio sk 100) ?_
        (update_pacing_ratio_same sk 100)
      have h := (update_pacing_ratio_same sk 100)
      exact ⟨rfl, rfl, rfl, rfl, by rw [h.2.2.2.2, hv]; rfl⟩
    · refine same_lists_ite (same_lists_refl _) ?_
      refine same_lists_ite (same_lists_refl _) ?_
      refine same_lists_ite (leaf _ _) ?_
      refine same_lists_ite (leaf _ _) ?_
      exact same_lists_trans (update_pacing_ratio_same _ _) (leaf _ _)


theorem window_shrinks_of_same {a b : sock} (h : same_lists a b) : window_shrinks a b :=
  ⟨h.1, h.2.2.2.1, h.2.2.2.2, Or.inl (by rw [h.2.1])⟩

theorem window_shrinks_same_left {a b c : sock} (h1 : same_lists a b) (h2 : window_shrinks b c) :
    window_shrinks a c :=
  ⟨h1.1.trans h2.1, h1.2.2.2.1.trans h2.2.1, h1.2.2.2.2.trans h2.2.2.1, by rw [h1.2.1]; exact h2.2.2.2⟩

theorem window_shrinks_same_right {a b c : sock} (h1 : window_shrinks a b) (h2 : same_lists b c) :
    window_shrinks a c :=
  ⟨h1.1.trans h2.1, h1.2.1.trans h2.2.2.2.1, h1.2.2.1.trans h2.2.2.2.2, by rw [← h2.2.1]; exact h1.2.2.2⟩

theorem rtt_sack_deq_shrinks (sk : sock) : window_shrinks (rtt_sack_deq sk) sk := by
  cases hw : sk.ca.rtt_sack.head with
  | nil =>
    have e : rtt_sack_deq sk = sk := by simp only [rtt_sack_deq, hw]
    rw [e]
    exact ⟨rfl, rfl, rfl, Or.inl rfl⟩
  | cons p rest =>
    by_cases hf : p.fanout_head.isEmpty = true
    · have e : rtt_sack_deq sk
          = { sk with
              ca.rtt_sack :=
                { head := rest, cnt := (sk.ca.rtt_sack.cnt + 4294967295) % 4294967296 } } := by
        simp only [rtt_sack_deq, hw, hf, if_true]
      rw [e]
      exact ⟨rfl, rfl, rfl, Or.inr (by rw [hw]; rfl)⟩
    · have e : rtt_sack_deq sk
          = { fout_reset_loop p.fanout_head sk with
              ca.rtt_sack :=
                { head := rest
                  cnt := ((fout_reset_loop p.fanout_head sk).ca.rtt_sack.cnt + 4294967295)
                    % 4294967296 } } := by
        simp only [rtt_sack_deq, hw, hf, if_false, fout_reset, Bool.false_eq_true]
      rw [e]
      refine ⟨?_, ?_, ?_, Or.inr (by rw [hw]; rfl)⟩
      · show (fout_reset_loop p.fanout_head sk).ca.rtt_bin = sk.ca.rtt_bin
        rw [fout_reset_loop_frame]
      · show (fout_reset_loop p.fanout_head sk).mem = sk.mem
        rw [fout_reset_loop_frame]
      · show (fout_reset_loop p.fanout_head sk).ca.vars.isSome = sk.ca.vars.isSome
        rw [fout_reset_loop_frame]

theorem cong_avoid_inc_shrinks (P : params) (sk : sock) :
    window_shrinks (cong_avoid_inc P sk) sk := by
  unfold cong_avoid_inc
  refine window_shrinks_same_left (increase_cwnd_same P _) ?_
  refine window_shrinks_same_right (rtt_sack_deq_shrinks _) ?_
  dsimp only
  split
  · exact same_lists_refl sk
  · exact same_lists_ite (init_inc_epoch_same sk) (same_lists_refl sk)

theorem cong_avoid_dec_same (P : params) (sk : sock) : same_lists (cong_avoid_dec P sk) sk := by
  unfold cong_avoid_dec
  refine same_lists_trans (update_pacing_ratio_same _ _) ?_
  refine same_lists_trans (decrease_cwnd_same P _) ?_
  dsimp only
  split
  · exact same_lists_refl sk
  · rename_i v hv
    exact ⟨rfl, rfl, rfl, rfl, by simp [hv]⟩

theorem cong_avoid_decide_shrinks (P : params) (sk : sock) (reasoning : Bool) (dur : Nat)
    (theil_slope : Int) :
    window_shrinks (cong_avoid_decide P sk reasoning dur theil_slope) sk := by
  unfold cong_avoid_decide
  split
  · split
    · exact cong_avoid_inc_shrinks P sk
    · dsimp only
      split
      · exact window_shrinks_of_same (cong_avoid_dec_same P sk)
      · exact cong_avoid_inc_shrinks P sk
  · exact window_shrinks_of_same (increase_cwnd_same P sk)

theorem window_inv_shrinks {a b : sock} (h : window_shrinks a b) (hb : window_inv b) :
    window_inv a := by
  obtain ⟨h1, h2, h3, h4⟩ := h
  obtain ⟨i1, i2, i3, i4, i5, i6⟩ := hb
  have hsub : List.Sublist a.ca.rtt_sack.head b.ca.rtt_sack.head := by
    rcases h4 with h4 | h4
    · rw [h4]
    · rw [h4]; exact List.tail_sublist _
  have hsubt : List.Sublist a.ca.rtt_sack.times b.ca.rtt_sack.times := hsub.map _
  refine ⟨by rw [h3]; exact i1, by rw [h2]; exact i2, by rw [h1]; exact i3,
    i4.sublist hsubt, ?_, ?_⟩
  · intro t ht
    rw [h1]
    exact i5 t (hsubt.subset ht)
  · intro he
    rw [h1] at he
    have := i6 he
    rw [this] at hsub
    exact List.eq_nil_of_sublist_nil hsub


theorem slopes_add_asd_no_fail (sk : sock) (sl : slopes) (x : Int) (h : sk.mem.no_fail) :
    (slopes_add_asd sk sl x).2.2.mem.no_fail := by
  simp only [slopes_add_asd]
  split
  · exact h
  · have hk := kzalloc_no_fail sk.mem h
    split
    · rename_i e; rw [e] at hk; exact hk.2
    · rename_i e; rw [e] at hk; exact hk.2

theorem fanout_enq_frame (sk : sock) (fh : List fnode) (node : Option Nat) :
    (fanout_enq sk fh node).2.2 = { sk with mem := (fanout_enq sk fh node).2.2.mem } := by
  simp only [fanout_enq]
  split
  · rfl
  · split <;> rfl

theorem fanout_enq_no_fail (sk : sock) (fh : List fnode) (node : Option Nat)
    (h : sk.mem.no_fail) : (fanout_enq sk fh node).2.2.mem.no_fail := by
  simp only [fanout_enq]
  split
  · exact h
  · have hk := kzalloc_no_fail sk.mem h
    split
    · rename_i e; rw [e] at hk; exact hk.2
    · rename_i e; rw [e] at hk; exact hk.2

theorem slopes_gen_loop_frame (stop : pnode) (l : List pnode) (ns : slopes) (sk : sock) :
    ((slopes_gen_loop stop l ns sk).2.1.map pnode.snd_time_ms = l.map pnode.snd_time_ms)
    ∧ (slopes_gen_loop stop l ns sk).2.2.2
        = { sk with mem := (slopes_gen_loop stop l ns sk).2.2.2.mem }
    ∧ (sk.mem.no_fail → (slopes_gen_loop stop l ns sk).2.2.2.mem.no_fail) := by
  induction l generalizing ns sk with
  | nil => exact ⟨rfl, rfl, fun h => h⟩
  | cons p rest ih =>
    simp only [slopes_gen_loop]
    split
    · exact ⟨rfl, rfl, fun h => h⟩
    · split
      · have hf := slopes_add_asd_frame sk ns
          (Int.tdiv (to_s32 ((stop.rtt_us : Int) - (p.rtt_us : Int)))
            (to_s32 ((stop.snd_time_ms : Int) - (p.snd_time_ms : Int))))
        have hn := slopes_add_asd_no_fail sk ns
          (Int.tdiv (to_s32 ((stop.rtt_us : Int) - (p.rtt_us : Int)))
            (to_s32 ((stop.snd_time_ms : Int) - (p.snd_time_ms : Int))))
        split
        · rename_i ns1 sk1 e
          rw [e] at hf hn
          exact ⟨rfl, hf, hn⟩
        · rename_i a ns1 sk1 e
          rw [e] at hf hn
          simp only at hf hn
          have h := ih ns1 (fanout_enq sk1 p.fanout_head (some a)).2.2
          have hfe := fanout_enq_frame sk1 p.fanout_head (some a)
          have hne := fanout_enq_no_fail sk1 p.fanout_head (some a)
          refine ⟨?_, ?_, ?_⟩
          · simp only [List.map_cons, h.1]
          · rw [h.2.1, hfe, hf]
          · intro hnf
            exact h.2.2 (hne (hn hnf))
      · have h := ih ns sk
        refine ⟨?_, h.2.1, h.2.2⟩
        simp only [List.map_cons, h.1]

theorem slopes_gen_frame (sk : sock) (stop : Option pnode) :
    (slopes_gen sk stop).2.ca.rtt_bin = sk.ca.rtt_bin
    ∧ (slopes_gen sk stop).2.ca.vars = sk.ca.vars
    ∧ (slopes_gen sk stop).2.ca.rtt_sack.times = sk.ca.rtt_sack.times
    ∧ (sk.mem.no_fail → (slopes_gen sk stop).2.mem.no_fail) := by
  cases stop with
  | none => exact ⟨rfl, rfl, rfl, fun h => h⟩
  | some st =>
    simp only [slopes_gen]
    split
    · exact ⟨rfl, rfl, rfl, fun h => h⟩
    · have h := slopes_gen_loop_frame st sk.ca.rtt_sack.head { head := [], cnt := 0 } sk
      split
      · refine ⟨?_, ?_, ?_, ?_⟩
        · show (slopes_gen_loop st sk.ca.rtt_sack.head { head := [], cnt := 0 } sk).2.2.2.ca.rtt_bin
            = sk.ca.rtt_bin
          rw [h.2.1]
        · show (slopes_gen_loop st sk.ca.rtt_sack.head { head := [], cnt := 0 } sk).2.2.2.ca.vars
            = sk.ca.vars
          rw [h.2.1]
        · exact h.1
        · exact h.2.2
      · rw [slopes_add_asd_mul_frame]
        refine ⟨?_, ?_, ?_, ?_⟩
        · show (slopes_gen_loop st sk.ca.rtt_sack.head { head := [], cnt := 0 } sk).2.2.2.ca.rtt_bin
            = sk.ca.rtt_bin
          rw [h.2.1]
        · show (slopes_gen_loop st sk.ca.rtt_sack.head { head := [], cnt := 0 } sk).2.2.2.ca.vars
            = sk.ca.vars
          rw [h.2.1]
        · exact h.1
        · exact h.2.2


theorem rtt_bin_add_asd_ok (sk : sock) (ms v : Nat) (hnf : sk.mem.no_fail)
    (hlt : sk.ca.rtt_bin.cnt < MAX_U32) :
    ∃ m : kmem, m.no_fail ∧ (rtt_bin_add_asd sk ms v).2
      = { sk with
          mem := m
          ca.rtt_bin :=
            { head := add_asd rnode.rtt_us { rtt_us := v } sk.ca.rtt_bin.head
              snd_time_ms := if sk.ca.rtt_bin.head.isEmpty then ms else sk.ca.rtt_bin.snd_time_ms
              cnt := sk.ca.rtt_bin.cnt + 1 } } := by
  have hk := kzalloc_no_fail sk.mem hnf
  have hge : ¬ (sk.ca.rtt_bin.cnt ≥ MAX_U32) := by omega
  rcases e : kzalloc sk.mem with ⟨oa, m⟩
  rw [e] at hk
  obtain ⟨h1, h2⟩ := hk
  simp only at h1 h2
  subst h1
  refine ⟨m, h2, ?_⟩
  simp only [rtt_bin_add_asd, hge, if_false, e]
  have e1 : (sk.ca.rtt_bin.cnt + 1) % 4294967296 = sk.ca.rtt_bin.cnt + 1 := by
    simp only [MAX_U32] at hlt; omega
  rw [e1]

theorem rtt_bin_add_asd_full (sk : sock) (ms v : Nat) (hge : sk.ca.rtt_bin.cnt ≥ MAX_U32) :
    (rtt_bin_add_asd sk ms v).2 = sk := by
  simp only [rtt_bin_add_asd, hge, if_true]

theorem rtt_sack_enq_cases (sk : sock) (t r : Nat) (hnf : sk.mem.no_fail) :
    ((rtt_sack_enq sk t r).1 = none ∧ (rtt_sack_enq sk t r).2 = sk)
    ∨ ∃ (m : kmem) (np : pnode), m.no_fail ∧ np.snd_time_ms = t
        ∧ (rtt_sack_enq sk t r).1 = some np
        ∧ (rtt_sack_enq sk t r).2
          = { sk with
              mem := m
              ca.rtt_sack :=
                { head := sk.ca.rtt_sack.head ++ [np]
                  cnt := (sk.ca.rtt_sack.cnt + 1) % 4294967296 } } := by
  by_cases hge : sk.ca.rtt_sack.cnt ≥ MAX_U32
  · left
    simp only [rtt_sack_enq, hge, if_true, and_self]
  · right
    have hk := kzalloc_no_fail sk.mem hnf
    rcases e : kzalloc sk.mem with ⟨oa, m⟩
    rw [e] at hk
    obtain ⟨h1, h2⟩ := hk
    simp only at h1 h2
    subst h1
    refine ⟨m, { addr := sk.mem.brk, snd_time_ms := t, rtt_us := r, fanout_head := [] }, h2, rfl,
      ?_, ?_⟩
    · simp only [rtt_sack_enq, hge, if_false, e]
    · simp only [rtt_sack_enq, hge, if_false, e]

/-- The bin step keeps the invariant and leaves the bin non-empty. -/
theorem cong_avoid_bin_inv (sk : sock) (rtt_us : Int) (ms med_rtt : Nat)
    (hinv : window_inv sk) (hms : sk.ca.rtt_bin.snd_time_ms ≤ ms) :
    window_inv (cong_avoid_bin sk rtt_us ms med_rtt).1 := by
  obtain ⟨i1, i2, i3, i4, i5, i6⟩ := hinv
  unfold cong_avoid_bin
  by_cases hsame : ms = sk.ca.rtt_bin.snd_time_ms
  · rw [if_pos hsame]
    dsimp only
    by_cases hlt : sk.ca.rtt_bin.cnt < MAX_U32
    · obtain ⟨m, hm, e⟩ := rtt_bin_add_asd_ok sk ms (to_u32 rtt_us) i2 hlt
      rw [e]
      refine ⟨i1, hm, ?_, i4, ?_, ?_⟩
      · simp only [add_asd_length]
        omega
      · intro t ht
        have := i5 t ht
        dsimp only
        split
        · omega
        · exact this
      · intro he
        exact absurd he (add_asd_ne_nil _ _ _)
    · rw [rtt_bin_add_asd_full sk ms _ (by omega)]
      exact ⟨i1, i2, i3, i4, i5, i6⟩
  · rw [if_neg hsame]
    have hgt : sk.ca.rtt_bin.snd_time_ms < ms := by omega
    by_cases hemp : sk.ca.rtt_bin.head.isEmpty = true
    · have hnil : sk.ca.rtt_bin.head = [] := by simpa using hemp
      have hw := i6 hnil
      simp only [hemp, not_true_eq_false, if_false]
      have hlt : sk.ca.rtt_bin.cnt < MAX_U32 := by
        rw [i3, hnil]; simp
      obtain ⟨m, hm, e⟩ := rtt_bin_add_asd_ok sk ms (to_u32 rtt_us) i2 hlt
      rw [e]
      refine ⟨i1, hm, ?_, i4, ?_, ?_⟩
      · simp only [add_asd_length]
        omega
      · intro t ht
        simp only [rtt_sack.times, hw, List.map_nil, List.not_mem_nil] at ht
      · intro he
        exact absurd he (add_asd_ne_nil _ _ _)
    · simp only [hemp, not_false_eq_true, if_true]
      -- the bin is closed
      generalize hmed : ((rtt_bin_median sk (some med_rtt)).2).getD med_rtt = med
      have key : ∀ g : sock, g.ca.vars.isSome = true → g.mem.no_fail →
          List.Pairwise (fun a b : Nat => a < b) g.ca.rtt_sack.times →
          (∀ t ∈ g.ca.rtt_sack.times, t < ms) →
          window_inv (rtt_bin_add_asd (rtt_bin_reset g) ms (to_u32 rtt_us)).2 := by
        intro g g1 g2 g4 g5
        obtain ⟨m, hm, e⟩ := rtt_bin_add_asd_ok (rtt_bin_reset g) ms (to_u32 rtt_us) g2
          (by simp [rtt_bin_reset])
        rw [e]
        refine ⟨g1, hm, ?_, g4, ?_, ?_⟩
        · simp [rtt_bin_reset, add_asd]
        · intro t ht
          have := g5 t ht
          simpa [rtt_bin_reset] using this
        · intro he
          exact absurd he (add_asd_ne_nil _ _ _)
      rcases rtt_sack_enq_cases sk sk.ca.rtt_bin.snd_time_ms med i2 with ⟨e1, e2⟩ | ⟨m, np, hm, hnp, e1, e2⟩
      · rw [e1, e2]
        dsimp only
        exact key sk i1 i2 i4 (fun t ht => lt_trans (i5 t ht) hgt)
      · rw [e1, e2]
        dsimp only
        have hf := slopes_gen_frame
          { sk with
            mem := m
            ca.rtt_sack :=
              { head := sk.ca.rtt_sack.head ++ [np]
                cnt := (sk.ca.rtt_sack.cnt + 1) % 4294967296 } } (some np)
        obtain ⟨f1, f2, f3, f4⟩ := hf
        apply key
        · rw [f2]; exact i1
        · exact f4 hm
        · rw [f3]
          simp only [rtt_sack.times, List.map_append, List.map_cons, List.map_nil]
          rw [List.pairwise_append]
          refine ⟨i4, List.pairwise_singleton _ _, ?_⟩
          intro a ha b hb
          simp only [List.mem_singleton] at hb
          rw [hb, hnp]
          exact i5 a ha
        · intro t ht
          rw [f3] at ht
          simp only [rtt_sack.times, List.map_append, List.map_cons, List.map_nil,
            List.mem_append, List.mem_singleton] at ht
          rcases ht with ht | ht
          · exact lt_trans (i5 t ht) hgt
          · rw [ht, hnp]; exact hgt


theorem window_inv_same {a b : sock} (h : same_lists a b) (hb : window_inv b) : window_inv a :=
  window_inv_shrinks (window_shrinks_of_same h) hb

theorem rtt_sack_reset_loop_frame (n : Nat) (sk : sock) :
    (rtt_sack_reset_loop n sk).ca.rtt_bin = sk.ca.rtt_bin
    ∧ (rtt_sack_reset_loop n sk).mem = sk.mem
    ∧ (rtt_sack_reset_loop n sk).ca.vars.isSome = sk.ca.vars.isSome := by
  induction n generalizing sk with
  | zero => exact ⟨rfl, rfl, rfl⟩
  | succ k ih =>
    simp only [rtt_sack_reset_loop]
    split
    · exact ⟨rfl, rfl, rfl⟩
    · have h := ih (rtt_sack_deq sk)
      have d := rtt_sack_deq_shrinks sk
      exact ⟨h.1.trans d.1, h.2.1.trans d.2.1, h.2.2.trans d.2.2.1⟩

theorem reinit_after_dec_inv (sk : sock) (h1 : sk.ca.vars.isSome = true) (h2 : sk.mem.no_fail) :
    window_inv (reinit_after_dec sk)
    ∧ (reinit_after_dec sk).ca.rtt_bin.snd_time_ms = 0 := by
  unfold reinit_after_dec
  have hl := rtt_sack_reset_loop_frame (rtt_bin_reset sk).ca.rtt_sack.head.length (rtt_bin_reset sk)
  have hs := update_pacing_ratio_same
  generalize hg : slopes_reset (rtt_sack_reset (rtt_bin_reset sk)) = g
  have g1 : g.ca.rtt_bin = { head := [], snd_time_ms := 0, cnt := 0 } := by
    rw [← hg]
    show (rtt_sack_reset_loop _ (rtt_bin_reset sk)).ca.rtt_bin = _
    rw [hl.1]; rfl
  have g2 : g.ca.rtt_sack = { head := [], cnt := 0 } := by
    rw [← hg]; rfl
  have g3 : g.mem = sk.mem := by
    rw [← hg]
    show (rtt_sack_reset_loop _ (rtt_bin_reset sk)).mem = _
    rw [hl.2.1]; rfl
  have g4 : g.ca.vars.isSome = true := by
    rw [← hg]
    show (rtt_sack_reset_loop _ (rtt_bin_reset sk)).ca.vars.isSome = _
    rw [hl.2.2]; exact h1
  dsimp only
  have base : ∀ s : sock, s.ca.rtt_bin = { head := [], snd_time_ms := 0, cnt := 0 } →
      s.ca.rtt_sack = { head := [], cnt := 0 } → s.mem = sk.mem → s.ca.vars.isSome = true →
      window_inv s ∧ s.ca.rtt_bin.snd_time_ms = 0 := by
    intro s s1 s2 s3 s4
    refine ⟨⟨s4, by rw [s3]; exact h2, by rw [s1]; rfl, ?_, ?_, ?_⟩, by rw [s1]⟩
    · simp [rtt_sack.times, s2]
    · intro t ht
      simp [rtt_sack.times, s2] at ht
    · intro _
      rw [s2]
  have hu := update_pacing_ratio_same
    (match g.ca.vars with
      | none => g
      | some v =>
        { g with
          ca.vars := some { v with t0 := 0, epoch_min_rtt := MAX_RTT, snd_nxt := 0, t_ulmt := 0 } })
    100
  have hm : same_lists
      (match g.ca.vars with
        | none => g
        | some v =>
          { g with
            ca.vars := some { v with t0 := 0, epoch_min_rtt := MAX_RTT, snd_nxt := 0, t_ulmt := 0 } })
      g := by
    split
    · exact same_lists_refl g
    · rename_i v hv
      exact ⟨rfl, rfl, rfl, rfl, by simp [hv]⟩
  have ht := same_lists_trans hu hm
  exact base _ (ht.1.trans g1) (ht.2.1.trans g2) (ht.2.2.2.1.trans g3) (ht.2.2.2.2.trans g4)

theorem cong_avoid_min_rtt_same (sk : sock) : same_lists (cong_avoid_min_rtt sk) sk := by
  unfold cong_avoid_min_rtt
  split
  · exact same_lists_refl sk
  · rename_i v hv
    split
    · exact ⟨rfl, rfl, rfl, rfl, by simp [hv]⟩
    · exact same_lists_refl sk

theorem tcp_flexis_cong_avoid_inv (P : params) (sk : sock) (ack acked med_rtt : Nat)
    (theil_slope : Int) (h : window_inv sk) :
    window_inv (tcp_flexis_cong_avoid P sk ack acked med_rtt theil_slope) := by
  unfold tcp_flexis_cong_avoid
  split
  · exact h
  · rename_i v hv
    split
    · exact h
    · split
      · exact h
      · rename_i ms hms
        split
        · exact h
        · rename_i hge
          split
          · exact h
          · dsimp only
            refine window_inv_shrinks (cong_avoid_decide_shrinks P _ _ _ _) ?_
            apply cong_avoid_bin_inv
            · refine window_inv_same (cong_avoid_min_rtt_same _) ?_
              split
              · exact (reinit_after_dec_inv sk h.1 h.2.1).1
              · exact h
            · rw [(cong_avoid_min_rtt_same _).1]
              split
              · rw [(reinit_after_dec_inv sk h.1 h.2.1).2]
                exact Nat.zero_le _
              · omega

theorem tcp_flexis_cwnd_event_inv (sk : sock) (ev : tcp_ca_event) (h : window_inv sk) :
    window_inv (tcp_flexis_cwnd_event sk ev) := by
  unfold tcp_flexis_cwnd_event
  split
  · exact h
  · rename_i v hv
    split
    · exact (reinit_after_dec_inv sk h.1 h.2.1).1
    · split
      · exact (reinit_after_dec_inv { sk with tp.snd_cwnd := v.undo_cwnd } h.1 h.2.1).1
      · exact (reinit_after_dec_inv sk h.1 h.2.1).1
    · exact (reinit_after_dec_inv sk h.1 h.2.1).1
    · exact h

theorem tcp_flexis_pkts_acked_inv (sk : sock) (r : Int) (h : window_inv sk) :
    window_inv (tcp_flexis_pkts_acked sk r) := by
  unfold tcp_flexis_pkts_acked
  split
  · exact h
  · rename_i v hv
    have hs : same_lists { sk with ca.vars := some { v with rtt_us := r } } sk :=
      ⟨rfl, rfl, rfl, rfl, by simp [hv]⟩
    exact window_inv_same hs h

theorem step_inv (P : params) (sk : sock) (e : event) (h : window_inv sk) :
    window_inv (step P sk e) := by
  cases e with
  | pkts_acked r => exact tcp_flexis_pkts_acked_inv sk r h
  | cong_avoid tp ack acked med_rtt theil_slope =>
    have hs : same_lists { sk with tp := tp } sk := ⟨rfl, rfl, rfl, rfl, rfl⟩
    exact tcp_flexis_cong_avoid_inv P _ ack acked med_rtt theil_slope (window_inv_same hs h)
  | cwnd_event tp ev =>
    have hs : same_lists { sk with tp := tp } sk := ⟨rfl, rfl, rfl, rfl, rfl⟩
    exact tcp_flexis_cwnd_event_inv _ ev (window_inv_same hs h)

theorem run_inv (P : params) (sk : sock) (evs : List event) (h : window_inv sk) :
    window_inv (run P sk evs) := by
  unfold run
  induction evs generalizing sk with
  | nil => exact h
  | cons e rest ih => exact ih _ (step_inv P sk e h)

theorem tcp_flexis_init_inv (sk0 : sock) (hnf : sk0.mem.no_fail) :
    window_inv (tcp_flexis_init sk0) := by
  have hk := kzalloc_no_fail sk0.mem hnf
  unfold tcp_flexis_init
  rcases e : kzalloc sk0.mem with ⟨oa, m⟩
  rw [e] at hk
  obtain ⟨h1, h2⟩ := hk
  simp only at h1 h2
  subst h1
  dsimp only
  refine window_inv_same (update_pacing_ratio_same _ _) ?_
  refine ⟨rfl, h2, rfl, ?_, ?_, ?_⟩
  · simp [rtt_sack.times]
  · intro t ht
    simp [rtt_sack.times] at ht
  · intro _
    rfl

/-- C8 (as stated, refuted): after a successful `tcp_flexis_init`, samples for the
milliseconds 5, 6 and 7 where the allocation of the sample for 7 fails leave the window
5, 6 with an empty bin; the late sample for the millisecond 3 then opens the bin at 3,
below the newest point 6, and the late sample for 4 closes it into the window 5, 6, 3. -/
theorem late_sample_after_failed_allocation :
    (tcp_flexis_init sk_fresh_oom8).ca.vars.isSome = true
    ∧ (run {} (tcp_flexis_init sk_fresh_oom8) (evs_late.take 5)).ca.rtt_sack.times = [5, 6]
    ∧ (run {} (tcp_flexis_init sk_fresh_oom8) (evs_late.take 5)).ca.rtt_bin.values = [10000]
    ∧ (run {} (tcp_flexis_init sk_fresh_oom8) (evs_late.take 5)).ca.rtt_bin.snd_time_ms = 3
    ∧ (run {} (tcp_flexis_init sk_fresh_oom8) evs_late).ca.rtt_sack.times = [5, 6, 3]
    ∧ ¬ List.Pairwise (fun a b : Nat => a < b)
        (run {} (tcp_flexis_init sk_fresh_oom8) evs_late).ca.rtt_sack.times := by
  refine ⟨by decide, by decide, by decide, by decide, by decide, by decide⟩

/-- C8 (amended): in every state reached from `tcp_flexis_init` through any sequence of
sample, acknowledgment and window events in which no allocation fails, the points of the
window have strictly increasing sending times from oldest to newest, and the
millisecond of the bin is strictly greater than the sending time of every point of the
window, the newest one included (when the bin is empty, so is the window). -/
theorem window_times_increasing (P : params) (sk0 : sock) (evs : List event)
    (hnf : sk0.mem.no_fail) :
    List.Pairwise (fun a b : Nat => a < b) (run P (tcp_flexis_init sk0) evs).ca.rtt_sack.times
    ∧ (∀ p ∈ (run P (tcp_flexis_init sk0) evs).ca.rtt_sack.head,
        p.snd_time_ms < (run P (tcp_flexis_init sk0) evs).ca.rtt_bin.snd_time_ms)
    ∧ ((run P (tcp_flexis_init sk0) evs).ca.rtt_bin.head = [] →
        (run P (tcp_flexis_init sk0) evs).ca.rtt_sack.head = []) := by
  have h := run_inv P _ evs (tcp_flexis_init_inv sk0 hnf)
  obtain ⟨-, -, -, i4, i5, i6⟩ := h
  refine ⟨i4, ?_, i6⟩
  intro p hp
  exact i5 _ (List.mem_map_of_mem _ hp)

/-- The amended C8 at the samples for the milliseconds 5, 6, 7, 3, 4 with no allocation
failing: the late samples are dropped and the window is 5, 6 under the bin of 7. -/
theorem window_times_increasing_witness :
    (run {} (tcp_flexis_init sk_fresh) evs_late).ca.rtt_sack.times = [5, 6]
    ∧ (run {} (tcp_flexis_init sk_fresh) evs_late).ca.rtt_bin.snd_time_ms = 7
    ∧ List.Pairwise (fun a b : Nat => a < b)
        (run {} (tcp_flexis_init sk_fresh) evs_late).ca.rtt_sack.times :=
  ⟨by decide, by decide, (window_times_increasing {} sk_fresh evs_late (by decide)).1⟩

/-! ### C9: the congestion decision -/

theorem update_pacing_ratio_tp (sk : sock) (pr : Nat) :
    (update_pacing_ratio sk pr).tp = sk.tp := by
  unfold update_pacing_ratio
  split <;> rfl

theorem rtt_bin_add_asd_tp (sk : sock) (ms v : Nat) : (rtt_bin_add_asd sk ms v).2.tp = sk.tp := by
  simp only [rtt_bin_add_asd]
  split
  · rfl
  · split <;> rfl

theorem rtt_sack_enq_tp (sk : sock) (t r : Nat) : (rtt_sack_enq sk t r).2.tp = sk.tp := by
  simp only [rtt_sack_enq]
  split
  · rfl
  · split <;> rfl

theorem slopes_gen_tp (sk : sock) (stop : Option pnode) : (slopes_gen sk stop).2.tp = sk.tp := by
  cases stop with
  | none => rfl
  | some st =>
    simp only [slopes_gen]
    split
    · rfl
    · have h := slopes_gen_loop_frame st sk.ca.rtt_sack.head { head := [], cnt := 0 } sk
      split
      · show (slopes_gen_loop st sk.ca.rtt_sack.head { head := [], cnt := 0 } sk).2.2.2.tp = sk.tp
        rw [h.2.1]
      · rw [slopes_add_asd_mul_frame]
        show (slopes_gen_loop st sk.ca.rtt_sack.head { head := [], cnt := 0 } sk).2.2.2.tp = sk.tp
        rw [h.2.1]

theorem rtt_sack_deq_tp (sk : sock) : (rtt_sack_deq sk).tp = sk.tp := by
  cases hw : sk.ca.rtt_sack.head with
  | nil =>
    have e : rtt_sack_deq sk = sk := by simp only [rtt_sack_deq, hw]
    rw [e]
  | cons p rest =>
    by_cases hf : p.fanout_head.isEmpty = true
    · simp only [rtt_sack_deq, hw, hf, if_true]
    · simp only [rtt_sack_deq, hw, hf, if_false, fout_reset, Bool.false_eq_true]
      show (fout_reset_loop p.fanout_head sk).tp = sk.tp
      rw [fout_reset_loop_frame]

theorem rtt_sack_reset_loop_tp (n : Nat) (sk : sock) : (rtt_sack_reset_loop n sk).tp = sk.tp := by
  induction n generalizing sk with
  | zero => rfl
  | succ k ih =>
    simp only [rtt_sack_reset_loop]
    split
    · rfl
    · rw [ih, rtt_sack_deq_tp]

theorem reinit_after_dec_tp (sk : sock) : (reinit_after_dec sk).tp = sk.tp := by
  unfold reinit_after_dec
  dsimp only
  rw [update_pacing_ratio_tp]
  have h : (slopes_reset (rtt_sack_reset (rtt_bin_reset sk))).tp = sk.tp := by
    show (rtt_sack_reset_loop _ (rtt_bin_reset sk)).tp = sk.tp
    rw [rtt_sack_reset_loop_tp]
    rfl
  split
  · exact h
  · exact h

theorem cong_avoid_min_rtt_tp (sk : sock) : (cong_avoid_min_rtt sk).tp = sk.tp := by
  unfold cong_avoid_min_rtt
  split
  · rfl
  · split <;> rfl

theorem cong_avoid_bin_tp (sk : sock) (rtt_us : Int) (ms med_rtt : Nat) :
    (cong_avoid_bin sk rtt_us ms med_rtt).1.tp = sk.tp := by
  unfold cong_avoid_bin
  split
  · exact rtt_bin_add_asd_tp _ _ _
  · split
    · dsimp only
      rw [rtt_bin_add_asd_tp]
      show (match (rtt_sack_enq sk sk.ca.rtt_bin.snd_time_ms _).1 with
        | none => ((rtt_sack_enq sk sk.ca.rtt_bin.snd_time_ms _).2, false)
        | some new_pnode =>
          ((slopes_gen (rtt_sack_enq sk sk.ca.rtt_bin.snd_time_ms _).2 (some new_pnode)).2,
            decide ((slopes_gen (rtt_sack_enq sk sk.ca.rtt_bin.snd_time_ms _).2
              (some new_pnode)).1 = ret.SUCCESS))).1.tp = sk.tp
      split
      · exact rtt_sack_enq_tp _ _ _
      · rw [slopes_gen_tp, rtt_sack_enq_tp]
    · exact rtt_bin_add_asd_tp _ _ _


/-- The flag `reasoning` is set by the bin step exactly when the sample does not belong
to the millisecond of the bin, the bin is not empty (it is closed), `rtt_sack_enq`
returns the new point and `slopes_gen` returns `SUCCESS` for it. -/
theorem cong_avoid_bin_reasoning (sk : sock) (rtt_us : Int) (ms med_rtt : Nat) :
    (cong_avoid_bin sk rtt_us ms med_rtt).2 = true
      ↔ ms ≠ sk.ca.rtt_bin.snd_time_ms ∧ sk.ca.rtt_bin.head ≠ []
        ∧ ∃ new_pnode,
            (rtt_sack_enq sk sk.ca.rtt_bin.snd_time_ms
              (((rtt_bin_median sk (some med_rtt)).2).getD med_rtt)).1 = some new_pnode
            ∧ (slopes_gen
                (rtt_sack_enq sk sk.ca.rtt_bin.snd_time_ms
                  (((rtt_bin_median sk (some med_rtt)).2).getD med_rtt)).2
                (some new_pnode)).1 = ret.SUCCESS := by
  unfold cong_avoid_bin
  by_cases h1 : ms = sk.ca.rtt_bin.snd_time_ms
  · simp [h1]
  · by_cases h2 : sk.ca.rtt_bin.head = []
    · simp [h1, h2]
    · have h3 : sk.ca.rtt_bin.head.isEmpty = false := by
        cases h : sk.ca.rtt_bin.head with
        | nil => exact absurd h h2
        | cons a t => rfl
      simp only [h1, if_false, h3, Bool.false_eq_true, not_false_eq_true, if_true, ne_eq, h2,
        true_and]
      cases he : (rtt_sack_enq sk sk.ca.rtt_bin.snd_time_ms
          (((rtt_bin_median sk (some med_rtt)).2).getD med_rtt)).1 with
      | none => simp
      | some np => simp

/-- The local `dur` is `newest - oldest + 1` ms whenever the newest point of the window
is not older than the oldest one and that value fits 32 bits. -/
theorem cong_avoid_dur_eq (sk : sock) (first last : pnode)
    (hf : sk.ca.rtt_sack.head.head? = some first)
    (hl : sk.ca.rtt_sack.head.getLast? = some last)
    (hle : first.snd_time_ms ≤ last.snd_time_ms)
    (hfit : last.snd_time_ms - first.snd_time_ms + 1 < 4294967296) :
    cong_avoid_dur sk = last.snd_time_ms - first.snd_time_ms + 1 := by
  unfold cong_avoid_dur
  rw [hf, hl]
  simp only
  have e : to_s64 ((last.snd_time_ms : Int) - (first.snd_time_ms : Int) + 1)
      = (last.snd_time_ms : Int) - (first.snd_time_ms : Int) + 1 := by
    unfold to_s64
    split <;> omega
  rw [e]
  unfold to_u32
  omega

/-! ### C10: the gate on `sigma` -/

/-- C10 (the code at the failing input): with `sigma = 2`, `tau = 60`, `theta = 30`, after
the samples for the milliseconds 1 and 61 the sample for 62 closes the bin of 61.  The
slope store then holds one slope (166), fewer than `sigma`, but the window holds two
points, so the gate `rtt_sack.cnt < sigma` is not taken: the slope is compared with
`theta` and the decrease fires.  The guard is set to `snd_nxt = 5000`, the window goes
from 10 to 8, and the oldest point is not evicted. -/
theorem gate_counts_points_not_slopes :
    params_sigma2.sigma = 2
    ∧ (run params_sigma2 (tcp_flexis_init sk_fresh) (evs_two_points.take 4)).ca.rtt_sack.times
        = [1]
    ∧ (run params_sigma2 (tcp_flexis_init sk_fresh) evs_two_points).ca.slopes.values = [166]
    ∧ (run params_sigma2 (tcp_flexis_init sk_fresh) evs_two_points).ca.slopes.cnt = 1
    ∧ (run params_sigma2 (tcp_flexis_init sk_fresh) evs_two_points).ca.rtt_sack.cnt = 2
    ∧ (run params_sigma2 (tcp_flexis_init sk_fresh) evs_two_points).ca.rtt_sack.times = [1, 61]
    ∧ (run params_sigma2 (tcp_flexis_init sk_fresh) evs_two_points).ca.vars
        = some
          { t0 := 0, t_ulmt := 0, r0 := 0, snd_nxt := 5000, undo_cwnd := 8, rtt_us := 20000,
            epoch_min_rtt := 10000 }
    ∧ (tp_sent 62 20000).snd_cwnd = 10
    ∧ (run params_sigma2 (tcp_flexis_init sk_fresh) evs_two_points).tp.snd_cwnd = 8 := by
  refine ⟨by decide, by decide, by decide, by decide, by decide, by decide, by decide,
    by decide, by decide⟩

/-! ### C11: the decrease law -/

/-- The conversion of a non-negative value below `2^64` to `u64` keeps the value. -/
theorem to_u64_of_range (x : Int) (h0 : 0 ≤ x) (h1 : x < 18446744073709551616) :
    to_u64 x = x.toNat := by
  unfold to_u64
  omega

/-- The window computed by `decrease_cwnd` and the copy kept in `undo_cwnd`. -/
theorem decrease_cwnd_eq (P : params) (sk : sock) (v : vars) (hv : sk.ca.vars = some v) :
    (decrease_cwnd P sk).tp.snd_cwnd
        = min sk.tp.snd_cwnd
            (max ((div_u64 ((sk.tp.snd_cwnd * to_u64 P.gamma) % 18446744073709551616) 100)
              % 4294967296) MIN_CWND)
    ∧ (decrease_cwnd P sk).ca.vars
        = some { v with undo_cwnd := (decrease_cwnd P sk).tp.snd_cwnd } := by
  refine ⟨?_, ?_⟩ <;> simp only [decrease_cwnd, hv]

/-- The `u64` product and the `u32` quotient of `decrease_cwnd` are exact when `gamma` is
not negative and the quotient fits 32 bits. -/
theorem decrease_cwnd_exact (c : Nat) (g : Int) (hg : 0 ≤ g)
    (hfit : c * g.toNat / 100 < 4294967296) :
    min c ((max ((div_u64 ((c * to_u64 g) % 18446744073709551616) 100) % 4294967296) MIN_CWND))
      = min c (max (c * g.toNat / 100) MIN_CWND) := by
  rcases Nat.eq_zero_or_pos c with hc | hc
  · subst hc
    simp
  · have h1 : g.toNat ≤ c * g.toNat := Nat.le_mul_of_pos_left _ hc
    have h2 : g < 18446744073709551616 := by omega
    rw [to_u64_of_range g hg h2]
    unfold div_u64
    have h3 : (c * g.toNat) % 18446744073709551616 = c * g.toNat := by omega
    rw [h3]
    have h4 : (c * g.toNat / 100) % 4294967296 = c * g.toNat / 100 := by omega
    rw [h4]

/-- C11 (the code against the claim): with `gamma = -1` the window 100 stays 100, where
the formula `min(cwnd, max(floor(cwnd * gamma / 100), 2))` gives 2; with `gamma = 200`
the window `2^31` drops to 2, where the formula gives `2^31`.  The `int` parameter is
converted to `u64` before the product and the quotient is truncated to 32 bits. -/
theorem decrease_cwnd_gamma_out_of_range :
    (decrease_cwnd (params_gamma (-1)) (sk_cwnd 100)).tp.snd_cwnd = 100
    ∧ min (100 : Int) (max ((100 * (-1)) / 100) 2) = 2
    ∧ (decrease_cwnd (params_gamma 200) (sk_cwnd 2147483648)).tp.snd_cwnd = 2
    ∧ min (2147483648 : Int) (max ((2147483648 * 200) / 100) 2) = 2147483648 := by
  refine ⟨by decide, by decide, by decide, by decide⟩

/-- C11: with `vars` set, `decrease_cwnd` never raises the window, whatever `cwnd` and
`gamma` are, and records the new window as `undo_cwnd`.  When `gamma` is not negative
and `floor(cwnd * gamma / 100)` fits 32 bits, the new window is
`min(cwnd, max(floor(cwnd * gamma / 100), MIN_CWND))` with `MIN_CWND = 2`; this is the
case for every 32-bit window and every `gamma` from 0 to 100. -/
theorem decrease_cwnd_law (P : params) (sk : sock) (v : vars) (hv : sk.ca.vars = some v) :
    (decrease_cwnd P sk).tp.snd_cwnd ≤ sk.tp.snd_cwnd
    ∧ (decrease_cwnd P sk).ca.vars
        = some { v with undo_cwnd := (decrease_cwnd P sk).tp.snd_cwnd }
    ∧ MIN_CWND = 2
    ∧ (0 ≤ P.gamma → sk.tp.snd_cwnd * P.gamma.toNat / 100 < 4294967296 →
        (decrease_cwnd P sk).tp.snd_cwnd
          = min sk.tp.snd_cwnd (max (sk.tp.snd_cwnd * P.gamma.toNat / 100) MIN_CWND))
    ∧ (0 ≤ P.gamma → P.gamma ≤ 100 → sk.tp.snd_cwnd < 4294967296 →
        (decrease_cwnd P sk).tp.snd_cwnd
          = min sk.tp.snd_cwnd (max (sk.tp.snd_cwnd * P.gamma.toNat / 100) MIN_CWND)) := by
  have h := decrease_cwnd_eq P sk v hv
  refine ⟨?_, h.2, rfl, ?_, ?_⟩
  · rw [h.1]
    exact Nat.min_le_left _ _
  · intro hg hfit
    rw [h.1]
    exact decrease_cwnd_exact _ _ hg hfit
  · intro hg hle hc
    rw [h.1]
    apply decrease_cwnd_exact _ _ hg
    have h1 : sk.tp.snd_cwnd * P.gamma.toNat ≤ sk.tp.snd_cwnd * 100 :=
      Nat.mul_le_mul_left _ (by omega)
    omega

/-- C11 at the windows 100 and 2 with `gamma = 85`: the new windows are 85 and 2. -/
theorem decrease_cwnd_law_witness :
    (decrease_cwnd {} (sk_cwnd 100)).tp.snd_cwnd = 85
    ∧ (decrease_cwnd {} (sk_cwnd 100)).ca.vars.map vars.undo_cwnd = some 85
    ∧ (decrease_cwnd {} (sk_cwnd 2)).tp.snd_cwnd = 2 :=
  have h := decrease_cwnd_law {} (sk_cwnd 100) _ (by rfl)
  have k := decrease_cwnd_law {} (sk_cwnd 2) _ (by rfl)
  ⟨(h.2.2.2.1 (by decide) (by decide)).trans (by decide),
    (congrArg (Option.map vars.undo_cwnd) h.2.1).trans (by decide),
    (k.2.2.2.1 (by decide) (by decide)).trans (by decide)⟩

/-! ### C12: acknowledgments at or below the guard -/

/-- C12 (the code against the claim): on a connection whose `snd_nxt` is 0 the decrease
fires (the window goes from 10 to 8) and sets the guard to 0.  The next acknowledgment,
with `ack = 0` and so not above the guard, is processed all the same: its sample is added
to the bin, which grows from one sample to two.  A guard of 0 is no guard to the test
`if (flexis->vars->snd_nxt)`. -/
theorem guard_zero_not_active :
    sk_rising_zero.tp.snd_cwnd = 10
    ∧ (tcp_flexis_cong_avoid {} sk_rising_zero 1 1 0 0).tp.snd_cwnd = 8
    ∧ (tcp_flexis_cong_avoid {} sk_rising_zero 1 1 0 0).ca.vars.map vars.snd_nxt = some 0
    ∧ (tcp_flexis_cong_avoid {} sk_rising_zero 1 1 0 0).ca.rtt_bin.cnt = 1
    ∧ (tcp_flexis_cong_avoid {}
        (tcp_flexis_cong_avoid {} sk_rising_zero 1 1 0 0) 0 1 0 0).ca.rtt_bin.cnt = 2 := by
  refine ⟨by decide, by decide, by decide, by decide, by decide⟩

/-- C12: in every state whose guard `S = vars->snd_nxt` is not 0, an acknowledgment with
`ack <= S` leaves the whole socket as it is: the bin, the window, the slope store, all of
`vars` (`t0`, `r0`, `t_ulmt`, `epoch_min_rtt`, the guard, `undo_cwnd`), the window `cwnd`
and the pacing ratios; the driver returns before the bin step and before any decision. -/
theorem guard_suppresses (P : params) (sk : sock) (v : vars)
    (ack acked med_rtt : Nat) (theil_slope : Int)
    (hv : sk.ca.vars = some v) (hS : v.snd_nxt ≠ 0) (hack : ack ≤ v.snd_nxt) :
    tcp_flexis_cong_avoid P sk ack acked med_rtt theil_slope = sk := by
  unfold tcp_flexis_cong_avoid
  simp only [hv]
  split
  · rfl
  · split
    · rfl
    · split
      · rfl
      · rw [if_pos ⟨hS, hack⟩]

/-- C12 at the socket `sk_guarded`, whose guard is 5000: the sample of 15000 us is fresh
(it belongs to the millisecond 62 of the open bin), and the acknowledgment with
`ack = 5000` changes nothing. -/
theorem guard_suppresses_witness :
    sk_guarded.ca.vars.map vars.snd_nxt = some 5000
    ∧ cong_avoid_snd_time_ms sk_guarded
        { t0 := 0, t_ulmt := 0, r0 := 0, snd_nxt := 5000, undo_cwnd := 8, rtt_us := 15000,
          epoch_min_rtt := 10000 } = some 62
    ∧ sk_guarded.ca.rtt_bin.snd_time_ms = 62
    ∧ tcp_flexis_cong_avoid {} sk_guarded 5000 1 0 0 = sk_guarded :=
  ⟨by decide, by decide, by decide,
    guard_suppresses {} sk_guarded
      { t0 := 0, t_ulmt := 0, r0 := 0, snd_nxt := 5000, undo_cwnd := 8, rtt_us := 15000,
        epoch_min_rtt := 10000 }
      5000 1 0 0 (by decide) (by decide) (by decide)⟩

/-! ### C13: the state on return from the decrease -/

theorem rtt_bin_add_asd_sack (sk : sock) (ms v : Nat) :
    (rtt_bin_add_asd sk ms v).2.ca.rtt_sack = sk.ca.rtt_sack := by
  unfold rtt_bin_add_asd
  split
  · rfl
  · split <;> rfl

theorem rtt_sack_enq_some (sk : sock) (t r : Nat) (np : pnode)
    (h : (rtt_sack_enq sk t r).1 = some np) :
    (rtt_sack_enq sk t r).2.ca.rtt_sack.head = sk.ca.rtt_sack.head ++ [np] := by
  unfold rtt_sack_enq at h ⊢
  split at h
  · exact absurd h (by simp)
  · rename_i hge
    rw [if_neg hge]
    rcases hk : kzalloc sk.mem with ⟨oa, m⟩
    rw [hk] at h
    cases oa with
    | none => exact absurd h (by simp)
    | some a =>
      simp only [Option.some.injEq] at h
      simp only [h]

/-- When the bin step sets the flag `reasoning`, the window it leaves is not empty: it
ends with the point just added. -/
theorem cong_avoid_bin_window_ne (sk : sock) (rtt_us : Int) (ms med_rtt : Nat)
    (h : (cong_avoid_bin sk rtt_us ms med_rtt).2 = true) :
    (cong_avoid_bin sk rtt_us ms med_rtt).1.ca.rtt_sack.head ≠ [] := by
  obtain ⟨h1, h2, np, h3, h4⟩ := (cong_avoid_bin_reasoning sk rtt_us ms med_rtt).1 h
  have h5 : sk.ca.rtt_bin.head.isEmpty = false := by
    cases hh : sk.ca.rtt_bin.head with
    | nil => exact absurd hh h2
    | cons a t => rfl
  have hs := rtt_sack_enq_some sk _ _ np h3
  have hg := (slopes_gen_frame
    (rtt_sack_enq sk sk.ca.rtt_bin.snd_time_ms
      (((rtt_bin_median sk (some med_rtt)).2).getD med_rtt)).2 (some np)).2.2.1
  unfold cong_avoid_bin
  simp only [h1, if_false, h5, Bool.false_eq_true, not_false_eq_true, if_true, h3]
  rw [rtt_bin_add_asd_sack]
  show (slopes_gen _ (some np)).2.ca.rtt_sack.head ≠ []
  intro he
  have : (slopes_gen
    (rtt_sack_enq sk sk.ca.rtt_bin.snd_time_ms
      (((rtt_bin_median sk (some med_rtt)).2).getD med_rtt)).2 (some np)).2.ca.rtt_sack.times
      = [] := by
    simp only [rtt_sack.times, he, List.map_nil]
  rw [hg] at this
  simp only [rtt_sack.times, hs, List.map_append, List.map_cons, List.map_nil,
    List.append_eq_nil, List.cons_ne_self, and_false, reduceCtorEq] at this

/-- The driver past its entry checks: the guard step, the minimum rtt, the bin step and
the decision. -/
theorem tcp_flexis_cong_avoid_entry (P : params) (sk : sock) (v : vars)
    (ack acked med_rtt ms : Nat) (theil_slope : Int)
    (hv : sk.ca.vars = some v) (hrtt : v.rtt_us ≠ -1)
    (hms : cong_avoid_snd_time_ms sk v = some ms)
    (hfresh : ¬ ms < sk.ca.rtt_bin.snd_time_ms)
    (hguard : ¬ (v.snd_nxt ≠ 0 ∧ ack ≤ v.snd_nxt)) :
    tcp_flexis_cong_avoid P sk ack acked med_rtt theil_slope
      = cong_avoid_decide P
          (cong_avoid_bin
            (cong_avoid_min_rtt (if v.snd_nxt ≠ 0 then reinit_after_dec sk else sk))
            v.rtt_us ms med_rtt).1
          (cong_avoid_bin
            (cong_avoid_min_rtt (if v.snd_nxt ≠ 0 then reinit_after_dec sk else sk))
            v.rtt_us ms med_rtt).2
          (cong_avoid_dur
            (cong_avoid_bin
              (cong_avoid_min_rtt (if v.snd_nxt ≠ 0 then reinit_after_dec sk else sk))
              v.rtt_us ms med_rtt).1)
          theil_slope := by
  unfold tcp_flexis_cong_avoid
  simp only [hv, hrtt, hms, hfresh, hguard, if_false]

/-- The decision with the flag set, `dur >= tau`, the gate not taken and a median not
below `theta`: the decrease branch. -/
theorem cong_avoid_decide_dec (P : params) (sk3 : sock) (theil_slope m : Int)
    (hdur : cong_avoid_dur sk3 ≥ to_u32 P.tau)
    (hgate : ¬ sk3.ca.rtt_sack.cnt < to_u32 P.sigma)
    (hmed : slopes_median sk3 1 sk3.ca.slopes.cnt (some theil_slope) = (ret.SUCCESS, some m))
    (hge : m ≥ P.theta) :
    cong_avoid_decide P sk3 true (cong_avoid_dur sk3) theil_slope = cong_avoid_dec P sk3 := by
  unfold cong_avoid_decide
  rw [if_pos ⟨rfl, hdur⟩, if_neg hgate]
  simp only [hmed, Option.getD_some]
  rw [if_pos hge]

/-- A median written with `SUCCESS` comes from a store that is not empty. -/
theorem slopes_median_success_ne (sk : sock) (s e : Nat) (old m : Int)
    (h : slopes_median sk s e (some old) = (ret.SUCCESS, some m)) :
    sk.ca.slopes.head ≠ [] := by
  intro he
  unfold slopes_median at h
  simp only [he, List.isEmpty_nil, if_true] at h
  split at h <;> simp at h

/-- C13 (the code against the claim): as the sample for the millisecond 62 closes the bin
of 61 on the window 1, 30, 61 ms, the decrease fires: the window goes from 10 to 8, the
guard becomes 5000 and the pacing ratios are 100.  On return the bin holds the sample
just added, the observation window still holds its three points, the slope store its
three slopes, and the minimum rtt of the epoch is 10000, not `MAX_RTT`: nothing of the
trend-tracking state has been cleared. -/
theorem decrease_keeps_trend_state :
    sk_rising.tp.snd_cwnd = 10
    ∧ (tcp_flexis_cong_avoid {} sk_rising 1 1 0 0).tp.snd_cwnd = 8
    ∧ (tcp_flexis_cong_avoid {} sk_rising 1 1 0 0).ca.vars.map vars.snd_nxt = some 5000
    ∧ (tcp_flexis_cong_avoid {} sk_rising 1 1 0 0).sysctl_tcp_pacing_ss_ratio = 100
    ∧ (tcp_flexis_cong_avoid {} sk_rising 1 1 0 0).ca.rtt_bin.values = [15000]
    ∧ (tcp_flexis_cong_avoid {} sk_rising 1 1 0 0).ca.rtt_bin.cnt = 1
    ∧ (tcp_flexis_cong_avoid {} sk_rising 1 1 0 0).ca.rtt_sack.times = [1, 30, 61]
    ∧ (tcp_flexis_cong_avoid {} sk_rising 1 1 0 0).ca.rtt_sack.cnt = 3
    ∧ (tcp_flexis_cong_avoid {} sk_rising 1 1 0 0).ca.slopes.values = [64, 66, 68]
    ∧ (tcp_flexis_cong_avoid {} sk_rising 1 1 0 0).ca.slopes.cnt = 3
    ∧ (tcp_flexis_cong_avoid {} sk_rising 1 1 0 0).ca.vars.map vars.epoch_min_rtt
        = some 10000
    ∧ MAX_RTT = 4294967295 := by
  refine ⟨by decide, by decide, by decide, by decide, by decide, by decide, by decide,
    by decide, by decide, by decide, by decide, by decide⟩

/-- C13: on an acknowledgment event that passes the entry checks, let `sk3` be the socket
after the bin step with the flag `reasoning` set, with `dur >= tau`, the gate on `sigma`
not taken and the median `m` of the slope store not below `theta`, so that the decrease
is applied.  On return both pacing ratios are 100, the guard holds the connection's
`snd_nxt` and `undo_cwnd` the decreased window; every other field of `vars` (`t0`,
`t_ulmt`, `epoch_min_rtt`, `r0`, the last sample) is as the bin step left it in `w`.
The bin, the observation window and the slope store are those of `sk3`: nothing is
cleared, and the window and the store are not empty. -/
theorem cong_avoid_decrease_state (P : params) (sk sk3 : sock) (v w : vars)
    (ack acked med_rtt ms : Nat) (theil_slope m : Int)
    (hv : sk.ca.vars = some v) (hrtt : v.rtt_us ≠ -1)
    (hms : cong_avoid_snd_time_ms sk v = some ms)
    (hfresh : ¬ ms < sk.ca.rtt_bin.snd_time_ms)
    (hguard : ¬ (v.snd_nxt ≠ 0 ∧ ack ≤ v.snd_nxt))
    (hbin : cong_avoid_bin
        (cong_avoid_min_rtt (if v.snd_nxt ≠ 0 then reinit_after_dec sk else sk))
        v.rtt_us ms med_rtt = (sk3, true))
    (hw : sk3.ca.vars = some w)
    (hdur : cong_avoid_dur sk3 ≥ to_u32 P.tau)
    (hgate : ¬ sk3.ca.rtt_sack.cnt < to_u32 P.sigma)
    (hmed : slopes_median sk3 1 sk3.ca.slopes.cnt (some theil_slope) = (ret.SUCCESS, some m))
    (hge : m ≥ P.theta) :
    (tcp_flexis_cong_avoid P sk ack acked med_rtt theil_slope).sysctl_tcp_pacing_ss_ratio = 100
    ∧ (tcp_flexis_cong_avoid P sk ack acked med_rtt theil_slope).sysctl_tcp_pacing_ca_ratio = 100
    ∧ (tcp_flexis_cong_avoid P sk ack acked med_rtt theil_slope).ca.vars
        = some { w with
            snd_nxt := sk.tp.snd_nxt
            undo_cwnd := (tcp_flexis_cong_avoid P sk ack acked med_rtt theil_slope).tp.snd_cwnd }
    ∧ (tcp_flexis_cong_avoid P sk ack acked med_rtt theil_slope).ca.rtt_bin = sk3.ca.rtt_bin
    ∧ (tcp_flexis_cong_avoid P sk ack acked med_rtt theil_slope).ca.rtt_sack = sk3.ca.rtt_sack
    ∧ (tcp_flexis_cong_avoid P sk ack acked med_rtt theil_slope).ca.rtt_sack.head ≠ []
    ∧ (tcp_flexis_cong_avoid P sk ack acked med_rtt theil_slope).ca.slopes = sk3.ca.slopes
    ∧ (tcp_flexis_cong_avoid P sk ack acked med_rtt theil_slope).ca.slopes.head ≠ [] := by
  have htp : sk3.tp = sk.tp := by
    have h := cong_avoid_bin_tp
      (cong_avoid_min_rtt (if v.snd_nxt ≠ 0 then reinit_after_dec sk else sk)) v.rtt_us ms med_rtt
    rw [hbin, cong_avoid_min_rtt_tp] at h
    rw [h]
    split
    · exact reinit_after_dec_tp sk
    · rfl
  have hwin : sk3.ca.rtt_sack.head ≠ [] := by
    have h := cong_avoid_bin_window_ne
      (cong_avoid_min_rtt (if v.snd_nxt ≠ 0 then reinit_after_dec sk else sk)) v.rtt_us ms med_rtt
    rw [hbin] at h
    exact h rfl
  have hstore : sk3.ca.slopes.head ≠ [] := slopes_median_success_ne sk3 _ _ _ _ hmed
  have e : tcp_flexis_cong_avoid P sk ack acked med_rtt theil_slope
      = update_pacing_ratio
          (decrease_cwnd P { sk3 with ca.vars := some { w with snd_nxt := sk.tp.snd_nxt } })
          100 := by
    rw [tcp_flexis_cong_avoid_entry P sk v ack acked med_rtt ms theil_slope hv hrtt hms hfresh
      hguard, hbin]
    show cong_avoid_decide P sk3 true (cong_avoid_dur sk3) theil_slope = _
    rw [cong_avoid_decide_dec P sk3 theil_slope m hdur hgate hmed hge]
    unfold cong_avoid_dec
    simp only [hw, htp]
  rw [e]
  refine ⟨?_, ?_, ?_, ?_, ?_, ?_, ?_, ?_⟩
  · simp only [update_pacing_ratio]; rfl
  · simp only [update_pacing_ratio]; rfl
  · simp only [update_pacing_ratio, decrease_cwnd]; rfl
  · simp only [update_pacing_ratio, decrease_cwnd]; rfl
  · simp only [update_pacing_ratio, decrease_cwnd]; rfl
  · simp only [update_pacing_ratio, decrease_cwnd]; exact hwin
  · simp only [update_pacing_ratio, decrease_cwnd]; rfl
  · simp only [update_pacing_ratio, decrease_cwnd]; exact hstore

/-- C13 at the socket `sk_rising` with a running epoch (`t0 = 500`, `t_ulmt = 700`): the
decrease leaves `t0`, `t_ulmt` and the minimum rtt 10000 of the epoch as they are, and
the window keeps its three points. -/
theorem cong_avoid_decrease_state_witness :
    (tcp_flexis_cong_avoid {} sk_rising_epoch 1 1 0 0).ca.vars
        = some
          { t0 := 500, t_ulmt := 700, r0 := 0, snd_nxt := 5000, undo_cwnd := 8,
            rtt_us := 15000, epoch_min_rtt := 10000 }
    ∧ (tcp_flexis_cong_avoid {} sk_rising_epoch 1 1 0 0).sysctl_tcp_pacing_ca_ratio = 100
    ∧ (tcp_flexis_cong_avoid {} sk_rising_epoch 1 1 0 0).ca.rtt_sack.times = [1, 30, 61] :=
  have h := cong_avoid_decrease_state {} sk_rising_epoch
    (cong_avoid_bin (cong_avoid_min_rtt sk_rising_epoch) 15000 62 0).1
    { t0 := 500, t_ulmt := 700, r0 := 0, snd_nxt := 0, undo_cwnd := 10, rtt_us := 15000,
      epoch_min_rtt := 10000 }
    { t0 := 500, t_ulmt := 700, r0 := 0, snd_nxt := 0, undo_cwnd := 10, rtt_us := 15000,
      epoch_min_rtt := 10000 }
    1 1 0 62 0 66
    (by decide) (by decide) (by decide) (by decide) (by decide) (by decide) (by decide)
    (by decide) (by decide) (by decide) (by decide)
  ⟨h.2.2.1.trans (by decide), h.2.1, (congrArg rtt_sack.times h.2.2.2.2.1).trans (by decide)⟩

/-! ### C14 to C17: `increase_cwnd` -/

/-- The function `increase_cwnd` is its four entry checks followed by the shift of `t0`
(`increase_cwnd_shift`) and the growth step (`increase_cwnd_grow`). -/
theorem increase_cwnd_eq (P : params) (sk : sock) :
    increase_cwnd P sk
      = match sk.ca.vars with
        | none => sk
        | some v =>
          if v.t0 = 0 then sk
          else if ¬ is_cwnd_limited sk then
            if v.t_ulmt = 0 then
              { update_pacing_ratio sk 100 with
                ca.vars := some { v with t_ulmt := sk.tp.tcp_mstamp } }
            else update_pacing_ratio sk 100
          else if P.alpha = 0 ∨ P.beta = 0 then sk
          else if sk.tp.srtt_us / 8 = 0 then sk
          else increase_cwnd_grow P sk (increase_cwnd_shift sk v) := by
  rfl

theorem update_pacing_ratio_ca (sk : sock) (pr : Nat) :
    (update_pacing_ratio sk pr).ca = sk.ca := by
  unfold update_pacing_ratio
  split <;> rfl

theorem update_pacing_ratio_set (sk : sock) (pr : Nat) (h : pr ≠ 0) :
    (update_pacing_ratio sk pr).sysctl_tcp_pacing_ss_ratio = to_s32 pr
    ∧ (update_pacing_ratio sk pr).sysctl_tcp_pacing_ca_ratio = to_s32 pr := by
  unfold update_pacing_ratio
  rw [if_pos h]
  constructor <;> simp only

/-- The branch of `increase_cwnd` for a connection that is not window-limited. -/
theorem increase_cwnd_unlimited (P : params) (sk : sock) (v : vars)
    (hv : sk.ca.vars = some v) (ht0 : v.t0 ≠ 0) (hlim : is_cwnd_limited sk = false) :
    increase_cwnd P sk
      = if v.t_ulmt = 0 then
          { update_pacing_ratio sk 100 with
            ca.vars := some { v with t_ulmt := sk.tp.tcp_mstamp } }
        else update_pacing_ratio sk 100 := by
  rw [increase_cwnd_eq]
  simp only [hv, ht0, hlim, if_false, Bool.false_eq_true, not_false_eq_true, if_true]

/-- Past its entry checks `increase_cwnd` is the shift of `t0` followed by the growth
step. -/
theorem increase_cwnd_limited (P : params) (sk : sock) (v : vars)
    (hv : sk.ca.vars = some v) (ht0 : v.t0 ≠ 0) (hlim : is_cwnd_limited sk = true)
    (ha : P.alpha ≠ 0) (hb : P.beta ≠ 0) (hsrtt : sk.tp.srtt_us / 8 ≠ 0) :
    increase_cwnd P sk = increase_cwnd_grow P sk (increase_cwnd_shift sk v) := by
  rw [increase_cwnd_eq]
  simp only [hv, ht0, hlim, ha, hb, hsrtt, if_false, not_true_eq_false, or_self]

/-- The growth step writes `vars` back with at most `undo_cwnd` changed, and leaves the
bin, the window and the slope store alone. -/
theorem increase_cwnd_grow_vars (P : params) (sk : sock) (v1 : vars) :
    (∃ u : Nat, (increase_cwnd_grow P sk v1).ca.vars = some { v1 with undo_cwnd := u })
    ∧ (increase_cwnd_grow P sk v1).ca.rtt_bin = sk.ca.rtt_bin
    ∧ (increase_cwnd_grow P sk v1).ca.rtt_sack = sk.ca.rtt_sack
    ∧ (increase_cwnd_grow P sk v1).ca.slopes = sk.ca.slopes := by
  unfold increase_cwnd_grow
  dsimp only
  split
  · exact ⟨⟨v1.undo_cwnd, rfl⟩, rfl, rfl, rfl⟩
  · split
    · exact ⟨⟨v1.undo_cwnd, rfl⟩, rfl, rfl, rfl⟩
    · rw [update_pacing_ratio_ca]
      exact ⟨⟨_, rfl⟩, rfl, rfl, rfl⟩

/-- The growth step past its two checks, with the locals `t1`, `r1`, `r2` and the rtt
estimate named. -/
theorem increase_cwnd_grow_eq (P : params) (sk : sock) (v1 : vars)
    (t1 : Int) (r1 rtt r2 : Nat)
    (ht1 : t1 = to_s64 ((sk.tp.tcp_mstamp : Int) - (v1.t0 : Int))) (hpos : 0 ≤ t1)
    (hr1 : r1 = rate P t1 v1.r0) (hne : r1 ≠ 0)
    (hrtt : rtt = if v1.epoch_min_rtt ≠ 0 then v1.epoch_min_rtt else sk.tp.srtt_us / 8)
    (hr2 : r2 = rate P (to_s64 (t1 + (rtt : Int))) v1.r0) :
    increase_cwnd_grow P sk v1
      = update_pacing_ratio
          { sk with
            tp.snd_cwnd := max sk.tp.snd_cwnd
              (min ((div_u64 ((r1 * rtt) % 18446744073709551616) USEC_PER_SEC) % 4294967296)
                sk.tp.snd_cwnd_clamp)
            ca.vars := some
              { v1 with
                undo_cwnd := max sk.tp.snd_cwnd
                  (min ((div_u64 ((r1 * rtt) % 18446744073709551616) USEC_PER_SEC)
                    % 4294967296) sk.tp.snd_cwnd_clamp) } }
          (if ((r2 * 100) % 18446744073709551616) % r1 ≠ 0 then
            ((((r2 * 100) % 18446744073709551616) / r1) % 4294967296 + 1) % 4294967296
          else (((r2 * 100) % 18446744073709551616) / r1) % 4294967296) := by
  subst hr2 hrtt hr1 ht1
  unfold increase_cwnd_grow
  dsimp only
  rw [if_neg (not_lt.mpr hpos), if_neg hne]

theorem to_u64_natCast (x : Nat) (h : x < 18446744073709551616) : to_u64 (x : Int) = x := by
  unfold to_u64
  omega

/-- The rate law without wrap: for an elapsed time `t1 >= 0` in us and positive `alpha`
and `beta`, with `t = t1 / 1000` the elapsed time in ms, the `u64` value computed by
`rate` is `(t / alpha)^3 + t / beta + r0` whenever that sum fits 64 bits. -/
theorem rate_exact (P : params) (t1 : Int) (r0 : Nat) (hpos : 0 ≤ t1)
    (ha : 0 < P.alpha) (hb : 0 < P.beta)
    (hfit : (t1.toNat / 1000 / P.alpha.toNat) ^ 3 + t1.toNat / 1000 / P.beta.toNat + r0
      < 18446744073709551616) :
    rate P t1 r0
      = (t1.toNat / 1000 / P.alpha.toNat) ^ 3 + t1.toNat / 1000 / P.beta.toNat + r0 := by
  obtain ⟨n, rfl⟩ := Int.eq_ofNat_of_zero_le hpos
  obtain ⟨a, ha1⟩ := Int.eq_ofNat_of_zero_le (le_of_lt ha)
  obtain ⟨b, hb1⟩ := Int.eq_ofNat_of_zero_le (le_of_lt hb)
  have hA : P.alpha.toNat = a := by omega
  have hB : P.beta.toNat = b := by omega
  unfold rate
  rw [ha1, hb1]
  simp only [Int.toNat_ofNat, hA, hB] at hfit ⊢
  have e1 : Int.tdiv (Int.tdiv (n : Int) ((USEC_PER_MSEC : Nat) : Int)) (a : Int)
      = ((n / 1000 / a : Nat) : Int) := by
    rw [Int.ofNat_tdiv, Int.ofNat_tdiv]
  have e2 : Int.tdiv (Int.tdiv (n : Int) ((USEC_PER_MSEC : Nat) : Int)) (b : Int)
      = ((n / 1000 / b : Nat) : Int) := by
    rw [Int.ofNat_tdiv, Int.ofNat_tdiv]
  rw [e1, e2]
  generalize n / 1000 / a = x at hfit ⊢
  generalize n / 1000 / b = y at hfit ⊢
  have hcube : x ≤ x ^ 3 := by
    rcases Nat.eq_zero_or_pos x with h | h
    · rw [h]; simp
    · exact Nat.le_self_pow (by decide) _
  rw [to_u64_natCast x (by omega), to_u64_natCast y (by omega)]
  unfold int_pow
  rw [Nat.mod_eq_of_lt (show x ^ 3 < 18446744073709551616 by omega), Nat.mod_eq_of_lt hfit]

theorem increase_cwnd_shift_fields (sk : sock) (v : vars) :
    (increase_cwnd_shift sk v).r0 = v.r0
    ∧ (increase_cwnd_shift sk v).epoch_min_rtt = v.epoch_min_rtt
    ∧ (increase_cwnd_shift sk v).undo_cwnd = v.undo_cwnd
    ∧ (increase_cwnd_shift sk v).snd_nxt = v.snd_nxt
    ∧ (increase_cwnd_shift sk v).rtt_us = v.rtt_us
    ∧ (v.t_ulmt = 0 → increase_cwnd_shift sk v = v) := by
  unfold increase_cwnd_shift
  dsimp only
  split
  · refine ⟨rfl, rfl, rfl, rfl, rfl, ?_⟩
    intro h
    rename_i h1
    exact absurd h h1
  · exact ⟨rfl, rfl, rfl, rfl, rfl, fun _ => rfl⟩

/-- C14 (the code against the claim): 1 ms into an epoch that started at the rate 0, with
`alpha = 100` and `beta = 10`, the rate `r1` is 0 and `increase_cwnd` returns at its
check `if (!r1)`: the window stays 10 and `undo_cwnd` stays 7, it is not set to the
window.  And 200 s into an epoch with a minimum rtt of 1 s the rate is 8000020010 packets
per second; the target `r1 * rtt / 1000000 = 8000020010` is cut to 32 bits by `min_t(u32,
...)` before the comparison with the clamp `2^32 - 1`, so the window becomes 3705052714
and not the clamp. -/
theorem increase_cwnd_zero_rate_and_truncation :
    rate {} 1000 0 = 0
    ∧ (sk_epoch 2000 1000 0 0 7 10000).tp.snd_cwnd = 10
    ∧ (increase_cwnd {} (sk_epoch 2000 1000 0 0 7 10000)).tp.snd_cwnd = 10
    ∧ (increase_cwnd {} (sk_epoch 2000 1000 0 0 7 10000)).ca.vars.map vars.undo_cwnd = some 7
    ∧ rate {} 200000000 10 = 8000020010
    ∧ max 10 (min (8000020010 * 1000000 / 1000000) 4294967295) = 4294967295
    ∧ (increase_cwnd {} sk_long_epoch).tp.snd_cwnd = 3705052714 := by
  refine ⟨by decide, by decide, by decide, by decide, by decide, by decide, by decide⟩

/-- C14: let `increase_cwnd` run with the epoch started (`t0 != 0`), the connection
window-limited, `alpha` and `beta` positive and the smoothed rtt `srtt_us >> 3` not 0;
let `t1 = now - t0 >= 0` be the elapsed time in us, `t0` taken after the shift by a
pending unlimited interval (there is no shift when `t_ulmt = 0`), `t = t1 / 1000` the
elapsed time in ms and `r1 = (t / alpha)^3 + t / beta + r0` with integer divisions.  If
`r1` is not 0 and the target `floor(r1 * rtt / 1000000)` fits 32 bits, where `rtt` is the
minimum rtt of the epoch if that is not 0 and the smoothed rtt otherwise, then the new
window is `max(cwnd, min(floor(r1 * rtt / 1000000), snd_cwnd_clamp))` and `undo_cwnd`
is set to the new window. -/
theorem increase_cwnd_growth (P : params) (sk : sock) (v : vars) (t1 : Int) (t r1 rtt : Nat)
    (hv : sk.ca.vars = some v) (ht0 : v.t0 ≠ 0) (hlim : is_cwnd_limited sk = true)
    (ha : 0 < P.alpha) (hb : 0 < P.beta) (hsrtt : sk.tp.srtt_us / 8 ≠ 0)
    (ht1 : t1 = to_s64 ((sk.tp.tcp_mstamp : Int) - ((increase_cwnd_shift sk v).t0 : Int)))
    (hpos : 0 ≤ t1)
    (ht : t = t1.toNat / 1000)
    (hr1 : r1 = (t / P.alpha.toNat) ^ 3 + t / P.beta.toNat + v.r0)
    (hrtt : rtt = if v.epoch_min_rtt ≠ 0 then v.epoch_min_rtt else sk.tp.srtt_us / 8)
    (hne : r1 ≠ 0)
    (hfit : r1 * rtt / 1000000 < 4294967296) :
    (increase_cwnd P sk).tp.snd_cwnd
        = max sk.tp.snd_cwnd (min (r1 * rtt / 1000000) sk.tp.snd_cwnd_clamp)
    ∧ (increase_cwnd P sk).ca.vars
        = some { increase_cwnd_shift sk v with undo_cwnd := (increase_cwnd P sk).tp.snd_cwnd }
    ∧ (v.t_ulmt = 0 → increase_cwnd_shift sk v = v) := by
  have hf := increase_cwnd_shift_fields sk v
  have hrtt1 : 1 ≤ rtt := by
    rw [hrtt]
    split <;> omega
  have hle : r1 ≤ r1 * rtt := Nat.le_mul_of_pos_right _ hrtt1
  have h64 : r1 < 18446744073709551616 := by omega
  have hrate : rate P t1 (increase_cwnd_shift sk v).r0 = r1 := by
    rw [hf.1, hr1, ht]
    apply rate_exact P t1 v.r0 hpos ha hb
    rw [← ht, ← hr1]
    exact h64
  have hrtt2 : rtt = if (increase_cwnd_shift sk v).epoch_min_rtt ≠ 0
      then (increase_cwnd_shift sk v).epoch_min_rtt else sk.tp.srtt_us / 8 := by
    rw [hf.2.1]
    exact hrtt
  have e := increase_cwnd_grow_eq P sk (increase_cwnd_shift sk v) t1 r1 rtt _ ht1 hpos
    hrate.symm hne hrtt2 rfl
  rw [increase_cwnd_limited P sk v hv ht0 hlim (by omega) (by omega) hsrtt, e]
  have e1 : (div_u64 ((r1 * rtt) % 18446744073709551616) USEC_PER_SEC) % 4294967296
      = r1 * rtt / 1000000 := by
    unfold div_u64
    have : (r1 * rtt) % 18446744073709551616 = r1 * rtt := by omega
    rw [this]
    show r1 * rtt / 1000000 % 4294967296 = r1 * rtt / 1000000
    omega
  rw [e1]
  refine ⟨?_, ?_, hf.2.2.2.2.2⟩
  · rw [update_pacing_ratio_tp]
  · rw [update_pacing_ratio_ca, update_pacing_ratio_tp]

/-- C14 one second into an epoch that started at 1000 packets per second, with a minimum
rtt of 10000 us: `t = 1000` ms, `r1 = 10^3 + 100 + 1000 = 2100`, the target is 21 and the
window goes from 10 to 21. -/
theorem increase_cwnd_growth_witness :
    (increase_cwnd {} (sk_epoch 1001000 1000 0 1000 10 10000)).tp.snd_cwnd = 21
    ∧ (increase_cwnd {} (sk_epoch 1001000 1000 0 1000 10 10000)).ca.vars.map vars.undo_cwnd
        = some 21 :=
  have h := increase_cwnd_growth {} (sk_epoch 1001000 1000 0 1000 10 10000)
    { t0 := 1000, t_ulmt := 0, r0 := 1000, snd_nxt := 0, undo_cwnd := 10, rtt_us := 10000,
      epoch_min_rtt := 10000 }
    1000000 1000 2100 10000
    (by decide) (by decide) (by decide) (by decide) (by decide) (by decide) (by decide)
    (by decide) (by decide) (by decide) (by decide) (by decide) (by decide)
  ⟨h.1.trans (by decide), (congrArg (Option.map vars.undo_cwnd) h.2.1).trans (by decide)⟩

/-! ### C15: the pacing ratio of the growth step -/

/-- The quotient plus one exactly when the remainder is not 0 is the ceiling of the
fraction. -/
theorem div_add_rem_eq_ceil (a b : Nat) (hb : 0 < b) :
    a / b + (if a % b ≠ 0 then 1 else 0) = (a + b - 1) / b := by
  have h := Nat.div_add_mod a b
  have hr := Nat.mod_lt a hb
  have hs : (a / b + 1) * b = b * (a / b) + b := by
    rw [Nat.add_mul, Nat.one_mul, Nat.mul_comm]
  have hc : a / b * b = b * (a / b) := Nat.mul_comm _ _
  have hs2 : (a / b + 1 + 1) * b = b * (a / b) + b + b := by
    rw [Nat.add_mul (a / b + 1) 1 b, Nat.one_mul, hs]
  symm
  split
  · apply Nat.div_eq_of_lt_le
    · rw [hs]; omega
    · rw [hs2]; omega
  · apply Nat.div_eq_of_lt_le
    · rw [Nat.add_zero, hc]; omega
    · rw [Nat.add_zero, hs]; omega

/-- The `u32` local `pr` of `increase_cwnd` is the quotient plus one exactly when the
remainder is not 0, as long as that value fits 32 bits. -/
theorem pacing_ratio_local (x r1 : Nat)
    (h : x / r1 + (if x % r1 ≠ 0 then 1 else 0) < 4294967296) :
    (if x % r1 ≠ 0 then ((x / r1) % 4294967296 + 1) % 4294967296
      else (x / r1) % 4294967296)
      = x / r1 + (if x % r1 ≠ 0 then 1 else 0) := by
  generalize x / r1 = d at h ⊢
  by_cases hr : x % r1 ≠ 0
  · rw [if_pos hr] at h
    rw [if_pos hr, if_pos hr]
    omega
  · rw [if_neg hr] at h
    rw [if_neg hr, if_neg hr]
    omega

/-- C15 (the code against the claim): at the start of an epoch at 1 packet per second
with a minimum rtt of 60 s and the default `alpha = 100`, `beta = 10`, the rates are
`r1 = 1` and `r2 = 600^3 + 6000 + 1 = 216006001`.  The ceiling of `r2 * 100 / r1` is
21600600100; the `u32` local `pr` keeps its low 32 bits, and the ratio written to the
sink is 125763620. -/
theorem pacing_ratio_truncated :
    rate {} 0 1 = 1
    ∧ rate {} 60000000 1 = 216006001
    ∧ 216006001 * 100 / 1 + (if 216006001 * 100 % 1 ≠ 0 then 1 else 0) = 21600600100
    ∧ (increase_cwnd {} sk_long_rtt).sysctl_tcp_pacing_ss_ratio = 125763620
    ∧ (increase_cwnd {} sk_long_rtt).sysctl_tcp_pacing_ca_ratio = 125763620 := by
  refine ⟨by decide, by decide, by decide, by decide, by decide⟩

/-- C15: in the growth path of `increase_cwnd` (epoch started, connection
window-limited, `alpha` and `beta` not 0, smoothed rtt not 0, elapsed time `t1 >= 0`
after the shift of `t0`) let `r1 > 0` be the `u64` rate at `t1`, `r2` the `u64` rate at
`t1 + rtt`, with `rtt` the minimum rtt of the epoch if that is not 0 and the smoothed
rtt otherwise, and `q` the quotient of `r2 * 100` by `r1` plus one exactly when the
remainder is not 0, that is the ceiling of `r2 * 100 / r1`.  If `r2 * 100` fits 64 bits
and `q` is positive and fits the `int` sink, both pacing ratios are set to `q`. -/
theorem increase_cwnd_pacing_ratio (P : params) (sk : sock) (v : vars) (t1 : Int)
    (rtt r1 r2 q : Nat)
    (hv : sk.ca.vars = some v) (ht0 : v.t0 ≠ 0) (hlim : is_cwnd_limited sk = true)
    (ha : P.alpha ≠ 0) (hb : P.beta ≠ 0) (hsrtt : sk.tp.srtt_us / 8 ≠ 0)
    (ht1 : t1 = to_s64 ((sk.tp.tcp_mstamp : Int) - ((increase_cwnd_shift sk v).t0 : Int)))
    (hpos : 0 ≤ t1)
    (hrtt : rtt = if v.epoch_min_rtt ≠ 0 then v.epoch_min_rtt else sk.tp.srtt_us / 8)
    (hr1 : r1 = rate P t1 v.r0)
    (hr2 : r2 = rate P (to_s64 (t1 + (rtt : Int))) v.r0)
    (hne : 0 < r1)
    (hmul : r2 * 100 < 18446744073709551616)
    (hq : q = r2 * 100 / r1 + (if r2 * 100 % r1 ≠ 0 then 1 else 0))
    (hq0 : 0 < q) (hq31 : q < 2147483648) :
    (increase_cwnd P sk).sysctl_tcp_pacing_ss_ratio = q
    ∧ (increase_cwnd P sk).sysctl_tcp_pacing_ca_ratio = q
    ∧ q = (r2 * 100 + r1 - 1) / r1 := by
  have hf := increase_cwnd_shift_fields sk v
  have hrtt2 : rtt = if (increase_cwnd_shift sk v).epoch_min_rtt ≠ 0
      then (increase_cwnd_shift sk v).epoch_min_rtt else sk.tp.srtt_us / 8 := by
    rw [hf.2.1]
    exact hrtt
  have e := increase_cwnd_grow_eq P sk (increase_cwnd_shift sk v) t1 r1 rtt r2 ht1 hpos
    (by rw [hf.1]; exact hr1) (by omega) hrtt2 (by rw [hf.1]; exact hr2)
  rw [increase_cwnd_limited P sk v hv ht0 hlim ha hb hsrtt, e]
  have hm : (r2 * 100) % 18446744073709551616 = r2 * 100 := Nat.mod_eq_of_lt hmul
  have hpr : (if ((r2 * 100) % 18446744073709551616) % r1 ≠ 0 then
        ((((r2 * 100) % 18446744073709551616) / r1) % 4294967296 + 1) % 4294967296
      else (((r2 * 100) % 18446744073709551616) / r1) % 4294967296) = q := by
    rw [hm, hq]
    apply pacing_ratio_local
    rw [← hq]
    omega
  rw [hpr]
  have hset := update_pacing_ratio_set
    { sk with
      tp.snd_cwnd := max sk.tp.snd_cwnd
        (min ((div_u64 ((r1 * rtt) % 18446744073709551616) USEC_PER_SEC) % 4294967296)
          sk.tp.snd_cwnd_clamp)
      ca.vars := some
        { increase_cwnd_shift sk v with
          undo_cwnd := max sk.tp.snd_cwnd
            (min ((div_u64 ((r1 * rtt) % 18446744073709551616) USEC_PER_SEC)
              % 4294967296) sk.tp.snd_cwnd_clamp) } }
    q (by omega)
  have hs32 : to_s32 (q : Int) = (q : Int) := by
    unfold to_s32
    split <;> omega
  rw [hs32] at hset
  refine ⟨hset.1, hset.2, ?_⟩
  rw [hq]
  exact div_add_rem_eq_ceil _ _ hne

/-- C15 one second into an epoch that started at 1000 packets per second, with a minimum
rtt of 10000 us: `r1 = 2100`, `r2 = 10^3 + 101 + 1000 = 2101`, the quotient of 210100 by
2100 is 100 with the remainder 100, and the pacing ratios are set to 101. -/
theorem increase_cwnd_pacing_ratio_witness :
    (increase_cwnd {} (sk_epoch 1001000 1000 0 1000 10 10000)).sysctl_tcp_pacing_ss_ratio = 101
    ∧ (increase_cwnd {} (sk_epoch 1001000 1000 0 1000 10 10000)).sysctl_tcp_pacing_ca_ratio
        = 101
    ∧ 2101 * 100 / 2100 = 100 ∧ 2101 * 100 % 2100 = 100 :=
  have h := increase_cwnd_pacing_ratio {} (sk_epoch 1001000 1000 0 1000 10 10000)
    { t0 := 1000, t_ulmt := 0, r0 := 1000, snd_nxt := 0, undo_cwnd := 10, rtt_us := 10000,
      epoch_min_rtt := 10000 }
    1000000 10000 2100 2101 101
    (by decide) (by decide) (by decide) (by decide) (by decide) (by decide) (by decide)
    (by decide) (by decide) (by decide) (by decide) (by decide) (by decide) (by decide)
    (by decide) (by decide)
  ⟨h.1, h.2.1, by decide, by decide⟩

/-! ### C16: the connection is not window-limited -/

/-- A window of at least `2 * max_packets_out` fails the test of `is_cwnd_limited`. -/
theorem not_limited_of_ge (sk : sock) (h : 2 * sk.tp.max_packets_out ≤ sk.tp.snd_cwnd) :
    is_cwnd_limited sk = false := by
  unfold is_cwnd_limited
  rw [decide_eq_false_iff_not]
  omega

/-- C16: when `increase_cwnd` runs with the epoch started (`t0 != 0`) and the connection
not window-limited (the test `snd_cwnd < 2 * max_packets_out` fails, as it does whenever
`cwnd >= 2 * max_packets_out`), the connection state `tp`, and with it `cwnd`, is
unchanged; `vars` is unchanged (`undo_cwnd`, `t0`, `r0` and the rest) but for `t_ulmt`,
which is set to the current time if it was 0 and kept otherwise; both pacing ratios are
100; the bin, the window and the slope store are unchanged. -/
theorem increase_cwnd_not_limited (P : params) (sk : sock) (v : vars)
    (hv : sk.ca.vars = some v) (ht0 : v.t0 ≠ 0) (hlim : is_cwnd_limited sk = false) :
    (increase_cwnd P sk).tp = sk.tp
    ∧ (increase_cwnd P sk).ca.vars
        = some { v with t_ulmt := if v.t_ulmt = 0 then sk.tp.tcp_mstamp else v.t_ulmt }
    ∧ (increase_cwnd P sk).sysctl_tcp_pacing_ss_ratio = 100
    ∧ (increase_cwnd P sk).sysctl_tcp_pacing_ca_ratio = 100
    ∧ (increase_cwnd P sk).ca.rtt_bin = sk.ca.rtt_bin
    ∧ (increase_cwnd P sk).ca.rtt_sack = sk.ca.rtt_sack
    ∧ (increase_cwnd P sk).ca.slopes = sk.ca.slopes := by
  have h100 : to_s32 ((100 : Nat) : Int) = 100 := by decide
  have hpr : update_pacing_ratio sk 100
      = { sk with sysctl_tcp_pacing_ss_ratio := 100, sysctl_tcp_pacing_ca_ratio := 100 } := by
    unfold update_pacing_ratio
    rw [if_pos (by decide), h100]
  rw [increase_cwnd_unlimited P sk v hv ht0 hlim, hpr]
  by_cases hu : v.t_ulmt = 0
  · rw [if_pos hu, if_pos hu]
    exact ⟨rfl, rfl, rfl, rfl, rfl, rfl, rfl⟩
  · rw [if_neg hu, if_neg hu]
    exact ⟨rfl, hv, rfl, rfl, rfl, rfl, rfl⟩

/-- C16 at the window 20 with `max_packets_out = 10`, at the time 2000 us: an unset
`t_ulmt` becomes 2000, a `t_ulmt` of 1500 stays; the window stays 20, `undo_cwnd` 15,
`t0` 1000 and `r0` 50. -/
theorem increase_cwnd_not_limited_witness :
    (increase_cwnd {} (sk_unlimited 0)).tp.snd_cwnd = 20
    ∧ (increase_cwnd {} (sk_unlimited 0)).ca.vars
        = some
          { t0 := 1000, t_ulmt := 2000, r0 := 50, snd_nxt := 0, undo_cwnd := 15,
            rtt_us := 10000, epoch_min_rtt := 10000 }
    ∧ (increase_cwnd {} (sk_unlimited 0)).sysctl_tcp_pacing_ca_ratio = 100
    ∧ (increase_cwnd {} (sk_unlimited 1500)).ca.vars
        = some
          { t0 := 1000, t_ulmt := 1500, r0 := 50, snd_nxt := 0, undo_cwnd := 15,
            rtt_us := 10000, epoch_min_rtt := 10000 } :=
  have h := increase_cwnd_not_limited {} (sk_unlimited 0)
    { t0 := 1000, t_ulmt := 0, r0 := 50, snd_nxt := 0, undo_cwnd := 15, rtt_us := 10000,
      epoch_min_rtt := 10000 }
    (by decide) (by decide) (not_limited_of_ge _ (by decide))
  have k := increase_cwnd_not_limited {} (sk_unlimited 1500)
    { t0 := 1000, t_ulmt := 1500, r0 := 50, snd_nxt := 0, undo_cwnd := 15, rtt_us := 10000,
      epoch_min_rtt := 10000 }
    (by decide) (by decide) (not_limited_of_ge _ (by decide))
  ⟨(congrArg tcp_sock.snd_cwnd h.1).trans (by decide), h.2.1.trans (by decide), h.2.2.2.1,
    k.2.1.trans (by decide)⟩

/-! ### C17: the shift of `t0` after an unlimited interval -/

/-- C17 (the code against the claim): a window-limited connection at the time 1000 us
with `t0 = 500` and an unlimited interval recorded at `t_ulmt = 700`.  With `alpha = 0`,
or with a smoothed rtt `srtt_us >> 3` of 0, or with `t0 = 0`, `increase_cwnd` returns
before the shift: `t0` and `t_ulmt` keep their values. -/
theorem no_shift_before_entry_checks :
    is_cwnd_limited sk_resume = true
    ∧ (increase_cwnd params_alpha_zero sk_resume).ca.vars.map vars.t0 = some 500
    ∧ (increase_cwnd params_alpha_zero sk_resume).ca.vars.map vars.t_ulmt = some 700
    ∧ (increase_cwnd {} { sk_resume with tp.srtt_us := 7 }).ca.vars.map vars.t0 = some 500
    ∧ (increase_cwnd {} { sk_resume with tp.srtt_us := 7 }).ca.vars.map vars.t_ulmt
        = some 700
    ∧ (increase_cwnd {} (sk_epoch 1000 0 700 50 10 10000)).ca.vars.map vars.t_ulmt
        = some 700 := by
  refine ⟨by decide, by decide, by decide, by decide, by decide, by decide⟩

/-- The shift of `t0` for an interval `now - t_ulmt` that fits 32 bits. -/
theorem increase_cwnd_shift_eq (sk : sock) (v : vars)
    (hu : v.t_ulmt ≠ 0) (hnow : v.t_ulmt ≤ sk.tp.tcp_mstamp)
    (hd : sk.tp.tcp_mstamp - v.t_ulmt < 4294967296) :
    increase_cwnd_shift sk v
      = { v with
          t0 := if sk.tp.tcp_mstamp - v.t_ulmt > 0
            then (v.t0 + (sk.tp.tcp_mstamp - v.t_ulmt)) % 18446744073709551616 else v.t0
          t_ulmt := 0 } := by
  have e : to_u32 ((sk.tp.tcp_mstamp : Int) - (v.t_ulmt : Int))
      = sk.tp.tcp_mstamp - v.t_ulmt := by
    unfold to_u32
    omega
  unfold increase_cwnd_shift
  dsimp only
  rw [if_pos hu, e]

/-- C17: let `increase_cwnd` run with the epoch started, the connection window-limited,
`alpha` and `beta` not 0 and the smoothed rtt `srtt_us >> 3` not 0, and with an unlimited
interval recorded (`t_ulmt != 0`, `now >= t_ulmt`, `now - t_ulmt < 2^32` us).  Then the
function is the growth step on the shifted `vars`: `t_ulmt` is cleared and `t0` is moved
forward by exactly `now - t_ulmt` (the sum fitting 64 bits).  The elapsed time `t1` of
the rate law is `t_ulmt - t0_old` as a `long`, whatever `now` is: exactly `t_ulmt -
t0_old` when the interval began after the epoch did and that difference is below
`2^63`. -/
theorem increase_cwnd_resume (P : params) (sk : sock) (v : vars)
    (hv : sk.ca.vars = some v) (ht0 : v.t0 ≠ 0) (hlim : is_cwnd_limited sk = true)
    (ha : P.alpha ≠ 0) (hb : P.beta ≠ 0) (hsrtt : sk.tp.srtt_us / 8 ≠ 0)
    (hu : v.t_ulmt ≠ 0) (hnow : v.t_ulmt ≤ sk.tp.tcp_mstamp)
    (hd : sk.tp.tcp_mstamp - v.t_ulmt < 4294967296) :
    increase_cwnd P sk = increase_cwnd_grow P sk (increase_cwnd_shift sk v)
    ∧ (increase_cwnd P sk).ca.vars.map vars.t0 = some (increase_cwnd_shift sk v).t0
    ∧ (increase_cwnd P sk).ca.vars.map vars.t_ulmt = some 0
    ∧ (v.t0 + (sk.tp.tcp_mstamp - v.t_ulmt) < 18446744073709551616 →
        (increase_cwnd_shift sk v).t0 = v.t0 + (sk.tp.tcp_mstamp - v.t_ulmt))
    ∧ to_s64 ((sk.tp.tcp_mstamp : Int) - ((increase_cwnd_shift sk v).t0 : Int))
        = to_s64 ((v.t_ulmt : Int) - (v.t0 : Int))
    ∧ (v.t0 ≤ v.t_ulmt → v.t_ulmt - v.t0 < 9223372036854775808 →
        to_s64 ((sk.tp.tcp_mstamp : Int) - ((increase_cwnd_shift sk v).t0 : Int))
          = ((v.t_ulmt - v.t0 : Nat) : Int)) := by
  have e := increase_cwnd_limited P sk v hv ht0 hlim ha hb hsrtt
  have hs := increase_cwnd_shift_eq sk v hu hnow hd
  obtain ⟨⟨u, hvars⟩, -⟩ := increase_cwnd_grow_vars P sk (increase_cwnd_shift sk v)
  have hz : (increase_cwnd_shift sk v).t_ulmt = 0 := by rw [hs]
  have ht : (increase_cwnd_shift sk v).t0
      = if sk.tp.tcp_mstamp - v.t_ulmt > 0
          then (v.t0 + (sk.tp.tcp_mstamp - v.t_ulmt)) % 18446744073709551616 else v.t0 := by
    rw [hs]
  have hmod : to_s64 ((sk.tp.tcp_mstamp : Int) - ((increase_cwnd_shift sk v).t0 : Int))
      = to_s64 ((v.t_ulmt : Int) - (v.t0 : Int)) := by
    rw [ht]
    unfold to_s64
    split <;> omega
  refine ⟨e, ?_, ?_, ?_, hmod, ?_⟩
  · rw [e, hvars]
    rfl
  · rw [e, hvars]
    exact congrArg some hz
  · intro hfit
    rw [ht]
    split <;> omega
  · intro hle hlt
    rw [hmod]
    unfold to_s64
    split <;> omega

/-- C17 at the time 1000 us with `t0 = 500` and `t_ulmt = 700`: `t0` becomes 800,
`t_ulmt` 0, and the elapsed time is `1000 - 800 = 700 - 500 = 200` us. -/
theorem increase_cwnd_resume_witness :
    (increase_cwnd {} sk_resume).ca.vars.map vars.t0 = some 800
    ∧ (increase_cwnd {} sk_resume).ca.vars.map vars.t_ulmt = some 0
    ∧ to_s64 ((1000 : Int) - 800) = 200 :=
  have h := increase_cwnd_resume {} sk_resume
    { t0 := 500, t_ulmt := 700, r0 := 50, snd_nxt := 0, undo_cwnd := 10, rtt_us := 10000,
      epoch_min_rtt := 10000 }
    (by decide) (by decide) (by decide) (by decide) (by decide) (by decide) (by decide)
    (by decide) (by decide)
  ⟨h.2.1.trans (by decide), h.2.2.1, by decide⟩

/-! ### C18 and C19: window events -/

/-- The function `rtt_sack_deq` changes the window and the slope store only. -/
theorem rtt_sack_deq_frame (sk : sock) :
    rtt_sack_deq sk
      = { sk with
          ca.rtt_sack := (rtt_sack_deq sk).ca.rtt_sack
          ca.slopes := (rtt_sack_deq sk).ca.slopes } := by
  cases hw : sk.ca.rtt_sack.head with
  | nil =>
    have e : rtt_sack_deq sk = sk := by simp only [rtt_sack_deq, hw]
    rw [e]
  | cons p rest =>
    by_cases hf : p.fanout_head.isEmpty = true
    · have e : rtt_sack_deq sk
          = { sk with
              ca.rtt_sack :=
                { head := rest, cnt := (sk.ca.rtt_sack.cnt + 4294967295) % 4294967296 } } := by
        simp only [rtt_sack_deq, hw, hf, if_true]
      rw [e]
    · have e : rtt_sack_deq sk
          = { fout_reset_loop p.fanout_head sk with
              ca.rtt_sack :=
                { head := rest
                  cnt := ((fout_reset_loop p.fanout_head sk).ca.rtt_sack.cnt + 4294967295)
                    % 4294967296 } } := by
        simp only [rtt_sack_deq, hw, hf, if_false, fout_reset, Bool.false_eq_true]
      rw [e, fout_reset_loop_frame]

theorem rtt_sack_reset_loop_lists (n : Nat) (sk : sock) :
    rtt_sack_reset_loop n sk
      = { sk with
          ca.rtt_sack := (rtt_sack_reset_loop n sk).ca.rtt_sack
          ca.slopes := (rtt_sack_reset_loop n sk).ca.slopes } := by
  induction n generalizing sk with
  | zero => rfl
  | succ k ih =>
    simp only [rtt_sack_reset_loop]
    split
    · rfl
    · rw [ih, rtt_sack_deq_frame]

/-- The function `reinit_after_dec` in one step: the bin, the window and the slope store
become empty with the counters 0, `t0`, the guard and `t_ulmt` become 0, the minimum rtt
of the epoch `MAX_RTT`, both pacing ratios 100; `r0`, `undo_cwnd`, the last sample, the
connection state `tp` and the allocator are as before. -/
theorem reinit_after_dec_eq (sk : sock) (v : vars) (hv : sk.ca.vars = some v) :
    reinit_after_dec sk
      = { sk with
          ca :=
            { rtt_bin := { head := [], snd_time_ms := 0, cnt := 0 }
              rtt_sack := { head := [], cnt := 0 }
              slopes := { head := [], cnt := 0 }
              vars := some
                { v with t0 := 0, epoch_min_rtt := MAX_RTT, snd_nxt := 0, t_ulmt := 0 } }
          sysctl_tcp_pacing_ss_ratio := 100
          sysctl_tcp_pacing_ca_ratio := 100 } := by
  have h100 : to_s32 ((100 : Nat) : Int) = 100 := by decide
  have hl := rtt_sack_reset_loop_lists (rtt_bin_reset sk).ca.rtt_sack.head.length
    (rtt_bin_reset sk)
  have e : slopes_reset (rtt_sack_reset (rtt_bin_reset sk))
      = { sk with
          ca :=
            { rtt_bin := { head := [], snd_time_ms := 0, cnt := 0 }
              rtt_sack := { head := [], cnt := 0 }
              slopes := { head := [], cnt := 0 }
              vars := some v } } := by
    unfold slopes_reset rtt_sack_reset
    dsimp only
    rw [hl]
    simp only [rtt_bin_reset, hv]
  unfold reinit_after_dec
  dsimp only
  rw [e]
  simp only [update_pacing_ratio]
  rw [if_pos (by decide), h100]

/-- C18 (the code against the claim): on the socket `sk_guarded` (guard 5000, a window of
three points, three slopes, one sample in the bin, minimum rtt 10000) the event
`CA_EVENT_CWND_RESTART` is not a no-op: the flag `reinit` keeps its initial value `true`
and `reinit_after_dec` runs.  Afterwards the guard is 0, the bin, the window and the
slope store are empty and the minimum rtt of the epoch is `MAX_RTT`. -/
theorem restart_resets :
    sk_guarded.ca.vars.map vars.snd_nxt = some 5000
    ∧ sk_guarded.ca.rtt_sack.times = [1, 30, 61]
    ∧ sk_guarded.ca.slopes.cnt = 3
    ∧ sk_guarded.ca.rtt_bin.cnt = 1
    ∧ sk_guarded.ca.vars.map vars.epoch_min_rtt = some 10000
    ∧ (tcp_flexis_cwnd_event sk_guarded tcp_ca_event.CA_EVENT_CWND_RESTART).ca.vars.map
        vars.snd_nxt = some 0
    ∧ (tcp_flexis_cwnd_event sk_guarded tcp_ca_event.CA_EVENT_CWND_RESTART).ca.rtt_sack.times
        = []
    ∧ (tcp_flexis_cwnd_event sk_guarded tcp_ca_event.CA_EVENT_CWND_RESTART).ca.slopes.cnt = 0
    ∧ (tcp_flexis_cwnd_event sk_guarded tcp_ca_event.CA_EVENT_CWND_RESTART).ca.rtt_bin.cnt = 0
    ∧ (tcp_flexis_cwnd_event sk_guarded tcp_ca_event.CA_EVENT_CWND_RESTART).ca.vars.map
        vars.epoch_min_rtt = some 4294967295 := by
  refine ⟨by decide, by decide, by decide, by decide, by decide, by decide, by decide,
    by decide, by decide, by decide⟩

/-- C18: for every state with `vars` set, `tcp_flexis_cwnd_event` with an event other
than `CA_EVENT_CWND_RESTART`, `CA_EVENT_COMPLETE_CWR` and `CA_EVENT_LOSS` returns the
socket as it is: the bin, the window, the slope store, `vars` with the guard, the window
`cwnd` and the pacing ratios are unchanged.  With `CA_EVENT_CWND_RESTART` it runs
`reinit_after_dec`: the bin, the window and the slope store become empty with the
counters 0, `t0`, `t_ulmt` and the guard 0, the minimum rtt of the epoch `MAX_RTT`, both
pacing ratios 100, while `cwnd`, `r0`, `undo_cwnd` and the last sample stay. -/
theorem cwnd_event_noop_or_restart (sk : sock) (v : vars) (ev : tcp_ca_event)
    (hv : sk.ca.vars = some v) :
    (ev ≠ tcp_ca_event.CA_EVENT_CWND_RESTART → ev ≠ tcp_ca_event.CA_EVENT_COMPLETE_CWR →
      ev ≠ tcp_ca_event.CA_EVENT_LOSS → tcp_flexis_cwnd_event sk ev = sk)
    ∧ tcp_flexis_cwnd_event sk tcp_ca_event.CA_EVENT_CWND_RESTART
        = { sk with
            ca :=
              { rtt_bin := { head := [], snd_time_ms := 0, cnt := 0 }
                rtt_sack := { head := [], cnt := 0 }
                slopes := { head := [], cnt := 0 }
                vars := some
                  { v with t0 := 0, epoch_min_rtt := MAX_RTT, snd_nxt := 0, t_ulmt := 0 } }
            sysctl_tcp_pacing_ss_ratio := 100
            sysctl_tcp_pacing_ca_ratio := 100 } := by
  constructor
  · intro h1 h2 h3
    unfold tcp_flexis_cwnd_event
    rw [hv]
    cases ev with
    | CA_EVENT_CWND_RESTART => exact absurd rfl h1
    | CA_EVENT_COMPLETE_CWR => exact absurd rfl h2
    | CA_EVENT_LOSS => exact absurd rfl h3
    | CA_EVENT_TX_START => rfl
    | CA_EVENT_ECN_NO_CE => rfl
    | CA_EVENT_ECN_IS_CE => rfl
  · rw [← reinit_after_dec_eq sk v hv]
    unfold tcp_flexis_cwnd_event
    rw [hv]

/-- C18 at the socket `sk_guarded`: `CA_EVENT_TX_START` and `CA_EVENT_ECN_IS_CE` leave it
as it is, `CA_EVENT_CWND_RESTART` empties the window and clears the guard. -/
theorem cwnd_event_noop_or_restart_witness :
    tcp_flexis_cwnd_event sk_guarded tcp_ca_event.CA_EVENT_TX_START = sk_guarded
    ∧ tcp_flexis_cwnd_event sk_guarded tcp_ca_event.CA_EVENT_ECN_IS_CE = sk_guarded
    ∧ (tcp_flexis_cwnd_event sk_guarded tcp_ca_event.CA_EVENT_CWND_RESTART).ca.rtt_sack
        = { head := [], cnt := 0 }
    ∧ (tcp_flexis_cwnd_event sk_guarded tcp_ca_event.CA_EVENT_CWND_RESTART).tp.snd_cwnd = 8 :=
  have h := cwnd_event_noop_or_restart sk_guarded
    { t0 := 0, t_ulmt := 0, r0 := 0, snd_nxt := 5000, undo_cwnd := 8, rtt_us := 15000,
      epoch_min_rtt := 10000 }
    tcp_ca_event.CA_EVENT_TX_START (by decide)
  have k := cwnd_event_noop_or_restart sk_guarded
    { t0 := 0, t_ulmt := 0, r0 := 0, snd_nxt := 5000, undo_cwnd := 8, rtt_us := 15000,
      epoch_min_rtt := 10000 }
    tcp_ca_event.CA_EVENT_ECN_IS_CE (by decide)
  ⟨h.1 (by decide) (by decide) (by decide), k.1 (by decide) (by decide) (by decide),
    congrArg (fun s : sock => s.ca.rtt_sack) h.2,
    (congrArg (fun s : sock => s.tp.snd_cwnd) h.2).trans (by decide)⟩

/-- C19: for every state with `vars` set, `tcp_flexis_cwnd_event` with `CA_EVENT_LOSS`,
or with `CA_EVENT_COMPLETE_CWR` while the guard is not 0, runs the full reset:
afterwards the bin, the window and the slope store are empty with the counters 0,
`t0 = 0`, `t_ulmt = 0`, `epoch_min_rtt = 0xffffffff`, the guard is 0 and both pacing
ratios are 100, while `r0`, `undo_cwnd` and the last sample are as before.  With
`CA_EVENT_COMPLETE_CWR` the window `cwnd` is set to `undo_cwnd` first; with
`CA_EVENT_LOSS` the connection state `tp`, and so `cwnd`, is unchanged. -/
theorem cwnd_event_full_reset (sk : sock) (v : vars) (hv : sk.ca.vars = some v) :
    tcp_flexis_cwnd_event sk tcp_ca_event.CA_EVENT_LOSS
        = { sk with
            ca :=
              { rtt_bin := { head := [], snd_time_ms := 0, cnt := 0 }
                rtt_sack := { head := [], cnt := 0 }
                slopes := { head := [], cnt := 0 }
                vars := some
                  { v with t0 := 0, epoch_min_rtt := 4294967295, snd_nxt := 0, t_ulmt := 0 } }
            sysctl_tcp_pacing_ss_ratio := 100
            sysctl_tcp_pacing_ca_ratio := 100 }
    ∧ (v.snd_nxt ≠ 0 →
        tcp_flexis_cwnd_event sk tcp_ca_event.CA_EVENT_COMPLETE_CWR
          = { sk with
              tp.snd_cwnd := v.undo_cwnd
              ca :=
                { rtt_bin := { head := [], snd_time_ms := 0, cnt := 0 }
                  rtt_sack := { head := [], cnt := 0 }
                  slopes := { head := [], cnt := 0 }
                  vars := some
                    { v with
                      t0 := 0, epoch_min_rtt := 4294967295, snd_nxt := 0, t_ulmt := 0 } }
              sysctl_tcp_pacing_ss_ratio := 100
              sysctl_tcp_pacing_ca_ratio := 100 }) := by
  constructor
  · have e := reinit_after_dec_eq sk v hv
    unfold tcp_flexis_cwnd_event
    rw [hv]
    exact e
  · intro hg
    have e := reinit_after_dec_eq { sk with tp.snd_cwnd := v.undo_cwnd } v hv
    unfold tcp_flexis_cwnd_event
    rw [hv]
    simp only [hg, ne_eq, not_false_eq_true, if_true]
    exact e

/-- C19 at the socket `sk_guarded_cwr` (guard 5000, window `cwnd = 4`, `undo_cwnd = 8`,
three points in the window): after `CA_EVENT_COMPLETE_CWR` the window `cwnd` is 8, after
`CA_EVENT_LOSS` it is still 4; in both cases the guard is 0 and the observation window
empty. -/
theorem cwnd_event_full_reset_witness :
    sk_guarded_cwr.ca.rtt_sack.cnt = 3
    ∧ (tcp_flexis_cwnd_event sk_guarded_cwr tcp_ca_event.CA_EVENT_COMPLETE_CWR).tp.snd_cwnd = 8
    ∧ (tcp_flexis_cwnd_event sk_guarded_cwr tcp_ca_event.CA_EVENT_LOSS).tp.snd_cwnd = 4
    ∧ (tcp_flexis_cwnd_event sk_guarded_cwr tcp_ca_event.CA_EVENT_COMPLETE_CWR).ca.vars
        = some
          { t0 := 0, t_ulmt := 0, r0 := 0, snd_nxt := 0, undo_cwnd := 8, rtt_us := 15000,
            epoch_min_rtt := 4294967295 }
    ∧ (tcp_flexis_cwnd_event sk_guarded_cwr tcp_ca_event.CA_EVENT_LOSS).ca.rtt_sack
        = { head := [], cnt := 0 } :=
  have h := cwnd_event_full_reset sk_guarded_cwr
    { t0 := 0, t_ulmt := 0, r0 := 0, snd_nxt := 5000, undo_cwnd := 8, rtt_us := 15000,
      epoch_min_rtt := 10000 }
    (by decide)
  ⟨by decide, (congrArg (fun s : sock => s.tp.snd_cwnd) (h.2 (by decide))).trans (by decide),
    (congrArg (fun s : sock => s.tp.snd_cwnd) h.1).trans (by decide),
    congrArg (fun s : sock => s.ca.vars) (h.2 (by decide)),
    congrArg (fun s : sock => s.ca.rtt_sack) h.1⟩

/-! ### C20: the failing cases of the median operations -/

/-- C20 (the code against the claim): on an empty slope store with the counter 0,
`slopes_median(sk, 1, 1, &m)` returns `OUT_RNG`, not `EMPTY_QUE`: the range is checked
before the store is.  And on the store 1, 3, 5 with the valid range 1 to 3 the call with
a `NULL` output pointer returns `NULL_PTR`, not `SUCCESS`. -/
theorem slopes_median_check_order :
    (sk_with_slopes { head := [], cnt := 0 }).ca.slopes.head = []
    ∧ slopes_median (sk_with_slopes { head := [], cnt := 0 }) 1 1 (some 7)
        = (ret.OUT_RNG, some 7)
    ∧ (sk_with_slopes slopes_three).ca.slopes.cnt = 3
    ∧ slopes_median (sk_with_slopes slopes_three) 1 3 none = (ret.NULL_PTR, none)
    ∧ slopes_median (sk_with_slopes slopes_three) 1 3 (some 7) = (ret.SUCCESS, some 3) := by
  refine ⟨by decide, by decide, by decide, by decide, by decide⟩

/-- C20: the median operations read the socket and return a code and the output cell;
they change nothing else.  With an output pointer that is not `NULL` and the cell
holding `old`: `rtt_bin_median` on an empty bin returns `EMPTY_QUE`; `slopes_median`
returns `OUT_RNG` when `start < 1` or `end > cnt`, and `EMPTY_QUE` when the range passes
that check and the store is empty; it returns `SUCCESS` exactly when the store is not
empty, `start >= 1` and `end <= cnt`; and whenever either operation does not return
`SUCCESS` the cell still holds `old`.  With a `NULL` output pointer both return
`NULL_PTR`. -/
theorem median_failures (sk : sock) (start end_ old_rtt : Nat) (old_slope : Int) :
    (sk.ca.rtt_bin.head = [] →
      rtt_bin_median sk (some old_rtt) = (ret.EMPTY_QUE, some old_rtt))
    ∧ ((rtt_bin_median sk (some old_rtt)).1 ≠ ret.SUCCESS →
      (rtt_bin_median sk (some old_rtt)).2 = some old_rtt)
    ∧ (start < 1 ∨ end_ > sk.ca.slopes.cnt →
      slopes_median sk start end_ (some old_slope) = (ret.OUT_RNG, some old_slope))
    ∧ (¬ (start < 1 ∨ end_ > sk.ca.slopes.cnt) → sk.ca.slopes.head = [] →
      slopes_median sk start end_ (some old_slope) = (ret.EMPTY_QUE, some old_slope))
    ∧ ((slopes_median sk start end_ (some old_slope)).1 = ret.SUCCESS
      ↔ sk.ca.slopes.head ≠ [] ∧ 1 ≤ start ∧ end_ ≤ sk.ca.slopes.cnt)
    ∧ ((slopes_median sk start end_ (some old_slope)).1 ≠ ret.SUCCESS →
      (slopes_median sk start end_ (some old_slope)).2 = some old_slope)
    ∧ rtt_bin_median sk none = (ret.NULL_PTR, none)
    ∧ slopes_median sk start end_ none = (ret.NULL_PTR, none) := by
  refine ⟨?_, ?_, ?_, ?_, ?_, ?_, rfl, rfl⟩
  · intro h
    simp only [rtt_bin_median, h, List.isEmpty_nil, if_true]
  · intro h
    unfold rtt_bin_median at h ⊢
    dsimp only at h ⊢
    split
    · rfl
    · rename_i hne
      rw [if_neg hne] at h
      split at h <;> exact absurd rfl h
  · intro h
    simp only [slopes_median, h, if_true]
  · intro h1 h2
    simp only [slopes_median, h1, if_false, h2, List.isEmpty_nil, if_true]
  · unfold slopes_median
    dsimp only
    by_cases h1 : start < 1 ∨ end_ > sk.ca.slopes.cnt
    · rw [if_pos h1]
      constructor
      · intro h
        simp only [reduceCtorEq] at h
      · intro h
        omega
    · rw [if_neg h1]
      cases hh : sk.ca.slopes.head with
      | nil =>
        simp only [List.isEmpty_nil, if_true, ne_eq, not_true_eq_false, false_and,
          reduceCtorEq]
      | cons a t =>
        simp only [List.isEmpty_cons, Bool.false_eq_true, if_false, ne_eq, reduceCtorEq,
          not_false_eq_true, true_and]
        constructor
        · intro _
          omega
        · intro _
          split <;> rfl
  · intro h
    unfold slopes_median at h ⊢
    dsimp only at h ⊢
    split
    · rfl
    · rename_i h1
      rw [if_neg h1] at h
      split
      · rfl
      · rename_i h2
        rw [if_neg h2] at h
        split at h <;> exact absurd rfl h

/-- C20 on an empty bin and on the slope store 1, 3, 5: the empty bin gives `EMPTY_QUE`,
the range 0 to 3 and the range 1 to 4 give `OUT_RNG`, an emptied store with the range 1
to 0 gives `EMPTY_QUE`, and the cell keeps the value 7 every time. -/
theorem median_failures_witness :
    rtt_bin_median sk_ex (some 7) = (ret.EMPTY_QUE, some 7)
    ∧ slopes_median (sk_with_slopes slopes_three) 0 3 (some 7) = (ret.OUT_RNG, some 7)
    ∧ slopes_median (sk_with_slopes slopes_three) 1 4 (some 7) = (ret.OUT_RNG, some 7)
    ∧ slopes_median (sk_with_slopes { head := [], cnt := 0 }) 1 0 (some 7)
        = (ret.EMPTY_QUE, some 7) :=
  ⟨(median_failures sk_ex 1 1 7 7).1 (by decide),
    (median_failures (sk_with_slopes slopes_three) 0 3 7 7).2.2.1 (by decide),
    (median_failures (sk_with_slopes slopes_three) 1 4 7 7).2.2.1 (by decide),
    (median_failures (sk_with_slopes { head := [], cnt := 0 }) 1 0 7 7).2.2.2.1 (by decide)
      (by decide)⟩

/-! ### C21: the entry checks of the acknowledgment driver -/

/-- The entry checks of `tcp_flexis_cong_avoid` in the terms of the code: the driver
returns the socket as it is when `vars` is `NULL`, when `rtt_us` is -1, when the local
`snd_time_us` is 0, or when the local `snd_time_ms` is below the millisecond of the
bin. -/
theorem cong_avoid_entry_returns (P : params) (sk : sock) (ack acked med_rtt : Nat)
    (theil_slope : Int)
    (h : ∀ v, sk.ca.vars = some v →
      v.rtt_us = -1 ∨ cong_avoid_snd_time_ms sk v = none
        ∨ ∃ ms, cong_avoid_snd_time_ms sk v = some ms ∧ ms < sk.ca.rtt_bin.snd_time_ms) :
    tcp_flexis_cong_avoid P sk ack acked med_rtt theil_slope = sk := by
  unfold tcp_flexis_cong_avoid
  cases hv : sk.ca.vars with
  | none => rfl
  | some v =>
    dsimp only
    rcases h v hv with h1 | h2 | ⟨ms, h3, h4⟩
    · rw [if_pos h1]
    · split
      · rfl
      · rw [h2]
    · split
      · rfl
      · rw [h3]
        dsimp only
        rw [if_pos h4]

/-- The local `snd_time_ms` against the send time `now - rtt_us` of the sample, for a
sample that is an `s32`: when `now - rtt_us` is not positive the local `snd_time_us` is
0, and otherwise the local `snd_time_ms`, when there is one, is at most
`(now - rtt_us) / 1000`. -/
theorem cong_avoid_snd_time_ms_le (sk : sock) (v : vars) (hty : v.rtt_us ≤ 2147483647) :
    ((sk.tp.tcp_mstamp : Int) - v.rtt_us ≤ 0 → cong_avoid_snd_time_ms sk v = none)
    ∧ (∀ ms, cong_avoid_snd_time_ms sk v = some ms →
        (ms : Int) ≤ ((sk.tp.tcp_mstamp : Int) - v.rtt_us) / 1000) := by
  unfold cong_avoid_snd_time_ms
  dsimp only
  generalize hx : to_s64 ((sk.tp.tcp_mstamp : Int) - (to_u64 v.rtt_us : Int)) = x
  have hx1 : x ≤ (sk.tp.tcp_mstamp : Int) - v.rtt_us
      ∧ ((sk.tp.tcp_mstamp : Int) - v.rtt_us ≤ 0 → x ≤ 0) := by
    rw [← hx]
    unfold to_s64 to_u64
    constructor
    · split <;> omega
    · intro h
      split <;> omega
  constructor
  · intro h
    have : max x 0 = 0 := by
      have := hx1.2 h
      omega
    rw [if_pos this]
  · intro ms h
    split at h
    · exact absurd h (by simp)
    · simp only [Option.some.injEq] at h
      rw [← h]
      unfold div_u64
      have h0 : 0 < x := by omega
      have hm : max x 0 = x := by omega
      rw [hm]
      have : ((x.toNat / (USEC_PER_MSEC : Nat) : Nat) : Int) = x / 1000 := by
        have e : (x.toNat : Int) = x := Int.toNat_of_nonneg (le_of_lt h0)
        rw [Int.ofNat_ediv, e]
        rfl
      rw [this]
      exact Int.ediv_le_ediv (by decide) hx1.1

/-- C21: an acknowledgment event returns with the whole socket unchanged (the bin, the
window, the slope store, `vars` with the epoch variables and the guard, the window
`cwnd` and the pacing ratios) whenever no sample has been recorded yet (`rtt_us = -1`),
or the send time `now - rtt_us` of the sample is not positive, or the send millisecond
`(now - rtt_us) / 1000` is smaller than the millisecond of the open bin; `rtt_us` is an
`s32`. -/
theorem cong_avoid_abort (P : params) (sk : sock) (v : vars) (ack acked med_rtt : Nat)
    (theil_slope : Int)
    (hv : sk.ca.vars = some v) (hty : v.rtt_us ≤ 2147483647)
    (h : v.rtt_us = -1 ∨ (sk.tp.tcp_mstamp : Int) - v.rtt_us ≤ 0
      ∨ ((sk.tp.tcp_mstamp : Int) - v.rtt_us) / 1000 < sk.ca.rtt_bin.snd_time_ms) :
    tcp_flexis_cong_avoid P sk ack acked med_rtt theil_slope = sk := by
  apply cong_avoid_entry_returns
  intro w hw
  rw [hv] at hw
  simp only [Option.some.injEq] at hw
  subst hw
  have hle := cong_avoid_snd_time_ms_le sk v hty
  rcases h with h1 | h2 | h3
  · exact Or.inl h1
  · exact Or.inr (Or.inl (hle.1 h2))
  · cases hm : cong_avoid_snd_time_ms sk v with
    | none => exact Or.inr (Or.inl rfl)
    | some ms =>
      refine Or.inr (Or.inr ⟨ms, rfl, ?_⟩)
      have := hle.2 ms hm
      omega

/-- C21 at three sockets: after `tcp_flexis_init` with no sample recorded; with a sample
of 15000 us at the time 15000 us; and at the socket `sk_rising`, whose bin is at the
millisecond 61, with the sample of 15000 us at the time 70000 us (millisecond 55). -/
theorem cong_avoid_abort_witness :
    tcp_flexis_cong_avoid {} sk_ex 1 1 0 0 = sk_ex
    ∧ tcp_flexis_cong_avoid {} (sk_stale 15000) 1 1 0 0 = sk_stale 15000
    ∧ (sk_stale 70000).ca.rtt_bin.snd_time_ms = 61
    ∧ tcp_flexis_cong_avoid {} (sk_stale 70000) 1 1 0 0 = sk_stale 70000 :=
  ⟨cong_avoid_abort {} sk_ex _ 1 1 0 0 rfl (by decide) (Or.inl (by decide)),
    cong_avoid_abort {} (sk_stale 15000)
      { t0 := 0, t_ulmt := 0, r0 := 0, snd_nxt := 0, undo_cwnd := 10, rtt_us := 15000,
        epoch_min_rtt := 10000 }
      1 1 0 0 (by decide) (by decide) (Or.inr (Or.inl (by decide))),
    by decide,
    cong_avoid_abort {} (sk_stale 70000)
      { t0 := 0, t_ulmt := 0, r0 := 0, snd_nxt := 0, undo_cwnd := 10, rtt_us := 15000,
        epoch_min_rtt := 10000 }
      1 1 0 0 (by decide) (by decide) (Or.inr (Or.inr (by decide)))⟩

/-! ### C22: `tcp_flexis_undo_cwnd` -/

/-- C22: `tcp_flexis_undo_cwnd` returns `max(snd_cwnd, prior_cwnd)` when `vars` is
`NULL` and the recorded `undo_cwnd` otherwise.  Right after `decrease_cwnd`, and right
after `increase_cwnd` has gone through its growth path (epoch started, connection
window-limited, `alpha` and `beta` not 0, smoothed rtt not 0, elapsed time `t1 >= 0` and
rate `r1` not 0), it returns the window `snd_cwnd` of the connection. -/
theorem tcp_flexis_undo_cwnd_spec (P : params) (sk : sock) :
    (sk.ca.vars = none → tcp_flexis_undo_cwnd sk = max sk.tp.snd_cwnd sk.tp.prior_cwnd)
    ∧ (∀ v, sk.ca.vars = some v → tcp_flexis_undo_cwnd sk = v.undo_cwnd)
    ∧ (∀ v, sk.ca.vars = some v →
        tcp_flexis_undo_cwnd (decrease_cwnd P sk) = (decrease_cwnd P sk).tp.snd_cwnd)
    ∧ (∀ v, sk.ca.vars = some v → v.t0 ≠ 0 → is_cwnd_limited sk = true →
        P.alpha ≠ 0 → P.beta ≠ 0 → sk.tp.srtt_us / 8 ≠ 0 →
        0 ≤ to_s64 ((sk.tp.tcp_mstamp : Int) - ((increase_cwnd_shift sk v).t0 : Int)) →
        rate P (to_s64 ((sk.tp.tcp_mstamp : Int) - ((increase_cwnd_shift sk v).t0 : Int))) v.r0
          ≠ 0 →
        tcp_flexis_undo_cwnd (increase_cwnd P sk) = (increase_cwnd P sk).tp.snd_cwnd) := by
  refine ⟨?_, ?_, ?_, ?_⟩
  · intro h
    simp only [tcp_flexis_undo_cwnd, h]
  · intro v h
    simp only [tcp_flexis_undo_cwnd, h]
  · intro v h
    have e := (decrease_cwnd_eq P sk v h).2
    simp only [tcp_flexis_undo_cwnd, e]
  · intro v hv ht0 hlim ha hb hsrtt hpos hne
    have hf := increase_cwnd_shift_fields sk v
    have e := increase_cwnd_grow_eq P sk (increase_cwnd_shift sk v) _ _ _ _ rfl hpos
      rfl (by rw [hf.1]; exact hne) rfl rfl
    rw [increase_cwnd_limited P sk v hv ht0 hlim ha hb hsrtt, e]
    simp only [tcp_flexis_undo_cwnd, update_pacing_ratio_ca, update_pacing_ratio_tp]

/-- C22 at four sockets: before `tcp_flexis_init` the answer is `max(10, 10) = 10`; with
`undo_cwnd = 7` recorded it is 7; after `decrease_cwnd` on the window 100 it is 85, the
new window; after the growth step that raises the window from 10 to 21 it is 21. -/
theorem tcp_flexis_undo_cwnd_spec_witness :
    tcp_flexis_undo_cwnd sk_fresh = 10
    ∧ tcp_flexis_undo_cwnd (sk_epoch 2000 1000 0 0 7 10000) = 7
    ∧ tcp_flexis_undo_cwnd (decrease_cwnd {} (sk_cwnd 100)) = 85
    ∧ tcp_flexis_undo_cwnd (increase_cwnd {} (sk_epoch 1001000 1000 0 1000 10 10000)) = 21 :=
  have h := tcp_flexis_undo_cwnd_spec {} sk_fresh
  have k := tcp_flexis_undo_cwnd_spec {} (sk_epoch 2000 1000 0 0 7 10000)
  have d := tcp_flexis_undo_cwnd_spec {} (sk_cwnd 100)
  have g := tcp_flexis_undo_cwnd_spec {} (sk_epoch 1001000 1000 0 1000 10 10000)
  ⟨(h.1 (by decide)).trans (by decide), k.2.1 _ (by rfl),
    (d.2.2.1 _ (by rfl)).trans (by decide),
    (g.2.2.2 _ (by rfl) (by decide) (by decide) (by decide) (by decide) (by decide)
      (by decide) (by decide)).trans (by decide)⟩

/-! ### C23: the state after `tcp_flexis_init` -/

/-- C23: when its allocation succeeds, `tcp_flexis_init` leaves `vars` with `t0 = 0`,
`r0 = 0`, `t_ulmt = 0`, the guard 0, `undo_cwnd` equal to the window of the connection,
no sample recorded (`rtt_us = -1`) and the minimum rtt of the epoch at `0xffffffff`; the
bin, the window and the slope store are empty with the counters 0 (the millisecond of
the bin is 0); both pacing ratios are 100; the connection state `tp` is untouched. -/
theorem tcp_flexis_init_spec (sk : sock) (a : Nat) (h : (kzalloc sk.mem).1 = some a) :
    (tcp_flexis_init sk).ca
        = { rtt_bin := { head := [], snd_time_ms := 0, cnt := 0 }
            rtt_sack := { head := [], cnt := 0 }
            slopes := { head := [], cnt := 0 }
            vars := some
              { t0 := 0, r0 := 0, t_ulmt := 0, undo_cwnd := sk.tp.snd_cwnd, snd_nxt := 0,
                rtt_us := -1, epoch_min_rtt := 4294967295 } }
    ∧ (tcp_flexis_init sk).sysctl_tcp_pacing_ss_ratio = 100
    ∧ (tcp_flexis_init sk).sysctl_tcp_pacing_ca_ratio = 100
    ∧ (tcp_flexis_init sk).tp = sk.tp := by
  have h100 : to_s32 ((100 : Nat) : Int) = 100 := by decide
  unfold tcp_flexis_init
  rcases hk : kzalloc sk.mem with ⟨oa, m⟩
  rw [hk] at h
  simp only at h
  subst h
  simp only [update_pacing_ratio]
  rw [if_pos (by decide), h100]
  exact ⟨rfl, rfl, rfl, rfl⟩

/-- C23 at the socket `sk_fresh`, whose connection has the window 10. -/
theorem tcp_flexis_init_spec_witness :
    (tcp_flexis_init sk_fresh).ca.vars
        = some
          { t0 := 0, r0 := 0, t_ulmt := 0, undo_cwnd := 10, snd_nxt := 0, rtt_us := -1,
            epoch_min_rtt := 4294967295 }
    ∧ (tcp_flexis_init sk_fresh).ca.rtt_sack = { head := [], cnt := 0 }
    ∧ (tcp_flexis_init sk_fresh).sysctl_tcp_pacing_ca_ratio = 100 :=
  have h := tcp_flexis_init_spec sk_fresh 1 (by decide)
  ⟨(congrArg flexis.vars h.1).trans (by decide), congrArg flexis.rtt_sack h.1, h.2.2.1⟩

/-! ### The window and the slope store: representation invariant -/

theorem kzalloc_no_fail_brk (m : kmem) (h : m.no_fail) : (kzalloc m).2.brk = m.brk + 1 := by
  obtain ⟨brk, oom⟩ := m
  unfold kmem.no_fail at h
  cases oom with
  | nil => simp [kzalloc]
  | cons b rest =>
    have hb : b = false := h b (List.mem_cons_self _ _)
    subst hb
    simp only [kzalloc]

theorem kzalloc_brk_le (m : kmem) : m.brk ≤ (kzalloc m).2.brk := by
  obtain ⟨brk, oom⟩ := m
  cases oom with
  | nil => simp [kzalloc]
  | cons b rest =>
    cases b <;> simp [kzalloc]

theorem gen_step_weaken (stop : pnode) (b0 b0' b1 : Nat) (batch batch' : List snode)
    (hb : b0 ≤ b0') (hm : ∀ n ∈ batch, n ∈ batch') (p q : pnode)
    (h : gen_step stop b0' b1 batch p q) : gen_step stop b0 b1 batch' p q := by
  obtain ⟨h1, h2, h3, h4⟩ := h
  refine ⟨h1, h2, ?_, h4⟩
  intro hg
  obtain ⟨a, ha1, ha2, ha3, ha4⟩ := h3 hg
  exact ⟨a, by omega, ha2, ha3, hm _ ha4⟩

/-- The loop of `slopes_gen` while no allocation fails: it returns `SUCCESS`; every older
point is treated as `gen_step` says; the batch is the old batch plus the new entries
`news`, one per older point that passes the test of line 370, at distinct addresses
handed out during the call. -/
theorem slopes_gen_loop_full (stop : pnode) (olds tail : List pnode) (ns : slopes) (sk : sock)
    (hfresh : ∀ p ∈ olds, p.addr ≠ stop.addr)
    (hnf : sk.mem.no_fail)
    (hcnt : ns.cnt + olds.length ≤ MAX_U32) :
    ∃ (olds2 : List pnode) (news : List snode) (batch : slopes) (m : kmem),
      slopes_gen_loop stop (olds ++ stop :: tail) ns sk
        = (ret.SUCCESS, olds2 ++ stop :: tail, batch, { sk with mem := m })
      ∧ List.Perm batch.head (news ++ ns.head)
      ∧ batch.cnt = ns.cnt + news.length
      ∧ List.Forall₂ (gen_step stop sk.mem.brk m.brk batch.head) olds olds2
      ∧ List.Perm (olds2.flatMap pnode.refs) (olds.flatMap pnode.refs ++ news.map snode.addr)
      ∧ (∀ n ∈ news, sk.mem.brk ≤ n.addr ∧ n.addr < m.brk
          ∧ ∃ p ∈ olds, n.slope = key_slope p.key stop.key)
      ∧ (news.map snode.addr).Nodup
      ∧ news.length = (olds.filter (fun p => key_gen p.key stop.key)).length
      ∧ sk.mem.brk ≤ m.brk
      ∧ m.no_fail := by
  induction olds generalizing ns sk with
  | nil =>
    refine ⟨[], [], ns, sk.mem, ?_, ?_, ?_, List.Forall₂.nil, ?_, ?_, ?_, ?_, le_refl _, hnf⟩
    · simp only [List.nil_append, slopes_gen_loop, if_true]
    · simp
    · simp
    · simp
    · intro n hn
      simp at hn
    · simp
    · simp
  | cons p rest ih =>
    have hp : p.addr ≠ stop.addr := hfresh p (List.mem_cons_self _ _)
    have hrest : ∀ q ∈ rest, q.addr ≠ stop.addr := fun q hq => hfresh q (List.mem_cons_of_mem _ hq)
    simp only [List.length_cons] at hcnt
    simp only [List.cons_append, slopes_gen_loop, hp, if_false, List.append_eq]
    by_cases hd : 0 < to_s32 ((stop.snd_time_ms : Int) - (p.snd_time_ms : Int))
    · have hg : key_gen p.key stop.key = true := by
        simp only [key_gen, pnode.key, hd, decide_True]
      simp only [hd, if_true]
      have hk := kzalloc_no_fail sk.mem hnf
      have hb1 := kzalloc_no_fail_brk sk.mem hnf
      have hlt : ¬ (ns.cnt ≥ MAX_U32) := by omega
      rcases hkz : kzalloc sk.mem with ⟨oa, m1⟩
      rw [hkz] at hk hb1
      simp only at hk hb1
      obtain ⟨hoa, hm1⟩ := hk
      subst hoa
      simp only [slopes_add_asd, hlt, if_false, hkz]
      have hk2 := kzalloc_no_fail m1 hm1
      have hb2 := kzalloc_no_fail_brk m1 hm1
      rcases hkz2 : kzalloc m1 with ⟨ob, m2⟩
      rw [hkz2] at hk2 hb2
      simp only at hk2 hb2
      obtain ⟨hob, hm2⟩ := hk2
      subst hob
      simp only [fanout_enq, hkz2]
      have e1 : (ns.cnt + 1) % 4294967296 = ns.cnt + 1 := by
        simp only [MAX_U32] at hcnt; omega
      rw [e1]
      obtain ⟨olds2, news, batch, m, h1, h2, h3, h4, h5, h6, h7, h8, h9, h10⟩ := ih
        { head := add_asd snode.slope
            { addr := sk.mem.brk
              slope := Int.tdiv (to_s32 ((stop.rtt_us : Int) - (p.rtt_us : Int)))
                (to_s32 ((stop.snd_time_ms : Int) - (p.snd_time_ms : Int))) } ns.head
          cnt := ns.cnt + 1 }
        { sk with mem := m2 } hrest hm2 (by simp only; omega)
      simp only at h1 h2 h3 h4 h6 h9
      have hperm : List.Perm batch.head
          (({ addr := sk.mem.brk
              slope := Int.tdiv (to_s32 ((stop.rtt_us : Int) - (p.rtt_us : Int)))
                (to_s32 ((stop.snd_time_ms : Int) - (p.snd_time_ms : Int))) } : snode)
            :: news ++ ns.head) := by
        refine h2.trans ?_
        refine (List.Perm.append_left news (add_asd_perm snode.slope _ ns.head)).trans ?_
        simp only [List.cons_append]
        exact List.perm_middle
      refine ⟨{ p with fanout_head := p.fanout_head ++ [{ ptr := sk.mem.brk }] } :: olds2,
        { addr := sk.mem.brk
          slope := Int.tdiv (to_s32 ((stop.rtt_us : Int) - (p.rtt_us : Int)))
            (to_s32 ((stop.snd_time_ms : Int) - (p.snd_time_ms : Int))) } :: news,
        batch, m, ?_, hperm, ?_, ?_, ?_, ?_, ?_, ?_, by omega, h10⟩
      · rw [h1]; rfl
      · rw [h3]
        simp only [List.length_cons]
        omega
      · refine List.Forall₂.cons ?_ ?_
        · refine ⟨rfl, rfl, ?_, ?_⟩
          · intro _
            refine ⟨sk.mem.brk, le_refl _, by omega, rfl, ?_⟩
            apply (hperm.mem_iff).mpr
            simp only [List.cons_append, List.mem_cons]
            exact Or.inl rfl
          · intro hn
            rw [hg] at hn
            exact absurd hn (by decide)
        · exact h4.imp (fun a b h => gen_step_weaken stop _ _ _ _ _ (by omega) (fun n hn => hn)
            a b h)
      · simp only [List.flatMap_cons, List.map_cons]
        have e : ({ p with fanout_head := p.fanout_head ++ [{ ptr := sk.mem.brk }] } : pnode).refs
            = p.refs ++ [sk.mem.brk] := by
          simp only [pnode.refs, List.map_append, List.map_cons, List.map_nil]
        rw [e]
        simp only [List.append_assoc]
        refine List.Perm.append_left p.refs ?_
        simp only [List.singleton_append]
        refine (List.Perm.cons _ h5).trans ?_
        exact List.perm_middle.symm
      · intro n hn
        simp only [List.mem_cons] at hn
        rcases hn with rfl | hn
        · refine ⟨le_refl _, by simp only; omega, p, List.mem_cons_self _ _, rfl⟩
        · obtain ⟨a1, a2, q, hq, a3⟩ := h6 n hn
          exact ⟨by omega, a2, q, List.mem_cons_of_mem _ hq, a3⟩
      · simp only [List.map_cons, List.nodup_cons]
        refine ⟨?_, h7⟩
        intro hmem
        simp only [List.mem_map] at hmem
        obtain ⟨n, hn, hna⟩ := hmem
        have := (h6 n hn).1
        omega
      · simp only [List.length_cons, List.filter_cons, hg, if_true]
        omega
    · have hg : key_gen p.key stop.key = false := by
        simp only [key_gen, pnode.key, hd, decide_False]
      simp only [hd, if_false]
      obtain ⟨olds2, news, batch, m, h1, h2, h3, h4, h5, h6, h7, h8, h9, h10⟩ :=
        ih ns sk hrest hnf (by omega)
      refine ⟨p :: olds2, news, batch, m, ?_, h2, h3, ?_, ?_, ?_, h7, ?_, h9, h10⟩
      · rw [h1]; rfl
      · refine List.Forall₂.cons ?_ h4
        refine ⟨rfl, rfl, ?_, fun _ => rfl⟩
        intro hn
        rw [hg] at hn
        exact absurd hn (by decide)
      · simp only [List.flatMap_cons, List.append_assoc]
        exact List.Perm.append_left p.refs h5
      · intro n hn
        obtain ⟨a1, a2, q, hq, a3⟩ := h6 n hn
        exact ⟨a1, a2, q, List.mem_cons_of_mem _ hq, a3⟩
      · simp only [List.filter_cons, hg, Bool.false_eq_true, if_false]
        exact h8

/-- The counters of the merge loop modulo `2^32`: the counter of the batch is exact, the
counter of the store is the old one plus the number of moved entries. -/
theorem merge_loop_counts_mod (news olds : List snode) (cnt new_cnt : Nat)
    (hlen : news.length ≤ new_cnt) (hnew : new_cnt < 4294967296) :
    (slopes_add_asd_mul_loop news olds cnt new_cnt).2.2.2 + news.length
        = new_cnt + (slopes_add_asd_mul_loop news olds cnt new_cnt).2.1.length
    ∧ ((slopes_add_asd_mul_loop news olds cnt new_cnt).2.2.1
          + (slopes_add_asd_mul_loop news olds cnt new_cnt).2.1.length) % 4294967296
        = (cnt + news.length) % 4294967296
    ∧ ((slopes_add_asd_mul_loop news olds cnt new_cnt).2.1 = [] → news ≠ [] →
        (slopes_add_asd_mul_loop news olds cnt new_cnt).2.2.1 < 4294967296) := by
  induction news generalizing olds cnt new_cnt with
  | nil => simp [slopes_add_asd_mul_loop]
  | cons n ns ih =>
    simp only [slopes_add_asd_mul_loop]
    rcases hc : slopes_add_asd_mul_cursor n.slope olds with ⟨passed, rest⟩
    simp only [List.length_cons] at hlen
    cases rest with
    | nil => simp
    | cons o os =>
      simp only
      have e2 : (new_cnt + 4294967295) % 4294967296 = new_cnt - 1 := by omega
      rw [e2]
      obtain ⟨h1, h2, h3⟩ := ih (o :: os) ((cnt + 1) % 4294967296) (new_cnt - 1) (by omega)
        (by omega)
      simp only [List.length_cons]
      refine ⟨by omega, by omega, ?_⟩
      intro hnil _
      cases ns with
      | nil =>
        simp only [slopes_add_asd_mul_loop]
        omega
      | cons n2 ns2 => exact h3 hnil (by simp)

/-- The function `slopes_add_asd_mul` for a batch whose counter is its length: with an
empty batch it returns `EMPTY_QUE` and changes nothing; otherwise it returns `SUCCESS`,
the store holds the entries of the old store and of the batch, and its counter is the
sum of the two lengths modulo `2^32`. -/
theorem slopes_add_asd_mul_full (sk : sock) (b : slopes)
    (hb : b.cnt = b.head.length) (hb32 : b.head.length < 4294967296)
    (hc : sk.ca.slopes.cnt = sk.ca.slopes.head.length % 4294967296) :
    (b.head = [] → slopes_add_asd_mul sk b = (ret.EMPTY_QUE, sk))
    ∧ (b.head ≠ [] →
        ∃ store : List snode,
          slopes_add_asd_mul sk b
            = (ret.SUCCESS,
                { sk with
                  ca.slopes :=
                    { head := store
                      cnt := (sk.ca.slopes.head.length + b.head.length) % 4294967296 } })
          ∧ List.Perm store (sk.ca.slopes.head ++ b.head)) := by
  constructor
  · intro h
    simp only [slopes_add_asd_mul, h, List.isEmpty_nil, if_true]
  · intro h
    have hbe : b.head.isEmpty = false := by
      cases hh : b.head with
      | nil => exact absurd hh h
      | cons a t => rfl
    by_cases hs : sk.ca.slopes.head = []
    · refine ⟨b.head, ?_, ?_⟩
      · simp only [slopes_add_asd_mul, hbe, hs, List.isEmpty_nil, if_true, Bool.false_eq_true,
          if_false, List.length_nil, Nat.zero_add, hb]
        rw [Nat.mod_eq_of_lt hb32]
      · rw [hs]
        simp
    · have hse : sk.ca.slopes.head.isEmpty = false := by
        cases hh : sk.ca.slopes.head with
        | nil => exact absurd hh hs
        | cons a t => rfl
      have hp := merge_loop_perm b.head sk.ca.slopes.head sk.ca.slopes.cnt b.cnt
      obtain ⟨c1, c2, c3⟩ := merge_loop_counts_mod b.head sk.ca.slopes.head sk.ca.slopes.cnt
        b.cnt (by omega) (by omega)
      generalize hr : slopes_add_asd_mul_loop b.head sk.ca.slopes.head sk.ca.slopes.cnt b.cnt
        = r at hp c1 c2 c3
      by_cases hl : r.2.1 = []
      · refine ⟨r.1, ?_, ?_⟩
        · simp only [slopes_add_asd_mul, hbe, hse, Bool.false_eq_true, if_false, hr, hl,
            List.isEmpty_nil, if_true]
          have h3 := c3 hl h
          rw [hl] at c2
          simp only [List.length_nil, Nat.add_zero] at c2
          have : r.2.2.1 = (sk.ca.slopes.head.length + b.head.length) % 4294967296 := by
            rw [hc] at c2
            omega
          rw [this]
        · rw [hl] at hp
          simpa using hp
      · have hle : r.2.1.isEmpty = false := by
          cases hh : r.2.1 with
          | nil => exact absurd hh hl
          | cons a t => rfl
        refine ⟨r.1 ++ r.2.1, ?_, hp⟩
        simp only [slopes_add_asd_mul, hbe, hse, Bool.false_eq_true, if_false, hr, hle]
        have : (r.2.2.1 + r.2.2.2) % 4294967296
            = (sk.ca.slopes.head.length + b.head.length) % 4294967296 := by
          rw [hc] at c2
          omega
        rw [this]

/-- The function `slopes_gen` for a new point `np` at the tail of the window, while no
allocation fails: every older point is treated as `gen_step` says, the store gains the
new entries `news` (one per older point that passes the test of line 370), and the
return code is `SUCCESS` exactly when there is a new entry. -/
theorem slopes_gen_full (sk : sock) (olds : List pnode) (np : pnode)
    (hw : sk.ca.rtt_sack.head = olds ++ [np])
    (hfresh : ∀ p ∈ olds, p.addr ≠ np.addr)
    (hnf : sk.mem.no_fail)
    (hlen : olds.length ≤ MAX_U32)
    (hc : sk.ca.slopes.cnt = sk.ca.slopes.head.length % 4294967296) :
    ∃ (olds2 : List pnode) (news store : List snode) (m : kmem),
      slopes_gen sk (some np)
        = (if news = [] then ret.EMPTY_QUE else ret.SUCCESS,
            { sk with
              mem := m
              ca.rtt_sack := { head := olds2 ++ [np], cnt := sk.ca.rtt_sack.cnt }
              ca.slopes :=
                { head := store
                  cnt := (sk.ca.slopes.head.length + news.length) % 4294967296 } })
      ∧ List.Perm store (sk.ca.slopes.head ++ news)
      ∧ List.Forall₂ (gen_step np sk.mem.brk m.brk store) olds olds2
      ∧ List.Perm (olds2.flatMap pnode.refs) (olds.flatMap pnode.refs ++ news.map snode.addr)
      ∧ (∀ n ∈ news, sk.mem.brk ≤ n.addr ∧ n.addr < m.brk
          ∧ ∃ p ∈ olds, n.slope = key_slope p.key np.key)
      ∧ (news.map snode.addr).Nodup
      ∧ news.length = (olds.filter (fun p => key_gen p.key np.key)).length
      ∧ sk.mem.brk ≤ m.brk
      ∧ m.no_fail := by
  obtain ⟨olds2, news, batch, m, h1, h2, h3, h4, h5, h6, h7, h8, h9, h10⟩ :=
    slopes_gen_loop_full np olds [] { head := [], cnt := 0 } sk hfresh hnf (by simp only; omega)
  simp only [List.append_nil, Nat.zero_add] at h2 h3
  have hbl : batch.head.length = news.length := h2.length_eq
  have hn32 : news.length < 4294967296 := by
    have := List.length_filter_le (fun p => key_gen p.key np.key) olds
    simp only [MAX_U32] at hlen
    omega
  have hne : (olds ++ [np]).isEmpty = false := by
    cases olds <;> rfl
  have hsl : sk.ca.slopes
      = { head := sk.ca.slopes.head, cnt := sk.ca.slopes.head.length % 4294967296 } := by
    rw [← hc]
  have e0 : slopes_gen sk (some np)
      = slopes_add_asd_mul
          { sk with mem := m, ca.rtt_sack := { head := olds2 ++ [np], cnt := sk.ca.rtt_sack.cnt } }
          batch := by
    simp only [slopes_gen, hw, hne, Bool.false_eq_true, if_false, h1, reduceCtorEq]
  obtain ⟨f1, f2⟩ := slopes_add_asd_mul_full
    { sk with mem := m, ca.rtt_sack := { head := olds2 ++ [np], cnt := sk.ca.rtt_sack.cnt } }
    batch (by rw [h3, hbl]) (by omega) hc
  by_cases hb : batch.head = []
  · have hnews : news = [] := by
      have := hbl
      rw [hb] at this
      exact List.length_eq_zero.mp this.symm
    refine ⟨olds2, news, sk.ca.slopes.head, m, ?_, ?_, ?_, h5, h6, h7, h8, h9, h10⟩
    · rw [e0, f1 hb, if_pos hnews, hnews]
      simp only [List.length_nil, Nat.add_zero]
      rw [← hc]
    · rw [hnews]
      simp
    · refine h4.imp (fun a b h => gen_step_weaken np _ _ _ _ _ (le_refl _) ?_ a b h)
      intro n hn
      rw [hb] at hn
      simp at hn
  · have hnews : news ≠ [] := by
      intro h
      apply hb
      rw [h] at hbl
      exact List.length_eq_zero.mp hbl
    obtain ⟨store, g1, g2⟩ := f2 hb
    refine ⟨olds2, news, store, m, ?_, ?_, ?_, h5, h6, h7, h8, h9, h10⟩
    · rw [e0, g1, if_neg hnews, hbl]
    · exact g2.trans (List.Perm.append_left _ h2)
    · refine h4.imp (fun a b h => gen_step_weaken np _ _ _ _ _ (le_refl _) ?_ a b h)
      intro n hn
      apply (g2.mem_iff).mpr
      exact List.mem_append_right _ hn

theorem forall₂_imp_mem {α β : Type} {R S : α → β → Prop} {l1 : List α} {l2 : List β}
    (h : List.Forall₂ R l1 l2) (himp : ∀ a b, a ∈ l1 → R a b → S a b) :
    List.Forall₂ S l1 l2 := by
  induction h with
  | nil => exact List.Forall₂.nil
  | cons hab _ ih =>
    refine List.Forall₂.cons (himp _ _ (List.mem_cons_self _ _) hab) ?_
    exact ih (fun a b ha => himp a b (List.mem_cons_of_mem _ ha))

/-- The pairing of fanout references and slopes carries over to a store that keeps every
entry the window refers to. -/
theorem pairs_ok_of_refs (store store2 : List snode) (l : List pnode)
    (h : ∀ n ∈ store, n.addr ∈ l.flatMap pnode.refs → n ∈ store2)
    (hp : pairs_ok store l) : pairs_ok store2 l := by
  induction l with
  | nil => trivial
  | cons p rest ih =>
    obtain ⟨h1, h2⟩ := hp
    refine ⟨?_, ih ?_ h2⟩
    · unfold fanout_ok at h1 ⊢
      refine forall₂_imp_mem h1 ?_
      intro f k hf hm
      apply h _ hm
      simp only [List.flatMap_cons, List.mem_append, pnode.refs, List.mem_map]
      exact Or.inl ⟨f, hf, rfl⟩
    · intro n hn hr
      apply h n hn
      simp only [List.flatMap_cons, List.mem_append]
      exact Or.inr hr

theorem gen_step_keys (stop : pnode) (b0 b1 : Nat) (batch : List snode)
    (olds olds2 : List pnode) (h : List.Forall₂ (gen_step stop b0 b1 batch) olds olds2) :
    olds2.map pnode.key = olds.map pnode.key
    ∧ olds2.map pnode.addr = olds.map pnode.addr
    ∧ olds2.length = olds.length := by
  induction h with
  | nil => exact ⟨rfl, rfl, rfl⟩
  | cons hab _ ih =>
    simp only [List.map_cons, List.length_cons, hab.1, hab.2.1, ih.1, ih.2.1, ih.2.2, and_self]

/-- The pairing after `slopes_gen`: every older point holds its old references and, when
the pair passes the test of line 370, the reference to the slope of the pair it forms with
the new point; the new point holds none. -/
theorem pairs_ok_gen (stop : pnode) (b0 b1 : Nat) (store store2 : List snode)
    (olds olds2 : List pnode)
    (h : List.Forall₂ (gen_step stop b0 b1 store2) olds olds2)
    (hp : pairs_ok store olds) (hm : ∀ n ∈ store, n ∈ store2)
    (hs : stop.fanout_head = []) :
    pairs_ok store2 (olds2 ++ [stop]) := by
  induction h with
  | nil =>
    refine ⟨?_, trivial⟩
    unfold fanout_ok
    rw [hs]
    exact List.Forall₂.nil
  | @cons p q ps qs hab hrest ih =>
    obtain ⟨h1, h2⟩ := hp
    refine ⟨?_, ih h2⟩
    have hk := (gen_step_keys stop b0 b1 store2 ps qs hrest).1
    obtain ⟨-, g2, g3, g4⟩ := hab
    unfold fanout_ok at h1 ⊢
    rw [List.append_eq, List.map_append, hk, List.filter_append, g2]
    have h1' : List.Forall₂
        (fun (f : fnode) (k : Nat × Nat) =>
          ({ addr := f.ptr, slope := key_slope p.key k } : snode) ∈ store2)
        p.fanout_head (List.filter (key_gen p.key) (List.map pnode.key ps)) :=
      h1.imp (fun a b hab => hm _ hab)
    by_cases hg : key_gen p.key stop.key = true
    · obtain ⟨a, -, -, ha3, ha4⟩ := g3 hg
      rw [ha3]
      refine List.rel_append h1' ?_
      simp only [List.map_cons, List.map_nil, List.filter_cons, hg, if_true, List.filter_nil]
      exact List.Forall₂.cons ha4 List.Forall₂.nil
    · have hg' : key_gen p.key stop.key = false := by simpa using hg
      rw [g4 hg']
      simp only [List.map_cons, List.map_nil, List.filter_cons, hg', Bool.false_eq_true,
        if_false, List.filter_nil, List.append_nil]
      exact h1'

/-- The function `rtt_sack_enq` while no allocation fails: a full window is left alone;
otherwise the new point, at the next fresh address and with an empty fanout list, goes to
the tail of the window. -/
theorem rtt_sack_enq_full (sk : sock) (t r : Nat) (hnf : sk.mem.no_fail) :
    (sk.ca.rtt_sack.cnt ≥ MAX_U32 → rtt_sack_enq sk t r = (none, sk))
    ∧ (¬ sk.ca.rtt_sack.cnt ≥ MAX_U32 →
        rtt_sack_enq sk t r
          = (some { addr := sk.mem.brk, snd_time_ms := t, rtt_us := r, fanout_head := [] },
              { sk with
                mem := (kzalloc sk.mem).2
                ca.rtt_sack :=
                  { head := sk.ca.rtt_sack.head
                      ++ [{ addr := sk.mem.brk, snd_time_ms := t, rtt_us := r,
                            fanout_head := [] }]
                    cnt := (sk.ca.rtt_sack.cnt + 1) % 4294967296 } })) := by
  constructor
  · intro h
    simp only [rtt_sack_enq, h, if_true]
  · intro h
    have hk := kzalloc_no_fail sk.mem hnf
    rcases hkz : kzalloc sk.mem with ⟨oa, m⟩
    rw [hkz] at hk
    simp only at hk
    obtain ⟨hoa, -⟩ := hk
    subst hoa
    simp only [rtt_sack_enq, h, if_false, hkz]

/-- The invariant `lists_inv` against a later state of the allocator. -/
theorem lists_inv_mono (w : rtt_sack) (s : slopes) (b b2 : Nat) (hb : b ≤ b2)
    (h : lists_inv w s b) : lists_inv w s b2 := by
  obtain ⟨h1, h2, h3, h4, h5, h6, h7, h8, h9⟩ := h
  exact ⟨h1, h2, h3, h4, fun p hp => lt_of_lt_of_le (h5 p hp) hb, h6,
    fun a ha => lt_of_lt_of_le (h7 a ha) hb, h8, h9⟩

/-- The invariant `lists_inv` of an empty window and an empty store. -/
theorem lists_inv_empty (b : Nat) :
    lists_inv { head := [], cnt := 0 } { head := [], cnt := 0 } b := by
  refine ⟨rfl, by simp, rfl, by simp, ?_, by simp [slopes.addrs], ?_, ?_, trivial⟩
  · intro p hp
    simp at hp
  · intro a ha
    simp [slopes.addrs] at ha
  · simp [rtt_sack.refs, slopes.addrs]

/-- Closing a bin while no allocation fails and the window has room: `rtt_sack_enq`
appends the new point `np` and `slopes_gen` treats every older point as `gen_step` says;
the store gains the new entries `news`; the return code of `slopes_gen` is `SUCCESS`
exactly when there is a new entry; the invariant `lists_inv` is kept. -/
theorem window_add_full (sk : sock) (t r : Nat) (np : pnode)
    (hnp : np = { addr := sk.mem.brk, snd_time_ms := t, rtt_us := r, fanout_head := [] })
    (hnf : sk.mem.no_fail)
    (hinv : lists_inv sk.ca.rtt_sack sk.ca.slopes sk.mem.brk)
    (hroom : sk.ca.rtt_sack.cnt < MAX_U32) :
    (rtt_sack_enq sk t r).1 = some np
    ∧ ∃ (olds2 : List pnode) (news store : List snode) (m : kmem),
        slopes_gen (rtt_sack_enq sk t r).2 (some np)
          = (if news = [] then ret.EMPTY_QUE else ret.SUCCESS,
              { sk with
                mem := m
                ca.rtt_sack := { head := olds2 ++ [np], cnt := sk.ca.rtt_sack.cnt + 1 }
                ca.slopes :=
                  { head := store
                    cnt := (sk.ca.slopes.head.length + news.length) % 4294967296 } })
        ∧ olds2.map pnode.key = sk.ca.rtt_sack.head.map pnode.key
        ∧ List.Forall₂ (gen_step np sk.mem.brk m.brk store) sk.ca.rtt_sack.head olds2
        ∧ List.Perm store (sk.ca.slopes.head ++ news)
        ∧ (∀ n ∈ news, ∃ p ∈ sk.ca.rtt_sack.head, n.slope = key_slope p.key np.key)
        ∧ news.length
            = (sk.ca.rtt_sack.head.filter (fun p => key_gen p.key np.key)).length
        ∧ m.no_fail
        ∧ sk.mem.brk < m.brk
        ∧ lists_inv { head := olds2 ++ [np], cnt := sk.ca.rtt_sack.cnt + 1 }
            { head := store
              cnt := (sk.ca.slopes.head.length + news.length) % 4294967296 } m.brk := by
  obtain ⟨i1, i2, i3, i4, i5, i6, i7, i8, i9⟩ := hinv
  have hge : ¬ sk.ca.rtt_sack.cnt ≥ MAX_U32 := by omega
  have henq := (rtt_sack_enq_full sk t r hnf).2 hge
  rw [← hnp] at henq
  have hk := kzalloc_no_fail sk.mem hnf
  have hkb := kzalloc_no_fail_brk sk.mem hnf
  have e1 : (sk.ca.rtt_sack.cnt + 1) % 4294967296 = sk.ca.rtt_sack.cnt + 1 := by
    simp only [MAX_U32] at hroom; omega
  rw [e1] at henq
  have haddr : np.addr = sk.mem.brk := by rw [hnp]
  have hfan : np.fanout_head = [] := by rw [hnp]
  refine ⟨by rw [henq], ?_⟩
  obtain ⟨olds2, news, store, m, g1, g2, g3, g4, g5, g6, g7, g8, g9⟩ :=
    slopes_gen_full
      { sk with
        mem := (kzalloc sk.mem).2
        ca.rtt_sack := { head := sk.ca.rtt_sack.head ++ [np], cnt := sk.ca.rtt_sack.cnt + 1 } }
      sk.ca.rtt_sack.head np rfl
      (by
        intro p hp
        have := i5 p hp
        omega)
      hk.2 (by simp only [MAX_U32]; omega) i3
  simp only at g1 g2 g3 g4 g5 g6 g7 g8 g9
  rw [hkb] at g3 g5 g8
  have hkeys := gen_step_keys np _ _ store _ _ g3
  have hlen : store.length = sk.ca.slopes.head.length + news.length := by
    rw [g2.length_eq, List.length_append]
  have hnews_lt : ∀ a ∈ news.map snode.addr, sk.mem.brk < a ∧ a < m.brk := by
    intro a ha
    simp only [List.mem_map] at ha
    obtain ⟨n, hn, rfl⟩ := ha
    have := g5 n hn
    omega
  have hstore_addrs : List.Perm (store.map snode.addr)
      (sk.ca.slopes.addrs ++ news.map snode.addr) := by
    have := g2.map snode.addr
    simpa [slopes.addrs] using this
  refine ⟨olds2, news, store, m, ?_, hkeys.1, ?_, g2, ?_, g7, g9, by omega, ?_⟩
  · rw [henq, g1]
  · exact g3.imp (fun a b h => gen_step_weaken np _ _ _ _ _ (by omega) (fun n hn => hn) a b h)
  · intro n hn
    obtain ⟨-, -, p, hp, hs⟩ := g5 n hn
    exact ⟨p, hp, hs⟩
  · refine ⟨?_, ?_, ?_, ?_, ?_, ?_, ?_, ?_, ?_⟩
    · simp only [List.length_append, List.length_cons, List.length_nil, hkeys.2.2]
      omega
    · simp only [List.length_append, List.length_cons, List.length_nil, hkeys.2.2]
      simp only [MAX_U32] at hroom
      omega
    · simp only
      rw [hlen]
    · simp only [List.map_append, List.map_cons, List.map_nil, hkeys.2.1]
      rw [List.nodup_append]
      refine ⟨i4, by simp, ?_⟩
      intro a ha hb
      simp only [List.mem_singleton] at hb
      simp only [List.mem_map] at ha
      obtain ⟨p, hp, hpa⟩ := ha
      have := i5 p hp
      omega
    · intro p hp
      simp only [List.mem_append, List.mem_singleton] at hp
      rcases hp with hp | hp
      · have hm : p.addr ∈ olds2.map pnode.addr := List.mem_map_of_mem _ hp
        rw [hkeys.2.1] at hm
        simp only [List.mem_map] at hm
        obtain ⟨q, hq, hqa⟩ := hm
        have := i5 q hq
        omega
      · rw [hp, haddr]
        omega
    · show (store.map snode.addr).Nodup
      rw [hstore_addrs.nodup_iff, List.nodup_append]
      refine ⟨i6, g6, ?_⟩
      intro a ha hb
      have h1 := i7 a ha
      have h2 := hnews_lt a hb
      omega
    · intro a ha
      have ha2 : a ∈ sk.ca.slopes.addrs ++ news.map snode.addr :=
        (hstore_addrs.mem_iff).mp ha
      simp only [List.mem_append] at ha2
      rcases ha2 with h | h
      · have := i7 a h
        omega
      · exact (hnews_lt a h).2
    · show List.Perm ((olds2 ++ [np]).flatMap pnode.refs) (store.map snode.addr)
      refine List.Perm.trans ?_ hstore_addrs.symm
      simp only [List.flatMap_append, List.flatMap_cons, List.flatMap_nil, pnode.refs, hfan,
        List.map_nil, List.append_nil]
      refine g4.trans ?_
      exact List.Perm.append_right _ i8
    · exact pairs_ok_gen np _ _ sk.ca.slopes.head store _ _ g3 i9
        (fun n hn => (g2.mem_iff).mpr (List.mem_append_left _ hn)) hfan

/-- The counter of the store through `fout_reset`, modulo `2^32`: distinct references to
entries of the store remove one entry each. -/
theorem fout_reset_loop_cnt_mod (fs : List fnode) (sk : sock)
    (hnd : (sk.ca.slopes.head.map snode.addr).Nodup)
    (hfs : (fs.map fnode.ptr).Nodup)
    (hlive : ∀ f ∈ fs, f.ptr ∈ sk.ca.slopes.head.map snode.addr)
    (hcnt : sk.ca.slopes.cnt = sk.ca.slopes.head.length % 4294967296) :
    (fout_reset_loop fs sk).ca.slopes.cnt
        = (fout_reset_loop fs sk).ca.slopes.head.length % 4294967296
    ∧ (fout_reset_loop fs sk).ca.slopes.head.length + fs.length
        = sk.ca.slopes.head.length := by
  induction fs generalizing sk with
  | nil => simp [fout_reset_loop, hcnt]
  | cons f rest ih =>
    simp only [fout_reset_loop, List.length_cons]
    simp only [List.map_cons, List.nodup_cons] at hfs
    have hf := hlive f (List.mem_cons_self _ _)
    have hlen := filter_ne_length sk.ca.slopes.head f.ptr hnd hf
    have hne : sk.ca.slopes.head.isEmpty = false := by
      cases h : sk.ca.slopes.head with
      | nil => rw [h] at hf; simp at hf
      | cons a t => rfl
    have hhead := slopes_del_head sk f.ptr
    have hc : (slopes_del sk (some f.ptr)).2.ca.slopes.cnt
        = (sk.ca.slopes.cnt + 4294967295) % 4294967296 := by
      simp [slopes_del, hne]
    have h := ih (slopes_del sk (some f.ptr)).2
      (by
        rw [hhead]
        exact hnd.sublist ((List.filter_sublist _).map _))
      hfs.2
      (by
        intro g hg
        rw [hhead]
        have hg1 := hlive g (List.mem_cons_of_mem _ hg)
        simp only [List.mem_map] at hg1 ⊢
        obtain ⟨n, hn, hna⟩ := hg1
        refine ⟨n, ?_, hna⟩
        simp only [List.mem_filter, hn, true_and, ne_eq, decide_eq_true_eq]
        intro hc2
        apply hfs.1
        rw [← hc2, hna]
        exact List.mem_map_of_mem _ hg)
      (by rw [hc, hhead, hcnt]; omega)
    rw [hhead] at h
    refine ⟨h.1, ?_⟩
    omega

theorem rtt_sack_deq_eq (sk : sock) (p : pnode) (rest : List pnode)
    (hw : sk.ca.rtt_sack.head = p :: rest) :
    rtt_sack_deq sk
      = { sk with
          ca.rtt_sack :=
            { head := rest, cnt := (sk.ca.rtt_sack.cnt + 4294967295) % 4294967296 }
          ca.slopes := (fout_reset_loop p.fanout_head sk).ca.slopes } := by
  by_cases hf : p.fanout_head.isEmpty = true
  · have hnil : p.fanout_head = [] := by simpa using hf
    have e : rtt_sack_deq sk
        = { sk with
            ca.rtt_sack :=
              { head := rest, cnt := (sk.ca.rtt_sack.cnt + 4294967295) % 4294967296 } } := by
      simp only [rtt_sack_deq, hw, hf, if_true]
    rw [e, hnil]
    rfl
  · have e : rtt_sack_deq sk
        = { fout_reset_loop p.fanout_head sk with
            ca.rtt_sack :=
              { head := rest
                cnt := ((fout_reset_loop p.fanout_head sk).ca.rtt_sack.cnt + 4294967295)
                  % 4294967296 } } := by
      simp only [rtt_sack_deq, hw, hf, if_false, fout_reset, Bool.false_eq_true]
    rw [e, fout_reset_loop_frame]

/-- The function `rtt_sack_deq` under the invariant `lists_inv`: the oldest point leaves
the window, the store loses exactly the entries that point refers to, as many as its
fanout list has references, and the invariant is kept. -/
theorem rtt_sack_deq_full (sk : sock) (p : pnode) (rest : List pnode)
    (hw : sk.ca.rtt_sack.head = p :: rest)
    (hinv : lists_inv sk.ca.rtt_sack sk.ca.slopes sk.mem.brk) :
    (rtt_sack_deq sk).ca.rtt_sack = { head := rest, cnt := rest.length }
    ∧ (rtt_sack_deq sk).ca.slopes.head
        = sk.ca.slopes.head.filter (fun n => decide (n.addr ∉ p.refs))
    ∧ (rtt_sack_deq sk).ca.slopes.head.length + p.fanout_head.length
        = sk.ca.slopes.head.length
    ∧ (rtt_sack_deq sk).mem = sk.mem
    ∧ lists_inv (rtt_sack_deq sk).ca.rtt_sack (rtt_sack_deq sk).ca.slopes sk.mem.brk := by
  obtain ⟨i1, i2, i3, i4, i5, i6, i7, i8, i9⟩ := hinv
  have e := rtt_sack_deq_eq sk p rest hw
  have hrefs : sk.ca.rtt_sack.refs = p.refs ++ rest.flatMap pnode.refs := by
    simp only [rtt_sack.refs, hw, List.flatMap_cons]
  rw [hrefs] at i8
  have hnd : (p.refs ++ rest.flatMap pnode.refs).Nodup := (i8.nodup_iff).mpr i6
  rw [List.nodup_append] at hnd
  obtain ⟨n1, n2, n3⟩ := hnd
  have hlive : ∀ f ∈ p.fanout_head, f.ptr ∈ sk.ca.slopes.head.map snode.addr := by
    intro f hf
    apply (i8.mem_iff).mp
    simp only [List.mem_append, pnode.refs, List.mem_map]
    exact Or.inl ⟨f, hf, rfl⟩
  obtain ⟨c1, c2⟩ := fout_reset_loop_cnt_mod p.fanout_head sk i6 n1 hlive i3
  have hhead := fout_reset_loop_head p.fanout_head sk
  have hcnt : (sk.ca.rtt_sack.cnt + 4294967295) % 4294967296 = rest.length := by
    rw [i1, hw] at *
    simp only [List.length_cons] at i2 ⊢
    omega
  have hfilter : List.Perm (rest.flatMap pnode.refs)
      ((sk.ca.slopes.head.filter (fun n => decide (n.addr ∉ p.refs))).map snode.addr) := by
    have h1 : (sk.ca.slopes.head.filter (fun n => decide (n.addr ∉ p.refs))).map snode.addr
        = (sk.ca.slopes.head.map snode.addr).filter (fun a => decide (a ∉ p.refs)) := by
      rw [List.filter_map]
      rfl
    rw [h1]
    have h2 := (i8.filter (fun a => decide (a ∉ p.refs))).symm
    refine List.Perm.trans ?_ h2.symm
    rw [List.filter_append]
    have h3 : p.refs.filter (fun a => decide (a ∉ p.refs)) = [] := by
      rw [List.filter_eq_nil_iff]
      intro a ha
      simpa using ha
    have h4 : (rest.flatMap pnode.refs).filter (fun a => decide (a ∉ p.refs))
        = rest.flatMap pnode.refs := by
      rw [List.filter_eq_self]
      intro a ha
      simp only [decide_eq_true_eq]
      intro hp
      exact n3 hp ha
    rw [h3, h4]
    simp
  refine ⟨?_, ?_, ?_, ?_, ?_⟩
  · rw [e, hcnt]
  · rw [e]
    exact hhead
  · rw [e]
    exact c2
  · rw [e]
  · rw [e]
    refine ⟨?_, ?_, ?_, ?_, ?_, ?_, ?_, ?_, ?_⟩
    · exact hcnt
    · simp only
      rw [hw] at i2
      simp only [List.length_cons] at i2
      omega
    · exact c1
    · simp only
      rw [hw] at i4
      simp only [List.map_cons, List.nodup_cons] at i4
      exact i4.2
    · intro q hq
      exact i5 q (by rw [hw]; exact List.mem_cons_of_mem _ hq)
    · show ((fout_reset_loop p.fanout_head sk).ca.slopes.head.map snode.addr).Nodup
      rw [hhead]
      exact i6.sublist ((List.filter_sublist _).map _)
    · intro a ha
      apply i7
      have ha2 : a ∈ (fout_reset_loop p.fanout_head sk).ca.slopes.head.map snode.addr := ha
      rw [hhead] at ha2
      simp only [List.mem_map, List.mem_filter] at ha2
      obtain ⟨n, ⟨hn, -⟩, hna⟩ := ha2
      simp only [slopes.addrs, List.mem_map]
      exact ⟨n, hn, hna⟩
    · show List.Perm (rest.flatMap pnode.refs)
        ((fout_reset_loop p.fanout_head sk).ca.slopes.head.map snode.addr)
      rw [hhead]
      exact hfilter
    · show pairs_ok (fout_reset_loop p.fanout_head sk).ca.slopes.head rest
      rw [hhead, hw] at *
      refine pairs_ok_of_refs sk.ca.slopes.head _ rest ?_ i9.2
      intro n hn hr
      simp only [List.mem_filter, hn, true_and, decide_eq_true_eq]
      intro hp
      exact n3 hp hr

/-- The function `rtt_bin_add_asd` touches the bin and the allocator only, and the
allocator never goes back. -/
theorem rtt_bin_add_asd_frame (sk : sock) (ms v : Nat) :
    (rtt_bin_add_asd sk ms v).2
        = { sk with
            mem := (rtt_bin_add_asd sk ms v).2.mem
            ca.rtt_bin := (rtt_bin_add_asd sk ms v).2.ca.rtt_bin }
    ∧ sk.mem.brk ≤ (rtt_bin_add_asd sk ms v).2.mem.brk := by
  unfold rtt_bin_add_asd
  split
  · exact ⟨rfl, le_refl _⟩
  · have hb := kzalloc_brk_le sk.mem
    rcases hk : kzalloc sk.mem with ⟨oa, m⟩
    rw [hk] at hb
    cases oa with
    | none => exact ⟨rfl, hb⟩
    | some a => exact ⟨rfl, hb⟩

theorem lists_inv_same {a b : sock} (h : same_lists a b)
    (hb : lists_inv b.ca.rtt_sack b.ca.slopes b.mem.brk) :
    lists_inv a.ca.rtt_sack a.ca.slopes a.mem.brk := by
  obtain ⟨-, h2, h3, h4, -⟩ := h
  rw [h2, h3, h4]
  exact hb

theorem engine_inv_same {a b : sock} (h : same_lists a b) (hb : engine_inv b) :
    engine_inv a :=
  ⟨window_inv_same h hb.1, lists_inv_same h hb.2⟩

/-- The bin step under the invariant `engine_inv`, for a sample that is not older than
the bin.  The invariant is kept and the connection state, `vars` and the pacing ratios
are untouched.  When the sample belongs to the open bin, or the bin is empty, or the
window is full, the window and the slope store are unchanged and the flag `reasoning`
is not set.  Otherwise the bin is closed: the window gains the point `np` (the
millisecond of the bin and its median), every older point is treated as `gen_step` says,
the store gains the new entries `news`, and the flag is set exactly when there is a new
entry. -/
theorem cong_avoid_bin_full (sk : sock) (rtt_us : Int) (ms med_rtt : Nat)
    (h : engine_inv sk) (hms : sk.ca.rtt_bin.snd_time_ms ≤ ms) :
    engine_inv (cong_avoid_bin sk rtt_us ms med_rtt).1
    ∧ (cong_avoid_bin sk rtt_us ms med_rtt).1.tp = sk.tp
    ∧ (cong_avoid_bin sk rtt_us ms med_rtt).1.ca.vars = sk.ca.vars
    ∧ (cong_avoid_bin sk rtt_us ms med_rtt).1.sysctl_tcp_pacing_ss_ratio
        = sk.sysctl_tcp_pacing_ss_ratio
    ∧ (cong_avoid_bin sk rtt_us ms med_rtt).1.sysctl_tcp_pacing_ca_ratio
        = sk.sysctl_tcp_pacing_ca_ratio
    ∧ (ms = sk.ca.rtt_bin.snd_time_ms ∨ sk.ca.rtt_bin.head = []
          ∨ sk.ca.rtt_sack.cnt ≥ MAX_U32 →
        (cong_avoid_bin sk rtt_us ms med_rtt).2 = false
        ∧ (cong_avoid_bin sk rtt_us ms med_rtt).1.ca.rtt_sack = sk.ca.rtt_sack
        ∧ (cong_avoid_bin sk rtt_us ms med_rtt).1.ca.slopes = sk.ca.slopes)
    ∧ (ms ≠ sk.ca.rtt_bin.snd_time_ms → sk.ca.rtt_bin.head ≠ [] →
        sk.ca.rtt_sack.cnt < MAX_U32 →
        ∃ (np : pnode) (olds2 : List pnode) (news : List snode) (b1 : Nat),
          np = { addr := sk.mem.brk, snd_time_ms := sk.ca.rtt_bin.snd_time_ms,
                 rtt_us := ((rtt_bin_median sk (some med_rtt)).2).getD med_rtt,
                 fanout_head := [] }
          ∧ (cong_avoid_bin sk rtt_us ms med_rtt).1.ca.rtt_sack
              = { head := olds2 ++ [np], cnt := sk.ca.rtt_sack.cnt + 1 }
          ∧ olds2.map pnode.key = sk.ca.rtt_sack.head.map pnode.key
          ∧ List.Forall₂
              (gen_step np sk.mem.brk b1 (cong_avoid_bin sk rtt_us ms med_rtt).1.ca.slopes.head)
              sk.ca.rtt_sack.head olds2
          ∧ List.Perm (cong_avoid_bin sk rtt_us ms med_rtt).1.ca.slopes.head
              (sk.ca.slopes.head ++ news)
          ∧ (∀ n ∈ news, ∃ p ∈ sk.ca.rtt_sack.head, n.slope = key_slope p.key np.key)
          ∧ news.length
              = (sk.ca.rtt_sack.head.filter (fun p => key_gen p.key np.key)).length
          ∧ ((cong_avoid_bin sk rtt_us ms med_rtt).2 = true ↔ news ≠ [])) := by
  have hwi := cong_avoid_bin_inv sk rtt_us ms med_rtt h.1 hms
  have hnf : sk.mem.no_fail := h.1.2.1
  -- the three ways in which the window is left alone
  have keep : ∀ X : sock, X.tp = sk.tp → X.ca.vars = sk.ca.vars
      → X.sysctl_tcp_pacing_ss_ratio = sk.sysctl_tcp_pacing_ss_ratio
      → X.sysctl_tcp_pacing_ca_ratio = sk.sysctl_tcp_pacing_ca_ratio
      → lists_inv X.ca.rtt_sack X.ca.slopes X.mem.brk
      → lists_inv (rtt_bin_add_asd X ms (to_u32 rtt_us)).2.ca.rtt_sack
            (rtt_bin_add_asd X ms (to_u32 rtt_us)).2.ca.slopes
            (rtt_bin_add_asd X ms (to_u32 rtt_us)).2.mem.brk
        ∧ (rtt_bin_add_asd X ms (to_u32 rtt_us)).2.tp = sk.tp
        ∧ (rtt_bin_add_asd X ms (to_u32 rtt_us)).2.ca.vars = sk.ca.vars
        ∧ (rtt_bin_add_asd X ms (to_u32 rtt_us)).2.sysctl_tcp_pacing_ss_ratio
            = sk.sysctl_tcp_pacing_ss_ratio
        ∧ (rtt_bin_add_asd X ms (to_u32 rtt_us)).2.sysctl_tcp_pacing_ca_ratio
            = sk.sysctl_tcp_pacing_ca_ratio
        ∧ (rtt_bin_add_asd X ms (to_u32 rtt_us)).2.ca.rtt_sack = X.ca.rtt_sack
        ∧ (rtt_bin_add_asd X ms (to_u32 rtt_us)).2.ca.slopes = X.ca.slopes := by
    intro X x1 x2 x3 x4 x5
    obtain ⟨f1, f2⟩ := rtt_bin_add_asd_frame X ms (to_u32 rtt_us)
    rw [f1]
    exact ⟨lists_inv_mono _ _ _ _ f2 x5, x1, x2, x3, x4, rfl, rfl⟩
  by_cases hsame : ms = sk.ca.rtt_bin.snd_time_ms
  · have e : cong_avoid_bin sk rtt_us ms med_rtt
        = ((rtt_bin_add_asd sk ms (to_u32 rtt_us)).2, false) := by
      unfold cong_avoid_bin
      rw [if_pos hsame]
    obtain ⟨k1, k2, k3, k4, k5, k6, k7⟩ := keep sk rfl rfl rfl rfl h.2
    rw [e] at hwi ⊢
    exact ⟨⟨hwi, k1⟩, k2, k3, k4, k5, fun _ => ⟨rfl, k6, k7⟩, fun hne => absurd hsame hne⟩
  · by_cases hemp : sk.ca.rtt_bin.head = []
    · have e : cong_avoid_bin sk rtt_us ms med_rtt
          = ((rtt_bin_add_asd sk ms (to_u32 rtt_us)).2, false) := by
        unfold cong_avoid_bin
        rw [if_neg hsame]
        simp only [hemp, List.isEmpty_nil, not_true_eq_false, if_false]
      obtain ⟨k1, k2, k3, k4, k5, k6, k7⟩ := keep sk rfl rfl rfl rfl h.2
      rw [e] at hwi ⊢
      exact ⟨⟨hwi, k1⟩, k2, k3, k4, k5, fun _ => ⟨rfl, k6, k7⟩,
        fun _ hne => absurd hemp hne⟩
    · have hne : sk.ca.rtt_bin.head.isEmpty = false := by
        cases hh : sk.ca.rtt_bin.head with
        | nil => exact absurd hh hemp
        | cons a t => rfl
      generalize hmed : ((rtt_bin_median sk (some med_rtt)).2).getD med_rtt = med
      by_cases hfull : sk.ca.rtt_sack.cnt ≥ MAX_U32
      · have henq := (rtt_sack_enq_full sk sk.ca.rtt_bin.snd_time_ms med hnf).1 hfull
        have e : cong_avoid_bin sk rtt_us ms med_rtt
            = ((rtt_bin_add_asd (rtt_bin_reset sk) ms (to_u32 rtt_us)).2, false) := by
          unfold cong_avoid_bin
          rw [if_neg hsame]
          simp only [hne, Bool.false_eq_true, not_false_eq_true, if_true, hmed, henq]
        obtain ⟨k1, k2, k3, k4, k5, k6, k7⟩ := keep (rtt_bin_reset sk) rfl rfl rfl rfl h.2
        rw [e] at hwi ⊢
        exact ⟨⟨hwi, k1⟩, k2, k3, k4, k5, fun _ => ⟨rfl, k6, k7⟩,
          fun _ _ hlt => absurd hfull (by omega)⟩
      · obtain ⟨a1, olds2, news, store, m, a2, a3, a4, a5, a6, a7, a8, a9, a10⟩ :=
          window_add_full sk sk.ca.rtt_bin.snd_time_ms med
            { addr := sk.mem.brk, snd_time_ms := sk.ca.rtt_bin.snd_time_ms, rtt_us := med,
              fanout_head := [] }
            rfl hnf h.2 (by omega)
        have e : cong_avoid_bin sk rtt_us ms med_rtt
            = ((rtt_bin_add_asd
                (rtt_bin_reset
                  { sk with
                    mem := m
                    ca.rtt_sack :=
                      { head := olds2
                          ++ [{ addr := sk.mem.brk, snd_time_ms := sk.ca.rtt_bin.snd_time_ms,
                                rtt_us := med, fanout_head := [] }]
                        cnt := sk.ca.rtt_sack.cnt + 1 }
                    ca.slopes :=
                      { head := store
                        cnt := (sk.ca.slopes.head.length + news.length) % 4294967296 } })
                ms (to_u32 rtt_us)).2,
              decide (news ≠ [])) := by
          unfold cong_avoid_bin
          rw [if_neg hsame]
          simp only [hne, Bool.false_eq_true, not_false_eq_true, if_true, hmed, a1, a2]
          by_cases hn : news = []
          · simp [hn]
          · simp [hn]
        obtain ⟨k1, k2, k3, k4, k5, k6, k7⟩ := keep
          (rtt_bin_reset
            { sk with
              mem := m
              ca.rtt_sack :=
                { head := olds2
                    ++ [{ addr := sk.mem.brk, snd_time_ms := sk.ca.rtt_bin.snd_time_ms,
                          rtt_us := med, fanout_head := [] }]
                  cnt := sk.ca.rtt_sack.cnt + 1 }
              ca.slopes :=
                { head := store
                  cnt := (sk.ca.slopes.head.length + news.length) % 4294967296 } })
          rfl rfl rfl rfl a10
        rw [e] at hwi ⊢
        refine ⟨⟨hwi, k1⟩, k2, k3, k4, k5, ?_, ?_⟩
        · intro hor
          rcases hor with h1 | h1 | h1
          · exact absurd h1 hsame
          · exact absurd h1 hemp
          · exact absurd h1 hfull
        · intro _ _ _
          refine ⟨_, olds2, news, m.brk, rfl, ?_, a3, ?_, ?_, a6, a7, ?_⟩
          · rw [k6]
            rfl
          · rw [k7]
            exact a4
          · rw [k7]
            exact a5
          · simp

/-! ### The acknowledgment driver in two halves -/

/-- The driver is its front half followed by the decision. -/
theorem tcp_flexis_cong_avoid_eq (P : params) (sk : sock) (ack acked med_rtt : Nat)
    (theil_slope : Int) :
    tcp_flexis_cong_avoid P sk ack acked med_rtt theil_slope
      = match cong_avoid_front sk ack med_rtt with
        | none => sk
        | some b => cong_avoid_decide P b.1 b.2 (cong_avoid_dur b.1) theil_slope := by
  unfold tcp_flexis_cong_avoid cong_avoid_front
  cases sk.ca.vars with
  | none => rfl
  | some v =>
    dsimp only
    split
    · rfl
    · cases cong_avoid_snd_time_ms sk v with
      | none => rfl
      | some ms =>
        dsimp only
        split
        · rfl
        · split
          · rfl
          · rfl

/-- The decision by branch. -/
theorem cong_avoid_decide_eq (P : params) (sk : sock) (reasoning : Bool) (dur : Nat)
    (theil_slope : Int) :
    cong_avoid_decide P sk reasoning dur theil_slope
      = match cong_avoid_decide_verdict P sk reasoning dur theil_slope with
        | verdict.decrease => cong_avoid_dec P sk
        | verdict.keep => increase_cwnd P sk
        | verdict.abort => sk
        | _ => cong_avoid_inc P sk := by
  unfold cong_avoid_decide cong_avoid_decide_verdict
  split
  · split
    · rfl
    · dsimp only
      split <;> rfl
  · rfl

/-- The branch of the decision in the terms of its tests. -/
theorem cong_avoid_decide_verdict_cases (P : params) (sk : sock) (reasoning : Bool)
    (dur : Nat) (theil_slope : Int) :
    (cong_avoid_decide_verdict P sk reasoning dur theil_slope ≠ verdict.abort)
    ∧ (cong_avoid_decide_verdict P sk reasoning dur theil_slope = verdict.keep
        ↔ ¬ (reasoning = true ∧ dur ≥ to_u32 P.tau)) := by
  unfold cong_avoid_decide_verdict
  split
  · rename_i h
    split
    · simp [h]
    · dsimp only
      split <;> simp [h]
  · rename_i h
    simp [h]

/-- The growth step keeps the guard and never lowers the window; the new window is at
most the larger of the old window and the clamp. -/
theorem increase_cwnd_grow_keeps (P : params) (sk : sock) (v1 : vars) :
    (increase_cwnd_grow P sk v1).ca.vars.map vars.snd_nxt = some v1.snd_nxt
    ∧ sk.tp.snd_cwnd ≤ (increase_cwnd_grow P sk v1).tp.snd_cwnd
    ∧ (increase_cwnd_grow P sk v1).tp.snd_cwnd ≤ max sk.tp.snd_cwnd sk.tp.snd_cwnd_clamp := by
  unfold increase_cwnd_grow
  dsimp only
  split
  · exact ⟨rfl, le_refl _, le_max_left _ _⟩
  · split
    · exact ⟨rfl, le_refl _, le_max_left _ _⟩
    · rw [update_pacing_ratio_ca, update_pacing_ratio_tp]
      refine ⟨rfl, le_max_left _ _, ?_⟩
      simp only
      omega

/-- The function `increase_cwnd` keeps the guard and never lowers the window; the new
window is at most the larger of the old window and the clamp. -/
theorem increase_cwnd_keeps (P : params) (sk : sock) :
    (increase_cwnd P sk).ca.vars.map vars.snd_nxt = sk.ca.vars.map vars.snd_nxt
    ∧ sk.tp.snd_cwnd ≤ (increase_cwnd P sk).tp.snd_cwnd
    ∧ (increase_cwnd P sk).tp.snd_cwnd ≤ max sk.tp.snd_cwnd sk.tp.snd_cwnd_clamp := by
  rw [increase_cwnd_eq]
  cases hv : sk.ca.vars with
  | none =>
    simp only [hv]
    exact ⟨trivial, le_refl _, le_max_left _ _⟩
  | some v =>
    dsimp only
    split
    · simp only [hv, Option.map_some', true_and]
      exact ⟨le_refl _, le_max_left _ _⟩
    · split
      · split
        · simp only [update_pacing_ratio_tp, Option.map_some', true_and]
          exact ⟨le_refl _, le_max_left _ _⟩
        · simp only [update_pacing_ratio_tp, update_pacing_ratio_ca, hv, Option.map_some',
            true_and]
          exact ⟨le_refl _, le_max_left _ _⟩
      · split
        · simp only [hv, Option.map_some', true_and]
          exact ⟨le_refl _, le_max_left _ _⟩
        · split
          · simp only [hv, Option.map_some', true_and]
            exact ⟨le_refl _, le_max_left _ _⟩
          · have h := increase_cwnd_grow_keeps P sk (increase_cwnd_shift sk v)
            rw [(increase_cwnd_shift_fields sk v).2.2.2.1] at h
            simpa only [Option.map_some'] using h

theorem init_inc_epoch_keeps (sk : sock) :
    (init_inc_epoch sk).ca.vars.map vars.snd_nxt = sk.ca.vars.map vars.snd_nxt
    ∧ (init_inc_epoch sk).tp = sk.tp := by
  unfold init_inc_epoch
  cases hv : sk.ca.vars with
  | none => simp only [hv, Option.map_none', and_self]
  | some v => exact ⟨rfl, rfl⟩

/-- The branch `inc` under the invariant: the invariant is kept, the oldest point of a
window that is not empty is evicted and the store loses the entries it refers to, the
guard stays and the window `cwnd` is not lowered. -/
theorem cong_avoid_inc_full (P : params) (sk : sock) (h : engine_inv sk) :
    engine_inv (cong_avoid_inc P sk)
    ∧ (cong_avoid_inc P sk).ca.rtt_sack.head = sk.ca.rtt_sack.head.tail
    ∧ List.Sublist (cong_avoid_inc P sk).ca.slopes.head sk.ca.slopes.head
    ∧ (cong_avoid_inc P sk).ca.vars.map vars.snd_nxt = sk.ca.vars.map vars.snd_nxt
    ∧ sk.tp.snd_cwnd ≤ (cong_avoid_inc P sk).tp.snd_cwnd := by
  unfold cong_avoid_inc
  generalize hsk1 : (match sk.ca.vars with
    | none => sk
    | some v => if v.t0 = 0 then init_inc_epoch sk else sk) = sk1
  dsimp only
  have hs1 : same_lists sk1 sk ∧ sk1.ca.vars.map vars.snd_nxt = sk.ca.vars.map vars.snd_nxt
      ∧ sk1.tp = sk.tp := by
    rw [← hsk1]
    split
    · exact ⟨same_lists_refl sk, rfl, rfl⟩
    · split
      · exact ⟨init_inc_epoch_same sk, (init_inc_epoch_keeps sk).1, (init_inc_epoch_keeps sk).2⟩
      · exact ⟨same_lists_refl sk, rfl, rfl⟩
  obtain ⟨s1, s2, s3⟩ := hs1
  have h1 : engine_inv sk1 := engine_inv_same s1 h
  have hk := increase_cwnd_keeps P (rtt_sack_deq sk1)
  have hsame := increase_cwnd_same P (rtt_sack_deq sk1)
  have hfr := rtt_sack_deq_frame sk1
  have hvars : (rtt_sack_deq sk1).ca.vars = sk1.ca.vars := by rw [hfr]
  have htp : (rtt_sack_deq sk1).tp = sk1.tp := by rw [hfr]
  have hw1 : window_inv (rtt_sack_deq sk1) := window_inv_shrinks (rtt_sack_deq_shrinks sk1) h1.1
  cases hw : sk1.ca.rtt_sack.head with
  | nil =>
    have e : rtt_sack_deq sk1 = sk1 := by simp only [rtt_sack_deq, hw]
    rw [e] at hk hsame hw1 ⊢
    refine ⟨engine_inv_same hsame h1, ?_, ?_, ?_, ?_⟩
    · rw [hsame.2.1, ← s1.2.1, hw]
      rfl
    · rw [hsame.2.2.1, s1.2.2.1]
    · rw [hk.1, s2]
    · rw [← s3]
      exact hk.2.1
  | cons p rest =>
    obtain ⟨d1, d2, d3, d4, d5⟩ := rtt_sack_deq_full sk1 p rest hw h1.2
    have hinv2 : engine_inv (rtt_sack_deq sk1) := by
      refine ⟨hw1, ?_⟩
      rw [d4]
      exact d5
    refine ⟨engine_inv_same hsame hinv2, ?_, ?_, ?_, ?_⟩
    · rw [hsame.2.1, d1, ← s1.2.1, hw]
      rfl
    · rw [hsame.2.2.1, d2, ← s1.2.2.1]
      exact List.filter_sublist _
    · rw [hk.1, hvars, s2]
    · rw [← s3, ← htp]
      exact hk.2.1

/-- The branch of the decrease: the lists and the allocator are untouched and the guard
is the `snd_nxt` of the connection. -/
theorem cong_avoid_dec_full (P : params) (sk : sock) (v : vars) (hv : sk.ca.vars = some v) :
    same_lists (cong_avoid_dec P sk) sk
    ∧ (cong_avoid_dec P sk).ca.vars.map vars.snd_nxt = some sk.tp.snd_nxt := by
  refine ⟨cong_avoid_dec_same P sk, ?_⟩
  unfold cong_avoid_dec
  simp only [hv, update_pacing_ratio_ca, decrease_cwnd]
  rfl

theorem cong_avoid_min_rtt_keeps (sk : sock) :
    (cong_avoid_min_rtt sk).ca.vars.map vars.snd_nxt = sk.ca.vars.map vars.snd_nxt
    ∧ (cong_avoid_min_rtt sk).tp = sk.tp
    ∧ (cong_avoid_min_rtt sk).ca.rtt_bin = sk.ca.rtt_bin
    ∧ (cong_avoid_min_rtt sk).ca.rtt_sack = sk.ca.rtt_sack
    ∧ (cong_avoid_min_rtt sk).ca.slopes = sk.ca.slopes
    ∧ (cong_avoid_min_rtt sk).mem = sk.mem := by
  unfold cong_avoid_min_rtt
  cases hv : sk.ca.vars with
  | none => simp only [hv, Option.map_none', and_self]
  | some v =>
    dsimp only
    split
    · exact ⟨rfl, rfl, rfl, rfl, rfl, rfl⟩
    · simp only [hv, Option.map_some', and_self]

/-- The function `reinit_after_dec` establishes the invariant. -/
theorem reinit_after_dec_engine_inv (sk : sock) (v : vars) (hv : sk.ca.vars = some v)
    (hnf : sk.mem.no_fail) : engine_inv (reinit_after_dec sk) := by
  refine ⟨(reinit_after_dec_inv sk (by rw [hv]; rfl) hnf).1, ?_⟩
  rw [reinit_after_dec_eq sk v hv]
  exact lists_inv_empty _

/-- The front half of the driver under the invariant: when it does not return at an
entry check, the bin step runs on a socket `pre` that satisfies the invariant, whose
guard is 0 and whose bin is not ahead of the sample; `pre` has the window and the store
of the socket when the guard was 0 and an empty window and store otherwise. -/
theorem cong_avoid_front_full (sk : sock) (ack med_rtt : Nat) (b : sock × Bool)
    (h : engine_inv sk) (hb : cong_avoid_front sk ack med_rtt = some b) :
    ∃ (v : vars) (ms : Nat) (pre : sock),
      sk.ca.vars = some v
      ∧ b = cong_avoid_bin pre v.rtt_us ms med_rtt
      ∧ engine_inv pre
      ∧ pre.ca.rtt_bin.snd_time_ms ≤ ms
      ∧ pre.tp = sk.tp
      ∧ pre.ca.vars.map vars.snd_nxt = some 0
      ∧ (v.snd_nxt = 0 → pre.ca.rtt_sack = sk.ca.rtt_sack ∧ pre.ca.slopes = sk.ca.slopes
          ∧ pre.ca.rtt_bin = sk.ca.rtt_bin ∧ pre.mem = sk.mem)
      ∧ (v.snd_nxt ≠ 0 → ack > v.snd_nxt ∧ pre.ca.rtt_sack = { head := [], cnt := 0 }
          ∧ pre.ca.slopes = { head := [], cnt := 0 }) := by
  unfold cong_avoid_front at hb
  cases hv : sk.ca.vars with
  | none =>
    rw [hv] at hb
    exact absurd hb (by simp)
  | some v =>
    rw [hv] at hb
    dsimp only at hb
    split at hb
    · exact absurd hb (by simp)
    · cases hms : cong_avoid_snd_time_ms sk v with
      | none =>
        rw [hms] at hb
        exact absurd hb (by simp)
      | some ms =>
        rw [hms] at hb
        dsimp only at hb
        split at hb
        · exact absurd hb (by simp)
        · rename_i hfresh
          split at hb
          · exact absurd hb (by simp)
          · rename_i hguard
            simp only [Option.some.injEq] at hb
            have hk := cong_avoid_min_rtt_keeps
              (if v.snd_nxt ≠ 0 then reinit_after_dec sk else sk)
            refine ⟨v, ms,
              cong_avoid_min_rtt (if v.snd_nxt ≠ 0 then reinit_after_dec sk else sk), rfl,
              hb.symm, ?_, ?_, ?_, ?_, ?_, ?_⟩
            · refine engine_inv_same (cong_avoid_min_rtt_same _) ?_
              split
              · exact reinit_after_dec_engine_inv sk v hv h.1.2.1
              · exact h
            · rw [hk.2.2.1]
              split
              · rw [(reinit_after_dec_inv sk (by rw [hv]; rfl) h.1.2.1).2]
                exact Nat.zero_le _
              · omega
            · rw [hk.2.1]
              split
              · exact reinit_after_dec_tp sk
              · rfl
            · rw [hk.1]
              split
              · rw [reinit_after_dec_eq sk v hv]
                rfl
              · rename_i hz
                have hz0 : v.snd_nxt = 0 := by
                  by_contra hne
                  exact hz hne
                rw [hv]
                simp only [Option.map_some', hz0]
            · intro hz
              have hne : ¬ v.snd_nxt ≠ 0 := by simp [hz]
              rw [hk.2.2.2.1, hk.2.2.2.2.1, hk.2.2.1, hk.2.2.2.2.2]
              simp only [hne, if_false, and_self]
            · intro hz
              rw [hk.2.2.2.1, hk.2.2.2.2.1]
              simp only [hz, ne_eq, not_false_eq_true, if_true]
              rw [reinit_after_dec_eq sk v hv]
              refine ⟨?_, rfl, rfl⟩
              by_contra hle
              exact hguard ⟨hz, by omega⟩

/-- The acknowledgment driver keeps the invariant. -/
theorem tcp_flexis_cong_avoid_engine_inv (P : params) (sk : sock) (ack acked med_rtt : Nat)
    (theil_slope : Int) (h : engine_inv sk) :
    engine_inv (tcp_flexis_cong_avoid P sk ack acked med_rtt theil_slope) := by
  rw [tcp_flexis_cong_avoid_eq]
  cases hf : cong_avoid_front sk ack med_rtt with
  | none => exact h
  | some b =>
    dsimp only
    obtain ⟨v, ms, pre, -, hb, hpre, hms, -⟩ := cong_avoid_front_full sk ack med_rtt b h hf
    have hmid : engine_inv b.1 := by
      rw [hb]
      exact (cong_avoid_bin_full pre v.rtt_us ms med_rtt hpre hms).1
    rw [cong_avoid_decide_eq]
    split
    · exact engine_inv_same (cong_avoid_dec_same P _) hmid
    · exact engine_inv_same (increase_cwnd_same P _) hmid
    · exact hmid
    · exact (cong_avoid_inc_full P _ hmid).1

theorem tcp_flexis_pkts_acked_same (sk : sock) (r : Int) :
    same_lists (tcp_flexis_pkts_acked sk r) sk := by
  unfold tcp_flexis_pkts_acked
  cases hv : sk.ca.vars with
  | none => exact same_lists_refl sk
  | some v => exact ⟨rfl, rfl, rfl, rfl, by simp [hv]⟩

theorem tcp_flexis_cwnd_event_engine_inv (sk : sock) (ev : tcp_ca_event) (h : engine_inv sk) :
    engine_inv (tcp_flexis_cwnd_event sk ev) := by
  unfold tcp_flexis_cwnd_event
  cases hv : sk.ca.vars with
  | none => exact h
  | some v =>
    have hnf := h.1.2.1
    dsimp only
    cases ev with
    | CA_EVENT_CWND_RESTART => exact reinit_after_dec_engine_inv sk v hv hnf
    | CA_EVENT_COMPLETE_CWR =>
      dsimp only
      split
      · exact reinit_after_dec_engine_inv { sk with tp.snd_cwnd := v.undo_cwnd } v hv hnf
      · exact reinit_after_dec_engine_inv sk v hv hnf
    | CA_EVENT_LOSS => exact reinit_after_dec_engine_inv sk v hv hnf
    | CA_EVENT_TX_START => exact h
    | CA_EVENT_ECN_NO_CE => exact h
    | CA_EVENT_ECN_IS_CE => exact h

theorem engine_inv_tp (sk : sock) (tp : tcp_sock) (h : engine_inv sk) :
    engine_inv { sk with tp := tp } :=
  engine_inv_same (b := sk) ⟨rfl, rfl, rfl, rfl, rfl⟩ h

theorem step_engine_inv (P : params) (sk : sock) (e : event) (h : engine_inv sk) :
    engine_inv (step P sk e) := by
  cases e with
  | pkts_acked r => exact engine_inv_same (tcp_flexis_pkts_acked_same sk r) h
  | cong_avoid tp ack acked med_rtt theil_slope =>
    exact tcp_flexis_cong_avoid_engine_inv P _ ack acked med_rtt theil_slope (engine_inv_tp sk tp h)
  | cwnd_event tp ev => exact tcp_flexis_cwnd_event_engine_inv _ ev (engine_inv_tp sk tp h)

theorem run_engine_inv (P : params) (sk : sock) (evs : List event) (h : engine_inv sk) :
    engine_inv (run P sk evs) := by
  unfold run
  induction evs generalizing sk with
  | nil => exact h
  | cons e rest ih => exact ih _ (step_engine_inv P sk e h)

theorem tcp_flexis_init_engine_inv (sk0 : sock) (hnf : sk0.mem.no_fail) :
    engine_inv (tcp_flexis_init sk0) := by
  refine ⟨tcp_flexis_init_inv sk0 hnf, ?_⟩
  have hk := kzalloc_no_fail sk0.mem hnf
  unfold tcp_flexis_init
  rcases e : kzalloc sk0.mem with ⟨oa, m⟩
  rw [e] at hk
  obtain ⟨h1, h2⟩ := hk
  simp only at h1 h2
  subst h1
  dsimp only
  rw [update_pacing_ratio_ca]
  have : (update_pacing_ratio
      { sk0 with
        mem := m
        sk_pacing_status := if sk0.sk_pacing_status = 0 then 1 else sk0.sk_pacing_status
        ca :=
          { rtt_bin := { head := [], snd_time_ms := 0, cnt := 0 }
            rtt_sack := { head := [], cnt := 0 }
            slopes := { head := [], cnt := 0 }
            vars := some
              { t0 := 0, r0 := 0, t_ulmt := 0, undo_cwnd := sk0.tp.snd_cwnd, snd_nxt := 0,
                rtt_us := -1, epoch_min_rtt := MAX_RTT } } } 100).mem = m :=
    (update_pacing_ratio_same _ _).2.2.2.1
  rw [this]
  exact lists_inv_empty _

/-- The value of an `s32` other than `-1` is below `MAX_RTT` as a `u32`. -/
theorem to_u32_lt_max (r : Int) (h1 : r ≠ -1) (h2 : -2147483648 ≤ r) (h3 : r ≤ 2147483647) :
    to_u32 r < MAX_RTT := by
  unfold to_u32 MAX_RTT MAX_U32
  omega

/-- C27, the claim as stated fails when the allocation of the sample's node fails: on
`sk_guarded_oom` the guard is 5000, the acknowledgment 5001 carries the sample 15000 us of
the millisecond 62, and after the reset the bin is empty. -/
theorem guard_passed_bin_empty_on_no_mem :
    sk_guarded_oom.ca.vars.map vars.snd_nxt = some 5000
    ∧ sk_guarded_oom.ca.vars.map vars.rtt_us = some 15000
    ∧ cong_avoid_front sk_guarded_oom 5001 0 ≠ none
    ∧ (tcp_flexis_cong_avoid {} sk_guarded_oom 5001 1 0 0).ca.rtt_bin.head = []
    ∧ (tcp_flexis_cong_avoid {} sk_guarded_oom 5001 1 0 0).ca.vars.map vars.snd_nxt
        = some 0 := by
  decide

/-- C27 (amended): in a state with an active guard `S ≠ 0`, an acknowledgment above `S`
with a sample `r ≠ -1` that is not older than the bin, while the allocation of the
sample's node succeeds: the driver returns the socket after the full reset with the
sample as the only entry of the bin, tagged with its millisecond, `epoch_min_rtt = r`
(as a `u32`), guard, `t0` and `t_ulmt` 0, both pacing ratios 100, empty window and slope
store, and the connection (so `snd_cwnd`) as it was. -/
theorem cong_avoid_guard_passed (P : params) (sk : sock) (v : vars)
    (ack acked med_rtt ms a : Nat) (theil_slope : Int)
    (hv : sk.ca.vars = some v) (hg : v.snd_nxt ≠ 0) (hack : v.snd_nxt < ack)
    (hr : v.rtt_us ≠ -1) (hr1 : -2147483648 ≤ v.rtt_us) (hr2 : v.rtt_us ≤ 2147483647)
    (hms : cong_avoid_snd_time_ms sk v = some ms)
    (hfresh : sk.ca.rtt_bin.snd_time_ms ≤ ms)
    (ha : (kzalloc sk.mem).1 = some a) :
    tcp_flexis_cong_avoid P sk ack acked med_rtt theil_slope
      = { sk with
          mem := (kzalloc sk.mem).2
          ca :=
            { rtt_bin := { head := [{ rtt_us := to_u32 v.rtt_us }], snd_time_ms := ms, cnt := 1 }
              rtt_sack := { head := [], cnt := 0 }
              slopes := { head := [], cnt := 0 }
              vars := some
                { v with t0 := 0, epoch_min_rtt := to_u32 v.rtt_us, snd_nxt := 0,
                         t_ulmt := 0 } }
          sysctl_tcp_pacing_ss_ratio := 100
          sysctl_tcp_pacing_ca_ratio := 100 } := by
  have hlt := to_u32_lt_max v.rtt_us hr hr1 hr2
  rw [tcp_flexis_cong_avoid_entry P sk v ack acked med_rtt ms theil_slope hv hr hms
    (by omega) (by omega)]
  rw [if_pos hg, reinit_after_dec_eq sk v hv]
  have e1 : cong_avoid_min_rtt
      { sk with
        ca :=
          { rtt_bin := { head := [], snd_time_ms := 0, cnt := 0 }
            rtt_sack := { head := [], cnt := 0 }
            slopes := { head := [], cnt := 0 }
            vars := some
              { v with t0 := 0, epoch_min_rtt := MAX_RTT, snd_nxt := 0, t_ulmt := 0 } }
        sysctl_tcp_pacing_ss_ratio := 100
        sysctl_tcp_pacing_ca_ratio := 100 }
      = { sk with
          ca :=
            { rtt_bin := { head := [], snd_time_ms := 0, cnt := 0 }
              rtt_sack := { head := [], cnt := 0 }
              slopes := { head := [], cnt := 0 }
              vars := some
                { v with t0 := 0, epoch_min_rtt := to_u32 v.rtt_us, snd_nxt := 0,
                         t_ulmt := 0 } }
          sysctl_tcp_pacing_ss_ratio := 100
          sysctl_tcp_pacing_ca_ratio := 100 } := by
    simp only [cong_avoid_min_rtt, hlt, if_true]
  rw [e1]
  rcases hk : kzalloc sk.mem with ⟨oa, m⟩
  rw [hk] at ha
  simp only at ha
  subst ha
  have e2 : ∀ X : sock, X.ca.rtt_bin = { head := [], snd_time_ms := 0, cnt := 0 } →
      X.mem = sk.mem →
      cong_avoid_bin X v.rtt_us ms med_rtt
        = ({ X with
              mem := m
              ca.rtt_bin :=
                { head := [{ rtt_us := to_u32 v.rtt_us }], snd_time_ms := ms, cnt := 1 } },
            false) := by
    intro X hX hm
    have hadd : (rtt_bin_add_asd X ms (to_u32 v.rtt_us)).2
        = { X with
              mem := m
              ca.rtt_bin :=
                { head := [{ rtt_us := to_u32 v.rtt_us }], snd_time_ms := ms, cnt := 1 } } := by
      simp [rtt_bin_add_asd, hX, hm, hk, add_asd]
    unfold cong_avoid_bin
    by_cases h0 : ms = X.ca.rtt_bin.snd_time_ms
    · rw [if_pos h0, hadd]
    · rw [if_neg h0]
      simp only [hX, List.isEmpty_nil, not_true_eq_false, if_false]
      rw [hadd]
  rw [e2
    { sk with
      ca :=
        { rtt_bin := { head := [], snd_time_ms := 0, cnt := 0 }
          rtt_sack := { head := [], cnt := 0 }
          slopes := { head := [], cnt := 0 }
          vars := some
            { v with t0 := 0, epoch_min_rtt := to_u32 v.rtt_us, snd_nxt := 0,
                     t_ulmt := 0 } }
      sysctl_tcp_pacing_ss_ratio := 100
      sysctl_tcp_pacing_ca_ratio := 100 } rfl rfl]
  simp only [cong_avoid_decide, Bool.false_eq_true, false_and, if_false]
  rw [increase_cwnd_eq]
  rfl

theorem cong_avoid_guard_passed_witness :
    tcp_flexis_cong_avoid {} sk_guarded 5001 1 0 0
      = { sk_guarded with
          mem := (kzalloc sk_guarded.mem).2
          ca :=
            { rtt_bin := { head := [{ rtt_us := to_u32 15000 }], snd_time_ms := 62, cnt := 1 }
              rtt_sack := { head := [], cnt := 0 }
              slopes := { head := [], cnt := 0 }
              vars := some
                { t0 := 0, t_ulmt := 0, r0 := 0, snd_nxt := 0, undo_cwnd := 8,
                  rtt_us := 15000, epoch_min_rtt := to_u32 15000 } }
          sysctl_tcp_pacing_ss_ratio := 100
          sysctl_tcp_pacing_ca_ratio := 100 } :=
  cong_avoid_guard_passed {} sk_guarded
    { t0 := 0, t_ulmt := 0, r0 := 0, snd_nxt := 5000, undo_cwnd := 8, rtt_us := 15000,
      epoch_min_rtt := 10000 }
    5001 1 0 62 sk_guarded.mem.brk 0
    (by decide) (by decide) (by decide) (by decide) (by decide) (by decide) (by decide)
    (by decide) (by decide)

/-- The macro `median` over a whole list of `n` entries, `1 ≤ n < 2^32 - 1`, with the
counter equal to the length: it reads set pointers only, and the result is an entry or
the average of two entries. -/
theorem median_full {α β : Type} (member : α → β) (avg : β → β → β) (l : List α) (n : Nat)
    (hn : n = l.length) (h1 : 1 ≤ n) (h2 : n < 4294967295) :
    ∃ a ∈ l, ∃ b ∈ l,
      median member avg l 1 n = some (member a)
      ∨ median member avg l 1 n = some (avg (member a) (member b)) := by
  unfold median
  have hs : (1 + n) % 4294967296 = 1 + n := by omega
  have hp : (1 + n) / 2 ≠ 0 := by omega
  simp only [hs, hp, if_false]
  have hlt1 : (1 + n) / 2 - 1 < l.length := by omega
  obtain ⟨a, ha⟩ : ∃ a, l[(1 + n) / 2 - 1]? = some a :=
    ⟨l[(1 + n) / 2 - 1], List.getElem?_eq_getElem hlt1⟩
  have hma : a ∈ l := List.getElem?_mem ha
  by_cases hodd : (1 + n) % 2 = 1
  · have hlt2 : (1 + n) / 2 < l.length := by omega
    obtain ⟨b, hb⟩ : ∃ b, l[(1 + n) / 2]? = some b :=
      ⟨l[(1 + n) / 2], List.getElem?_eq_getElem hlt2⟩
    refine ⟨a, hma, b, List.getElem?_mem hb, Or.inr ?_⟩
    rw [if_pos hodd, ha, hb]
  · refine ⟨a, hma, a, hma, Or.inl ?_⟩
    rw [if_neg hodd, ha]
    rfl

/-- The median of a non-empty bin below `2^32 - 1` entries whose counter equals its
length is always written, whatever the cell held. -/
theorem rtt_bin_median_set (sk : sock) (hc : sk.ca.rtt_bin.cnt = sk.ca.rtt_bin.head.length)
    (hne : sk.ca.rtt_bin.head ≠ []) (hlt : sk.ca.rtt_bin.cnt < MAX_U32) :
    ∃ m : Nat, ∀ old : Nat, rtt_bin_median sk (some old) = (ret.SUCCESS, some m) := by
  have hpos : 1 ≤ sk.ca.rtt_bin.cnt := by
    rw [hc]
    cases h : sk.ca.rtt_bin.head with
    | nil => exact absurd h hne
    | cons a t => simp
  have hemp : sk.ca.rtt_bin.head.isEmpty = false := by
    cases h : sk.ca.rtt_bin.head with
    | nil => exact absurd h hne
    | cons a t => rfl
  obtain ⟨a, -, b, -, h | h⟩ := median_full rnode.rtt_us avg_u32 sk.ca.rtt_bin.head
    sk.ca.rtt_bin.cnt hc hpos (by simpa [MAX_U32] using hlt)
  · refine ⟨a.rtt_us, fun old => ?_⟩
    simp only [rtt_bin_median, hemp, Bool.false_eq_true, if_false, h]
  · refine ⟨avg_u32 a.rtt_us b.rtt_us, fun old => ?_⟩
    simp only [rtt_bin_median, hemp, Bool.false_eq_true, if_false, h]

/-- The bin after the bin step, under the invariant, for a sample that is not older than
the bin: the sample joins the open bin (or opens the empty one), or, when a non-empty
bin of another millisecond is closed, it is the only entry of the new bin. -/
theorem cong_avoid_bin_rtt_bin (sk : sock) (rtt_us : Int) (ms med_rtt : Nat)
    (h : engine_inv sk) :
    (ms = sk.ca.rtt_bin.snd_time_ms ∨ sk.ca.rtt_bin.head = [] →
      sk.ca.rtt_bin.cnt < MAX_U32 →
      (cong_avoid_bin sk rtt_us ms med_rtt).1.ca.rtt_bin
        = { head := add_asd rnode.rtt_us { rtt_us := to_u32 rtt_us } sk.ca.rtt_bin.head
            snd_time_ms := ms
            cnt := sk.ca.rtt_bin.cnt + 1 })
    ∧ (ms ≠ sk.ca.rtt_bin.snd_time_ms → sk.ca.rtt_bin.head ≠ [] →
        (cong_avoid_bin sk rtt_us ms med_rtt).1.ca.rtt_bin
          = { head := [{ rtt_us := to_u32 rtt_us }], snd_time_ms := ms, cnt := 1 }) := by
  have hnf : sk.mem.no_fail := h.1.2.1
  have fresh : ∀ X : sock, X.mem.no_fail →
      (rtt_bin_add_asd (rtt_bin_reset X) ms (to_u32 rtt_us)).2.ca.rtt_bin
        = { head := [{ rtt_us := to_u32 rtt_us }], snd_time_ms := ms, cnt := 1 } := by
    intro X hX
    obtain ⟨m, -, e⟩ := rtt_bin_add_asd_ok (rtt_bin_reset X) ms (to_u32 rtt_us) hX
      (by simp [rtt_bin_reset, MAX_U32])
    rw [e]
    simp [rtt_bin_reset, add_asd]
  constructor
  · intro hor hlt
    obtain ⟨m, -, e⟩ := rtt_bin_add_asd_ok sk ms (to_u32 rtt_us) hnf hlt
    have e2 : cong_avoid_bin sk rtt_us ms med_rtt
        = ((rtt_bin_add_asd sk ms (to_u32 rtt_us)).2, false) := by
      unfold cong_avoid_bin
      by_cases hsame : ms = sk.ca.rtt_bin.snd_time_ms
      · rw [if_pos hsame]
      · rw [if_neg hsame]
        have hemp : sk.ca.rtt_bin.head = [] := hor.resolve_left hsame
        simp only [hemp, List.isEmpty_nil, not_true_eq_false, if_false]
    rw [e2, e]
    show ({ head := _, snd_time_ms := _, cnt := _ } : rtt_bin) = _
    congr 1
    rcases hor with h1 | h1
    · rw [h1]
      split <;> rfl
    · rw [h1]
      rfl
  · intro hsame hemp
    have hne : sk.ca.rtt_bin.head.isEmpty = false := by
      cases hh : sk.ca.rtt_bin.head with
      | nil => exact absurd hh hemp
      | cons a t => rfl
    generalize hmed : ((rtt_bin_median sk (some med_rtt)).2).getD med_rtt = med
    by_cases hfull : sk.ca.rtt_sack.cnt ≥ MAX_U32
    · have henq := (rtt_sack_enq_full sk sk.ca.rtt_bin.snd_time_ms med hnf).1 hfull
      have e : cong_avoid_bin sk rtt_us ms med_rtt
          = ((rtt_bin_add_asd (rtt_bin_reset sk) ms (to_u32 rtt_us)).2, false) := by
        unfold cong_avoid_bin
        rw [if_neg hsame]
        simp only [hne, Bool.false_eq_true, not_false_eq_true, if_true, hmed, henq]
      rw [e]
      exact fresh sk hnf
    · obtain ⟨a1, olds2, news, store, m, a2, -, -, -, -, -, a8, -, -⟩ :=
        window_add_full sk sk.ca.rtt_bin.snd_time_ms med
          { addr := sk.mem.brk, snd_time_ms := sk.ca.rtt_bin.snd_time_ms, rtt_us := med,
            fanout_head := [] }
          rfl hnf h.2 (by omega)
      have e : (cong_avoid_bin sk rtt_us ms med_rtt).1
          = (rtt_bin_add_asd
              (rtt_bin_reset
                { sk with
                  mem := m
                  ca.rtt_sack :=
                    { head := olds2
                        ++ [{ addr := sk.mem.brk, snd_time_ms := sk.ca.rtt_bin.snd_time_ms,
                              rtt_us := med, fanout_head := [] }]
                      cnt := sk.ca.rtt_sack.cnt + 1 }
                  ca.slopes :=
                    { head := store
                      cnt := (sk.ca.slopes.head.length + news.length) % 4294967296 } })
              ms (to_u32 rtt_us)).2 := by
        unfold cong_avoid_bin
        rw [if_neg hsame]
        simp only [hne, Bool.false_eq_true, not_false_eq_true, if_true, hmed, a1, a2]
      rw [e]
      exact fresh _ a8

/-- The test of line 370 passes for an older point less than `2^31` ms older. -/
theorem key_gen_of_lt (a b : Nat × Nat) (h1 : a.1 < b.1)
    (h2 : (b.1 : Int) - (a.1 : Int) < 2147483648) : key_gen a b = true := by
  unfold key_gen to_s32
  simp only [decide_eq_true_eq]
  split <;> omega

theorem cong_avoid_min_rtt_vars (sk : sock) (v : vars) (hv : sk.ca.vars = some v) :
    (cong_avoid_min_rtt sk).ca.vars
      = some { v with epoch_min_rtt := min v.epoch_min_rtt (to_u32 v.rtt_us) } := by
  unfold cong_avoid_min_rtt
  rw [hv]
  dsimp only
  by_cases hlt : to_u32 v.rtt_us < v.epoch_min_rtt
  · rw [if_pos hlt]
    simp only [Nat.min_def]
    rw [if_neg (by omega)]
  · rw [if_neg hlt, hv]
    simp only [Nat.min_def]
    rw [if_pos (by omega)]

/-- C28, the claim as stated fails when an allocation fails: on `sk_rising_oom` the
sample of the millisecond 62 is accepted and closes the bin of 61, `rtt_sack_enq` gets
no memory, no point is appended to the window (it keeps its 2 points) and the bin of 61
is dropped. -/
theorem bin_closed_without_point_on_no_mem :
    sk_rising_oom.ca.rtt_bin.snd_time_ms = 61
    ∧ sk_rising_oom.ca.rtt_bin.head ≠ []
    ∧ cong_avoid_snd_time_ms sk_rising_oom
        { t0 := 0, t_ulmt := 0, r0 := 0, snd_nxt := 0, undo_cwnd := 10, rtt_us := 15000,
          epoch_min_rtt := 10000 } = some 62
    ∧ (cong_avoid_front sk_rising_oom 1 0).map (fun b => b.1.ca.rtt_sack)
        = some sk_rising_oom.ca.rtt_sack
    ∧ (tcp_flexis_cong_avoid {} sk_rising_oom 1 1 0 0).ca.rtt_sack.times = [1, 30]
    ∧ (tcp_flexis_cong_avoid {} sk_rising_oom 1 1 0 0).ca.rtt_bin.snd_time_ms = 62 := by
  decide

/-- C28 (amended): the bin step of an accepted acknowledgment in a state that satisfies
the invariant `engine_inv` (every state reached from `tcp_flexis_init` while no
allocation fails) with the guard 0; `m` is the sending millisecond and `r` the sample.
The front half of the driver returns the socket `b.1` and the flag `b.2`, and the driver
is the decision taken on them.  `epoch_min_rtt` becomes the minimum of its value and `r`.
If `m` is the millisecond of the open bin (below `2^32 - 1` entries), `r` is added to
the bin in ascending order and the window and the slope store are unchanged.  If `m` is
greater and the bin is not empty (the window below `2^32 - 1` points), exactly one point
`np` (the millisecond of the old bin, the median of the old bin) is appended to the
window, every older point that passes the time test of `slopes_gen` gets one slope and
one reference, all of them when the window is less than `2^31` ms older than the bin, and
the bin afterwards holds exactly `r` with the millisecond `m`. -/
theorem cong_avoid_bin_step (P : params) (sk : sock) (v : vars)
    (ack acked med_rtt ms : Nat) (theil_slope : Int)
    (hinv : engine_inv sk) (hv : sk.ca.vars = some v) (hg : v.snd_nxt = 0)
    (hr : v.rtt_us ≠ -1) (hms : cong_avoid_snd_time_ms sk v = some ms)
    (hfresh : sk.ca.rtt_bin.snd_time_ms ≤ ms) :
    ∃ b : sock × Bool,
      cong_avoid_front sk ack med_rtt = some b
      ∧ tcp_flexis_cong_avoid P sk ack acked med_rtt theil_slope
          = cong_avoid_decide P b.1 b.2 (cong_avoid_dur b.1) theil_slope
      ∧ b.1.ca.vars
          = some { v with epoch_min_rtt := min v.epoch_min_rtt (to_u32 v.rtt_us) }
      ∧ (ms = sk.ca.rtt_bin.snd_time_ms → sk.ca.rtt_bin.cnt < MAX_U32 →
          b.1.ca.rtt_bin
            = { head := add_asd rnode.rtt_us { rtt_us := to_u32 v.rtt_us } sk.ca.rtt_bin.head
                snd_time_ms := ms
                cnt := sk.ca.rtt_bin.cnt + 1 }
          ∧ b.1.ca.rtt_sack = sk.ca.rtt_sack
          ∧ b.1.ca.slopes = sk.ca.slopes
          ∧ b.2 = false)
      ∧ (sk.ca.rtt_bin.snd_time_ms < ms → sk.ca.rtt_bin.head ≠ [] →
          sk.ca.rtt_sack.cnt < MAX_U32 →
          ∃ (np : pnode) (olds2 : List pnode) (news : List snode) (b1 : Nat),
            np = { addr := sk.mem.brk, snd_time_ms := sk.ca.rtt_bin.snd_time_ms,
                   rtt_us := ((rtt_bin_median sk (some med_rtt)).2).getD med_rtt,
                   fanout_head := [] }
            ∧ (sk.ca.rtt_bin.cnt < MAX_U32 →
                ∀ old : Nat, rtt_bin_median sk (some old) = (ret.SUCCESS, some np.rtt_us))
            ∧ b.1.ca.rtt_sack = { head := olds2 ++ [np], cnt := sk.ca.rtt_sack.cnt + 1 }
            ∧ olds2.map pnode.key = sk.ca.rtt_sack.head.map pnode.key
            ∧ List.Forall₂ (gen_step np sk.mem.brk b1 b.1.ca.slopes.head)
                sk.ca.rtt_sack.head olds2
            ∧ List.Perm b.1.ca.slopes.head (sk.ca.slopes.head ++ news)
            ∧ (∀ n ∈ news, ∃ p ∈ sk.ca.rtt_sack.head, n.slope = key_slope p.key np.key)
            ∧ news.length
                = (sk.ca.rtt_sack.head.filter (fun p => key_gen p.key np.key)).length
            ∧ ((∀ t ∈ sk.ca.rtt_sack.times,
                  (sk.ca.rtt_bin.snd_time_ms : Int) - (t : Int) < 2147483648) →
                news.length = sk.ca.rtt_sack.head.length)
            ∧ (b.2 = true ↔ news ≠ [])
            ∧ b.1.ca.rtt_bin
                = { head := [{ rtt_us := to_u32 v.rtt_us }], snd_time_ms := ms, cnt := 1 }) := by
  have hk := cong_avoid_min_rtt_keeps sk
  obtain ⟨k1, k2, k3, k4, k5, k6⟩ := hk
  have hpre : engine_inv (cong_avoid_min_rtt sk) :=
    engine_inv_same (cong_avoid_min_rtt_same sk) hinv
  have hfront : cong_avoid_front sk ack med_rtt
      = some (cong_avoid_bin (cong_avoid_min_rtt sk) v.rtt_us ms med_rtt) := by
    unfold cong_avoid_front
    rw [hv]
    dsimp only
    rw [if_neg hr, hms]
    dsimp only
    rw [if_neg (by omega), if_neg (by simp [hg])]
    simp [hg]
  have hfull := cong_avoid_bin_full (cong_avoid_min_rtt sk) v.rtt_us ms med_rtt hpre
    (by rw [k3]; exact hfresh)
  have hbin := cong_avoid_bin_rtt_bin (cong_avoid_min_rtt sk) v.rtt_us ms med_rtt hpre
  have hmed : ∀ old, rtt_bin_median (cong_avoid_min_rtt sk) (some old)
      = rtt_bin_median sk (some old) := by
    intro old
    simp only [rtt_bin_median, k3]
  rw [k3, k4, k5, k6, hmed] at hfull
  rw [k3] at hbin
  obtain ⟨-, -, f3, -, -, f6, f7⟩ := hfull
  refine ⟨_, hfront, ?_, ?_, ?_, ?_⟩
  · rw [tcp_flexis_cong_avoid_eq, hfront]
  · rw [f3]
    exact cong_avoid_min_rtt_vars sk v hv
  · intro hsame hlt
    obtain ⟨g1, g2, g3⟩ := f6 (Or.inl hsame)
    exact ⟨hbin.1 (Or.inl hsame) hlt, g2, g3, g1⟩
  · intro hlt hne hroom
    obtain ⟨np, olds2, news, b1, n1, n2, n3, n4, n5, n6, n7, n8⟩ :=
      f7 (by omega) hne hroom
    refine ⟨np, olds2, news, b1, n1, ?_, n2, n3, n4, n5, n6, n7, ?_, n8,
      hbin.2 (by omega) hne⟩
    · intro hc old
      obtain ⟨m, hm⟩ := rtt_bin_median_set sk hinv.1.2.2.1 hne hc
      rw [n1, hm med_rtt, hm old]
      rfl
    · intro hspan
      rw [n7, List.filter_eq_self.mpr]
      intro p hp
      have ht : p.snd_time_ms ∈ sk.ca.rtt_sack.times := List.mem_map_of_mem _ hp
      have h1 := hinv.1.2.2.2.2.1 _ ht
      have h2 := hspan _ ht
      apply key_gen_of_lt
      · rw [n1]
        exact h1
      · rw [n1]
        exact h2

theorem cong_avoid_bin_step_witness :
    engine_inv sk_rising
    ∧ ∃ b : sock × Bool,
        cong_avoid_front sk_rising 1 0 = some b
        ∧ b.1.ca.vars
            = some
                { t0 := 0, t_ulmt := 0, r0 := 0, snd_nxt := 0, undo_cwnd := 10, rtt_us := 15000,
                  epoch_min_rtt := min 10000 (to_u32 15000) } :=
  have hinv : engine_inv sk_rising :=
    engine_inv_tp _ (tp_sent 62 15000)
      (run_engine_inv {} _ evs_rising (tcp_flexis_init_engine_inv sk_fresh (by decide)))
  have h := cong_avoid_bin_step {} sk_rising
    { t0 := 0, t_ulmt := 0, r0 := 0, snd_nxt := 0, undo_cwnd := 10, rtt_us := 15000,
      epoch_min_rtt := 10000 }
    1 1 0 62 0 hinv (by decide) (by decide) (by decide) (by decide) (by decide)
  ⟨hinv, h.elim (fun b hb => ⟨b, hb.1, hb.2.2.1⟩)⟩

theorem refs_length (w : List pnode) :
    (w.flatMap pnode.refs).length = (w.map (fun p => p.fanout_head.length)).sum := by
  induction w with
  | nil => rfl
  | cons p rest ih =>
    simp only [List.flatMap_cons, List.length_append, List.map_cons, List.sum_cons, ih,
      pnode.refs, List.length_map]

/-- The test of line 370 is the comparison of the sending times when these are less
than `2^31` ms apart. -/
theorem key_gen_iff_lt (a b : Nat × Nat)
    (h1 : -2147483648 ≤ (b.1 : Int) - (a.1 : Int))
    (h2 : (b.1 : Int) - (a.1 : Int) < 2147483648) : key_gen a b = true ↔ a.1 < b.1 := by
  unfold key_gen to_s32
  simp only [decide_eq_true_eq]
  split <;> omega

/-- C29, the claim as stated fails for send times `2^31` ms or more apart: in the
reachable state `sk_far` the window holds the point of the millisecond 1, and
`slopes_gen` for the new point of the millisecond 2147483650 adds no slope and no
reference, because the `s32` difference of the two times is negative. -/
theorem slopes_gen_skips_far_point :
    sk_far.ca.rtt_sack.times = [1]
    ∧ (1 : Nat) < 2147483650
    ∧ ((rtt_sack_enq sk_far 2147483650 10000).1).map pnode.snd_time_ms = some 2147483650
    ∧ (slopes_gen (rtt_sack_enq sk_far 2147483650 10000).2
          (rtt_sack_enq sk_far 2147483650 10000).1).1 = ret.EMPTY_QUE
    ∧ (slopes_gen (rtt_sack_enq sk_far 2147483650 10000).2
          (rtt_sack_enq sk_far 2147483650 10000).1).2.ca.slopes.head = []
    ∧ (slopes_gen (rtt_sack_enq sk_far 2147483650 10000).2
          (rtt_sack_enq sk_far 2147483650 10000).1).2.ca.rtt_sack.refs = [] := by
  decide

/-- C29 (amended): in every state reached from `tcp_flexis_init` by sample,
acknowledgment and window events while no allocation fails, the addresses of the slope
store are distinct and are, up to order, exactly the fanout references of the window
(each entry is referenced once, each reference points to a live entry); the reference
is held by the older point of the pair and the entry holds the slope of that pair
(`pairs_ok`); the length of the store is the sum of the fanout sizes and its counter is
that length modulo `2^32`.  `slopes_gen` for a new point `np` adds one slope and one
reference for each older point that passes the `s32` time test of line 370, which is
each older point with a strictly smaller send time when the times are less than `2^31`
ms apart. -/
theorem store_refs_one_to_one (P : params) (sk0 sk : sock) (evs : List event)
    (hnf : sk0.mem.no_fail) (hsk : sk = run P (tcp_flexis_init sk0) evs) :
    sk.ca.slopes.addrs.Nodup
    ∧ sk.ca.rtt_sack.refs.Nodup
    ∧ List.Perm sk.ca.rtt_sack.refs sk.ca.slopes.addrs
    ∧ pairs_ok sk.ca.slopes.head sk.ca.rtt_sack.head
    ∧ sk.ca.slopes.head.length = (sk.ca.rtt_sack.head.map (fun p => p.fanout_head.length)).sum
    ∧ sk.ca.slopes.cnt = sk.ca.slopes.head.length % 4294967296
    ∧ ∀ (t r : Nat) (np : pnode),
        np = { addr := sk.mem.brk, snd_time_ms := t, rtt_us := r, fanout_head := [] } →
        sk.ca.rtt_sack.cnt < MAX_U32 →
        (rtt_sack_enq sk t r).1 = some np
        ∧ ∃ (olds2 : List pnode) (news store : List snode) (m : kmem),
            slopes_gen (rtt_sack_enq sk t r).2 (some np)
              = (if news = [] then ret.EMPTY_QUE else ret.SUCCESS,
                  { sk with
                    mem := m
                    ca.rtt_sack := { head := olds2 ++ [np], cnt := sk.ca.rtt_sack.cnt + 1 }
                    ca.slopes :=
                      { head := store
                        cnt := (sk.ca.slopes.head.length + news.length) % 4294967296 } })
            ∧ List.Forall₂ (gen_step np sk.mem.brk m.brk store) sk.ca.rtt_sack.head olds2
            ∧ List.Perm store (sk.ca.slopes.head ++ news)
            ∧ (∀ n ∈ news, ∃ p ∈ sk.ca.rtt_sack.head, n.slope = key_slope p.key np.key)
            ∧ news.length
                = (sk.ca.rtt_sack.head.filter (fun p => key_gen p.key np.key)).length
            ∧ ((∀ p ∈ sk.ca.rtt_sack.head,
                  -2147483648 ≤ (t : Int) - (p.snd_time_ms : Int)
                  ∧ (t : Int) - (p.snd_time_ms : Int) < 2147483648) →
                news.length
                  = (sk.ca.rtt_sack.head.filter (fun p => decide (p.snd_time_ms < t))).length) := by
  have hinv : engine_inv sk := by
    rw [hsk]
    exact run_engine_inv P _ evs (tcp_flexis_init_engine_inv sk0 hnf)
  obtain ⟨hw, i1, i2, i3, i4, i5, i6, i7, i8, i9⟩ := hinv
  refine ⟨i6, (i8.nodup_iff).mpr i6, i8, i9, ?_, i3, ?_⟩
  · rw [← refs_length]
    have := i8.length_eq
    simp only [slopes.addrs, List.length_map] at this
    exact this.symm
  · intro t r np hnp hroom
    obtain ⟨a1, olds2, news, store, m, a2, -, a4, a5, a6, a7, -, -, -⟩ :=
      window_add_full sk t r np hnp hw.2.1 ⟨i1, i2, i3, i4, i5, i6, i7, i8, i9⟩ hroom
    refine ⟨a1, olds2, news, store, m, a2, a4, a5, a6, a7, ?_⟩
    intro hspan
    rw [a7]
    congr 1
    apply List.filter_congr
    intro p hp
    have h := key_gen_iff_lt p.key np.key
      (by rw [hnp]; exact (hspan p hp).1) (by rw [hnp]; exact (hspan p hp).2)
    have e : np.key.1 = t := by rw [hnp]; rfl
    rw [e] at h
    by_cases hlt : p.snd_time_ms < t
    · rw [h.mpr hlt]
      simp [hlt]
    · have : key_gen p.key np.key = false := by
        cases hk : key_gen p.key np.key with
        | false => rfl
        | true => exact absurd (h.mp hk) hlt
      rw [this]
      simp [hlt]

theorem store_refs_one_to_one_witness :
    (run {} (tcp_flexis_init sk_fresh) evs_rising).ca.rtt_sack.times = [1, 30]
    ∧ (run {} (tcp_flexis_init sk_fresh) evs_rising).ca.slopes.cnt = 1
    ∧ List.Perm (run {} (tcp_flexis_init sk_fresh) evs_rising).ca.rtt_sack.refs
        (run {} (tcp_flexis_init sk_fresh) evs_rising).ca.slopes.addrs :=
  ⟨by decide, by decide,
    (store_refs_one_to_one {} sk_fresh _ evs_rising (by decide) rfl).2.2.1⟩

/-- The front half of the driver under the invariant.  `w` and `s` are the window and the
slope store the bin step starts from: those of the socket when the guard is 0, empty
ones when the acknowledgment has passed a guard.  The socket `b.1` the decision is taken
on satisfies the invariant, has the connection of `sk` and the guard 0.  Either no bin
was closed (flag not set, window and store as they were), or the window gained the point
`np`, newer than all its points, and the store the entries `news`, one for each older
point that passes the time test, each holding the slope of its pair; the flag is set
exactly when there is a new entry. -/
theorem cong_avoid_mid (sk : sock) (ack med_rtt : Nat) (b : sock × Bool)
    (h : engine_inv sk) (hb : cong_avoid_front sk ack med_rtt = some b) :
    ∃ (v : vars) (w : rtt_sack) (s : slopes),
      sk.ca.vars = some v
      ∧ (v.snd_nxt = 0 → w = sk.ca.rtt_sack ∧ s = sk.ca.slopes)
      ∧ (v.snd_nxt ≠ 0 → v.snd_nxt < ack ∧ w = { head := [], cnt := 0 }
          ∧ s = { head := [], cnt := 0 })
      ∧ w.cnt = w.head.length
      ∧ engine_inv b.1
      ∧ b.1.tp = sk.tp
      ∧ b.1.ca.vars.map vars.snd_nxt = some 0
      ∧ ((b.2 = false ∧ b.1.ca.rtt_sack = w ∧ b.1.ca.slopes = s)
        ∨ ∃ (np : pnode) (olds2 : List pnode) (news : List snode),
            (∀ p ∈ w.head, p.snd_time_ms < np.snd_time_ms)
            ∧ b.1.ca.rtt_sack = { head := olds2 ++ [np], cnt := w.cnt + 1 }
            ∧ olds2.map pnode.key = w.head.map pnode.key
            ∧ List.Perm b.1.ca.slopes.head (s.head ++ news)
            ∧ (∀ n ∈ news, ∃ p ∈ w.head, n.slope = key_slope p.key np.key)
            ∧ news.length = (w.head.filter (fun p => key_gen p.key np.key)).length
            ∧ (b.2 = true ↔ news ≠ [])) := by
  obtain ⟨v, ms, pre, hv, hbe, hpre, hms, htp, hg, hz, hnz⟩ :=
    cong_avoid_front_full sk ack med_rtt b h hb
  obtain ⟨f1, f2, f3, -, -, f6, f7⟩ := cong_avoid_bin_full pre v.rtt_us ms med_rtt hpre hms
  rw [← hbe] at f1 f2 f3 f6 f7
  refine ⟨v, pre.ca.rtt_sack, pre.ca.slopes, hv, ?_, ?_, hpre.2.1, f1, by rw [f2, htp],
    by rw [f3, hg], ?_⟩
  · intro h0
    exact ⟨(hz h0).1, (hz h0).2.1⟩
  · intro h0
    exact hnz h0
  · by_cases hc : ms = pre.ca.rtt_bin.snd_time_ms ∨ pre.ca.rtt_bin.head = []
        ∨ pre.ca.rtt_sack.cnt ≥ MAX_U32
    · exact Or.inl (f6 hc)
    · simp only [not_or] at hc
      obtain ⟨c1, c2, c3⟩ := hc
      obtain ⟨np, olds2, news, b1, n1, n2, n3, -, n5, n6, n7, n8⟩ := f7 c1 c2 (by omega)
      refine Or.inr ⟨np, olds2, news, ?_, n2, n3, n5, n6, n7, n8⟩
      intro p hp
      rw [n1]
      exact hpre.1.2.2.2.2.1 _ (List.mem_map_of_mem _ hp)

/-- The decision under the invariant, on a socket whose guard is 0, by verdict: `keep`
runs `increase_cwnd` only; `decrease` is `cong_avoid_dec`, which leaves the lists alone and
sets the guard to the connection's `snd_nxt`; `skip` and `increase` evict the oldest
point.  The guard stays 0 and the window `snd_cwnd` is not lowered unless the verdict is
`decrease`. -/
theorem cong_avoid_decide_full (P : params) (sk : sock) (reasoning : Bool)
    (theil_slope : Int) (h : engine_inv sk) (hg : sk.ca.vars.map vars.snd_nxt = some 0) :
    engine_inv (cong_avoid_decide P sk reasoning (cong_avoid_dur sk) theil_slope)
    ∧ (cong_avoid_decide_verdict P sk reasoning (cong_avoid_dur sk) theil_slope
          = verdict.keep →
        ¬ (reasoning = true ∧ cong_avoid_dur sk ≥ to_u32 P.tau)
        ∧ cong_avoid_decide P sk reasoning (cong_avoid_dur sk) theil_slope = increase_cwnd P sk
        ∧ (cong_avoid_decide P sk reasoning (cong_avoid_dur sk) theil_slope).ca.rtt_sack
            = sk.ca.rtt_sack
        ∧ (cong_avoid_decide P sk reasoning (cong_avoid_dur sk) theil_slope).ca.slopes
            = sk.ca.slopes)
    ∧ (cong_avoid_decide_verdict P sk reasoning (cong_avoid_dur sk) theil_slope
          = verdict.decrease →
        cong_avoid_decide P sk reasoning (cong_avoid_dur sk) theil_slope = cong_avoid_dec P sk
        ∧ (cong_avoid_decide P sk reasoning (cong_avoid_dur sk) theil_slope).ca.rtt_sack
            = sk.ca.rtt_sack
        ∧ (cong_avoid_decide P sk reasoning (cong_avoid_dur sk) theil_slope).ca.slopes
            = sk.ca.slopes
        ∧ (cong_avoid_decide P sk reasoning (cong_avoid_dur sk) theil_slope).ca.vars.map
              vars.snd_nxt = some sk.tp.snd_nxt)
    ∧ (cong_avoid_decide_verdict P sk reasoning (cong_avoid_dur sk) theil_slope
          ≠ verdict.keep →
        cong_avoid_decide_verdict P sk reasoning (cong_avoid_dur sk) theil_slope
          ≠ verdict.decrease →
        reasoning = true ∧ cong_avoid_dur sk ≥ to_u32 P.tau
        ∧ cong_avoid_decide P sk reasoning (cong_avoid_dur sk) theil_slope = cong_avoid_inc P sk
        ∧ (cong_avoid_decide P sk reasoning (cong_avoid_dur sk) theil_slope).ca.rtt_sack.head
            = sk.ca.rtt_sack.head.tail
        ∧ List.Sublist
            (cong_avoid_decide P sk reasoning (cong_avoid_dur sk) theil_slope).ca.slopes.head
            sk.ca.slopes.head)
    ∧ (cong_avoid_decide_verdict P sk reasoning (cong_avoid_dur sk) theil_slope
          ≠ verdict.decrease →
        (cong_avoid_decide P sk reasoning (cong_avoid_dur sk) theil_slope).ca.vars.map
              vars.snd_nxt = some 0
        ∧ sk.tp.snd_cwnd
            ≤ (cong_avoid_decide P sk reasoning (cong_avoid_dur sk) theil_slope).tp.snd_cwnd) := by
  obtain ⟨c1, c2⟩ := cong_avoid_decide_verdict_cases P sk reasoning (cong_avoid_dur sk)
    theil_slope
  have e := cong_avoid_decide_eq P sk reasoning (cong_avoid_dur sk) theil_slope
  obtain ⟨v, hv⟩ : ∃ v, sk.ca.vars = some v := Option.isSome_iff_exists.mp h.1.1
  have hsame := increase_cwnd_same P sk
  have hkeep := increase_cwnd_keeps P sk
  have hinc := cong_avoid_inc_full P sk h
  have hdec := cong_avoid_dec_full P sk v hv
  cases hvd : cong_avoid_decide_verdict P sk reasoning (cong_avoid_dur sk) theil_slope with
  | abort => exact absurd hvd c1
  | keep =>
    rw [hvd] at e
    dsimp only at e
    rw [e]
    refine ⟨engine_inv_same hsame h, fun _ => ⟨c2.mp hvd, rfl, hsame.2.1, hsame.2.2.1⟩,
      fun hx => ?_, fun hx => ?_, fun _ => ⟨?_, hkeep.2.1⟩⟩
    · simp only [reduceCtorEq] at hx
    · exact absurd rfl hx
    · rw [hkeep.1, hg]
  | decrease =>
    rw [hvd] at e
    dsimp only at e
    rw [e]
    refine ⟨engine_inv_same hdec.1 h, fun hx => ?_,
      fun _ => ⟨rfl, hdec.1.2.1, hdec.1.2.2.1, hdec.2⟩, fun _ hx => ?_, fun hx => ?_⟩
    · simp only [reduceCtorEq] at hx
    · exact absurd rfl hx
    · exact absurd rfl hx
  | skip =>
    rw [hvd] at e
    dsimp only at e
    rw [e]
    have hr : reasoning = true ∧ cong_avoid_dur sk ≥ to_u32 P.tau := by
      by_contra hn
      have := c2.mpr hn
      rw [hvd] at this
      simp only [reduceCtorEq] at this
    refine ⟨hinc.1, fun hx => ?_, fun hx => ?_,
      fun _ _ => ⟨hr.1, hr.2, rfl, hinc.2.1, hinc.2.2.1⟩, fun _ => ⟨?_, hinc.2.2.2.2⟩⟩
    · simp only [reduceCtorEq] at hx
    · simp only [reduceCtorEq] at hx
    · rw [hinc.2.2.2.1, hg]
  | increase =>
    rw [hvd] at e
    dsimp only at e
    rw [e]
    have hr : reasoning = true ∧ cong_avoid_dur sk ≥ to_u32 P.tau := by
      by_contra hn
      have := c2.mpr hn
      rw [hvd] at this
      simp only [reduceCtorEq] at this
    refine ⟨hinc.1, fun hx => ?_, fun hx => ?_,
      fun _ _ => ⟨hr.1, hr.2, rfl, hinc.2.1, hinc.2.2.1⟩, fun _ => ⟨?_, hinc.2.2.2.2⟩⟩
    · simp only [reduceCtorEq] at hx
    · simp only [reduceCtorEq] at hx
    · rw [hinc.2.2.2.1, hg]

/-- Strictly increasing sending times: the newest point is at least as many ms after the
oldest as there are points in between. -/
theorem times_span (l : List pnode) (a x : pnode)
    (hp : List.Pairwise (fun s t : Nat => s < t) ((a :: l).map pnode.snd_time_ms))
    (hx : (a :: l).getLast? = some x) : a.snd_time_ms + l.length ≤ x.snd_time_ms := by
  induction l generalizing a with
  | nil =>
    simp only [List.getLast?_singleton, Option.some.injEq] at hx
    subst hx
    simp
  | cons c rest ih =>
    rw [List.getLast?_cons_cons] at hx
    simp only [List.map_cons, List.pairwise_cons] at hp
    have h1 := ih c (by simp only [List.map_cons, List.pairwise_cons]; exact hp.2) hx
    have h2 := hp.1 c.snd_time_ms (List.mem_cons_self _ _)
    simp only [List.length_cons]
    omega

/-- The duration of a window with strictly increasing sending times less than `2^31` ms
apart is at least the number of its points. -/
theorem cong_avoid_dur_ge (sk : sock)
    (hp : List.Pairwise (fun s t : Nat => s < t) sk.ca.rtt_sack.times)
    (hs : window_span_ok sk) : sk.ca.rtt_sack.head.length ≤ cong_avoid_dur sk := by
  unfold cong_avoid_dur
  cases hw : sk.ca.rtt_sack.head with
  | nil => simp
  | cons a l =>
    obtain ⟨x, hx⟩ : ∃ x, (a :: l).getLast? = some x := by
      cases hl : (a :: l).getLast? with
      | none => simp at hl
      | some x => exact ⟨x, rfl⟩
    simp only [List.head?_cons, hx]
    unfold rtt_sack.times at hp
    rw [hw] at hp
    have h1 := times_span l a x hp hx
    have hxm : x ∈ a :: l := List.mem_of_getLast?_eq_some hx
    have h2 := hs a.snd_time_ms (by
      unfold rtt_sack.times; rw [hw]; exact List.mem_map_of_mem _ (List.mem_cons_self _ _))
      x.snd_time_ms (by unfold rtt_sack.times; rw [hw]; exact List.mem_map_of_mem _ hxm)
    simp only [List.length_cons]
    have e : to_u32 (max (to_s64 ((x.snd_time_ms : Int) - (a.snd_time_ms : Int) + 1)) 0)
        = x.snd_time_ms - a.snd_time_ms + 1 := by
      unfold to_u32 to_s64
      split <;> omega
    rw [e]
    omega

theorem tcp_flexis_pkts_acked_guard (sk : sock) (r : Int) :
    (tcp_flexis_pkts_acked sk r).ca.vars.map vars.snd_nxt = sk.ca.vars.map vars.snd_nxt := by
  unfold tcp_flexis_pkts_acked
  cases hv : sk.ca.vars with
  | none => simp [hv]
  | some v => simp

/-- A window event leaves the socket alone or runs the full reset, which empties the
window and the slope store and clears the guard; the connection is touched only by
`CA_EVENT_COMPLETE_CWR` under a guard. -/
theorem tcp_flexis_cwnd_event_cases (sk : sock) (ev : tcp_ca_event) (v : vars)
    (hv : sk.ca.vars = some v) :
    tcp_flexis_cwnd_event sk ev = sk
    ∨ ((tcp_flexis_cwnd_event sk ev).ca.rtt_sack = { head := [], cnt := 0 }
        ∧ (tcp_flexis_cwnd_event sk ev).ca.slopes = { head := [], cnt := 0 }
        ∧ (tcp_flexis_cwnd_event sk ev).ca.vars.map vars.snd_nxt = some 0
        ∧ (v.snd_nxt = 0 → (tcp_flexis_cwnd_event sk ev).tp = sk.tp)) := by
  have hr : ∀ X : sock, X.ca.vars = some v →
      (reinit_after_dec X).ca.rtt_sack = { head := [], cnt := 0 }
      ∧ (reinit_after_dec X).ca.slopes = { head := [], cnt := 0 }
      ∧ (reinit_after_dec X).ca.vars.map vars.snd_nxt = some 0
      ∧ (reinit_after_dec X).tp = X.tp := by
    intro X hX
    rw [reinit_after_dec_eq X v hX]
    exact ⟨rfl, rfl, rfl, rfl⟩
  unfold tcp_flexis_cwnd_event
  rw [hv]
  dsimp only
  cases ev with
  | CA_EVENT_CWND_RESTART =>
    obtain ⟨r1, r2, r3, r4⟩ := hr sk hv
    exact Or.inr ⟨r1, r2, r3, fun _ => r4⟩
  | CA_EVENT_COMPLETE_CWR =>
    dsimp only
    split
    · rename_i hne
      obtain ⟨r1, r2, r3, r4⟩ := hr { sk with tp.snd_cwnd := v.undo_cwnd } hv
      exact Or.inr ⟨r1, r2, r3, fun h0 => absurd h0 hne⟩
    · obtain ⟨r1, r2, r3, r4⟩ := hr sk hv
      exact Or.inr ⟨r1, r2, r3, fun _ => r4⟩
  | CA_EVENT_LOSS =>
    obtain ⟨r1, r2, r3, r4⟩ := hr sk hv
    exact Or.inr ⟨r1, r2, r3, fun _ => r4⟩
  | CA_EVENT_TX_START => exact Or.inl rfl
  | CA_EVENT_ECN_NO_CE => exact Or.inl rfl
  | CA_EVENT_ECN_IS_CE => exact Or.inl rfl

/-- The acknowledgment driver keeps the invariant behind the bound of the window. -/
theorem tcp_flexis_cong_avoid_bounded (P : params) (sk : sock) (ack acked med_rtt : Nat)
    (theil_slope : Int) (hT : 2 ≤ to_u32 P.tau)
    (hB : window_bounded_inv P sk)
    (hq : ∀ b ∈ cong_avoid_front sk ack med_rtt,
      window_span_ok b.1
      ∧ (cong_avoid_decide_verdict P b.1 b.2 (cong_avoid_dur b.1) theil_slope
            = verdict.decrease → sk.tp.snd_nxt ≠ 0)) :
    window_bounded_inv P (tcp_flexis_cong_avoid P sk ack acked med_rtt theil_slope) := by
  obtain ⟨hinv, hlen⟩ := hB
  rw [tcp_flexis_cong_avoid_eq]
  cases hf : cong_avoid_front sk ack med_rtt with
  | none => exact ⟨hinv, hlen⟩
  | some b =>
    dsimp only
    obtain ⟨hspan, hnxt⟩ := hq b (by rw [hf]; rfl)
    obtain ⟨v, w, s, hv, hz, hnz, hwc, hmid, htp, hg, hstep⟩ :=
      cong_avoid_mid sk ack med_rtt b hinv hf
    have hw : w.head.length + 1 ≤ to_u32 P.tau := by
      by_cases h0 : v.snd_nxt = 0
      · rw [(hz h0).1]
        rcases hlen with h1 | h1
        · exact h1
        · exfalso
          apply h1.2
          rw [hv]
          simp [h0]
      · rw [(hnz h0).2.1]
        simp only [List.length_nil]
        omega
    obtain ⟨d0, d1, d2, d3, d4⟩ := cong_avoid_decide_full P b.1 b.2 theil_slope hmid hg
    refine ⟨d0, ?_⟩
    by_cases hk : cong_avoid_decide_verdict P b.1 b.2 (cong_avoid_dur b.1) theil_slope
        = verdict.keep
    · obtain ⟨k1, -, k3, -⟩ := d1 hk
      rw [k3]
      rcases hstep with ⟨s1, s2, -⟩ | ⟨np, olds2, news, n1, n2, n3, -, -, n7, n8⟩
      · rw [s2]
        exact Or.inl hw
      · rw [n2]
        have hl : olds2.length = w.head.length := by
          have := congrArg List.length n3
          simpa using this
        simp only [List.length_append, List.length_singleton, hl]
        left
        by_cases hfl : b.2 = true
        · have hd : ¬ cong_avoid_dur b.1 ≥ to_u32 P.tau := fun hd => k1 ⟨hfl, hd⟩
          have := cong_avoid_dur_ge b.1 hmid.1.2.2.2.1 hspan
          rw [n2] at this
          simp only [List.length_append, List.length_singleton, hl] at this
          omega
        · have hnil : news = [] := by
            by_contra hne
            exact hfl (n8.mpr hne)
          have hall : w.head.filter (fun p => key_gen p.key np.key) = w.head := by
            rw [List.filter_eq_self]
            intro p hp
            have hkm : p.key ∈ olds2.map pnode.key := by
              rw [n3]
              exact List.mem_map_of_mem _ hp
            obtain ⟨q, hq1, hq2⟩ := List.mem_map.mp hkm
            have ht1 : q.snd_time_ms ∈ b.1.ca.rtt_sack.times := by
              unfold rtt_sack.times
              rw [n2]
              exact List.mem_map_of_mem _ (List.mem_append_left _ hq1)
            have ht2 : np.snd_time_ms ∈ b.1.ca.rtt_sack.times := by
              unfold rtt_sack.times
              rw [n2]
              exact List.mem_map_of_mem _ (List.mem_append_right _ (List.mem_singleton_self _))
            have hqt : q.snd_time_ms = p.snd_time_ms := congrArg Prod.fst hq2
            have := hspan _ ht1 _ ht2
            rw [hqt] at this
            exact key_gen_of_lt p.key np.key (n1 p hp) this
          rw [hall, hnil] at n7
          simp only [List.length_nil] at n7
          omega
    · by_cases hdv : cong_avoid_decide_verdict P b.1 b.2 (cong_avoid_dur b.1) theil_slope
          = verdict.decrease
      · obtain ⟨-, k2, -, k4⟩ := d2 hdv
        rw [k2, k4, htp]
        right
        constructor
        · rcases hstep with ⟨s1, s2, -⟩ | ⟨np, olds2, news, n1, n2, n3, -, -, n7, n8⟩
          · rw [s2]
            omega
          · rw [n2]
            have hl : olds2.length = w.head.length := by
              have := congrArg List.length n3
              simpa using this
            simp only [List.length_append, List.length_singleton, hl]
            omega
        · intro h0
          simp only [Option.some.injEq] at h0
          exact hnxt hdv h0
      · obtain ⟨-, -, -, k4, -⟩ := d3 hk hdv
        rw [k4]
        left
        rcases hstep with ⟨s1, s2, -⟩ | ⟨np, olds2, news, n1, n2, n3, -, -, n7, n8⟩
        · rw [s2]
          simp only [List.length_tail]
          omega
        · rw [n2]
          have hl : olds2.length = w.head.length := by
            have := congrArg List.length n3
            simpa using this
          simp only [List.length_tail, List.length_append, List.length_singleton, hl]
          omega

/-- One event keeps the invariant behind the bound of the window. -/
theorem step_bounded (P : params) (sk : sock) (e : event) (hT : 2 ≤ to_u32 P.tau)
    (hB : window_bounded_inv P sk) (hq : span_and_nxt_ok P sk e) :
    window_bounded_inv P (step P sk e) := by
  cases e with
  | pkts_acked r =>
    have e : step P sk (event.pkts_acked r) = tcp_flexis_pkts_acked sk r := rfl
    rw [e]
    refine ⟨engine_inv_same (tcp_flexis_pkts_acked_same sk r) hB.1, ?_⟩
    rw [(tcp_flexis_pkts_acked_same sk r).2.1, tcp_flexis_pkts_acked_guard]
    exact hB.2
  | cong_avoid tp ack acked med_rtt theil_slope =>
    exact tcp_flexis_cong_avoid_bounded P { sk with tp := tp } ack acked med_rtt theil_slope hT
      ⟨engine_inv_tp sk tp hB.1, hB.2⟩ hq
  | cwnd_event tp ev =>
    have e : step P sk (event.cwnd_event tp ev)
        = tcp_flexis_cwnd_event { sk with tp := tp } ev := rfl
    rw [e]
    refine ⟨tcp_flexis_cwnd_event_engine_inv _ ev (engine_inv_tp sk tp hB.1), ?_⟩
    obtain ⟨v, hv⟩ : ∃ v, sk.ca.vars = some v := Option.isSome_iff_exists.mp hB.1.1.1
    rcases tcp_flexis_cwnd_event_cases { sk with tp := tp } ev v hv with h | h
    · rw [h]
      exact hB.2
    · rw [h.1]
      left
      simp only [List.length_nil]
      omega

theorem run_bounded (P : params) (sk : sock) (evs : List event) (hT : 2 ≤ to_u32 P.tau)
    (hB : window_bounded_inv P sk) (hq : run_all (span_and_nxt_ok P) P sk evs) :
    window_bounded_inv P (run P sk evs) := by
  unfold run
  induction evs generalizing sk with
  | nil => exact hB
  | cons e rest ih => exact ih _ (step_bounded P sk e hT hB hq.1) hq.2

/-- After `tcp_flexis_init` with no allocation failure the window and the slope store
are empty and the guard is 0. -/
theorem tcp_flexis_init_lists (sk0 : sock) (hnf : sk0.mem.no_fail) :
    (tcp_flexis_init sk0).ca.rtt_sack = { head := [], cnt := 0 }
    ∧ (tcp_flexis_init sk0).ca.slopes = { head := [], cnt := 0 }
    ∧ (tcp_flexis_init sk0).ca.vars.map vars.snd_nxt = some 0 := by
  have hk := kzalloc_no_fail sk0.mem hnf
  unfold tcp_flexis_init
  rcases e : kzalloc sk0.mem with ⟨oa, m⟩
  rw [e] at hk
  obtain ⟨h1, h2⟩ := hk
  simp only at h1 h2
  subst h1
  dsimp only
  rw [update_pacing_ratio_ca]
  exact ⟨rfl, rfl, rfl⟩

/-- C26: in every state reached from `tcp_flexis_init` by sample, acknowledgment and
window events, while no allocation fails, `2 ≤ tau` (an `int`), and at every
acknowledgment that gets past the entry checks the sending times of the window are less
than `2^31` ms apart and the connection's `snd_nxt` is not 0 when a decrease fires
(`span_and_nxt_ok`), the observation window holds at most `tau` points, and its counter
is the number of its points. -/
theorem window_at_most_tau (P : params) (sk0 : sock) (evs : List event)
    (hnf : sk0.mem.no_fail) (h2 : 2 ≤ P.tau) (h3 : P.tau ≤ 2147483647)
    (hq : run_all (span_and_nxt_ok P) P (tcp_flexis_init sk0) evs) :
    ((run P (tcp_flexis_init sk0) evs).ca.rtt_sack.head.length : Int) ≤ P.tau
    ∧ (run P (tcp_flexis_init sk0) evs).ca.rtt_sack.cnt
        = (run P (tcp_flexis_init sk0) evs).ca.rtt_sack.head.length := by
  have hT : (to_u32 P.tau : Int) = P.tau := by
    unfold to_u32
    omega
  have hB0 : window_bounded_inv P (tcp_flexis_init sk0) := by
    refine ⟨tcp_flexis_init_engine_inv sk0 hnf, Or.inl ?_⟩
    rw [(tcp_flexis_init_lists sk0 hnf).1]
    simp only [List.length_nil]
    omega
  obtain ⟨hinv, hlen⟩ := run_bounded P _ evs (by omega) hB0 hq
  refine ⟨?_, hinv.2.1⟩
  rcases hlen with h | h
  · omega
  · omega

theorem window_at_most_tau_witness :
    ((run {} (tcp_flexis_init sk_fresh) evs_decrease).ca.rtt_sack.head.length : Int) ≤ 60
    ∧ (run {} (tcp_flexis_init sk_fresh) evs_decrease).ca.rtt_sack.cnt
        = (run {} (tcp_flexis_init sk_fresh) evs_decrease).ca.rtt_sack.head.length :=
  window_at_most_tau {} sk_fresh evs_decrease (by decide) (by decide) (by decide) (by decide)

/-- The `s32` average of two values between `lo` and `hi`, both within `±2^30`, lies
between `lo` and `hi`: the sum does not wrap. -/
theorem avg_s32_bounds (a b lo hi : Int) (ha : lo ≤ a ∧ a ≤ hi) (hb : lo ≤ b ∧ b ≤ hi)
    (hlo : -1073741824 ≤ lo) (hhi : hi ≤ 1073741823) :
    lo ≤ avg_s32 a b ∧ avg_s32 a b ≤ hi := by
  unfold avg_s32
  have e : to_s32 (a + b) = a + b := by
    unfold to_s32
    split <;> omega
  rw [e]
  by_cases h0 : 0 ≤ a + b
  · rw [Int.tdiv_eq_ediv h0 (by decide)]
    omega
  · have e2 : (a + b).tdiv 2 = -((-(a + b)).tdiv 2) := by
      rw [Int.neg_tdiv, neg_neg]
    rw [e2, Int.tdiv_eq_ediv (by omega) (by decide)]
    omega

/-- The median of a non-empty slope store below `2^32 - 1` entries whose counter is its
length modulo `2^32` and whose slopes lie between `lo` and `hi`, both within `±2^30`:
`slopes_median` over the whole store succeeds with a value between `lo` and `hi`. -/
theorem slopes_median_bounds (sk : sock) (lo hi old : Int)
    (hc : sk.ca.slopes.cnt = sk.ca.slopes.head.length % 4294967296)
    (hne : sk.ca.slopes.head ≠ []) (hlen : sk.ca.slopes.head.length < 4294967295)
    (hb : ∀ n ∈ sk.ca.slopes.head, lo ≤ n.slope ∧ n.slope ≤ hi)
    (hlo : -1073741824 ≤ lo) (hhi : hi ≤ 1073741823) :
    ∃ m : Int, slopes_median sk 1 sk.ca.slopes.cnt (some old) = (ret.SUCCESS, some m)
      ∧ lo ≤ m ∧ m ≤ hi := by
  have hcl : sk.ca.slopes.cnt = sk.ca.slopes.head.length := by omega
  have hpos : 1 ≤ sk.ca.slopes.cnt := by
    rw [hcl]
    cases h : sk.ca.slopes.head with
    | nil => exact absurd h hne
    | cons a t => simp
  have hemp : sk.ca.slopes.head.isEmpty = false := by
    cases h : sk.ca.slopes.head with
    | nil => exact absurd h hne
    | cons a t => rfl
  have hrng : ¬ ((1 : Nat) < 1 ∨ sk.ca.slopes.cnt > sk.ca.slopes.cnt) := by omega
  obtain ⟨a, ha, b, hb2, h | h⟩ := median_full snode.slope avg_s32 sk.ca.slopes.head
    sk.ca.slopes.cnt hcl hpos (by omega)
  · refine ⟨a.slope, ?_, hb a ha⟩
    simp only [slopes_median, hrng, if_false, hemp, Bool.false_eq_true, h]
  · refine ⟨avg_s32 a.slope b.slope, ?_, avg_s32_bounds _ _ lo hi (hb a ha) (hb b hb2) hlo hhi⟩
    simp only [slopes_median, hrng, if_false, hemp, Bool.false_eq_true, h]

/-- The slope of two points with the same rtt is 0. -/
theorem key_slope_flat (a b : Nat × Nat) (h : a.2 = b.2) : key_slope a b = 0 := by
  unfold key_slope
  rw [h]
  simp [to_s32]

/-- The acknowledgment driver in a flat run: the invariant `flat_inv` is kept, `snd_cwnd`
is not lowered, and past the entry checks every slope of the store is 0, the verdict is
not `decrease`, the median is 0 when a slope was generated, and the oldest point is
evicted when a slope was generated and the duration is at least `tau`. -/
theorem tcp_flexis_cong_avoid_flat (c : Nat) (P : params) (sk : sock)
    (ack acked med_rtt : Nat) (theil_slope : Int) (hth : 0 < P.theta) (hF : flat_inv sk)
    (hq : ∀ b ∈ cong_avoid_front sk ack med_rtt,
      (∀ p ∈ b.1.ca.rtt_sack.head, p.rtt_us = c) ∧ b.1.ca.slopes.head.length < 4294967295) :
    flat_inv (tcp_flexis_cong_avoid P sk ack acked med_rtt theil_slope)
    ∧ sk.tp.snd_cwnd ≤ (tcp_flexis_cong_avoid P sk ack acked med_rtt theil_slope).tp.snd_cwnd
    ∧ ∀ b ∈ cong_avoid_front sk ack med_rtt,
        (∀ n ∈ b.1.ca.slopes.head, n.slope = 0)
        ∧ cong_avoid_decide_verdict P b.1 b.2 (cong_avoid_dur b.1) theil_slope
            ≠ verdict.decrease
        ∧ (b.2 = true →
            slopes_median b.1 1 b.1.ca.slopes.cnt (some theil_slope) = (ret.SUCCESS, some 0))
        ∧ (b.2 = true → cong_avoid_dur b.1 ≥ to_u32 P.tau →
            (tcp_flexis_cong_avoid P sk ack acked med_rtt theil_slope).ca.rtt_sack.head
              = b.1.ca.rtt_sack.head.tail) := by
  obtain ⟨hinv, hg0, hz0⟩ := hF
  rw [tcp_flexis_cong_avoid_eq]
  cases hf : cong_avoid_front sk ack med_rtt with
  | none =>
    refine ⟨⟨hinv, hg0, hz0⟩, le_refl _, ?_⟩
    intro b hb
    simp at hb
  | some b =>
    dsimp only
    obtain ⟨hflat, hlen⟩ := hq b (by rw [hf]; rfl)
    obtain ⟨v, w, s, hv, hz, -, -, hmid, htp, hg, hstep⟩ :=
      cong_avoid_mid sk ack med_rtt b hinv hf
    have hv0 : v.snd_nxt = 0 := by
      rw [hv] at hg0
      simpa using hg0
    obtain ⟨hw, hs⟩ := hz hv0
    -- every slope of the store the decision is taken on is 0
    have hzero : ∀ n ∈ b.1.ca.slopes.head, n.slope = 0 := by
      rcases hstep with ⟨-, -, s3⟩ | ⟨np, olds2, news, n1, n2, n3, n5, n6, -, -⟩
      · rw [s3, hs]
        exact hz0
      · intro n hn
        rcases List.mem_append.mp ((n5.mem_iff).mp hn) with h1 | h1
        · rw [hs] at h1
          exact hz0 n h1
        · obtain ⟨p, hp, hps⟩ := n6 n h1
          rw [hps]
          apply key_slope_flat
          have hkm : p.key ∈ olds2.map pnode.key := by
            rw [n3]
            exact List.mem_map_of_mem _ hp
          obtain ⟨q, hq1, hq2⟩ := List.mem_map.mp hkm
          have hqc : q.rtt_us = c :=
            hflat q (by rw [n2]; exact List.mem_append_left _ hq1)
          have hnc : np.rtt_us = c :=
            hflat np (by rw [n2]; exact List.mem_append_right _ (List.mem_singleton_self _))
          have hpq : q.rtt_us = p.rtt_us := congrArg Prod.snd hq2
          show p.rtt_us = np.rtt_us
          rw [← hpq, hqc, hnc]
    -- the median is 0 when a slope was generated
    have hmed : b.2 = true →
        slopes_median b.1 1 b.1.ca.slopes.cnt (some theil_slope) = (ret.SUCCESS, some 0) := by
      intro hfl
      have hne : b.1.ca.slopes.head ≠ [] := by
        rcases hstep with ⟨s1, -, -⟩ | ⟨np, olds2, news, -, -, -, n5, -, -, n8⟩
        · rw [hfl] at s1
          simp at s1
        · intro hnil
          rw [hnil] at n5
          have := n5.length_eq
          have hnews := n8.mp hfl
          cases news with
          | nil => exact hnews rfl
          | cons a t =>
            simp only [List.length_nil, List.length_append, List.length_cons] at this
            omega
      obtain ⟨m, hm, h1, h2⟩ := slopes_median_bounds b.1 0 0 theil_slope hmid.2.2.2.1 hne hlen
        (fun n hn => by rw [hzero n hn]; exact ⟨le_refl _, le_refl _⟩) (by decide) (by decide)
      have : m = 0 := by omega
      rw [hm, this]
    have hvd : cong_avoid_decide_verdict P b.1 b.2 (cong_avoid_dur b.1) theil_slope
        ≠ verdict.decrease := by
      by_cases hfl : b.2 = true
      · unfold cong_avoid_decide_verdict
        rw [hmed hfl]
        have hlt : ¬ ((0 : Int) ≥ P.theta) := by omega
        simp only [Option.getD_some, hlt, if_false]
        split
        · split <;> simp
        · simp
      · have := (cong_avoid_decide_verdict_cases P b.1 b.2 (cong_avoid_dur b.1)
          theil_slope).2.mpr (fun hx => hfl hx.1)
        rw [this]
        simp
    obtain ⟨d0, d1, -, d3, d4⟩ := cong_avoid_decide_full P b.1 b.2 theil_slope hmid hg
    obtain ⟨e1, e2⟩ := d4 hvd
    refine ⟨⟨d0, e1, ?_⟩, by rw [← htp]; exact e2, ?_⟩
    · by_cases hk : cong_avoid_decide_verdict P b.1 b.2 (cong_avoid_dur b.1) theil_slope
          = verdict.keep
      · rw [(d1 hk).2.2.2]
        exact hzero
      · intro n hn
        exact hzero n ((d3 hk hvd).2.2.2.2.subset hn)
    · intro b2 hb2
      have hbb : b2 = b := by
        simp only [Option.mem_def, Option.some.injEq] at hb2
        exact hb2.symm
      subst hbb
      refine ⟨hzero, hvd, hmed, ?_⟩
      intro hfl hdur
      have hk : cong_avoid_decide_verdict P b2.1 b2.2 (cong_avoid_dur b2.1) theil_slope
          ≠ verdict.keep := by
        intro hk
        exact (d1 hk).1 ⟨hfl, hdur⟩
      exact (d3 hk hvd).2.2.2.1

/-- One event of a flat run. -/
theorem step_flat (c : Nat) (P : params) (sk : sock) (e : event) (hth : 0 < P.theta)
    (hF : flat_inv sk) (hq : flat_ok c sk e) :
    flat_holds P sk e ∧ flat_inv (step P sk e) := by
  obtain ⟨hinv, hg0, hz0⟩ := hF
  cases e with
  | pkts_acked r =>
    have e : step P sk (event.pkts_acked r) = tcp_flexis_pkts_acked sk r := rfl
    rw [e]
    refine ⟨hg0, engine_inv_same (tcp_flexis_pkts_acked_same sk r) hinv, ?_, ?_⟩
    · rw [tcp_flexis_pkts_acked_guard]
      exact hg0
    · rw [(tcp_flexis_pkts_acked_same sk r).2.2.1]
      exact hz0
  | cong_avoid tp ack acked med_rtt theil_slope =>
    obtain ⟨f1, f2, f3⟩ := tcp_flexis_cong_avoid_flat c P { sk with tp := tp } ack acked
      med_rtt theil_slope hth ⟨engine_inv_tp sk tp hinv, hg0, hz0⟩
      (fun b hb => ⟨(hq b hb).1, (hq b hb).2.1⟩)
    exact ⟨⟨hg0, f2, f3⟩, f1⟩
  | cwnd_event tp ev =>
    have e : step P sk (event.cwnd_event tp ev)
        = tcp_flexis_cwnd_event { sk with tp := tp } ev := rfl
    rw [e]
    obtain ⟨v, hv⟩ : ∃ v, sk.ca.vars = some v := Option.isSome_iff_exists.mp hinv.1.1
    have hv0 : v.snd_nxt = 0 := by
      rw [hv] at hg0
      simpa using hg0
    have hi := tcp_flexis_cwnd_event_engine_inv _ ev (engine_inv_tp sk tp hinv)
    rcases tcp_flexis_cwnd_event_cases { sk with tp := tp } ev v hv with h | h
    · refine ⟨⟨hg0, ?_⟩, ?_⟩
      · show (tcp_flexis_cwnd_event { sk with tp := tp } ev).tp = tp
        rw [h]
      · rw [h]
        exact ⟨engine_inv_tp sk tp hinv, hg0, hz0⟩
    · refine ⟨⟨hg0, h.2.2.2 hv0⟩, hi, h.2.2.1, ?_⟩
      rw [h.2.1]
      intro n hn
      simp at hn

theorem run_flat (c : Nat) (P : params) (sk : sock) (evs : List event) (hth : 0 < P.theta)
    (hF : flat_inv sk) (hq : run_all (flat_ok c) P sk evs) :
    run_all (flat_holds P) P sk evs ∧ flat_inv (run P sk evs) := by
  unfold run
  induction evs generalizing sk with
  | nil => exact ⟨trivial, hF⟩
  | cons e rest ih =>
    obtain ⟨s1, s2⟩ := step_flat c P sk e hth hF hq.1
    obtain ⟨r1, r2⟩ := ih _ s2 hq.2
    exact ⟨⟨s1, r1⟩, r2⟩

/-- Under `pairs_ok`, a property of the slopes of all pairs of window points that pass
the time test holds of the entry behind every fanout reference. -/
theorem pairs_ok_slopes (Q : Int → Prop) (store : List snode) (w : List pnode)
    (h : pairs_ok store w)
    (hR : List.Pairwise
      (fun p q : pnode => key_gen p.key q.key = true → Q (key_slope p.key q.key)) w) :
    ∀ p ∈ w, ∀ f ∈ p.fanout_head,
      ∃ x : Int, ({ addr := f.ptr, slope := x } : snode) ∈ store ∧ Q x := by
  induction w with
  | nil =>
    intro p hp
    simp at hp
  | cons a rest ih =>
    obtain ⟨h1, h2⟩ := h
    rw [List.pairwise_cons] at hR
    intro p hp f hf
    rcases List.mem_cons.mp hp with hpa | hpr
    · subst hpa
      unfold fanout_ok at h1
      have key : ∀ (fs : List fnode) (ks : List (Nat × Nat)),
          List.Forall₂
            (fun (f : fnode) (k : Nat × Nat) =>
              ({ addr := f.ptr, slope := key_slope p.key k } : snode) ∈ store) fs ks →
          ∀ f ∈ fs, ∃ k ∈ ks, ({ addr := f.ptr, slope := key_slope p.key k } : snode) ∈ store := by
        intro fs ks hfk
        induction hfk with
        | nil =>
          intro f hf
          simp at hf
        | cons hab _ ih2 =>
          intro f hf
          rcases List.mem_cons.mp hf with e | e
          · subst e
            exact ⟨_, List.mem_cons_self _ _, hab⟩
          · obtain ⟨k, hk1, hk2⟩ := ih2 f e
            exact ⟨k, List.mem_cons_of_mem _ hk1, hk2⟩
      obtain ⟨k, hk1, hk2⟩ := key _ _ h1 f hf
      simp only [List.mem_filter, List.mem_map] at hk1
      obtain ⟨⟨q, hq1, hq2⟩, hgen⟩ := hk1
      refine ⟨_, hk2, ?_⟩
      rw [← hq2]
      exact hR.1 q hq1 (by rw [hq2]; exact hgen)
    · exact ih h2 hR.2 p hpr f hf

/-- Under the invariant `lists_inv`, a property of the slopes of all pairs of window
points that pass the time test holds of every slope of the store. -/
theorem store_slopes_of_pairs (Q : Int → Prop) (w : rtt_sack) (s : slopes) (brk : Nat)
    (h : lists_inv w s brk)
    (hR : List.Pairwise
      (fun p q : pnode => key_gen p.key q.key = true → Q (key_slope p.key q.key)) w.head) :
    ∀ n ∈ s.head, Q n.slope := by
  obtain ⟨-, -, -, -, -, i6, -, i8, i9⟩ := h
  intro n hn
  have ha : n.addr ∈ s.addrs := List.mem_map_of_mem _ hn
  have hr : n.addr ∈ w.refs := (i8.mem_iff).mpr ha
  simp only [rtt_sack.refs, List.mem_flatMap, pnode.refs, List.mem_map] at hr
  obtain ⟨p, hp, f, hf, hfa⟩ := hr
  obtain ⟨x, hx1, hx2⟩ := pairs_ok_slopes Q s.head w.head i9 hR p hp f hf
  have heq : ({ addr := f.ptr, slope := x } : snode) = n := by
    apply List.inj_on_of_nodup_map i6 hx1 hn
    exact hfa
  rw [← heq]
  exact hx2

theorem tdiv_tdiv_nat (n m : Nat) :
    Int.tdiv (Int.tdiv (n : Int) 1000) (m : Int) = Int.tdiv (n : Int) (1000 * (m : Int)) := by
  have h1 : Int.tdiv (n : Int) 1000 = ((n / 1000 : Nat) : Int) :=
    (Int.ofNat_tdiv n 1000).symm
  have h2 : (1000 * (m : Int)) = ((1000 * m : Nat) : Int) := by push_cast; rfl
  rw [h1, h2, ← Int.ofNat_tdiv, ← Int.ofNat_tdiv, Nat.div_div_eq_div_mul]

/-- Truncating division by 1000 and then by `a` is truncating division by `1000 * a`. -/
theorem tdiv_tdiv_thousand (t a : Int) :
    Int.tdiv (Int.tdiv t 1000) a = Int.tdiv t (1000 * a) := by
  obtain ⟨n, rfl | rfl⟩ := Int.eq_nat_or_neg t <;>
    obtain ⟨m, rfl | rfl⟩ := Int.eq_nat_or_neg a
  · exact tdiv_tdiv_nat n m
  · rw [Int.tdiv_neg, mul_neg, Int.tdiv_neg, tdiv_tdiv_nat]
  · rw [Int.neg_tdiv, Int.neg_tdiv, Int.neg_tdiv, tdiv_tdiv_nat]
  · rw [Int.neg_tdiv, Int.neg_tdiv, Int.tdiv_neg, mul_neg, Int.neg_tdiv, Int.tdiv_neg,
      tdiv_tdiv_nat]

/-- The rate of the earlier revision with `alpha` and `beta` in us is the rate of the
later revision. -/
theorem rate_earlier_eq (P : params) (t : Int) (r0 : Nat) :
    rate_earlier (params_earlier P) t r0 = rate P t r0 := by
  unfold rate_earlier rate params_earlier
  have e : ((USEC_PER_MSEC : Nat) : Int) = 1000 := rfl
  simp only [e, tdiv_tdiv_thousand]

theorem sock_vars_eta (sk : sock) (v : vars) (hv : sk.ca.vars = some v) :
    ({ sk with ca.vars := some v } : sock) = sk := by
  obtain ⟨tp, ⟨b, w, s, vs⟩, r1, r2, st, m⟩ := sk
  simp only at hv
  subst hv
  rfl

/-- On a window-limited connection with no unlimited interval pending, `increase_cwnd`
of the earlier revision with `alpha` and `beta` in us is `increase_cwnd` of the later
revision. -/
theorem increase_cwnd_earlier_eq (P : params) (sk : sock)
    (hu : ∀ v, sk.ca.vars = some v → v.t_ulmt = 0) (hl : is_cwnd_limited sk = true) :
    increase_cwnd_earlier (params_earlier P) sk = increase_cwnd P sk := by
  rw [increase_cwnd_eq]
  unfold increase_cwnd_earlier
  cases hv : sk.ca.vars with
  | none => rfl
  | some v =>
    have hsh : increase_cwnd_shift sk v = v := (increase_cwnd_shift_fields sk v).2.2.2.2.2 (hu v hv)
    have hor : ((params_earlier P).alpha = 0 ∨ (params_earlier P).beta = 0)
        ↔ (P.alpha = 0 ∨ P.beta = 0) := by
      unfold params_earlier
      simp only
      omega
    dsimp only
    simp only [hl, not_true_eq_false, if_false, hor, hsh]
    split
    · rfl
    · split
      · rfl
      · split
        · rfl
        · unfold increase_cwnd_grow
          simp only [rate_earlier_eq, sock_vars_eta sk v hv]

theorem is_cwnd_limited_tp (a b : sock) (h : a.tp = b.tp) :
    is_cwnd_limited a = is_cwnd_limited b := by
  unfold is_cwnd_limited
  rw [h]

theorem cong_avoid_inc_earlier_eq (P : params) (sk : sock)
    (hu : ∀ v, sk.ca.vars = some v → v.t_ulmt = 0) (hl : is_cwnd_limited sk = true) :
    cong_avoid_inc_earlier (params_earlier P) sk = cong_avoid_inc P sk := by
  unfold cong_avoid_inc_earlier cong_avoid_inc
  dsimp only
  apply increase_cwnd_earlier_eq
  · intro v hv
    rw [rtt_sack_deq_frame] at hv
    simp only at hv
    cases hsv : sk.ca.vars with
    | none =>
      simp [hsv] at hv
    | some w =>
      rw [hsv] at hv
      dsimp only at hv
      have hw := hu w hsv
      split at hv
      · unfold init_inc_epoch at hv
        rw [hsv] at hv
        simp only [Option.some.injEq] at hv
        rw [← hv]
        exact hw
      · rw [hsv] at hv
        simp only [Option.some.injEq] at hv
        rw [← hv]
        exact hw
  · rw [is_cwnd_limited_tp _ sk, hl]
    rw [rtt_sack_deq_tp]
    cases hsv : sk.ca.vars with
    | none => rfl
    | some w =>
      dsimp only
      split
      · unfold init_inc_epoch
        rw [hsv]
      · rfl

theorem reinit_after_dec_earlier_eq (sk : sock)
    (hu : ∀ v, sk.ca.vars = some v → v.t_ulmt = 0) :
    reinit_after_dec_earlier sk = reinit_after_dec sk := by
  unfold reinit_after_dec_earlier reinit_after_dec
  have hl := rtt_sack_reset_loop_lists (rtt_bin_reset sk).ca.rtt_sack.head.length
    (rtt_bin_reset sk)
  have hvars : (slopes_reset (rtt_sack_reset (rtt_bin_reset sk))).ca.vars = sk.ca.vars := by
    show (rtt_sack_reset_loop _ (rtt_bin_reset sk)).ca.vars = _
    rw [hl]
    rfl
  dsimp only
  rw [hvars]
  cases hv : sk.ca.vars with
  | none => rfl
  | some v =>
    dsimp only
    have := hu v hv
    have e : ({ v with t0 := 0, epoch_min_rtt := MAX_RTT, snd_nxt := 0 } : vars)
        = { v with t0 := 0, epoch_min_rtt := MAX_RTT, snd_nxt := 0, t_ulmt := 0 } := by
      obtain ⟨a1, a2, a3, a4, a5, a6, a7⟩ := v
      simp only at this
      subst this
      rfl
    rw [e]

theorem rtt_sack_enq_vars (sk : sock) (t r : Nat) :
    (rtt_sack_enq sk t r).2.ca.vars = sk.ca.vars := by
  unfold rtt_sack_enq
  split
  · rfl
  · rcases hk : kzalloc sk.mem with ⟨oa, m⟩
    cases oa with
    | none => rfl
    | some a => rfl

theorem rtt_bin_add_asd_vars (sk : sock) (ms v : Nat) :
    (rtt_bin_add_asd sk ms v).2.ca.vars = sk.ca.vars := by
  rw [(rtt_bin_add_asd_frame sk ms v).1]

/-- The bin step does not touch `vars`. -/
theorem cong_avoid_bin_vars (sk : sock) (rtt_us : Int) (ms med_rtt : Nat) :
    (cong_avoid_bin sk rtt_us ms med_rtt).1.ca.vars = sk.ca.vars := by
  unfold cong_avoid_bin
  split
  · exact rtt_bin_add_asd_vars _ _ _
  · split
    · dsimp only
      rw [rtt_bin_add_asd_vars]
      show (match (rtt_sack_enq sk sk.ca.rtt_bin.snd_time_ms _).1 with
        | none => ((rtt_sack_enq sk sk.ca.rtt_bin.snd_time_ms _).2, false)
        | some new_pnode =>
          ((slopes_gen (rtt_sack_enq sk sk.ca.rtt_bin.snd_time_ms _).2 (some new_pnode)).2,
            decide ((slopes_gen (rtt_sack_enq sk sk.ca.rtt_bin.snd_time_ms _).2
              (some new_pnode)).1 = ret.SUCCESS))).1.ca.vars = sk.ca.vars
      split
      · exact rtt_sack_enq_vars _ _ _
      · rw [(slopes_gen_frame _ _).2.1, rtt_sack_enq_vars]
    · exact rtt_bin_add_asd_vars _ _ _

/-- The front half of the driver, for any socket: past the entry checks it is the bin
step on the socket after the guard handling and the update of the minimum rtt. -/
theorem cong_avoid_front_some (sk : sock) (ack med_rtt : Nat) (b : sock × Bool)
    (hb : cong_avoid_front sk ack med_rtt = some b) :
    ∃ (v : vars) (ms : Nat),
      sk.ca.vars = some v
      ∧ b = cong_avoid_bin
              (cong_avoid_min_rtt (if v.snd_nxt ≠ 0 then reinit_after_dec sk else sk))
              v.rtt_us ms med_rtt := by
  unfold cong_avoid_front at hb
  cases hv : sk.ca.vars with
  | none =>
    rw [hv] at hb
    exact absurd hb (by simp)
  | some v =>
    rw [hv] at hb
    dsimp only at hb
    split at hb
    · exact absurd hb (by simp)
    · cases hms : cong_avoid_snd_time_ms sk v with
      | none =>
        rw [hms] at hb
        exact absurd hb (by simp)
      | some ms =>
        rw [hms] at hb
        dsimp only at hb
        split at hb
        · exact absurd hb (by simp)
        · split at hb
          · exact absurd hb (by simp)
          · simp only [Option.some.injEq] at hb
            exact ⟨v, ms, rfl, hb.symm⟩

/-- The socket the decision is taken on has the connection of the socket the driver was
called on, and no unlimited interval pending when that socket had none. -/
theorem cong_avoid_front_ulmt (sk : sock) (ack med_rtt : Nat) (b : sock × Bool)
    (hb : cong_avoid_front sk ack med_rtt = some b)
    (hu : ∀ v, sk.ca.vars = some v → v.t_ulmt = 0) :
    b.1.tp = sk.tp ∧ ∀ v, b.1.ca.vars = some v → v.t_ulmt = 0 := by
  obtain ⟨v, ms, hv, hbe⟩ := cong_avoid_front_some sk ack med_rtt b hb
  have h0 := hu v hv
  rw [hbe, cong_avoid_bin_tp, cong_avoid_bin_vars, cong_avoid_min_rtt_tp]
  by_cases hg : v.snd_nxt ≠ 0
  · rw [if_pos hg, reinit_after_dec_tp]
    refine ⟨rfl, ?_⟩
    intro w hw
    rw [cong_avoid_min_rtt_vars _ _ (by rw [reinit_after_dec_eq sk v hv])] at hw
    simp only [Option.some.injEq] at hw
    rw [← hw]
  · rw [if_neg hg]
    refine ⟨rfl, ?_⟩
    intro w hw
    rw [cong_avoid_min_rtt_vars sk v hv] at hw
    simp only [Option.some.injEq] at hw
    rw [← hw]
    exact h0

theorem cong_avoid_front_earlier_eq (sk : sock) (ack med_rtt : Nat)
    (hu : ∀ v, sk.ca.vars = some v → v.t_ulmt = 0) :
    cong_avoid_front_earlier sk ack med_rtt = cong_avoid_front sk ack med_rtt := by
  unfold cong_avoid_front_earlier cong_avoid_front
  rw [reinit_after_dec_earlier_eq sk hu]

/-- The driver of the earlier revision is its front half followed by its decision. -/
theorem tcp_flexis_cong_avoid_earlier_eq (P : params) (sk : sock) (ack acked med_rtt : Nat)
    (theil_slope : Int) :
    tcp_flexis_cong_avoid_earlier P sk ack acked med_rtt theil_slope
      = match cong_avoid_front_earlier sk ack med_rtt with
        | none => sk
        | some b => cong_avoid_decide_earlier P b.1 b.2 (cong_avoid_dur b.1) theil_slope := by
  unfold tcp_flexis_cong_avoid_earlier cong_avoid_front_earlier
  cases sk.ca.vars with
  | none => rfl
  | some v =>
    dsimp only
    split
    · rfl
    · cases cong_avoid_snd_time_ms sk v with
      | none => rfl
      | some ms =>
        dsimp only
        split
        · rfl
        · split
          · rfl
          · rfl

/-- The decisions of the two revisions agree on a window-limited connection with no
unlimited interval pending, when the two gates agree. -/
theorem cong_avoid_decide_earlier_eq (P : params) (sk : sock) (reasoning : Bool) (dur : Nat)
    (theil_slope : Int)
    (hu : ∀ v, sk.ca.vars = some v → v.t_ulmt = 0) (hl : is_cwnd_limited sk = true)
    (hgate : reasoning = true → dur ≥ to_u32 P.tau →
      (sk.ca.rtt_sack.cnt < to_u32 P.sigma ↔ sk.ca.slopes.cnt < to_u32 P.sigma)) :
    cong_avoid_decide_verdict_earlier (params_earlier P) sk reasoning dur theil_slope
        = cong_avoid_decide_verdict P sk reasoning dur theil_slope
    ∧ cong_avoid_decide_earlier (params_earlier P) sk reasoning dur theil_slope
        = cong_avoid_decide P sk reasoning dur theil_slope := by
  have e1 : (params_earlier P).tau = P.tau := rfl
  have e2 : (params_earlier P).sigma = P.sigma := rfl
  have e3 : (params_earlier P).theta = P.theta := rfl
  unfold cong_avoid_decide_verdict_earlier cong_avoid_decide_verdict cong_avoid_decide_earlier
    cong_avoid_decide
  rw [e1, e2, e3, increase_cwnd_earlier_eq P sk hu hl, cong_avoid_inc_earlier_eq P sk hu hl]
  by_cases hc : reasoning = true ∧ dur ≥ to_u32 P.tau
  · rw [if_pos hc, if_pos hc, if_pos hc, if_pos hc]
    have hg := hgate hc.1 hc.2
    by_cases hs : sk.ca.slopes.cnt < to_u32 P.sigma
    · rw [if_pos hs, if_pos hs, if_pos (hg.mpr hs), if_pos (hg.mpr hs)]
      exact ⟨rfl, rfl⟩
    · rw [if_neg hs, if_neg hs, if_neg (fun h => hs (hg.mp h)),
        if_neg (fun h => hs (hg.mp h))]
      exact ⟨rfl, rfl⟩
  · rw [if_neg hc, if_neg hc, if_neg hc, if_neg hc]
    exact ⟨rfl, rfl⟩

/-- C30, the claim as stated fails for a state with an unlimited interval pending: in
`sk_after_unlimited` (`t0 = 111000`, `t_ulmt = 111000`, `r0 = 1000`) the connection is
window-limited again at the time 1111000 us; both revisions close the bin of 101 and
take the verdict `increase` (3 points, 3 slopes, so both gates admit the round), but the
later revision shifts `t0` to 1111000 and leaves `snd_cwnd` at 10, while the earlier
revision, with `alpha = 100000` and `beta = 10000`, raises it to 21. -/
theorem revisions_differ_after_unlimited :
    is_cwnd_limited sk_after_unlimited = true
    ∧ sk_after_unlimited.ca.vars.map vars.t_ulmt = some 111000
    ∧ params_earlier {} = { alpha := 100000, beta := 10000 }
    ∧ (cong_avoid_front sk_after_unlimited 1 0).map
        (fun b => (b.1.ca.rtt_sack.cnt, b.1.ca.slopes.cnt)) = some (3, 3)
    ∧ tcp_flexis_cong_avoid_verdict {} sk_after_unlimited 1 0 0 = verdict.increase
    ∧ tcp_flexis_cong_avoid_verdict_earlier (params_earlier {}) sk_after_unlimited 1 0 0
        = verdict.increase
    ∧ (tcp_flexis_cong_avoid {} sk_after_unlimited 1 1 0 0).tp.snd_cwnd = 10
    ∧ (tcp_flexis_cong_avoid_earlier (params_earlier {}) sk_after_unlimited 1 1 0 0).tp.snd_cwnd
        = 21 := by
  decide

/-- C30 (amended): for every state with no unlimited interval pending (`t_ulmt = 0`),
every `sigma`, `tau`, `theta`, `alpha`, `beta` and every acknowledgment on a
window-limited connection, with the earlier revision's `alpha` and `beta` 1000 times the
later revision's, and in a round where the two gates agree whenever they are consulted
(the window holds fewer than `sigma` points exactly when the store holds fewer than
`sigma` slopes): the two revisions have the same front half, reach the same verdict and
return the same socket, hence the same bin, window, slope store, guard and `snd_cwnd`. -/
theorem revisions_agree (P : params) (sk : sock) (ack acked med_rtt : Nat)
    (theil_slope : Int)
    (hu : (sk.ca.vars.map vars.t_ulmt).getD 0 = 0) (hl : is_cwnd_limited sk = true)
    (hgate : ∀ b ∈ cong_avoid_front sk ack med_rtt,
      b.2 = true → cong_avoid_dur b.1 ≥ to_u32 P.tau →
        (b.1.ca.rtt_sack.cnt < to_u32 P.sigma ↔ b.1.ca.slopes.cnt < to_u32 P.sigma)) :
    cong_avoid_front_earlier sk ack med_rtt = cong_avoid_front sk ack med_rtt
    ∧ tcp_flexis_cong_avoid_verdict_earlier (params_earlier P) sk ack med_rtt theil_slope
        = tcp_flexis_cong_avoid_verdict P sk ack med_rtt theil_slope
    ∧ tcp_flexis_cong_avoid_earlier (params_earlier P) sk ack acked med_rtt theil_slope
        = tcp_flexis_cong_avoid P sk ack acked med_rtt theil_slope := by
  have hu2 : ∀ v, sk.ca.vars = some v → v.t_ulmt = 0 := by
    intro v hv
    rw [hv] at hu
    simpa using hu
  have hfront := cong_avoid_front_earlier_eq sk ack med_rtt hu2
  refine ⟨hfront, ?_, ?_⟩
  · unfold tcp_flexis_cong_avoid_verdict_earlier tcp_flexis_cong_avoid_verdict
    rw [hfront]
    cases hf : cong_avoid_front sk ack med_rtt with
    | none => rfl
    | some b =>
      dsimp only
      obtain ⟨htp, hub⟩ := cong_avoid_front_ulmt sk ack med_rtt b hf hu2
      exact (cong_avoid_decide_earlier_eq P b.1 b.2 (cong_avoid_dur b.1) theil_slope hub
        (by rw [is_cwnd_limited_tp b.1 sk htp]; exact hl)
        (hgate b (by rw [hf]; rfl))).1
  · rw [tcp_flexis_cong_avoid_earlier_eq, tcp_flexis_cong_avoid_eq, hfront]
    cases hf : cong_avoid_front sk ack med_rtt with
    | none => rfl
    | some b =>
      dsimp only
      obtain ⟨htp, hub⟩ := cong_avoid_front_ulmt sk ack med_rtt b hf hu2
      exact (cong_avoid_decide_earlier_eq P b.1 b.2 (cong_avoid_dur b.1) theil_slope hub
        (by rw [is_cwnd_limited_tp b.1 sk htp]; exact hl)
        (hgate b (by rw [hf]; rfl))).2

theorem revisions_agree_witness :
    tcp_flexis_cong_avoid_verdict_earlier (params_earlier {}) sk_rising 1 0 0
        = tcp_flexis_cong_avoid_verdict {} sk_rising 1 0 0
    ∧ tcp_flexis_cong_avoid_earlier (params_earlier {}) sk_rising 1 1 0 0
        = tcp_flexis_cong_avoid {} sk_rising 1 1 0 0 :=
  (revisions_agree {} sk_rising 1 1 0 0 (by decide) (by decide) (by decide)).2

/-! ### C33: `increase_cwnd` never lowers the window -/

/-- The growth step leaves every field of the connection but `snd_cwnd` alone. -/
theorem increase_cwnd_grow_clamp (P : params) (sk : sock) (v1 : vars) :
    (increase_cwnd_grow P sk v1).tp.snd_cwnd_clamp = sk.tp.snd_cwnd_clamp := by
  unfold increase_cwnd_grow
  dsimp only
  split
  · rfl
  · split
    · rfl
    · rw [update_pacing_ratio_tp]

/-- C33: for every state and every call of `increase_cwnd`, whatever the rate, the rtt
estimate and the 32-bit cut of the target are, the window `snd_cwnd` is not lowered and
does not rise above the greater of its old value and `snd_cwnd_clamp`; the clamp itself
is not touched. -/
theorem increase_cwnd_window_bounds (P : params) (sk : sock) :
    sk.tp.snd_cwnd ≤ (increase_cwnd P sk).tp.snd_cwnd
    ∧ (increase_cwnd P sk).tp.snd_cwnd ≤ max sk.tp.snd_cwnd sk.tp.snd_cwnd_clamp
    ∧ (increase_cwnd P sk).tp.snd_cwnd_clamp = sk.tp.snd_cwnd_clamp := by
  obtain ⟨-, hlo, hhi⟩ := increase_cwnd_keeps P sk
  refine ⟨hlo, hhi, ?_⟩
  rw [increase_cwnd_eq]
  cases hv : sk.ca.vars with
  | none => rfl
  | some v =>
    dsimp only
    split
    · rfl
    · split
      · split
        · simp only [update_pacing_ratio_tp]
        · rw [update_pacing_ratio_tp]
      · split
        · rfl
        · split
          · rfl
          · exact increase_cwnd_grow_clamp P sk _

/-! ### C35: the rate law of the two revisions -/

/-- C35: the rate law of the two revisions agrees under unit scaling.  With the earlier
revision's `alpha` and `beta` 1000 times the later revision's, the rate
`int_pow(t / alpha, 3) + t / beta + r0` of `src/src/tcp_flexis.c` is the rate
`int_pow(t / 1000 / alpha, 3) + t / 1000 / beta + r0` of `src/tcp_flexis.c`, for every
elapsed time `t` in us, every `r0` and every `alpha`, `beta` (in particular for `t ≥ 0`
and positive `alpha`, `beta`), because dividing by 1000 and then by `a` is dividing by
`1000 * a`; for `t ≥ 0` and `a > 0` both are the floor division of the natural
numbers. -/
theorem rate_unit_scaling (P Q : params) (t : Int) (r0 : Nat)
    (ha : Q.alpha = 1000 * P.alpha) (hb : Q.beta = 1000 * P.beta) :
    rate_earlier Q t r0 = rate P t r0
    ∧ Int.tdiv (Int.tdiv t 1000) P.alpha = Int.tdiv t Q.alpha
    ∧ Int.tdiv (Int.tdiv t 1000) P.beta = Int.tdiv t Q.beta
    ∧ (0 ≤ t → 0 < P.alpha →
        Int.tdiv t Q.alpha = ((t.toNat / (1000 * P.alpha.toNat) : Nat) : Int)
        ∧ t.toNat / 1000 / P.alpha.toNat = t.toNat / (1000 * P.alpha.toNat)) := by
  have e1 := tdiv_tdiv_thousand t P.alpha
  have e2 := tdiv_tdiv_thousand t P.beta
  refine ⟨?_, by rw [ha]; exact e1, by rw [hb]; exact e2, ?_⟩
  · unfold rate_earlier rate
    have e : ((USEC_PER_MSEC : Nat) : Int) = 1000 := rfl
    rw [ha, hb, e, e1, e2]
  · intro ht hpos
    obtain ⟨n, rfl⟩ := Int.eq_ofNat_of_zero_le ht
    obtain ⟨a, ha1⟩ := Int.eq_ofNat_of_zero_le (le_of_lt hpos)
    rw [ha, ha1]
    have h2 : (1000 * (a : Int)) = ((1000 * a : Nat) : Int) := by push_cast; rfl
    rw [h2, ← Int.ofNat_tdiv]
    simp only [Int.toNat_ofNat, Nat.div_div_eq_div_mul, and_self]

theorem rate_unit_scaling_witness :
    rate_earlier { alpha := 100000, beta := 10000 } 1234567 1000 = rate {} 1234567 1000
    ∧ rate {} 1234567 1000 = 12 ^ 3 + 123 + 1000 :=
  ⟨(rate_unit_scaling {} { alpha := 100000, beta := 10000 } 1234567 1000
      (by decide) (by decide)).1, by decide⟩

/-! ### C34: the pacing ratio is at least 100 -/

/-- The rate law without wrap is monotone in the elapsed time: for `0 ≤ t1 ≤ t2` and
positive `alpha`, `beta`, when the sum at `t2` fits 64 bits, `rate P t1 r0 ≤ rate P t2 r0`,
and both are the exact sums. -/
theorem rate_mono (P : params) (t1 t2 : Int) (r0 : Nat) (h1 : 0 ≤ t1) (h12 : t1 ≤ t2)
    (ha : 0 < P.alpha) (hb : 0 < P.beta)
    (hfit : (t2.toNat / 1000 / P.alpha.toNat) ^ 3 + t2.toNat / 1000 / P.beta.toNat + r0
      < 18446744073709551616) :
    rate P t1 r0 ≤ rate P t2 r0
    ∧ rate P t2 r0
        = (t2.toNat / 1000 / P.alpha.toNat) ^ 3 + t2.toNat / 1000 / P.beta.toNat + r0 := by
  have hn : t1.toNat ≤ t2.toNat := Int.toNat_le_toNat h12
  have hx : t1.toNat / 1000 / P.alpha.toNat ≤ t2.toNat / 1000 / P.alpha.toNat :=
    Nat.div_le_div_right (Nat.div_le_div_right hn)
  have hy : t1.toNat / 1000 / P.beta.toNat ≤ t2.toNat / 1000 / P.beta.toNat :=
    Nat.div_le_div_right (Nat.div_le_div_right hn)
  have hx3 : (t1.toNat / 1000 / P.alpha.toNat) ^ 3 ≤ (t2.toNat / 1000 / P.alpha.toNat) ^ 3 :=
    Nat.pow_le_pow_left hx 3
  have e2 := rate_exact P t2 r0 (le_trans h1 h12) ha hb hfit
  have e1 := rate_exact P t1 r0 h1 ha hb (by omega)
  rw [e1, e2]
  exact ⟨by omega, rfl⟩

/-- C34, the claim as stated fails for a quotient that fits 32 bits but not the `int`
sink: at the start of an epoch at 1 packet per second with a minimum rtt of 30 s and the
default `alpha = 100`, `beta = 10`, the rates are `r1 = 1` and
`r2 = 300^3 + 3000 + 1 = 27003001 ≥ r1`, nothing overflows 64 bits, the quotient
`r2 * 100 / r1 = 2700300100` is below `2^32`, and the pacing ratio written to the sink
is `2700300100 - 2^32 = -1594667196`. -/
theorem pacing_ratio_negative :
    sk_rtt_30s.ca.vars.map (fun v => (v.t0, v.t_ulmt, v.r0, v.epoch_min_rtt))
        = some (70000000, 0, 1, 30000000)
    ∧ sk_rtt_30s.tp.tcp_mstamp = 70000000
    ∧ is_cwnd_limited sk_rtt_30s = true
    ∧ rate {} 0 1 = 1
    ∧ rate {} 30000000 1 = 27003001
    ∧ 27003001 * 100 / 1 = 2700300100 ∧ 27003001 * 100 % 1 = 0
    ∧ 2700300100 < 4294967296
    ∧ (increase_cwnd {} sk_rtt_30s).sysctl_tcp_pacing_ss_ratio = -1594667196
    ∧ (increase_cwnd {} sk_rtt_30s).sysctl_tcp_pacing_ca_ratio = -1594667196 := by
  refine ⟨by decide, by decide, by decide, by decide, by decide, by decide, by decide,
    by decide, by decide, by decide⟩

/-- C34 (amended): in the growth path of `increase_cwnd` (epoch started, connection
window-limited, `alpha > 0`, `beta > 0`, smoothed rtt not 0, elapsed time `t1 >= 0`
after the shift of `t0`, rate `r1 > 0`), when nothing overflows 64 bits (`t1 + rtt` as
a `long`, the rate sum at `t1 + rtt`, and `r2 * 100`) and the ceiling `q` of
`r2 * 100 / r1` fits the `int` sink (`q < 2^31`): the projected rate satisfies
`r2 ≥ r1`, because the rate law is monotone in the elapsed time, `q` is at least 100,
and both pacing ratios are set to `q`. -/
theorem pacing_ratio_at_least_100 (P : params) (sk : sock) (v : vars) (t1 : Int)
    (rtt r1 r2 q : Nat)
    (hv : sk.ca.vars = some v) (ht0 : v.t0 ≠ 0) (hlim : is_cwnd_limited sk = true)
    (ha : 0 < P.alpha) (hb : 0 < P.beta) (hsrtt : sk.tp.srtt_us / 8 ≠ 0)
    (ht1 : t1 = to_s64 ((sk.tp.tcp_mstamp : Int) - ((increase_cwnd_shift sk v).t0 : Int)))
    (hpos : 0 ≤ t1)
    (hrtt : rtt = if v.epoch_min_rtt ≠ 0 then v.epoch_min_rtt else sk.tp.srtt_us / 8)
    (hr1 : r1 = rate P t1 v.r0)
    (hr2 : r2 = rate P (to_s64 (t1 + (rtt : Int))) v.r0)
    (hne : 0 < r1)
    (ht2 : t1 + (rtt : Int) < 9223372036854775808)
    (hfit : ((t1 + (rtt : Int)).toNat / 1000 / P.alpha.toNat) ^ 3
        + (t1 + (rtt : Int)).toNat / 1000 / P.beta.toNat + v.r0 < 18446744073709551616)
    (hmul : r2 * 100 < 18446744073709551616)
    (hq : q = r2 * 100 / r1 + (if r2 * 100 % r1 ≠ 0 then 1 else 0))
    (hq31 : q < 2147483648) :
    r1 ≤ r2
    ∧ 100 ≤ q
    ∧ (increase_cwnd P sk).sysctl_tcp_pacing_ss_ratio = q
    ∧ (increase_cwnd P sk).sysctl_tcp_pacing_ca_ratio = q := by
  have hs64 : to_s64 (t1 + (rtt : Int)) = t1 + (rtt : Int) := by
    unfold to_s64
    split <;> omega
  have hmono := rate_mono P t1 (t1 + (rtt : Int)) v.r0 hpos (by omega) ha hb hfit
  have h12 : r1 ≤ r2 := by
    rw [hr1, hr2, hs64]
    exact hmono.1
  have hq100 : 100 ≤ q := by
    have h1 : 100 ≤ r2 * 100 / r1 := by
      rw [Nat.le_div_iff_mul_le hne]
      nlinarith
    rw [hq]
    omega
  have hf := increase_cwnd_shift_fields sk v
  have hrtt2 : rtt = if (increase_cwnd_shift sk v).epoch_min_rtt ≠ 0
      then (increase_cwnd_shift sk v).epoch_min_rtt else sk.tp.srtt_us / 8 := by
    rw [hf.2.1]
    exact hrtt
  have e := increase_cwnd_grow_eq P sk (increase_cwnd_shift sk v) t1 r1 rtt r2 ht1 hpos
    (by rw [hf.1]; exact hr1) (by omega) hrtt2 (by rw [hf.1]; exact hr2)
  rw [increase_cwnd_limited P sk v hv ht0 hlim (by omega) (by omega) hsrtt, e]
  have hm : (r2 * 100) % 18446744073709551616 = r2 * 100 := Nat.mod_eq_of_lt hmul
  have hpr : (if ((r2 * 100) % 18446744073709551616) % r1 ≠ 0 then
        ((((r2 * 100) % 18446744073709551616) / r1) % 4294967296 + 1) % 4294967296
      else (((r2 * 100) % 18446744073709551616) / r1) % 4294967296) = q := by
    rw [hm, hq]
    apply pacing_ratio_local
    rw [← hq]
    omega
  rw [hpr]
  have hset := update_pacing_ratio_set
    { sk with
      tp.snd_cwnd := max sk.tp.snd_cwnd
        (min ((div_u64 ((r1 * rtt) % 18446744073709551616) USEC_PER_SEC) % 4294967296)
          sk.tp.snd_cwnd_clamp)
      ca.vars := some
        { increase_cwnd_shift sk v with
          undo_cwnd := max sk.tp.snd_cwnd
            (min ((div_u64 ((r1 * rtt) % 18446744073709551616) USEC_PER_SEC)
              % 4294967296) sk.tp.snd_cwnd_clamp) } }
    q (by omega)
  have hs32 : to_s32 (q : Int) = (q : Int) := by
    unfold to_s32
    split <;> omega
  rw [hs32] at hset
  exact ⟨h12, hq100, hset.1, hset.2⟩

/-- C34 one second into an epoch that started at 1000 packets per second, with a minimum
rtt of 10000 us: `r1 = 2100 ≤ r2 = 2101` and the pacing ratios are set to 101. -/
theorem pacing_ratio_at_least_100_witness :
    (2100 : Nat) ≤ 2101
    ∧ (100 : Nat) ≤ 101
    ∧ (increase_cwnd {} (sk_epoch 1001000 1000 0 1000 10 10000)).sysctl_tcp_pacing_ss_ratio
        = 101
    ∧ (increase_cwnd {} (sk_epoch 1001000 1000 0 1000 10 10000)).sysctl_tcp_pacing_ca_ratio
        = 101 :=
  pacing_ratio_at_least_100 {} (sk_epoch 1001000 1000 0 1000 10 10000)
    { t0 := 1000, t_ulmt := 0, r0 := 1000, snd_nxt := 0, undo_cwnd := 10, rtt_us := 10000,
      epoch_min_rtt := 10000 }
    1000000 10000 2100 2101 101
    (by decide) (by decide) (by decide) (by decide) (by decide) (by decide) (by decide)
    (by decide) (by decide) (by decide) (by decide) (by decide) (by decide) (by decide)
    (by decide) (by decide) (by decide)

/-! ### C31: one slope per pair of window points -/

theorem forall₂_length {α β : Type} {R : α → β → Prop} {l1 : List α} {l2 : List β}
    (h : List.Forall₂ R l1 l2) : l1.length = l2.length := by
  induction h with
  | nil => rfl
  | cons _ _ ih => simp only [List.length_cons, ih]

theorem triangle_step (m s : Nat) (h : 2 * s = m * (m - 1)) :
    2 * (m + s) = (m + 1) * (m + 1 - 1) := by
  cases m with
  | zero => simpa using h
  | succ k =>
    simp only [Nat.add_sub_cancel] at h ⊢
    nlinarith

/-- Under `pairs_ok`, with strictly increasing sending times less than `2^31` ms apart,
every point holds one reference per newer point: twice the number of references is
`n * (n - 1)` for a window of `n` points. -/
theorem pairs_ok_count (store : List snode) (w : List pnode) (h : pairs_ok store w)
    (hp : List.Pairwise (fun s t : Nat => s < t) (w.map pnode.snd_time_ms))
    (hs : ∀ a ∈ w.map pnode.snd_time_ms, ∀ b ∈ w.map pnode.snd_time_ms,
      (b : Int) - (a : Int) < 2147483648) :
    2 * (w.map (fun p => p.fanout_head.length)).sum = w.length * (w.length - 1) := by
  induction w with
  | nil => rfl
  | cons p rest ih =>
    obtain ⟨h1, h2⟩ := h
    simp only [List.map_cons, List.pairwise_cons] at hp
    have hrest := ih h2 hp.2 (fun a ha b hb =>
      hs a (by simp only [List.map_cons]; exact List.mem_cons_of_mem _ ha)
        b (by simp only [List.map_cons]; exact List.mem_cons_of_mem _ hb))
    have hall : (rest.map pnode.key).filter (key_gen p.key) = rest.map pnode.key := by
      rw [List.filter_eq_self]
      intro k hk
      obtain ⟨q, hq, rfl⟩ := List.mem_map.mp hk
      have hqt : q.snd_time_ms ∈ rest.map pnode.snd_time_ms := List.mem_map_of_mem _ hq
      apply key_gen_of_lt
      · exact hp.1 _ hqt
      · exact hs p.snd_time_ms (by simp only [List.map_cons]; exact List.mem_cons_self _ _)
          q.snd_time_ms (by simp only [List.map_cons]; exact List.mem_cons_of_mem _ hqt)
    have hlen : p.fanout_head.length = rest.length := by
      unfold fanout_ok at h1
      rw [hall] at h1
      rw [forall₂_length h1, List.length_map]
    simp only [List.map_cons, List.sum_cons, List.length_cons, hlen]
    exact triangle_step rest.length _ hrest

/-- C31: in every state reached from `tcp_flexis_init` by sample, acknowledgment and
window events while no allocation fails, if the sending times of the window are less
than `2^31` ms apart, the slope store holds `n * (n - 1) / 2` entries, where `n` is the
number of points of the window (its counter): one slope per pair of window points.  The
counter of the store is that number modulo `2^32`, hence that number whenever it fits
the `u32` counter. -/
theorem store_count_pairs (P : params) (sk0 sk : sock) (evs : List event)
    (hnf : sk0.mem.no_fail) (hsk : sk = run P (tcp_flexis_init sk0) evs)
    (hspan : window_span_ok sk) :
    sk.ca.rtt_sack.cnt = sk.ca.rtt_sack.head.length
    ∧ sk.ca.slopes.head.length
        = sk.ca.rtt_sack.head.length * (sk.ca.rtt_sack.head.length - 1) / 2
    ∧ sk.ca.slopes.cnt
        = (sk.ca.rtt_sack.head.length * (sk.ca.rtt_sack.head.length - 1) / 2) % 4294967296
    ∧ (sk.ca.rtt_sack.head.length * (sk.ca.rtt_sack.head.length - 1) / 2 < 4294967296 →
        sk.ca.slopes.cnt
          = sk.ca.rtt_sack.cnt * (sk.ca.rtt_sack.cnt - 1) / 2) := by
  have hinv : engine_inv sk := by
    rw [hsk]
    exact run_engine_inv P _ evs (tcp_flexis_init_engine_inv sk0 hnf)
  obtain ⟨hw, i1, -, i3, -, -, -, -, i8, i9⟩ := hinv
  have hcount := pairs_ok_count sk.ca.slopes.head sk.ca.rtt_sack.head i9 hw.2.2.2.1 hspan
  have hlen : sk.ca.slopes.head.length
      = (sk.ca.rtt_sack.head.map (fun p => p.fanout_head.length)).sum := by
    rw [← refs_length]
    have := i8.length_eq
    simp only [slopes.addrs, List.length_map] at this
    exact this.symm
  have hhalf : sk.ca.slopes.head.length
      = sk.ca.rtt_sack.head.length * (sk.ca.rtt_sack.head.length - 1) / 2 := by
    rw [hlen]
    omega
  refine ⟨i1, hhalf, ?_, ?_⟩
  · rw [i3, hhalf]
  · intro hfit
    rw [i3, i1, ← hhalf]
    rw [← hhalf] at hfit
    exact Nat.mod_eq_of_lt hfit

theorem store_count_pairs_witness :
    (run {} (tcp_flexis_init sk_fresh) evs_linear).ca.rtt_sack.times = [1, 21, 41]
    ∧ (run {} (tcp_flexis_init sk_fresh) evs_linear).ca.slopes.head.length = 3 * (3 - 1) / 2
    ∧ (run {} (tcp_flexis_init sk_fresh) evs_linear).ca.slopes.cnt = 3 :=
  have h := store_count_pairs {} sk_fresh _ evs_linear (by decide) rfl (by decide)
  ⟨by decide, h.2.1.trans (by decide), h.2.2.1.trans (by decide)⟩

/-- The local list of `slopes_gen` for any allocator: its counter stays the number of
its entries, at most `MAX_U32`, and it gains at most one entry per visited point; the
store of the socket is not touched. -/
theorem slopes_gen_loop_batch (stop : pnode) (l : List pnode) (ns : slopes) (sk : sock)
    (hc : ns.cnt = ns.head.length) (hm : ns.cnt ≤ 4294967295) :
    (slopes_gen_loop stop l ns sk).2.2.1.cnt = (slopes_gen_loop stop l ns sk).2.2.1.head.length
    ∧ (slopes_gen_loop stop l ns sk).2.2.1.cnt ≤ 4294967295
    ∧ (slopes_gen_loop stop l ns sk).2.2.1.head.length ≤ ns.head.length + l.length
    ∧ (slopes_gen_loop stop l ns sk).2.2.2.ca.slopes = sk.ca.slopes := by
  induction l generalizing ns sk with
  | nil => exact ⟨hc, hm, by simp [slopes_gen_loop], rfl⟩
  | cons p rest ih =>
    simp only [slopes_gen_loop]
    split
    · exact ⟨hc, hm, by simp, rfl⟩
    · split
      · unfold slopes_add_asd
        by_cases hge : ns.cnt ≥ MAX_U32
        · rw [if_pos hge]
          exact ⟨hc, hm, by simp, rfl⟩
        · rw [if_neg hge]
          have hlt : ns.cnt < 4294967295 := by
            have : MAX_U32 = 4294967295 := rfl
            omega
          rcases hk : kzalloc sk.mem with ⟨oa, m⟩
          cases oa with
          | none => exact ⟨hc, hm, by simp, rfl⟩
          | some a =>
            dsimp only
            have hl : (add_asd snode.slope
                ({ addr := a,
                   slope := Int.tdiv (to_s32 ((stop.rtt_us : Int) - (p.rtt_us : Int)))
                     (to_s32 ((stop.snd_time_ms : Int) - (p.snd_time_ms : Int))) } : snode)
                ns.head).length = ns.head.length + 1 := add_asd_length _ _ _
            have e1 : (ns.cnt + 1) % 4294967296 = ns.cnt + 1 := by omega
            obtain ⟨h1, h2, h3, h4⟩ := ih
              { head := add_asd snode.slope
                  ({ addr := a,
                     slope := Int.tdiv (to_s32 ((stop.rtt_us : Int) - (p.rtt_us : Int)))
                       (to_s32 ((stop.snd_time_ms : Int) - (p.snd_time_ms : Int))) } : snode)
                  ns.head,
                cnt := (ns.cnt + 1) % 4294967296 }
              (fanout_enq { sk with mem := m } p.fanout_head (some a)).2.2
              (by
                show (ns.cnt + 1) % 4294967296 = (add_asd snode.slope _ ns.head).length
                rw [e1, hl, hc])
              (by
                show (ns.cnt + 1) % 4294967296 ≤ 4294967295
                omega)
            refine ⟨h1, h2, ?_, ?_⟩
            · rw [hl] at h3
              simp only [List.length_cons]
              omega
            · rw [h4]
              unfold fanout_enq
              dsimp only
              rcases hk2 : kzalloc m with ⟨ob, m2⟩
              cases ob <;> rfl
      · obtain ⟨h1, h2, h3, h4⟩ := ih ns sk hc hm
        refine ⟨h1, h2, ?_, h4⟩
        simp only [List.length_cons]
        omega

/-- The function `slopes_add_asd_mul` for any counter of the store: a batch that is not
empty and whose counter is its length makes it return `SUCCESS`, the store gains the
entries of the batch, and the counter of the store is the counter of the batch when the
store was empty and the old counter plus the length of the batch modulo `2^32`
otherwise. -/
theorem slopes_add_asd_mul_count (sk : sock) (b : slopes)
    (hb : b.cnt = b.head.length) (hb32 : b.head.length < 4294967296) (hne : b.head ≠ []) :
    (slopes_add_asd_mul sk b).1 = ret.SUCCESS
    ∧ (slopes_add_asd_mul sk b).2.ca.slopes.head.length
        = sk.ca.slopes.head.length + b.head.length
    ∧ (slopes_add_asd_mul sk b).2.ca.slopes.cnt
        = (if sk.ca.slopes.head = [] then b.head.length
           else (sk.ca.slopes.cnt + b.head.length) % 4294967296) := by
  have hbe : b.head.isEmpty = false := by
    cases h : b.head with
    | nil => exact absurd h hne
    | cons a t => rfl
  unfold slopes_add_asd_mul
  simp only [hbe, Bool.false_eq_true, if_false]
  cases hs : sk.ca.slopes.head with
  | nil =>
    simp only [List.isEmpty_nil, if_true, List.length_nil, Nat.zero_add]
    exact ⟨trivial, trivial, hb⟩
  | cons o os =>
    simp only [List.isEmpty_cons, Bool.false_eq_true, if_false]
    have hp := merge_loop_perm b.head (o :: os) sk.ca.slopes.cnt b.cnt
    have hlen := hp.length_eq
    simp only [List.length_append] at hlen
    obtain ⟨c1, c2, c3⟩ := merge_loop_counts_mod b.head (o :: os) sk.ca.slopes.cnt b.cnt
      (by omega) (by omega)
    generalize slopes_add_asd_mul_loop b.head (o :: os) sk.ca.slopes.cnt b.cnt = r
      at hlen c1 c2 c3 ⊢
    cases hr : r.2.1 with
    | nil =>
      rw [hr] at hlen c1 c2
      simp only [List.length_nil, Nat.add_zero] at hlen c1 c2
      have c3b := c3 hr hne
      simp only [List.isEmpty_nil, if_true]
      refine ⟨trivial, ?_, ?_⟩
      · show r.1.length = _
        omega
      · show r.2.2.1 = _
        rw [if_neg (by simp)]
        omega
    | cons x xs =>
      simp only [List.isEmpty_cons, Bool.false_eq_true, if_false]
      rw [hr] at hlen c1 c2
      refine ⟨trivial, ?_, ?_⟩
      · show (r.1 ++ x :: xs).length = _
        rw [List.length_append]
        omega
      · show (r.2.2.1 + r.2.2.2) % 4294967296 = _
        rw [if_neg (by simp)]
        have : r.2.2.2 = (x :: xs).length := by omega
        rw [this]
        exact c2

/-- A call of `slopes_gen` that returns `SUCCESS`, for any allocator: the store is not
empty afterwards, and when its counter did not exceed the number of its entries before
the call and the store and the window together hold fewer than `2^32 - 1` entries, the
counter is at least `1` and does not exceed the number of entries afterwards. -/
theorem slopes_gen_success (sk : sock) (stop : Option pnode)
    (h : (slopes_gen sk stop).1 = ret.SUCCESS) :
    (slopes_gen sk stop).2.ca.slopes.head ≠ []
    ∧ (sk.ca.slopes.cnt ≤ sk.ca.slopes.head.length →
        sk.ca.slopes.head.length + sk.ca.rtt_sack.head.length < 4294967295 →
        1 ≤ (slopes_gen sk stop).2.ca.slopes.cnt
        ∧ (slopes_gen sk stop).2.ca.slopes.cnt ≤ (slopes_gen sk stop).2.ca.slopes.head.length
        ∧ (slopes_gen sk stop).2.ca.slopes.head.length < 4294967295) := by
  cases stop with
  | none => exact absurd h (by simp [slopes_gen])
  | some st =>
    unfold slopes_gen at h ⊢
    dsimp only at h ⊢
    split at h
    · exact absurd h (by simp)
    · rename_i hemp
      rw [if_neg hemp]
      obtain ⟨b1, b2, b3, b4⟩ := slopes_gen_loop_batch st sk.ca.rtt_sack.head
        { head := [], cnt := 0 } sk rfl (by simp)
      simp only [List.length_nil, Nat.zero_add] at b3
      generalize slopes_gen_loop st sk.ca.rtt_sack.head { head := [], cnt := 0 } sk = r
        at h b1 b2 b3 b4 ⊢
      split at h
      · exact absurd h (by simp)
      · rename_i hnm
        rw [if_neg hnm]
        by_cases hbn : r.2.2.1.head = []
        · have : r.2.2.1.head.isEmpty = true := by rw [hbn]; rfl
          unfold slopes_add_asd_mul at h
          rw [if_pos this] at h
          exact absurd h (by simp)
        · have hpos : 1 ≤ r.2.2.1.head.length := by
            cases hh : r.2.2.1.head with
            | nil => exact absurd hh hbn
            | cons a t => simp
          obtain ⟨m1, m2, m3⟩ := slopes_add_asd_mul_count
            ({ r.2.2.2 with ca.rtt_sack.head := r.2.1 } : sock) r.2.2.1 b1 (by omega) hbn
          have es : ({ r.2.2.2 with ca.rtt_sack.head := r.2.1 } : sock).ca.slopes
              = sk.ca.slopes := b4
          rw [es] at m2 m3
          refine ⟨?_, ?_⟩
          · intro hnil
            rw [hnil] at m2
            simp only [List.length_nil] at m2
            omega
          · intro hc hsz
            rw [m2, m3]
            by_cases hs0 : sk.ca.slopes.head = []
            · rw [if_pos hs0]
              refine ⟨hpos, by omega, by omega⟩
            · rw [if_neg hs0]
              have : (sk.ca.slopes.cnt + r.2.2.1.head.length) % 4294967296
                  = sk.ca.slopes.cnt + r.2.2.1.head.length := by omega
              rw [this]
              refine ⟨by omega, by omega, by omega⟩

/-- The macro `median` over the first `c` entries of a list that holds at least `c`
entries, `1 ≤ c < 2^32 - 1`: it reads set pointers only. -/
theorem median_set {α β : Type} (member : α → β) (avg : β → β → β) (l : List α) (c : Nat)
    (h1 : 1 ≤ c) (hc : c ≤ l.length) (h2 : c < 4294967295) :
    ∃ m, median member avg l 1 c = some m := by
  unfold median
  have hs : (1 + c) % 4294967296 = 1 + c := by omega
  have hp : (1 + c) / 2 ≠ 0 := by omega
  simp only [hs, hp, if_false]
  have hlt1 : (1 + c) / 2 - 1 < l.length := by omega
  obtain ⟨a, ha⟩ : ∃ a, l[(1 + c) / 2 - 1]? = some a :=
    ⟨l[(1 + c) / 2 - 1], List.getElem?_eq_getElem hlt1⟩
  by_cases hodd : (1 + c) % 2 = 1
  · have hlt2 : (1 + c) / 2 < l.length := by omega
    obtain ⟨b, hb⟩ : ∃ b, l[(1 + c) / 2]? = some b :=
      ⟨l[(1 + c) / 2], List.getElem?_eq_getElem hlt2⟩
    exact ⟨avg (member a) (member b), by rw [if_pos hodd, ha, hb]⟩
  · exact ⟨member a, by rw [if_neg hodd, ha]; rfl⟩

/-- The function `rtt_sack_enq` leaves the slope store as it is. -/
theorem rtt_sack_enq_slopes (sk : sock) (t r : Nat) :
    (rtt_sack_enq sk t r).2.ca.slopes = sk.ca.slopes := by
  unfold rtt_sack_enq
  split
  · rfl
  · rcases hk : kzalloc sk.mem with ⟨oa, m⟩
    cases oa <;> rfl

/-- A call of `slopes_gen` for the only point of the window: the loop stops at once, the
local list stays empty, `slopes_add_asd_mul` returns `EMPTY_QUE` and the store is not
touched. -/
theorem slopes_gen_first (sk : sock) (np : pnode) (hw : sk.ca.rtt_sack.head = [np]) :
    (slopes_gen sk (some np)).1 = ret.EMPTY_QUE
    ∧ (slopes_gen sk (some np)).2.ca.slopes = sk.ca.slopes := by
  unfold slopes_gen
  simp only [hw, List.isEmpty_cons, Bool.false_eq_true, if_false, slopes_gen_loop, if_true]
  have h : ¬ (ret.SUCCESS = ret.NO_MEM) := by decide
  rw [if_neg h]
  exact ⟨rfl, rfl⟩

/-- The bin step on an empty window: the flag `reasoning` stays false. -/
theorem cong_avoid_bin_first (sk : sock) (rtt_us : Int) (ms med_rtt : Nat)
    (hw : sk.ca.rtt_sack.head = []) :
    (cong_avoid_bin sk rtt_us ms med_rtt).2 = false := by
  cases hf : (cong_avoid_bin sk rtt_us ms med_rtt).2 with
  | false => rfl
  | true =>
    obtain ⟨_, _, np, he, hs⟩ := (cong_avoid_bin_reasoning sk rtt_us ms med_rtt).1 hf
    have hh := rtt_sack_enq_some sk _ _ np he
    rw [hw, List.nil_append] at hh
    rw [(slopes_gen_first _ np hh).1] at hs
    exact absurd hs (by decide)

/-- The store after a bin step that sets the flag `reasoning`: it is the store
`slopes_gen` has left, so it is not empty, and its counter is at least `1` and at most
the number of its entries when this bound held before the step and the store and the
window are not oversized. -/
theorem cong_avoid_bin_store (sk : sock) (rtt_us : Int) (ms med_rtt : Nat)
    (hf : (cong_avoid_bin sk rtt_us ms med_rtt).2 = true) :
    (cong_avoid_bin sk rtt_us ms med_rtt).1.ca.slopes.head ≠ []
    ∧ (sk.ca.slopes.cnt ≤ sk.ca.slopes.head.length →
        sk.ca.slopes.head.length + sk.ca.rtt_sack.head.length + 1 < 4294967295 →
        1 ≤ (cong_avoid_bin sk rtt_us ms med_rtt).1.ca.slopes.cnt
        ∧ (cong_avoid_bin sk rtt_us ms med_rtt).1.ca.slopes.cnt
            ≤ (cong_avoid_bin sk rtt_us ms med_rtt).1.ca.slopes.head.length
        ∧ (cong_avoid_bin sk rtt_us ms med_rtt).1.ca.slopes.head.length < 4294967295) := by
  obtain ⟨h1, h2, np, he, hs⟩ := (cong_avoid_bin_reasoning sk rtt_us ms med_rtt).1 hf
  have h3 : sk.ca.rtt_bin.head.isEmpty = false := by
    cases h : sk.ca.rtt_bin.head with
    | nil => exact absurd h h2
    | cons a t => rfl
  have e : (cong_avoid_bin sk rtt_us ms med_rtt).1.ca.slopes
      = (slopes_gen
          (rtt_sack_enq sk sk.ca.rtt_bin.snd_time_ms
            (((rtt_bin_median sk (some med_rtt)).2).getD med_rtt)).2
          (some np)).2.ca.slopes := by
    unfold cong_avoid_bin
    rw [if_neg h1]
    simp only [h3, Bool.false_eq_true, not_false_eq_true, if_true]
    rw [he]
    dsimp only
    rw [rtt_bin_add_asd_slopes]
    rfl
  rw [e]
  have hg := slopes_gen_success _ _ hs
  refine ⟨hg.1, ?_⟩
  intro hc hsz
  have hh := rtt_sack_enq_some sk _ _ np he
  refine hg.2 ?_ ?_
  · rw [rtt_sack_enq_slopes]
    exact hc
  · rw [rtt_sack_enq_slopes, hh, List.length_append, List.length_singleton]
    omega

/-- The function `slopes_median(sk, 1, flexis->slopes.cnt, &theil_slope)` on a store
that is not empty and whose counter is between `1` and the number of entries: it returns
`SUCCESS` and writes the cell, whatever the cell held. -/
theorem slopes_median_set (sk : sock) (hne : sk.ca.slopes.head ≠ [])
    (h1 : 1 ≤ sk.ca.slopes.cnt) (hc : sk.ca.slopes.cnt ≤ sk.ca.slopes.head.length)
    (h2 : sk.ca.slopes.cnt < 4294967295) :
    ∃ m, ∀ old, slopes_median sk 1 sk.ca.slopes.cnt (some old) = (ret.SUCCESS, some m) := by
  obtain ⟨m, hm⟩ := median_set snode.slope avg_s32 sk.ca.slopes.head sk.ca.slopes.cnt h1 hc h2
  refine ⟨m, fun old => ?_⟩
  have h3 : sk.ca.slopes.head.isEmpty = false := by
    cases h : sk.ca.slopes.head with
    | nil => exact absurd h hne
    | cons a t => rfl
  unfold slopes_median
  have hr : ¬ ((1 : Nat) < 1 ∨ sk.ca.slopes.cnt > sk.ca.slopes.cnt) := by omega
  simp only [hr, if_false, h3, Bool.false_eq_true, hm]

/-- C32: the trend slope is set whenever the acknowledgment driver compares it with
`theta`.  For a socket whose store counter does not exceed the number of stored slopes
and whose store and window are not oversized, and for every round that passes the entry
checks: a `decrease` or `increase` verdict is reached only with the flag `reasoning`
set; with the flag set the store is not empty, its counter is between `1` and the number
of entries, and `slopes_median(sk, 1, count, &theil_slope)` returns `SUCCESS` and writes
the cell whatever it held; on an empty window, or after the guard has reset the lists,
the flag is false and the verdict is `keep` for every parameter set.  For every socket
the bin step sets the flag only if `rtt_sack_enq` returned the new point and `slopes_gen`
returned `SUCCESS` for it, and `slopes_gen` for the only point of the window returns
`EMPTY_QUE` and leaves the store as it is. -/
theorem trend_slope_set (P : params) (sk : sock) (ack med_rtt : Nat) (theil_slope : Int)
    (hc : sk.ca.slopes.cnt ≤ sk.ca.slopes.head.length)
    (hsz : sk.ca.slopes.head.length + sk.ca.rtt_sack.head.length + 1 < 4294967295) :
    (∀ b ∈ cong_avoid_front sk ack med_rtt,
      ((cong_avoid_decide_verdict P b.1 b.2 (cong_avoid_dur b.1) theil_slope = verdict.decrease
          ∨ cong_avoid_decide_verdict P b.1 b.2 (cong_avoid_dur b.1) theil_slope
              = verdict.increase) → b.2 = true)
      ∧ (b.2 = true →
          b.1.ca.slopes.head ≠ []
          ∧ 1 ≤ b.1.ca.slopes.cnt
          ∧ b.1.ca.slopes.cnt ≤ b.1.ca.slopes.head.length
          ∧ ∃ m, ∀ old,
              slopes_median b.1 1 b.1.ca.slopes.cnt (some old) = (ret.SUCCESS, some m))
      ∧ ((sk.ca.rtt_sack.head = [] ∨ ∀ v ∈ sk.ca.vars, v.snd_nxt ≠ 0) →
          b.2 = false
          ∧ ∀ (Q : params) (th : Int),
              cong_avoid_decide_verdict Q b.1 b.2 (cong_avoid_dur b.1) th = verdict.keep))
    ∧ (∀ (X : sock) (r : Int) (ms med : Nat),
        (cong_avoid_bin X r ms med).2 = true →
        ∃ new_pnode,
          (rtt_sack_enq X X.ca.rtt_bin.snd_time_ms
            (((rtt_bin_median X (some med)).2).getD med)).1 = some new_pnode
          ∧ (slopes_gen
              (rtt_sack_enq X X.ca.rtt_bin.snd_time_ms
                (((rtt_bin_median X (some med)).2).getD med)).2
              (some new_pnode)).1 = ret.SUCCESS)
    ∧ (∀ (X : sock) (np : pnode), X.ca.rtt_sack.head = [np] →
        (slopes_gen X (some np)).1 = ret.EMPTY_QUE
        ∧ (slopes_gen X (some np)).2.ca.slopes = X.ca.slopes) := by
  refine ⟨?_, ?_, ?_⟩
  · intro b hb
    obtain ⟨v, ms, hv, hbe⟩ := cong_avoid_front_some sk ack med_rtt b hb
    have hk := cong_avoid_min_rtt_keeps (if v.snd_nxt ≠ 0 then reinit_after_dec sk else sk)
    have hw := hk.2.2.2.1
    have hs := hk.2.2.2.2.1
    generalize cong_avoid_min_rtt (if v.snd_nxt ≠ 0 then reinit_after_dec sk else sk) = X
      at hbe hw hs
    have hX : X.ca.slopes.cnt ≤ X.ca.slopes.head.length
        ∧ X.ca.slopes.head.length + X.ca.rtt_sack.head.length + 1 < 4294967295
        ∧ ((sk.ca.rtt_sack.head = [] ∨ ∀ v ∈ sk.ca.vars, v.snd_nxt ≠ 0) →
            X.ca.rtt_sack.head = []) := by
      rw [hw, hs]
      by_cases hg : v.snd_nxt ≠ 0
      · rw [if_pos hg, reinit_after_dec_eq sk v hv]
        exact ⟨Nat.le_refl 0, (by show 0 + 0 + 1 < 4294967295; decide), fun _ => rfl⟩
      · rw [if_neg hg]
        refine ⟨hc, hsz, ?_⟩
        intro h
        rcases h with h | h
        · exact h
        · exact absurd (h v (by rw [hv]; rfl)) hg
    refine ⟨?_, ?_, ?_⟩
    · intro hvd
      unfold cong_avoid_decide_verdict at hvd
      by_cases hr : b.2 = true ∧ cong_avoid_dur b.1 ≥ to_u32 P.tau
      · exact hr.1
      · rw [if_neg hr] at hvd
        rcases hvd with h | h <;> exact absurd h (by decide)
    · intro hf
      rw [hbe] at hf ⊢
      obtain ⟨g1, g2⟩ := cong_avoid_bin_store X v.rtt_us ms med_rtt hf
      obtain ⟨g3, g4, g5⟩ := g2 hX.1 hX.2.1
      exact ⟨g1, g3, g4, slopes_median_set _ g1 g3 g4 (by omega)⟩
    · intro h0
      have hf : b.2 = false := by
        rw [hbe]
        exact cong_avoid_bin_first X v.rtt_us ms med_rtt (hX.2.2 h0)
      refine ⟨hf, ?_⟩
      intro Q th
      unfold cong_avoid_decide_verdict
      rw [hf]
      simp
  · intro X r ms med hf
    obtain ⟨_, _, np, he, hs⟩ := (cong_avoid_bin_reasoning X r ms med).1 hf
    exact ⟨np, he, hs⟩
  · intro X np hw
    exact slopes_gen_first X np hw

theorem trend_slope_set_witness :
    sk_rising.ca.slopes.cnt ≤ sk_rising.ca.slopes.head.length
    ∧ sk_rising.ca.slopes.head.length + sk_rising.ca.rtt_sack.head.length + 1 < 4294967295
    ∧ (cong_avoid_front sk_rising 1 0).map (fun b => b.2) = some true
    ∧ (cong_avoid_front sk_rising 1 0).map (fun b => slopes_median b.1 1 b.1.ca.slopes.cnt (some 0))
        = some (ret.SUCCESS, some 66)
    ∧ ∀ b ∈ cong_avoid_front sk_rising 1 0,
        b.2 = true →
          b.1.ca.slopes.head ≠ []
          ∧ 1 ≤ b.1.ca.slopes.cnt
          ∧ b.1.ca.slopes.cnt ≤ b.1.ca.slopes.head.length
          ∧ ∃ m, ∀ old,
              slopes_median b.1 1 b.1.ca.slopes.cnt (some old) = (ret.SUCCESS, some m) :=
  ⟨by decide, by decide, by decide, by decide,
    fun b hb => ((trend_slope_set {} sk_rising 1 0 0 (by decide) (by decide)).1 b hb).2.1⟩

/-- The entries of the store that the fanout list `fan` of a point refers to, when the
list holds one reference per key of `ks`, to the entry with the slope of the pair, and
addresses are distinct: they are, up to order, exactly the entries of these pairs. -/
theorem fanout_entries_perm (store : List snode) (fan : List fnode) (ks : List (Nat × Nat))
    (pk : Nat × Nat)
    (hnd : (store.map snode.addr).Nodup) (hfn : (fan.map fnode.ptr).Nodup)
    (hF : List.Forall₂
      (fun (f : fnode) (k : Nat × Nat) =>
        ({ addr := f.ptr, slope := key_slope pk k } : snode) ∈ store) fan ks) :
    List.Perm (store.filter (fun n => decide (n.addr ∈ fan.map fnode.ptr)))
      (List.zipWith (fun (f : fnode) (k : Nat × Nat) =>
        ({ addr := f.ptr, slope := key_slope pk k } : snode)) fan ks) := by
  have hZ : (List.zipWith (fun (f : fnode) (k : Nat × Nat) =>
        ({ addr := f.ptr, slope := key_slope pk k } : snode)) fan ks).map snode.addr
      = fan.map fnode.ptr
    ∧ (∀ z ∈ List.zipWith (fun (f : fnode) (k : Nat × Nat) =>
        ({ addr := f.ptr, slope := key_slope pk k } : snode)) fan ks, z ∈ store) := by
    clear hfn
    induction hF with
    | nil => exact ⟨rfl, fun z hz => by simp at hz⟩
    | cons h _ ih =>
      refine ⟨?_, ?_⟩
      · simp only [List.zipWith_cons_cons, List.map_cons, ih.1]
      · intro z hz
        simp only [List.zipWith_cons_cons, List.mem_cons] at hz
        rcases hz with hz | hz
        · rw [hz]; exact h
        · exact ih.2 z hz
  obtain ⟨hZa, hZs⟩ := hZ
  have hinj := List.inj_on_of_nodup_map hnd
  rw [List.perm_ext_iff_of_nodup ((List.Nodup.of_map _ hnd).filter _)
    (List.Nodup.of_map snode.addr (by rw [hZa]; exact hfn))]
  intro n
  constructor
  · intro hn
    rw [List.mem_filter] at hn
    obtain ⟨hs, ha⟩ := hn
    have ha2 : n.addr ∈ fan.map fnode.ptr := by simpa using ha
    rw [← hZa, List.mem_map] at ha2
    obtain ⟨z, hz, hza⟩ := ha2
    have : z = n := hinj (hZs z hz) hs hza
    rw [← this]
    exact hz
  · intro hn
    rw [List.mem_filter]
    refine ⟨hZs n hn, ?_⟩
    have : n.addr ∈ fan.map fnode.ptr := by
      rw [← hZa]
      exact List.mem_map_of_mem _ hn
    simpa using this

/-- C4, the claim as stated fails when the allocation of `fanout_enq` fails, whose
return `slopes_gen` ignores (lines 373-377): the slope of the pair is merged into the
store and the older point holds no reference to it.  On `sk_orphan` the bin step leaves
the window with the points of the milliseconds 1 and 61, both with an empty fanout list,
and the store with the slope 166 of their pair; `rtt_sack_deq` evicts the point of the
millisecond 1 and the store still holds that slope, with the counter 1. -/
theorem rtt_sack_deq_leaves_orphan :
    (cong_avoid_front sk_orphan 1 0).map
        (fun b => (b.2, b.1.ca.rtt_sack.head, b.1.ca.slopes))
      = some (true,
          [{ addr := 3, snd_time_ms := 1, rtt_us := 10000, fanout_head := [] },
            { addr := 5, snd_time_ms := 61, rtt_us := 20000, fanout_head := [] }],
          { head := [{ addr := 6, slope := 166 }], cnt := 1 })
    ∧ key_gen (1, 10000) (61, 20000) = true
    ∧ key_slope (1, 10000) (61, 20000) = 166
    ∧ (cong_avoid_front sk_orphan 1 0).map
        (fun b => ((rtt_sack_deq b.1).ca.rtt_sack.head, (rtt_sack_deq b.1).ca.slopes))
      = some ([{ addr := 5, snd_time_ms := 61, rtt_us := 20000, fanout_head := [] }],
          { head := [{ addr := 6, slope := 166 }], cnt := 1 }) := by
  decide

/-- C4 (amended): on a socket that satisfies the representation invariant `lists_inv`
(which holds in every state reached while no allocation fails), `rtt_sack_deq` on a
window with the oldest point `p` and the other points `rest` removes from the slope
store exactly the entries generated by the pairs `p` is part of, and no others.  The
window loses its first point and nothing else.  The fanout list of `p` holds one
reference for each point of `rest` that passes the time test of line 370, to the entry
with the slope of that pair.  The store afterwards is the store before without the
entries the fanout list of `p` refers to, in the old order; the entries removed are, up
to order, exactly the entries of the pairs of `p`; the entries that remain are those the
points of `rest` refer to, the slopes of the pairs among them.  The length of the store
decreases by the size of the fanout list of `p`, and so does its counter when the
length is below `2^32`. -/
theorem rtt_sack_deq_pairs (sk : sock) (p : pnode) (rest : List pnode)
    (hw : sk.ca.rtt_sack.head = p :: rest)
    (hinv : lists_inv sk.ca.rtt_sack sk.ca.slopes sk.mem.brk) :
    (rtt_sack_deq sk).ca.rtt_sack = { head := rest, cnt := rest.length }
    ∧ fanout_ok sk.ca.slopes.head p (rest.map pnode.key)
    ∧ p.fanout_head.length = ((rest.map pnode.key).filter (key_gen p.key)).length
    ∧ (rtt_sack_deq sk).ca.slopes.head
        = sk.ca.slopes.head.filter (fun n => decide (n.addr ∉ p.refs))
    ∧ List.Sublist (rtt_sack_deq sk).ca.slopes.head sk.ca.slopes.head
    ∧ List.Perm (sk.ca.slopes.head.filter (fun n => decide (n.addr ∈ p.refs)))
        (List.zipWith (fun (f : fnode) (k : Nat × Nat) =>
          ({ addr := f.ptr, slope := key_slope p.key k } : snode))
          p.fanout_head ((rest.map pnode.key).filter (key_gen p.key)))
    ∧ List.Perm (rest.flatMap pnode.refs) (rtt_sack_deq sk).ca.slopes.addrs
    ∧ pairs_ok (rtt_sack_deq sk).ca.slopes.head rest
    ∧ (rtt_sack_deq sk).ca.slopes.head.length + p.fanout_head.length
        = sk.ca.slopes.head.length
    ∧ (sk.ca.slopes.head.length < 4294967296 →
        (rtt_sack_deq sk).ca.slopes.cnt + p.fanout_head.length = sk.ca.slopes.cnt) := by
  obtain ⟨r1, r2, r3, -, r5⟩ := rtt_sack_deq_full sk p rest hw hinv
  obtain ⟨i1, i2, i3, i4, i5, i6, i7, i8, i9⟩ := hinv
  obtain ⟨j1, j2, j3, j4, j5, j6, j7, j8, j9⟩ := r5
  rw [hw] at i9
  have hfan : fanout_ok sk.ca.slopes.head p (rest.map pnode.key) := i9.1
  have hrefs : sk.ca.rtt_sack.refs = p.refs ++ rest.flatMap pnode.refs := by
    simp only [rtt_sack.refs, hw, List.flatMap_cons]
  have hnd : (p.refs ++ rest.flatMap pnode.refs).Nodup := by
    rw [← hrefs]
    exact (i8.nodup_iff).mpr i6
  have hpn : p.refs.Nodup := (List.nodup_append.mp hnd).1
  refine ⟨r1, hfan, ?_, r2, ?_, ?_, ?_, ?_, r3, ?_⟩
  · exact List.Forall₂.length_eq hfan
  · rw [r2]
    exact List.filter_sublist _
  · exact fanout_entries_perm sk.ca.slopes.head p.fanout_head _ p.key i6 hpn hfan
  · have h := j8
    rw [r1] at h
    exact h
  · have h := j9
    rw [r1] at h
    exact h
  · intro hlt
    rw [j3, i3]
    have e1 : sk.ca.slopes.head.length % 4294967296 = sk.ca.slopes.head.length :=
      Nat.mod_eq_of_lt hlt
    have e2 : (rtt_sack_deq sk).ca.slopes.head.length % 4294967296
        = (rtt_sack_deq sk).ca.slopes.head.length := Nat.mod_eq_of_lt (by omega)
    rw [e1, e2]
    exact r3

/-- C4 (amended) after the events `evs_linear` without allocation failure: the window
holds the points of the milliseconds 1, 21 and 41 and the store the slopes of the three
pairs; evicting the oldest point, whose fanout list refers to the entries at the
addresses 6 and 10, leaves the two younger points and the one slope of their pair, and
the counter goes from 3 to 1. -/
theorem rtt_sack_deq_pairs_witness :
    (run {} (tcp_flexis_init sk_fresh) evs_linear).ca.slopes
        = { head := [{ addr := 6, slope := 142 }, { addr := 10, slope := 142 },
              { addr := 12, slope := 142 }], cnt := 3 }
    ∧ (rtt_sack_deq (run {} (tcp_flexis_init sk_fresh) evs_linear)).ca.rtt_sack
        = { head :=
              [{ addr := 5, snd_time_ms := 21, rtt_us := 12857, fanout_head := [{ ptr := 12 }] },
                { addr := 9, snd_time_ms := 41, rtt_us := 15714, fanout_head := [] }],
            cnt := 2 }
    ∧ (rtt_sack_deq (run {} (tcp_flexis_init sk_fresh) evs_linear)).ca.slopes
        = { head := [{ addr := 12, slope := 142 }], cnt := 1 }
    ∧ List.Perm
        ((run {} (tcp_flexis_init sk_fresh) evs_linear).ca.slopes.head.filter
          (fun n => decide (n.addr ∈ [6, 10])))
        [{ addr := 6, slope := key_slope (1, 10000) (21, 12857) },
          { addr := 10, slope := key_slope (1, 10000) (41, 15714) }] :=
  have h := rtt_sack_deq_pairs (run {} (tcp_flexis_init sk_fresh) evs_linear)
    { addr := 3, snd_time_ms := 1, rtt_us := 10000,
      fanout_head := [{ ptr := 6 }, { ptr := 10 }] }
    [{ addr := 5, snd_time_ms := 21, rtt_us := 12857, fanout_head := [{ ptr := 12 }] },
      { addr := 9, snd_time_ms := 41, rtt_us := 15714, fanout_head := [] }]
    (by decide)
    (run_engine_inv {} _ evs_linear (tcp_flexis_init_engine_inv sk_fresh (by decide))).2
  ⟨by decide, h.1, by decide, h.2.2.2.2.2.1⟩

/-- The function `rtt_sack_deq` takes the first point off the window, whatever the
lists hold. -/
theorem rtt_sack_deq_tail (sk : sock) :
    (rtt_sack_deq sk).ca.rtt_sack.head = sk.ca.rtt_sack.head.tail := by
  cases hw : sk.ca.rtt_sack.head with
  | nil =>
    have e : rtt_sack_deq sk = sk := by simp only [rtt_sack_deq, hw]
    rw [e, hw]
    rfl
  | cons p rest =>
    rw [rtt_sack_deq_eq sk p rest hw]
    rfl

/-- The decision of the driver (lines 805-827) on an acknowledgment event that passes
the entry checks.  Let `sk3` be the socket after the bin step with the flag `reasoning`
set (a bin was closed and `slopes_gen` returned `SUCCESS`), with `dur >= tau`, with the
gate `rtt_sack.cnt < sigma` not taken, and with `m` the median of the whole slope store
as written by `slopes_median(1, cnt)`.  If `m >= theta`, the driver returns `sk3` with
the guard set to the connection's `snd_nxt`, `decrease_cwnd` applied and both pacing
ratios at 100, and nothing else: the window and the slope store are those of `sk3` (no
point is evicted) and `increase_cwnd` is not run.  Otherwise, and when `init_inc_epoch`
does not divide by zero, the driver starts the increase epoch if `t0` is 0 (`t0`
becomes the time of the connection and `r0` the window over the minimum rtt of the
epoch, or over `srtt_us >> 3` when that minimum is 0, or half the old `r0` when both are
0), evicts the oldest point and then runs `increase_cwnd`; the window of the result is
the window of `sk3` without its first point. -/
theorem cong_avoid_decision (P : params) (sk sk3 : sock) (v w : vars)
    (ack acked med_rtt ms : Nat) (theil_slope m : Int)
    (hv : sk.ca.vars = some v) (hrtt : v.rtt_us ≠ -1)
    (hms : cong_avoid_snd_time_ms sk v = some ms)
    (hfresh : ¬ ms < sk.ca.rtt_bin.snd_time_ms)
    (hguard : ¬ (v.snd_nxt ≠ 0 ∧ ack ≤ v.snd_nxt))
    (hbin : cong_avoid_bin
        (cong_avoid_min_rtt (if v.snd_nxt ≠ 0 then reinit_after_dec sk else sk))
        v.rtt_us ms med_rtt = (sk3, true))
    (hw : sk3.ca.vars = some w)
    (hdur : cong_avoid_dur sk3 ≥ to_u32 P.tau)
    (hgate : ¬ sk3.ca.rtt_sack.cnt < to_u32 P.sigma)
    (hmed : slopes_median sk3 1 sk3.ca.slopes.cnt (some theil_slope) = (ret.SUCCESS, some m)) :
    (m ≥ P.theta →
      tcp_flexis_cong_avoid P sk ack acked med_rtt theil_slope
          = update_pacing_ratio
              (decrease_cwnd P { sk3 with ca.vars := some { w with snd_nxt := sk.tp.snd_nxt } })
              100
      ∧ (tcp_flexis_cong_avoid P sk ack acked med_rtt theil_slope).ca.vars
          = some { w with
              snd_nxt := sk.tp.snd_nxt
              undo_cwnd := (decrease_cwnd P sk).tp.snd_cwnd }
      ∧ (tcp_flexis_cong_avoid P sk ack acked med_rtt theil_slope).tp.snd_cwnd
          = (decrease_cwnd P sk).tp.snd_cwnd
      ∧ (tcp_flexis_cong_avoid P sk ack acked med_rtt theil_slope).sysctl_tcp_pacing_ss_ratio = 100
      ∧ (tcp_flexis_cong_avoid P sk ack acked med_rtt theil_slope).sysctl_tcp_pacing_ca_ratio = 100
      ∧ (tcp_flexis_cong_avoid P sk ack acked med_rtt theil_slope).ca.rtt_sack = sk3.ca.rtt_sack
      ∧ (tcp_flexis_cong_avoid P sk ack acked med_rtt theil_slope).ca.slopes = sk3.ca.slopes)
    ∧ (m < P.theta → init_inc_epoch_traps sk3 = false →
      tcp_flexis_cong_avoid P sk ack acked med_rtt theil_slope
        = increase_cwnd P (rtt_sack_deq
            (if w.t0 = 0 then
              { sk3 with
                ca.vars := some
                  { w with
                    r0 :=
                      if w.epoch_min_rtt ≠ 0 then
                        (sk.tp.snd_cwnd * 1000000 / w.epoch_min_rtt) % 4294967296
                      else if sk.tp.srtt_us ≠ 0 then
                        (sk.tp.snd_cwnd * 1000000 / (sk.tp.srtt_us / 8)) % 4294967296
                      else w.r0 / 2
                    t0 := sk.tp.tcp_mstamp } }
             else sk3))
      ∧ (tcp_flexis_cong_avoid P sk ack acked med_rtt theil_slope).ca.rtt_sack.head
          = sk3.ca.rtt_sack.head.tail) := by
  have htp : sk3.tp = sk.tp := by
    have h := cong_avoid_bin_tp
      (cong_avoid_min_rtt (if v.snd_nxt ≠ 0 then reinit_after_dec sk else sk)) v.rtt_us ms med_rtt
    rw [hbin, cong_avoid_min_rtt_tp] at h
    rw [h]
    split
    · exact reinit_after_dec_tp sk
    · rfl
  have hrun : tcp_flexis_cong_avoid P sk ack acked med_rtt theil_slope
      = cong_avoid_decide P sk3 true (cong_avoid_dur sk3) theil_slope := by
    unfold tcp_flexis_cong_avoid
    simp only [hv, hrtt, hms, hfresh, hguard, if_false]
    rw [hbin]
  have hcond : (true = true ∧ cong_avoid_dur sk3 ≥ to_u32 P.tau) := ⟨rfl, hdur⟩
  have hdecide : cong_avoid_decide P sk3 true (cong_avoid_dur sk3) theil_slope
      = if m ≥ P.theta then cong_avoid_dec P sk3 else cong_avoid_inc P sk3 := by
    unfold cong_avoid_decide
    rw [if_pos hcond, if_neg hgate]
    simp only [hmed, Option.getD_some]
  constructor
  · intro hge
    have e : tcp_flexis_cong_avoid P sk ack acked med_rtt theil_slope
        = update_pacing_ratio
            (decrease_cwnd P { sk3 with ca.vars := some { w with snd_nxt := sk.tp.snd_nxt } })
            100 := by
      rw [hrun, hdecide, if_pos hge]
      unfold cong_avoid_dec
      simp only [hw, htp]
    have hcw : (decrease_cwnd P sk).tp.snd_cwnd
        = min sk.tp.snd_cwnd
            (max ((div_u64 ((sk.tp.snd_cwnd * to_u64 P.gamma) % 18446744073709551616) 100)
              % 4294967296) MIN_CWND) := by
      simp only [decrease_cwnd, hv]
    refine ⟨e, ?_, ?_, ?_, ?_, ?_, ?_⟩
    · rw [e, hcw]
      simp only [update_pacing_ratio, decrease_cwnd, htp]
      rfl
    · rw [e, hcw]
      simp only [update_pacing_ratio, decrease_cwnd, htp]
      rfl
    · rw [e]
      simp only [update_pacing_ratio]
      rfl
    · rw [e]
      simp only [update_pacing_ratio]
      rfl
    · rw [e]
      simp only [update_pacing_ratio, decrease_cwnd]
      rfl
    · rw [e]
      simp only [update_pacing_ratio, decrease_cwnd]
      rfl
  · intro hlt _
    have e0 : (if w.t0 = 0 then init_inc_epoch sk3 else sk3)
        = (if w.t0 = 0 then
            { sk3 with
              ca.vars := some
                { w with
                  r0 :=
                    if w.epoch_min_rtt ≠ 0 then
                      (sk.tp.snd_cwnd * 1000000 / w.epoch_min_rtt) % 4294967296
                    else if sk.tp.srtt_us ≠ 0 then
                      (sk.tp.snd_cwnd * 1000000 / (sk.tp.srtt_us / 8)) % 4294967296
                    else w.r0 / 2
                  t0 := sk.tp.tcp_mstamp } }
           else sk3) := by
      by_cases ht : w.t0 = 0
      · rw [if_pos ht, if_pos ht]
        unfold init_inc_epoch
        simp only [hw, htp, div_u64, USEC_PER_SEC]
      · rw [if_neg ht, if_neg ht]
    have e : tcp_flexis_cong_avoid P sk ack acked med_rtt theil_slope
        = increase_cwnd P (rtt_sack_deq (if w.t0 = 0 then init_inc_epoch sk3 else sk3)) := by
      rw [hrun, hdecide, if_neg (by omega)]
      unfold cong_avoid_inc
      simp only [hw]
    refine ⟨by rw [e, e0], ?_⟩
    rw [e, (increase_cwnd_same P _).2.1, rtt_sack_deq_tail]
    by_cases ht : w.t0 = 0
    · rw [if_pos ht, (init_inc_epoch_same sk3).2.1]
    · rw [if_neg ht]

/-- The decision at the window 1, 30, 61 ms.  With the rtts 10000, 12000, 14000 us the
slopes are 64, 66, 68, the median 66 is not below `theta = 30`, the guard becomes 5000,
the window shrinks from 10 to 8 and keeps its three points.  With the rtt 10000 us
throughout the slopes are 0, the median 0 is below `theta`, the epoch starts at the time
72000 us with `r0 = 10 * 1000000 / 10000 = 1000`, and the point of the millisecond 1 is
evicted. -/
theorem cong_avoid_decision_witness :
    ((tcp_flexis_cong_avoid {} sk_rising 1 1 0 0).ca.vars
        = some
          { t0 := 0, t_ulmt := 0, r0 := 0, snd_nxt := 5000, undo_cwnd := 8, rtt_us := 15000,
            epoch_min_rtt := 10000 }
      ∧ (tcp_flexis_cong_avoid {} sk_rising 1 1 0 0).tp.snd_cwnd = 8
      ∧ (tcp_flexis_cong_avoid {} sk_rising 1 1 0 0).sysctl_tcp_pacing_ca_ratio = 100
      ∧ (tcp_flexis_cong_avoid {} sk_rising 1 1 0 0).ca.rtt_sack.times = [1, 30, 61]
      ∧ (tcp_flexis_cong_avoid {} sk_rising 1 1 0 0).ca.slopes.values = [64, 66, 68])
    ∧ ((tcp_flexis_cong_avoid {} sk_flat_three 1 1 0 0).ca.vars
        = some
          { t0 := 72000, t_ulmt := 0, r0 := 1000, snd_nxt := 0, undo_cwnd := 10,
            rtt_us := 10000, epoch_min_rtt := 10000 }
      ∧ (tcp_flexis_cong_avoid {} sk_flat_three 1 1 0 0).ca.rtt_sack.times = [30, 61]
      ∧ (cong_avoid_front sk_flat_three 1 0).map (fun b => b.1.ca.rtt_sack.times)
          = some [1, 30, 61]) :=
  have h := (cong_avoid_decision {} sk_rising
    (cong_avoid_bin (cong_avoid_min_rtt sk_rising) 15000 62 0).1
    { t0 := 0, t_ulmt := 0, r0 := 0, snd_nxt := 0, undo_cwnd := 10, rtt_us := 15000,
      epoch_min_rtt := 10000 }
    { t0 := 0, t_ulmt := 0, r0 := 0, snd_nxt := 0, undo_cwnd := 10, rtt_us := 15000,
      epoch_min_rtt := 10000 }
    1 1 0 62 0 66
    (by decide) (by decide) (by decide) (by decide) (by decide) (by decide) (by decide)
    (by decide) (by decide) (by decide)).1 (by decide)
  have g := (cong_avoid_decision {} sk_flat_three
    (cong_avoid_bin (cong_avoid_min_rtt sk_flat_three) 10000 62 0).1
    { t0 := 0, t_ulmt := 0, r0 := 0, snd_nxt := 0, undo_cwnd := 10, rtt_us := 10000,
      epoch_min_rtt := 10000 }
    { t0 := 0, t_ulmt := 0, r0 := 0, snd_nxt := 0, undo_cwnd := 10, rtt_us := 10000,
      epoch_min_rtt := 10000 }
    1 1 0 62 0 0
    (by decide) (by decide) (by decide) (by decide) (by decide) (by decide) (by decide)
    (by decide) (by decide) (by decide)).2 (by decide) (by decide)
  ⟨⟨h.2.1.trans (by decide), h.2.2.1.trans (by decide), h.2.2.2.2.1,
    (congrArg rtt_sack.times h.2.2.2.2.2.1).trans (by decide),
    (congrArg slopes.values h.2.2.2.2.2.2).trans (by decide)⟩,
   ⟨(congrArg (fun s : sock => s.ca.vars) g.1).trans (by decide),
    (congrArg (List.map pnode.snd_time_ms) g.2).trans (by decide), by decide⟩⟩

/-! ### C9: the divide error of `init_inc_epoch` -/

/-- C9 (the code at the failing input): after samples of 0 us for the milliseconds 1, 30
and 61 on a connection whose `srtt_us` is 1, the acknowledgment for the millisecond 62
closes the bin of 61.  The bin step sets the flag `reasoning`, the window holds three
points (not fewer than `sigma = 3`) over 61 ms (not less than `tau = 60`), the three
slopes are 0, the median 0 is below `theta = 30`, and the verdict is `increase`.  The
epoch has not started (`t0 = 0`), so the driver calls `init_inc_epoch`; there the minimum
rtt of the epoch is 0, the test `tp->srtt_us` of line 544 passes, and the divisor
`tp->srtt_us >> 3` of line 545 is 0. -/
theorem init_inc_epoch_divide_error :
    (cong_avoid_front sk_zero_rtt 1 0).map
        (fun b => (b.2, cong_avoid_dur b.1, b.1.ca.rtt_sack.cnt, b.1.ca.rtt_sack.times,
          b.1.ca.slopes.values))
      = some (true, 61, 3, [1, 30, 61], [0, 0, 0])
    ∧ (cong_avoid_front sk_zero_rtt 1 0).map
        (fun b => slopes_median b.1 1 b.1.ca.slopes.cnt (some 0))
      = some (ret.SUCCESS, some 0)
    ∧ tcp_flexis_cong_avoid_verdict {} sk_zero_rtt 1 0 0 = verdict.increase
    ∧ (cong_avoid_front sk_zero_rtt 1 0).map
        (fun b => (b.1.ca.vars.map (fun v => (v.t0, v.epoch_min_rtt)), b.1.tp.srtt_us,
          b.1.tp.srtt_us / 8))
      = some (some (0, 0), 1, 0)
    ∧ (cong_avoid_front sk_zero_rtt 1 0).map (fun b => init_inc_epoch_traps b.1)
      = some true := by
  refine ⟨by decide, by decide, by decide, by decide, by decide⟩

end FlexiS
